import Mathlib

/-!
# Ruzta tokenizer: a shallow embedding of `pkg/tokenizer`

The Go package `pkg/tokenizer` (files `token.go` and `tokenizer.go`) is translated
function by function.  Conventions:

* a rune is a natural number (its code point); rune constants are written
  `'x'.toNat`, and the runes that are awkward to write as character
  literals get a named constant (`quoteDouble`, `quoteSingle`, `backslash`,
  `backtickRune`, `tabRune`, `lineFeed`, `carriageReturn`);
* a Go `string` is the list of its runes (`GoString`); `len(s)` is `goLen s`, the
  length of its UTF-8 encoding;
* a method `func (t *Tokenizer) f() X` becomes `f : Tokenizer → X × Tokenizer`;
* a Go `panic` (explicit, nil dereference, index out of range) is a `Fault`
  returned through `Except`;
* `for` loops are recursive functions over a fuel argument; the callers pass
  `t.length - t._current + 1`, which bounds the number of iterations because
  every iteration that does not leave the loop consumes a rune (the theorems
  `skipWhitespaceLoop_fuel`, `ScanLoop_more_fuel` and their companions show that
  more fuel never changes a result);
* the runes of a source are Unicode scalar values, as `[]rune(src)` yields nothing
  else;
* the Go library functions are modelled by their documented behaviour
  (`strconv.ParseInt`, `strconv.ParseFloat` on plain decimal numbers, a float64
  being given by its rational value), and are parameters, collected in `GoLib`,
  where they are not (`unicode.IsLetter`, `unicode.IsDigit` above Latin-1,
  `strconv.ParseFloat` on other texts).
-/

namespace Ruzta

/-! ## Runes and strings -/

/-- A Go string, as the sequence of its runes. -/
abbrev GoString := List Nat

/-- The conversion `[]rune(src)` of a string constant. -/
def runes (s : String) : GoString := s.toList.map Char.toNat

/-- The rune U+0022, the double quote. -/
def quoteDouble : Nat := 34
/-- The rune U+0027, the single quote. -/
def quoteSingle : Nat := 39
/-- The rune U+005C, the backslash. -/
def backslash : Nat := 92
/-- The rune U+0060, the backtick. -/
def backtickRune : Nat := 96
/-- The rune U+0009, horizontal tab. -/
def tabRune : Nat := 9
/-- The rune U+000A, line feed. -/
def lineFeed : Nat := 10
/-- The rune U+000D, carriage return. -/
def carriageReturn : Nat := 13

/-- Number of bytes of the UTF-8 encoding of a rune (`utf8.RuneLen`; a rune that
is not a scalar value is encoded as U+FFFD, three bytes). -/
def utf8Len (r : Nat) : Nat :=
  if r < 0x80 then 1
  else if r < 0x800 then 2
  else if 0xD800 ≤ r ∧ r ≤ 0xDFFF then 3
  else if r < 0x10000 then 3
  else if r < 0x110000 then 4
  else 3

/-- Go `len(s)` for a string: the number of bytes. -/
def goLen (s : GoString) : Nat := (s.map utf8Len).sum

/-- Go `string(c)` and the verb `%c` for a rune: a rune that is not a Unicode scalar
value becomes U+FFFD. -/
def stringOfRune (c : Nat) : GoString :=
  if (0xD800 ≤ c ∧ c ≤ 0xDFFF) ∨ 0x10FFFF < c then [0xFFFD] else [c]

/-- Go slice expression `s[a:b]`. -/
def slice (s : List Nat) (a b : Nat) : List Nat := (s.drop a).take (b - a)

/-- The library functions of Go that the tokenizer calls and that are not part of
the repository, where they are not modelled here. `isLetter` and `isDigit` are
`unicode.IsLetter` and `unicode.IsDigit` on runes above U+00FF (below, Go uses the
fixed Latin-1 table, see `unicodeIsLetter`); `parseFloat s` is
`strconv.ParseFloat(s, 64)` on the texts that are not plain decimal numbers
(hexadecimal floats, the spellings of infinity and NaN, texts with underscores,
malformed texts), `none` when it returns an error; on plain decimal numbers the
function is modelled, see `ParseFloat`. -/
structure GoLib where
  isLetter : Nat → Bool
  isDigit : Nat → Bool
  parseFloat : GoString → Option Rat

/-- A library whose tables are empty above Latin-1 and whose `ParseFloat`
rejects every text that is not a plain decimal number: it shows that `GoLib` is
inhabited. -/
def GoLib.trivial : GoLib :=
  { isLetter := fun _ => false, isDigit := fun _ => false, parseFloat := fun _ => none }

/-- The letters of Latin-1 (categories Lu, Ll, Lo of the Go `properties` table). -/
def latin1Letter (r : Nat) : Bool :=
  decide (('A'.toNat ≤ r ∧ r ≤ 'Z'.toNat) ∨ ('a'.toNat ≤ r ∧ r ≤ 'z'.toNat) ∨
    r = 0xAA ∨ r = 0xB5 ∨ r = 0xBA ∨ (0xC0 ≤ r ∧ r ≤ 0xD6) ∨ (0xD8 ≤ r ∧ r ≤ 0xF6) ∨
    (0xF8 ≤ r ∧ r ≤ 0xFF))

/-- Go `unicode.IsLetter`. -/
def unicodeIsLetter (L : GoLib) (r : Nat) : Bool :=
  if r ≤ 0xFF then latin1Letter r else L.isLetter r

/-- Go `unicode.IsDigit`. -/
def unicodeIsDigit (L : GoLib) (r : Nat) : Bool :=
  if r ≤ 0xFF then decide ('0'.toNat ≤ r ∧ r ≤ '9'.toNat) else L.isDigit r

/-! ## token.go -/

inductive CursorPlace where
  | CURSOR_NONE | CURSOR_BEGINNING | CURSOR_MIDDLE | CURSOR_END
  deriving DecidableEq, Repr

inductive TokenType where
  | EMPTY
  -- Basic
  | ANNOTATION | IDENTIFIER | LITERAL
  -- Comparison
  | LESS | LESS_EQUAL | GREATER | GREATER_EQUAL | EQUAL_EQUAL | BANG_EQUAL
  -- Logical
  | AND | OR | NOT | AMPERSAND_AMPERSAND | PIPE_PIPE | BANG
  -- Bitwise
  | AMPERSAND | PIPE | TILDE | CARET | LESS_LESS | GREATER_GREATER
  -- Math
  | PLUS | MINUS | STAR | STAR_STAR | SLASH | PERCENT
  -- Assignment
  | EQUAL | PLUS_EQUAL | MINUS_EQUAL | STAR_EQUAL | STAR_STAR_EQUAL | SLASH_EQUAL
  | PERCENT_EQUAL | LESS_LESS_EQUAL | GREATER_GREATER_EQUAL | AMPERSAND_EQUAL
  | PIPE_EQUAL | CARET_EQUAL
  -- Control flow
  | IF | ELIF | ELSE | FOR | WHILE | BREAK | CONTINUE | PASS | RETURN | MATCH | WHEN
  -- Keywords
  | AS | CLASS | CONST | ENUM | EXTENDS | FUNCTION | IMPORT | IN | IS | MOD | SELF
  | SIGNAL | TRAIT | TYPE | USES | VAR | VOID
  -- Punctuation
  | BRACKET_OPEN | BRACKET_CLOSE | BRACE_OPEN | BRACE_CLOSE | PARENTHESIS_OPEN
  | PARENTHESIS_CLOSE | COMMA | SEMICOLON | PERIOD | PERIOD_PERIOD | PERIOD_PERIOD_PERIOD
  | COLON | DOLLAR | FORWARD_ARROW | UNDERSCORE
  -- Whitespace
  | NEWLINE
  -- Constants
  | CONST_PI | CONST_TAU | CONST_INF | CONST_NAN
  -- Error message improvement
  | VCS_CONFLICT_MARKER | BACKTICK | QUESTION_MARK
  -- Special
  | ERROR | EOF | MAX
  deriving DecidableEq, Repr

/-- The dynamic payload `Literal interface{}` of a token: `nil`, a `bool`, an
`int64`, a `float64` (by its rational value) or a `string`. -/
inductive Value where
  | nil
  | bool (b : Bool)
  | int (v : Int)
  | float (v : Rat)
  | str (s : GoString)
  deriving DecidableEq, Repr

structure Token where
  Type_ : TokenType
  Literal : Value
  StartLine : Int
  EndLine : Int
  StartColumn : Int
  EndColumn : Int
  CursorPosition : Int
  CursorPlace : CursorPlace
  Source : List Nat
  deriving DecidableEq, Repr

def NewToken (p_type : TokenType) : Token :=
  { Type_ := p_type, Literal := Value.nil, StartLine := 0, EndLine := 0,
    StartColumn := 0, EndColumn := 0, CursorPosition := -1,
    CursorPlace := CursorPlace.CURSOR_NONE, Source := [] }

/-- The method `Token.CanPrecedeBinOP`, on the token kind it switches on. -/
def CanPrecedeBinOP (ty : TokenType) : Bool :=
  match ty with
  | .IDENTIFIER | .LITERAL | .SELF | .BRACKET_CLOSE
  | .BRACE_CLOSE | .PARENTHESIS_CLOSE
  | .CONST_PI | .CONST_TAU | .CONST_INF | .CONST_NAN => true
  | _ => false

/-! ## tokenizer.go: state and cursor -/

/-- The ways a call can fail fatally. `outOfFuel` is not a Go failure: it is
returned by `ScanLoop` when its recursion budget is exhausted, which `Scan`
never lets happen. -/
inductive Fault where
  | nilDereference
  | indexOutOfRange
  | annotationPanic
  | outOfFuel
  deriving DecidableEq, Repr

structure Tokenizer where
  source : List Nat
  _start : Nat
  startLine : Int
  startColumn : Int
  errorStack : List Token
  pendingNewline : Bool
  lastToken : Option Token
  lastNewline : Option Token
  _current : Nat
  line : Int
  column : Int
  position : Nat
  length : Nat
  tabSize : Int
  parenStack : List Nat
  deriving Repr

/-- The constructor, on the rune sequence `[]rune(src)`. -/
def NewTokenizer (src : List Nat) : Tokenizer :=
  { source := src, _start := 0, startLine := 0, startColumn := 0, errorStack := [],
    pendingNewline := false, lastToken := none, lastNewline := none, _current := 0,
    line := 1, column := 1, position := 0, length := src.length, tabSize := 4,
    parenStack := [] }

def isDigit (p_char : Nat) : Bool :=
  decide ('0'.toNat ≤ p_char ∧ p_char ≤ '9'.toNat)

def isUnicodeIdentifierStart (L : GoLib) (r : Nat) : Bool :=
  decide (r = '_'.toNat) || unicodeIsLetter L r

def isUnicodeIdentifierContinue (L : GoLib) (r : Nat) : Bool :=
  decide (r = '_'.toNat) || unicodeIsLetter L r || unicodeIsDigit L r

def isWhitespace (ch : Nat) : Bool :=
  decide (ch = ' '.toNat ∨ ch = 0x00A0 ∨ ch = 0x1680 ∨ (0x2000 ≤ ch ∧ ch ≤ 0x200B) ∨
    ch = 0x202F ∨ ch = 0x205F ∨ ch = 0x3000 ∨ ch = 0x2028 ∨ ch = 0x2029 ∨
    (0x0009 ≤ ch ∧ ch ≤ 0x000D) ∨ ch = 0x0085)

def isAtEnd (t : Tokenizer) : Bool := decide (t.length ≤ t._current)

def peek (t : Tokenizer) (offset : Int) : Nat :=
  let idx : Int := (t._current : Int) + offset
  if 0 ≤ idx ∧ idx < (t.length : Int) then t.source.getD idx.toNat 0 else 0

def advance (t : Tokenizer) : Nat × Tokenizer :=
  if isAtEnd t then (0, t)
  else
    (t.source.getD t._current 0,
      { t with _current := t._current + 1, position := t.position + 1, column := t.column + 1 })

def pushParen (t : Tokenizer) (char : Nat) : Tokenizer :=
  { t with parenStack := t.parenStack ++ [char] }

def popParen (t : Tokenizer) (expected : Nat) : Bool × Tokenizer :=
  match t.parenStack.getLast? with
  | none => (false, t)
  | some actual => (decide (actual = expected), { t with parenStack := t.parenStack.dropLast })

def hasError (t : Tokenizer) : Bool := decide (0 < t.errorStack.length)

/-- The token is built from the current cursor and remembered as `lastToken`.
`lastToken` is a pointer to the token: the functions below that set a field of the
token after `makeToken` store the updated token in `lastToken` as well. -/
def makeToken (t : Tokenizer) (tokenType : TokenType) : Token × Tokenizer :=
  let token : Token :=
    { NewToken tokenType with
      StartLine := t.line, EndLine := t.line, StartColumn := t.column,
      EndColumn := t.column, Source := slice t.source t._start t._current }
  (token, { t with lastToken := some token })

def makeLiteral (t : Tokenizer) (value : Value) : Token × Tokenizer :=
  let token := { (makeToken t TokenType.LITERAL).1 with Literal := value }
  (token, { t with lastToken := some token })

def makeIdentifier (t : Tokenizer) (name : GoString) : Token × Tokenizer :=
  let token := { (makeToken t TokenType.IDENTIFIER).1 with Literal := Value.str name }
  (token, { t with lastToken := some token })

def makeError (t : Tokenizer) (msg : GoString) : Token × Tokenizer :=
  let token := { (makeToken t TokenType.ERROR).1 with Literal := Value.str msg }
  (token, { t with lastToken := some token })

def makeParenError (t : Tokenizer) (paren : Nat) : Token × Tokenizer :=
  match t.parenStack.getLast? with
  | none =>
    makeError t
      (runes "Closing \"" ++ stringOfRune paren ++
        runes "\" doesn't have an opening counterpart.")
  | some top =>
    let r := makeError t
      (runes "Closing \"" ++ stringOfRune paren ++ runes "\" doesn't match the opening \"" ++
        stringOfRune top ++ runes "\".")
    (r.1, { r.2 with parenStack := r.2.parenStack.dropLast })

def pushError (t : Tokenizer) (msg : GoString) : Tokenizer :=
  let r := makeError t msg
  { r.2 with errorStack := r.2.errorStack ++ [r.1] }

/-- Go indexes `errorStack[len-1]`, which panics on an empty stack. -/
def popError (t : Tokenizer) : Except Fault (Token × Tokenizer) :=
  match t.errorStack.getLast? with
  | none => .error Fault.indexOutOfRange
  | some rError => .ok (rError, { t with errorStack := t.errorStack.dropLast })

/-! ## tokenizer.go: trivia -/

def newline (t : Tokenizer) (make : Bool) : Tokenizer :=
  -- Don't overwrite a previous newline token.
  let t1 : Tokenizer :=
    if make && !t.pendingNewline then
      let lineToken : Token :=
        { (makeToken t TokenType.NEWLINE).1 with
          StartLine := t.line, EndLine := t.line, StartColumn := t.column - 1,
          EndColumn := t.column }
      { t with pendingNewline := true, lastToken := some lineToken,
               lastNewline := some lineToken }
    else t
  { t1 with line := t1.line + 1, column := 1 }

/-- The loop `for t.peek(0) != '\n' && !t.isAtEnd() { t.advance() }`. -/
def skipLineCommentLoop : Nat → Tokenizer → Tokenizer
  | 0, t => t
  | fuel + 1, t =>
    if peek t 0 ≠ lineFeed ∧ isAtEnd t = false then skipLineCommentLoop fuel (advance t).2
    else t

def skipLineComment (t : Tokenizer) : Tokenizer :=
  let t1 := skipLineCommentLoop (t.length - t._current + 1) t
  if isAtEnd t1 then t1 else newline (advance t1).2 true

/-- The loop of `skipBlockComment`. -/
def skipBlockCommentLoop : Nat → Tokenizer → Tokenizer
  | 0, t => t
  | fuel + 1, t =>
    if isAtEnd t then pushError t (runes "Unterminated block comment.")
    else if peek t 0 = carriageReturn then
      let t1 := (advance t).2
      if peek t1 0 ≠ lineFeed then
        pushError t1 (runes "Stray carriage return character in source code.")
      else skipBlockCommentLoop fuel (newline (advance t1).2 true)
    else if peek t 0 = lineFeed then skipBlockCommentLoop fuel (newline (advance t).2 true)
    else if peek t 0 = '*'.toNat ∧ peek t 1 = '/'.toNat then (advance (advance t).2).2
    else skipBlockCommentLoop fuel (advance t).2

def skipBlockComment (t : Tokenizer) : Tokenizer :=
  skipBlockCommentLoop (t.length - t._current + 1) t

/-- The loop of `skipWhitespace`; a `return` of the Go function ends the recursion. -/
def skipWhitespaceLoop : Nat → Tokenizer → Tokenizer
  | 0, t => t
  | fuel + 1, t =>
    let c := peek t 0
    if c = ' '.toNat then skipWhitespaceLoop fuel (advance t).2
    else if c = tabRune then
      let t1 := (advance t).2
      skipWhitespaceLoop fuel { t1 with column := t1.column + (t1.tabSize - 1) }
    else if c = carriageReturn then
      let t1 := (advance t).2
      if peek t1 0 ≠ lineFeed then
        pushError t1 (runes "Stray carriage return character in source code.")
      else skipWhitespaceLoop fuel t1
    else if c = lineFeed then skipWhitespaceLoop fuel (newline (advance t).2 true)
    else if c = '#'.toNat then skipWhitespaceLoop fuel (skipLineComment t)
    else if c = '/'.toNat then
      if peek t 1 = '/'.toNat then
        skipWhitespaceLoop fuel (skipLineComment (advance (advance t).2).2)
      else if peek t 1 = '*'.toNat then
        skipWhitespaceLoop fuel (skipBlockComment (advance (advance t).2).2)
      else t
    else t

def skipWhitespace (t : Tokenizer) : Tokenizer :=
  skipWhitespaceLoop (t.length - t._current + 1) t

/-! ## tokenizer.go: numbers -/

def isDigitForBase (ch : Nat) (base : Nat) : Bool :=
  if base ≤ 10 then decide ('0'.toNat ≤ ch ∧ ch < '0'.toNat + base)
  else if '0'.toNat ≤ ch ∧ ch ≤ '9'.toNat then true
  else if base = 16 ∧ (('a'.toNat ≤ ch ∧ ch ≤ 'f'.toNat) ∨ ('A'.toNat ≤ ch ∧ ch ≤ 'F'.toNat)) then
    true
  else false

def removeSeparators (s : GoString) : GoString :=
  s.filter (fun r => !(decide (r = '_'.toNat) || decide (r = ','.toNat)))

/-- The value of a digit in `strconv.ParseUint`: `0`-`9`, then letters of either
case from 10 on. -/
def digitVal (c : Nat) : Option Nat :=
  if '0'.toNat ≤ c ∧ c ≤ '9'.toNat then some (c - '0'.toNat)
  else if 'a'.toNat ≤ c ∧ c ≤ 'z'.toNat then some (c - 'a'.toNat + 10)
  else if 'A'.toNat ≤ c ∧ c ≤ 'Z'.toNat then some (c - 'A'.toNat + 10)
  else none

/-- The digit loop of `strconv.ParseUint` for an explicit base: `none` on a
character that is not a digit of the base. -/
def parseDigits (base : Nat) : List Nat → Nat → Option Nat
  | [], acc => some acc
  | c :: cs, acc =>
    match digitVal c with
    | none => none
    | some d => if d < base then parseDigits base cs (acc * base + d) else none

/-- Go `strconv.ParseInt(s, base, 64)` for an explicit base between 2 and 36, by its
documented behaviour: an optional sign, then at least one digit of the base;
`none` stands for a returned error (syntax, or a value outside the int64 range). -/
def ParseInt (s : GoString) (base : Nat) : Option Int :=
  match s with
  | [] => none
  | c :: rest =>
    let neg : Bool := decide (c = '-'.toNat)
    let body := if c = '+'.toNat ∨ c = '-'.toNat then rest else s
    if body = [] then none
    else
      match parseDigits base body 0 with
      | none => none
      | some un =>
        if neg = false ∧ 2 ^ 63 ≤ un then none
        else if neg = true ∧ 2 ^ 63 < un then none
        else some (if neg then - (un : Int) else (un : Int))

/-- The loop `for { ch := t.peek(0); if ch is '_' or ',' ...; if isDigitForBase ... }`
of the base-prefix branch of `number`; the second component counts the digits. -/
def baseDigitsLoop (base : Nat) : Nat → Tokenizer → Nat → Nat × Tokenizer
  | 0, t, digits => (digits, t)
  | fuel + 1, t, digits =>
    let ch := peek t 0
    if ch = '_'.toNat ∨ ch = ','.toNat then baseDigitsLoop base fuel (advance t).2 digits
    else if isDigitForBase ch base then baseDigitsLoop base fuel (advance t).2 (digits + 1)
    else (digits, t)

/-- The loop `for { ch := t.peek(0); if isDigit(ch) || ch == '_' || ch == ',' ... }`,
which `number` contains four times. -/
def decimalDigitsLoop : Nat → Tokenizer → Tokenizer
  | 0, t => t
  | fuel + 1, t =>
    let ch := peek t 0
    if isDigit ch = true ∨ ch = '_'.toNat ∨ ch = ','.toNat then
      decimalDigitsLoop fuel (advance t).2
    else t

def decimalDigits (t : Tokenizer) : Tokenizer :=
  decimalDigitsLoop (t.length - t._current + 1) t

/-- The test `case 'x', 'X', 'b', 'B', 'o', 'O'` of `number`. -/
def isBasePrefix (r : Nat) : Bool :=
  decide (r = 'x'.toNat ∨ r = 'X'.toNat ∨ r = 'b'.toNat ∨ r = 'B'.toNat ∨ r = 'o'.toNat ∨
    r = 'O'.toNat)

/-- The base selected by `switch prefix` in `number`. -/
def baseOfPrefix (pfx : Nat) : Nat :=
  if pfx = 'x'.toNat ∨ pfx = 'X'.toNat then 16
  else if pfx = 'b'.toNat ∨ pfx = 'B'.toNat then 2
  else if pfx = 'o'.toNat ∨ pfx = 'O'.toNat then 8
  else 10

/-- The digit loop of the exponent in `strconv.ParseFloat`, from the accumulated
value `e`: it stops accumulating once the exponent has reached 10000
(`if e < 10000 { e = e*10 + int(s[i]) - '0' }`); `none` when a character of the
text is not a decimal digit. -/
def expDigits : List Nat → Nat → Option Nat
  | [], e => some e
  | c :: cs, e =>
    if isDigit c = true then expDigits cs (if e < 10000 then e * 10 + (c - '0'.toNat) else e)
    else none

/-- The exponent part of a decimal number in `strconv.ParseFloat`: nothing (the
exponent is then 0), or `e` or `E`, an optional sign and at least one digit, up to
the end of the text; `none` when the text is not of this form. -/
def parseExponent : List Nat → Option Int
  | [] => some 0
  | c :: rest =>
    if c = 'e'.toNat ∨ c = 'E'.toNat then
      let ds :=
        if rest.head? = some '+'.toNat ∨ rest.head? = some '-'.toNat then rest.tail else rest
      if ds = [] then none
      else
        match expDigits ds 0 with
        | none => none
        | some n => some (if rest.head? = some '-'.toNat then - (n : Int) else (n : Int))
    else none

/-- The reading of a plain decimal number in `strconv.ParseFloat`: an optional
sign, decimal digits with an optional point (at least one digit in all) and an
optional exponent. The result is the sign, the digits read as a natural number `m`
and the power of ten `e10` that the point and the exponent give: the number is
`m * 10 ^ e10`. `none` for any other text. -/
def decimalFloatParts (s : GoString) : Option (Bool × Nat × Int) :=
  let neg : Bool := decide (s.head? = some '-'.toNat)
  let s1 := if s.head? = some '+'.toNat ∨ s.head? = some '-'.toNat then s.tail else s
  let ip := s1.takeWhile isDigit
  let s2 := s1.dropWhile isDigit
  let fp := if s2.head? = some '.'.toNat then s2.tail.takeWhile isDigit else []
  let s3 := if s2.head? = some '.'.toNat then s2.tail.dropWhile isDigit else s2
  if ip = [] ∧ fp = [] then none
  else
    match parseDigits 10 (ip ++ fp) 0, parseExponent s3 with
    | some m, some e => some (neg, m, e - (fp.length : Int))
    | _, _ => none

/-- The number of bits of `n` minus one, for `n` at least 1: the integer part of
its logarithm in base 2 (the first argument bounds the recursion). -/
def bitLog : Nat → Nat → Nat
  | 0, _ => 0
  | fuel + 1, n => if 2 ≤ n then bitLog fuel (n / 2) + 1 else 0

/-- The integer part of the logarithm in base 2 of the fraction `n / d`, for
positive `n` and `d`. -/
def floorLog2 (n d : Nat) : Int :=
  let k : Int := (bitLog n n : Int) - (bitLog d d : Int)
  if (if 0 ≤ k then d * 2 ^ k.toNat ≤ n else d ≤ n * 2 ^ (-k).toNat) then k else k - 1

/-- The integer nearest to the fraction `n / d`, the even one of the two when it is
halfway between them. -/
def roundHalfEven (n d : Nat) : Nat :=
  let f := n / d
  let r := n % d
  if 2 * r < d then f else if d < 2 * r then f + 1 else if f % 2 = 0 then f else f + 1

/-- The float64 nearest to the positive fraction `n / d`, as a significand `m2` and
a binary exponent `p` (the value is `m2 * 2 ^ p`): IEEE 754 rounding to nearest,
ties to even, with 53 bits of significand and the least exponent `-1074` of the
subnormal numbers. Overflow is not tested here. -/
def float64Parts (n d : Nat) : Nat × Int :=
  let p : Int := max (floorLog2 n d - 52) (-1074)
  (if 0 ≤ p then roundHalfEven n (d * 2 ^ p.toNat) else roundHalfEven (n * 2 ^ (-p).toNat) d, p)

/-- The number `m * 10 ^ e10` as a fraction of natural numbers. -/
def decimalFraction (m : Nat) (e10 : Int) : Nat × Nat :=
  if 0 ≤ e10 then (m * 10 ^ e10.toNat, 1) else (m, 10 ^ (-e10).toNat)

/-- The float64 nearest to `m * 10 ^ e10`, by its rational value; `none` when the
rounded value is beyond the largest float64, that is when it reaches `2 ^ 1024`
(`strconv.ParseFloat` then returns an infinity and a range error). A value too small
for a float64 is rounded to a subnormal number or to zero, without error. -/
def nearestFloat64 (m : Nat) (e10 : Int) : Option Rat :=
  if m = 0 then some 0
  else
    let r := float64Parts (decimalFraction m e10).1 (decimalFraction m e10).2
    let v : Rat := (r.1 : Rat) * (2 : Rat) ^ r.2
    if (2 : Rat) ^ (1024 : Nat) ≤ v then none else some v

/-- Go `strconv.ParseFloat(s, 64)`, `none` standing for a returned error. On a plain
decimal number the result is the nearest float64 by its documented behaviour
(IEEE 754 rounding to nearest, a range error when the value is out of range); the
float64 is given by its rational value, which does not tell the sign of a zero. On
any other text the result is the one of the library parameter. -/
def ParseFloat (L : GoLib) (s : GoString) : Option Rat :=
  match decimalFloatParts s with
  | some (neg, m, e10) =>
    match nearestFloat64 m e10 with
    | none => none
    | some v => some (if neg = true then -v else v)
  | none => L.parseFloat s

/-- The end of `number`, from `raw := string(t.source[start:t._current])` on;
`isFloat` is `sawDot || sawExp`. -/
def numberFinish (L : GoLib) (start : Nat) (isFloat : Bool) (t : Tokenizer) :
    Token × Tokenizer :=
  let raw := slice t.source start t._current
  let clean := removeSeparators raw
  if isFloat = true then
    match ParseFloat L clean with
    | none => makeError t (runes "Invalid numeric literal.")
    | some value => makeLiteral t (Value.float value)
  else
    match ParseInt clean 10 with
    | none => makeError t (runes "Invalid numeric literal.")
    | some value => makeLiteral t (Value.int value)

/-- The decimal part of `number` after its first digit loop (`t1` is the state
after that loop): the second digit loop, the fractional part, the exponent and the
conversion. -/
def numberDecimal (L : GoLib) (start : Nat) (sawDot : Bool) (t1 : Tokenizer) :
    Token × Tokenizer :=
  let t2 := if sawDot = true then decimalDigits t1 else t1
  let dotNow : Bool :=
    !sawDot && decide (peek t2 0 = '.'.toNat) && isDigit (peek t2 1)
  let t3 := if dotNow = true then decimalDigits (advance t2).2 else t2
  if peek t3 0 = 'e'.toNat ∨ peek t3 0 = 'E'.toNat then
    let t4 := (advance t3).2
    let t5 := if peek t4 0 = '+'.toNat ∨ peek t4 0 = '-'.toNat then (advance t4).2 else t4
    if isDigit (peek t5 0) = false then
      makeError t5 (runes "Expected exponent digits after 'e'.")
    else numberFinish L start true (decimalDigits t5)
  else numberFinish L start (sawDot || dotNow) t3

/-- The method `number`. `start` is `t._current - 1`: the method is entered after
the first rune of the number has been consumed, so that `t.source[start]` is in
range. -/
def number (L : GoLib) (t : Tokenizer) : Token × Tokenizer :=
  let start := t._current - 1
  let first := t.source.getD start 0
  if first = '0'.toNat ∧ isBasePrefix (peek t 0) = true then
    let pfx := peek t 0
    let t1 := (advance t).2
    let base := baseOfPrefix pfx
    let r := baseDigitsLoop base (t1.length - t1._current + 1) t1 0
    if r.1 = 0 then makeError r.2 (runes "Expected digits after base prefix.")
    else
      let raw := slice r.2.source start r.2._current
      let clean := (removeSeparators raw).drop 2
      match ParseInt clean base with
      | none => makeError r.2 (runes "Invalid numeric literal.")
      | some value => makeLiteral r.2 (Value.int value)
  else
    let sawDot : Bool := decide (first = '.'.toNat)
    numberDecimal L start sawDot (if sawDot = false then decimalDigits t else t)

/-! ## tokenizer.go: strings, identifiers, annotations, conflict markers -/

/-- The loop of `stringToken`, with the `result` accumulated so far. -/
def stringTokenLoop (quote : Nat) : Nat → Tokenizer → GoString → Token × Tokenizer
  | 0, t, _ => makeError t (runes "Unterminated string")
  | fuel + 1, t, result =>
    let c := peek t 0
    if isAtEnd t then makeError t (runes "Unterminated string")
    else if c = quote then makeLiteral (advance t).2 (Value.str result)
    else if c = backslash then
      let t1 := (advance t).2
      let c1 := peek t1 0
      let t2 := (advance t1).2
      stringTokenLoop quote fuel t2
        (result ++
          (if c1 = 'n'.toNat then [lineFeed]
           else if c1 = 't'.toNat then [tabRune]
           else if c1 = backslash then [backslash]
           else if c1 = quoteDouble then [quoteDouble]
           else stringOfRune c1))
    else stringTokenLoop quote fuel (advance t).2 (result ++ stringOfRune c)

def stringToken (t : Tokenizer) : Token × Tokenizer :=
  stringTokenLoop (peek t (-1)) (t.length - t._current + 1) t []

/-- The table `keywordsByFirst`: for a first rune, the keywords that start with it. -/
def keywordsByFirst : List (Nat × List (GoString × TokenType)) :=
  [ ('a'.toNat, [(runes "as", TokenType.AS), (runes "and", TokenType.AND)]),
    ('b'.toNat, [(runes "break", TokenType.BREAK)]),
    ('c'.toNat, [(runes "class", TokenType.CLASS), (runes "const", TokenType.CONST),
                 (runes "continue", TokenType.CONTINUE)]),
    ('e'.toNat, [(runes "elif", TokenType.ELIF), (runes "else", TokenType.ELSE),
                 (runes "enum", TokenType.ENUM), (runes "extends", TokenType.EXTENDS)]),
    ('f'.toNat, [(runes "for", TokenType.FOR), (runes "fn", TokenType.FUNCTION)]),
    ('i'.toNat, [(runes "if", TokenType.IF), (runes "import", TokenType.IMPORT),
                 (runes "in", TokenType.IN), (runes "is", TokenType.IS)]),
    ('m'.toNat, [(runes "match", TokenType.MATCH), (runes "mod", TokenType.MOD)]),
    ('n'.toNat, [(runes "not", TokenType.NOT)]),
    ('o'.toNat, [(runes "or", TokenType.OR)]),
    ('p'.toNat, [(runes "pass", TokenType.PASS)]),
    ('r'.toNat, [(runes "return", TokenType.RETURN)]),
    ('s'.toNat, [(runes "self", TokenType.SELF), (runes "signal", TokenType.SIGNAL)]),
    ('t'.toNat, [(runes "trait", TokenType.TRAIT), (runes "type", TokenType.TYPE)]),
    ('u'.toNat, [(runes "uses", TokenType.USES)]),
    ('v'.toNat, [(runes "var", TokenType.VAR), (runes "void", TokenType.VOID)]),
    ('w'.toNat, [(runes "while", TokenType.WHILE), (runes "when", TokenType.WHEN)]),
    ('I'.toNat, [(runes "INF", TokenType.CONST_INF)]),
    ('N'.toNat, [(runes "NAN", TokenType.CONST_NAN)]),
    ('P'.toNat, [(runes "PI", TokenType.CONST_PI)]),
    ('T'.toNat, [(runes "TAU", TokenType.CONST_TAU)]) ]

def MinKeywordLength : Nat := 2
def MaxKeywordLength : Nat := 10

/-- The loop `for isUnicodeIdentifierContinue(t.peek(0)) { t.advance() }`. -/
def identifierLoop (L : GoLib) : Nat → Tokenizer → Tokenizer
  | 0, t => t
  | fuel + 1, t =>
    if isUnicodeIdentifierContinue L (peek t 0) = true then identifierLoop L fuel (advance t).2
    else t

/-- The token built by `newToken := t.makeToken(tokenType); newToken.Literal = name`. -/
def makeKeyword (t : Tokenizer) (tokenType : TokenType) (name : GoString) :
    Token × Tokenizer :=
  let token := { (makeToken t tokenType).1 with Literal := Value.str name }
  (token, { t with lastToken := some token })

def potentialIdentifier (L : GoLib) (t : Tokenizer) : Token × Tokenizer :=
  let start := t._current - 1
  let t1 := identifierLoop L (t.length - t._current + 1) t
  let name := slice t1.source start t1._current
  let length := goLen name
  if MinKeywordLength ≤ length ∧ length ≤ MaxKeywordLength then
    if length = 4 ∧ name = runes "true" then makeLiteral t1 (Value.bool true)
    else if length = 4 ∧ name = runes "null" then makeLiteral t1 Value.nil
    else if length = 5 ∧ name = runes "false" then makeLiteral t1 (Value.bool false)
    else
      match keywordsByFirst.lookup (name.headD 0) with
      | none => makeIdentifier t1 name
      | some group =>
        match group.lookup name with
        | none => makeIdentifier t1 name
        | some tokenType => makeKeyword t1 tokenType name
  else makeIdentifier t1 name

/-- The counting loop of `checkVCSMarker`:
`for next < t.length && t.source[next] == test { chars++; next++ }`. -/
def countRun (t : Tokenizer) (test : Nat) : Nat → Nat → Nat → Nat
  | 0, chars, _ => chars
  | fuel + 1, chars, next =>
    if next < t.length ∧ t.source.getD next 0 = test then countRun t test fuel (chars + 1) (next + 1)
    else chars

/-- The loop `for chars > 1 { t.advance(); chars-- }`, entered with `chars = n + 1`. -/
def advanceTimes : Nat → Tokenizer → Tokenizer
  | 0, t => t
  | n + 1, t => advanceTimes n (advance t).2

def checkVCSMarker (t : Tokenizer) (test : Nat) (doubleType : TokenType) : Token × Tokenizer :=
  let next := t.position + 1
  let chars := countRun t test (t.length - next + 1) 2 next
  if 7 ≤ chars then
    -- VCS conflict marker (<<<<<<<, =======, >>>>>>>)
    makeToken (advanceTimes (chars - 1) t) TokenType.VCS_CONFLICT_MARKER
  else
    -- Regular double-character token (==, <<, >>, etc.)
    makeToken (advance t).2 doubleType

def annotation (L : GoLib) (t : Tokenizer) : Except Fault (Token × Tokenizer) :=
  if isUnicodeIdentifierStart L (peek t 0) = true then
    let t1 := (advance t).2
    let t2 := identifierLoop L (t1.length - t1._current + 1) t1
    let token := (makeToken t2 TokenType.ANNOTATION).1
    let annotationToken := { token with Literal := Value.str token.Source }
    .ok (annotationToken, { t2 with lastToken := some annotationToken })
  else .error Fault.annotationPanic

/-! ## tokenizer.go: Scan -/

/-- The result of one call: a token and the new state, or a fatal failure. -/
abbrev ScanResult := Except Fault (Token × Tokenizer)

/-- The branch `isDigit(t.peek(0)) && !t.lastToken.CanPrecedeBinOP()` of the cases
`+` and `-`, entered when the next rune is a digit: `lastToken` is dereferenced, and
is `nil` as long as no token has been built. `op` is `PLUS` or `MINUS`. -/
def signedNumber (L : GoLib) (t : Tokenizer) (op : TokenType) : ScanResult :=
  match t.lastToken with
  | none => .error Fault.nilDereference
  | some last =>
    if CanPrecedeBinOP last.Type_ = false then .ok (number L t)
    else .ok (makeToken t op)

/-- The cases of `switch c` in `Scan`, `t` being the state after `c := t.advance()`;
`none` stands for the `default` case. -/
def scanSwitch (L : GoLib) (c : Nat) (t : Tokenizer) : Option ScanResult :=
  if c = quoteDouble ∨ c = quoteSingle then some (.ok (stringToken t))
  else if c = '@'.toNat then some ( annotation L t)
  else if c = '~'.toNat then some (.ok (makeToken t TokenType.TILDE))
  else if c = ','.toNat then some (.ok (makeToken t TokenType.COMMA))
  else if c = ':'.toNat then some (.ok (makeToken t TokenType.COLON))
  else if c = ';'.toNat then some (.ok (makeToken t TokenType.SEMICOLON))
  else if c = '$'.toNat then some (.ok (makeToken t TokenType.DOLLAR))
  else if c = '?'.toNat then some (.ok (makeToken t TokenType.QUESTION_MARK))
  else if c = backtickRune then some (.ok (makeToken t TokenType.BACKTICK))
  else if c = '('.toNat then
    some (.ok (makeToken (pushParen t '('.toNat) TokenType.PARENTHESIS_OPEN))
  else if c = '['.toNat then
    some (.ok (makeToken (pushParen t '['.toNat) TokenType.BRACKET_OPEN))
  else if c = '{'.toNat then
    some (.ok (makeToken (pushParen t '{'.toNat) TokenType.BRACE_OPEN))
  else if c = ')'.toNat then
    if (popParen t '('.toNat).1 = false then
      some (.ok (makeParenError (popParen t '('.toNat).2 c))
    else some (.ok (makeToken (popParen t '('.toNat).2 TokenType.PARENTHESIS_CLOSE))
  else if c = ']'.toNat then
    if (popParen t '['.toNat).1 = false then
      some (.ok (makeParenError (popParen t '['.toNat).2 c))
    else some (.ok (makeToken (popParen t '['.toNat).2 TokenType.BRACKET_CLOSE))
  else if c = '}'.toNat then
    if (popParen t '{'.toNat).1 = false then
      some (.ok (makeParenError (popParen t '{'.toNat).2 c))
    else some (.ok (makeToken (popParen t '{'.toNat).2 TokenType.BRACE_CLOSE))
  -- Double characters.
  else if c = '!'.toNat then
    if peek t 0 = '='.toNat then some (.ok (makeToken (advance t).2 TokenType.BANG_EQUAL))
    else some (.ok (makeToken t TokenType.BANG))
  else if c = '.'.toNat then
    if peek t 0 = '.'.toNat then
      let t1 := (advance t).2
      if peek t1 0 = '.'.toNat then
        some (.ok (makeToken (advance t1).2 TokenType.PERIOD_PERIOD_PERIOD))
      else some (.ok (makeToken t1 TokenType.PERIOD_PERIOD))
    else if isDigit (peek t 0) = true then
      -- Number starting with '.'.
      some (.ok (number L t))
    else some (.ok (makeToken t TokenType.PERIOD))
  else if c = '+'.toNat then
    if peek t 0 = '='.toNat then some (.ok (makeToken (advance t).2 TokenType.PLUS_EQUAL))
    else if isDigit (peek t 0) = true then some (signedNumber L t TokenType.PLUS)
    else some (.ok (makeToken t TokenType.PLUS))
  else if c = '-'.toNat then
    if peek t 0 = '='.toNat then some (.ok (makeToken (advance t).2 TokenType.MINUS_EQUAL))
    else if isDigit (peek t 0) = true then some (signedNumber L t TokenType.MINUS)
    else if peek t 0 = '>'.toNat then
      some (.ok (makeToken (advance t).2 TokenType.FORWARD_ARROW))
    else some (.ok (makeToken t TokenType.MINUS))
  else if c = '*'.toNat then
    if peek t 0 = '='.toNat then some (.ok (makeToken (advance t).2 TokenType.STAR_EQUAL))
    else if peek t 0 = '*'.toNat then
      if peek t 1 = '='.toNat then
        some (.ok (makeToken (advance (advance t).2).2 TokenType.STAR_STAR_EQUAL))
      else some (.ok (makeToken (advance t).2 TokenType.STAR_STAR))
    else some (.ok (makeToken t TokenType.STAR))
  else if c = '/'.toNat then
    if peek t 0 = '='.toNat then some (.ok (makeToken (advance t).2 TokenType.SLASH_EQUAL))
    else some (.ok (makeToken t TokenType.SLASH))
  else if c = '%'.toNat then
    if peek t 0 = '='.toNat then some (.ok (makeToken (advance t).2 TokenType.PERCENT_EQUAL))
    else some (.ok (makeToken t TokenType.PERCENT))
  else if c = '^'.toNat then
    if peek t 0 = '='.toNat then some (.ok (makeToken (advance t).2 TokenType.CARET_EQUAL))
    else if peek t 0 = quoteDouble ∨ peek t 0 = quoteSingle then
      -- Node path
      some (.ok (stringToken t))
    else some (.ok (makeToken t TokenType.CARET))
  else if c = '&'.toNat then
    if peek t 0 = '&'.toNat then
      some (.ok (makeToken (advance t).2 TokenType.AMPERSAND_AMPERSAND))
    else if peek t 0 = '='.toNat then
      some (.ok (makeToken (advance t).2 TokenType.AMPERSAND_EQUAL))
    else if peek t 0 = quoteDouble ∨ peek t 0 = quoteSingle then
      -- String Name
      some (.ok (stringToken t))
    else some (.ok (makeToken t TokenType.AMPERSAND))
  else if c = '|'.toNat then
    if peek t 0 = '|'.toNat then some (.ok (makeToken (advance t).2 TokenType.PIPE_PIPE))
    else if peek t 0 = '='.toNat then some (.ok (makeToken (advance t).2 TokenType.PIPE_EQUAL))
    else some (.ok (makeToken t TokenType.PIPE))
  -- Potential VCS conflict markers.
  else if c = '='.toNat then
    if peek t 0 = '='.toNat then some (.ok (checkVCSMarker t '='.toNat TokenType.EQUAL_EQUAL))
    else some (.ok (makeToken t TokenType.EQUAL))
  else if c = '<'.toNat then
    if peek t 0 = '='.toNat then some (.ok (makeToken (advance t).2 TokenType.LESS_EQUAL))
    else if peek t 0 = '<'.toNat then
      if peek t 1 = '='.toNat then
        some (.ok (makeToken (advance (advance t).2).2 TokenType.LESS_LESS_EQUAL))
      else some (.ok (checkVCSMarker t '<'.toNat TokenType.LESS_LESS))
    else some (.ok (makeToken t TokenType.LESS))
  else if c = '>'.toNat then
    if peek t 0 = '='.toNat then some (.ok (makeToken (advance t).2 TokenType.GREATER_EQUAL))
    else if peek t 0 = '>'.toNat then
      if peek t 1 = '='.toNat then
        some (.ok (makeToken (advance (advance t).2).2 TokenType.GREATER_GREATER_EQUAL))
      else some (.ok (checkVCSMarker t '>'.toNat TokenType.GREATER_GREATER))
    else some (.ok (makeToken t TokenType.GREATER))
  else none

/-- The assignments `t._start = t._current; t.startLine = t.line;
t.startColumn = t.column` of `Scan`. -/
def markStart (t : Tokenizer) : Tokenizer :=
  { t with _start := t._current, startLine := t.line, startColumn := t.column }

/-- The part of `Scan` from `c := t.advance()` up to the `default` case of the
switch, which is `none`. -/
def scanToken (L : GoLib) (c : Nat) (t : Tokenizer) : Option ScanResult :=
  if isDigit c = true then some (.ok (number L t))
  else if c = 'r'.toNat ∧ (peek t 0 = quoteDouble ∨ peek t 0 = quoteSingle) then
    -- Raw string literals.
    some (.ok (stringToken t))
  else if isUnicodeIdentifierStart L c = true then some (.ok (potentialIdentifier L t))
  else scanSwitch L c t

/-- The method `Scan`, with a budget for its recursive call (the `default` case of
the switch, on a whitespace rune). -/
def ScanLoop (L : GoLib) : Nat → Tokenizer → ScanResult
  | 0, _ => .error Fault.outOfFuel
  | fuel + 1, t =>
    if hasError t = true then popError t
    else
      let t1 := skipWhitespace t
      if t1.pendingNewline = true then
        -- `return t.lastNewline`: a nil pointer here would be returned to the caller,
        -- which dereferences it; `pendingNewline` is only set together with
        -- `lastNewline` (see `NewlineOK`), so the case does not arise.
        match t1.lastNewline with
        | none => .error Fault.nilDereference
        | some lastNewline => .ok (lastNewline, { t1 with pendingNewline := false })
      else if hasError t1 = true then popError t1
      else
        let t2 := markStart t1
        if isAtEnd t2 = true then .ok (makeToken t2 TokenType.EOF)
        else
          let c := (advance t2).1
          let t3 := (advance t2).2
          match scanToken L c t3 with
          | some r => r
          | none =>
            if isWhitespace c = true then ScanLoop L fuel (skipWhitespace t3)
            else
              .ok (makeError t3
                (runes "Invalid character \"" ++ stringOfRune c ++ runes "\""))

/-- The method `Scan`. Every recursive call follows the consumption of a rune, so
`t.length - t._current + 1` levels are enough. -/
def Scan (L : GoLib) (t : Tokenizer) : ScanResult :=
  ScanLoop L (t.length - t._current + 1) t

/-! ## Driving the tokenizer -/

/-- The state after `n` successful calls to `Scan`, and the tokens they returned
(in order); a failure of any of the calls is the result. -/
def scanN (L : GoLib) : Nat → Tokenizer → Except Fault (List Token × Tokenizer)
  | 0, t => .ok ([], t)
  | n + 1, t =>
    match Scan L t with
    | .error e => .error e
    | .ok (tok, t1) =>
      match scanN L n t1 with
      | .error e => .error e
      | .ok (toks, t2) => .ok (tok :: toks, t2)

/-- The kinds of the tokens returned by the first `n` calls on a fresh tokenizer. -/
def kindsOf (L : GoLib) (src : String) (n : Nat) : Except Fault (List TokenType) :=
  match scanN L n (NewTokenizer (runes src)) with
  | .error e => .error e
  | .ok (toks, _) => .ok (toks.map (fun tok => tok.Type_))

/-! ## Frames -/

/-- What the recognizers leave of the state: they only move the cursor forward
and replace `lastToken`. -/
structure Frame (t t1 : Tokenizer) : Prop where
  source : t1.source = t.source
  length : t1.length = t.length
  start : t1._start = t._start
  errorStack : t1.errorStack = t.errorStack
  pendingNewline : t1.pendingNewline = t.pendingNewline
  lastNewline : t1.lastNewline = t.lastNewline
  current : t._current ≤ t1._current

/-! ## Predicates used in the statements -/

/-- A token of kind `LITERAL` or `ERROR`, which is what the literal recognizers
return. -/
def LiteralOrError (tok : Token) : Prop :=
  tok.Type_ = TokenType.LITERAL ∨ tok.Type_ = TokenType.ERROR

/-- The source slice of the token is the text between the token start and the
cursor of the state returned with it. -/
def SourceOK (p : Token × Tokenizer) : Prop :=
  p.1.Source = slice p.2.source p.2._start p.2._current

/-- The work that remains for `Scan`: the runes not yet consumed, the queued
errors and the buffered newline. -/
def workLeft (t : Tokenizer) : Nat :=
  (t.length - t._current) + t.errorStack.length + (if t.pendingNewline = true then 1 else 0)

/-- Every queued error is a token of kind `ERROR`. -/
def ErrorsOK (t : Tokenizer) : Prop :=
  ∀ e ∈ t.errorStack, e.Type_ = TokenType.ERROR

/-- When a newline is buffered, `lastNewline` is a token of kind `NEWLINE`. -/
def NewlineOK (t : Tokenizer) : Prop :=
  t.pendingNewline = true → ∃ nl, t.lastNewline = some nl ∧ nl.Type_ = TokenType.NEWLINE

/-- What skipping trivia does to the state, `d` bounding the growth of `workLeft`. -/
structure Trivia (d : Int) (t t1 : Tokenizer) : Prop where
  source : t1.source = t.source
  length : t1.length = t.length
  current : t._current ≤ t1._current
  errors : ErrorsOK t → ErrorsOK t1
  newline : NewlineOK t → NewlineOK t1
  work : (workLeft t1 : Int) ≤ (workLeft t : Int) + d

/-- What a recognizer may return from state `t`: no exhausted budget, and a
success is a token that is not `EOF` with a state framed by `t`. -/
def ResultOK (t : Tokenizer) (r : ScanResult) : Prop :=
  r ≠ .error Fault.outOfFuel ∧
  ∀ tok t1, r = .ok (tok, t1) → tok.Type_ ≠ TokenType.EOF ∧ Frame t t1

/-- The property `ResultOK` for a branch of `scanSwitch` or `scanToken`. -/
def OptionOK (t : Tokenizer) (o : Option ScanResult) : Prop :=
  ∀ r, o = some r → ResultOK t r

/-- What a successful call `Scan` guarantees. -/
structure ScanPost (t : Tokenizer) (tok : Token) (t1 : Tokenizer) : Prop where
  source : t1.source = t.source
  length : t1.length = t.length
  current : t._current ≤ t1._current
  errors : ErrorsOK t1
  newline : NewlineOK t1
  work : workLeft t1 ≤ workLeft t
  progress : tok.Type_ ≠ TokenType.EOF → workLeft t1 < workLeft t
  terminal : tok.Type_ = TokenType.EOF →
    t1.errorStack = [] ∧ t1.pendingNewline = false ∧ isAtEnd t1 = true

/-- The states a tokenizer goes through: those reached from a fresh tokenizer by
successful calls to `Scan`. -/
def Reachable (L : GoLib) (t : Tokenizer) : Prop :=
  ∃ (src : List Nat) (n : Nat) (toks : List Token), scanN L n (NewTokenizer src) = .ok (toks, t)

/-- The terminal state: nothing queued, nothing buffered, nothing left to read. -/
def Terminal (t : Tokenizer) : Prop :=
  t.errorStack = [] ∧ t.pendingNewline = false ∧ isAtEnd t = true

/-! ## Auxiliary and specification-level definitions -/

/-- A rune on which `skipWhitespace` returns at once: not a blank, a line end or a
comment start (`/` is treated separately, by its successor). -/
def plainRune (c : Nat) : Bool :=
  decide (c ≠ ' '.toNat ∧ c ≠ tabRune ∧ c ≠ carriageReturn ∧ c ≠ lineFeed ∧ c ≠ '#'.toNat ∧
    c ≠ '/'.toNat)

/-- The part of the source that has not been consumed. -/
def unread (t : Tokenizer) : List Nat := t.source.drop t._current

/-- The opening delimiter that a closing delimiter matches (`)`
matches `(`, `]` matches `[`, anything else is taken as the closer of a brace). -/
def openerOf (c : Nat) : Nat :=
  if c = ')'.toNat then '('.toNat else if c = ']'.toNat then '['.toNat else '{'.toNat

/-- The punctuation kind of a delimiter character. -/
def bracketKind (c : Nat) : TokenType :=
  if c = '('.toNat then TokenType.PARENTHESIS_OPEN
  else if c = ')'.toNat then TokenType.PARENTHESIS_CLOSE
  else if c = '['.toNat then TokenType.BRACKET_OPEN
  else if c = ']'.toNat then TokenType.BRACKET_CLOSE
  else if c = '{'.toNat then TokenType.BRACE_OPEN
  else TokenType.BRACE_CLOSE

/-- Well-nestedness of a text made of the six delimiters, written from the
specification:
`stack` holds the unclosed openers, most recent first; an opener is recorded, a
closer must match the most recent unclosed opener, and nothing may be left
unclosed at the end. Any other character makes the text ill-formed. -/
def wellNestedFrom : List Nat → List Nat → Bool
  | [], stack => stack.isEmpty
  | c :: rest, stack =>
    if c = '('.toNat ∨ c = '['.toNat ∨ c = '{'.toNat then wellNestedFrom rest (c :: stack)
    else if c = ')'.toNat ∨ c = ']'.toNat ∨ c = '}'.toNat then
      match stack with
      | [] => false
      | o :: stack1 => decide (o = openerOf c) && wellNestedFrom rest stack1
    else false

/-- A well-nested delimiter text. -/
def wellNested (src : List Nat) : Bool := wellNestedFrom src []

/-- A state between two tokens: nothing queued, nothing buffered, and `length` the
length of the source. -/
structure Quiet (t : Tokenizer) : Prop where
  errors : t.errorStack = []
  pending : t.pendingNewline = false
  length : t.length = t.source.length

/-- The operator kind of a sign character. -/
def signOperator (s : Nat) : TokenType :=
  if s = '+'.toNat then TokenType.PLUS else TokenType.MINUS

/-- A digit separator of number literals: `_` or `,`. -/
def isSeparator (c : Nat) : Bool := decide (c = '_'.toNat ∨ c = ','.toNat)

/-- The value of a digit character in a radix up to 16: `0`-`9`, then `a`-`f` or
`A`-`F` for ten to fifteen. -/
def radixDigitValue (c : Nat) : Nat :=
  if '0'.toNat ≤ c ∧ c ≤ '9'.toNat then c - '0'.toNat
  else if 'a'.toNat ≤ c ∧ c ≤ 'f'.toNat then c - 'a'.toNat + 10
  else c - 'A'.toNat + 10

/-- The value of a digit string read in a radix, most significant digit first. -/
def digitsValue (radix : Nat) (ds : List Nat) : Nat :=
  ds.foldl (fun acc c => acc * radix + radixDigitValue c) 0

/-- The value denoted by the body of a literal: its digits, separators removed,
read in the radix. -/
def literalValue (radix : Nat) (body : List Nat) : Nat :=
  digitsValue radix (body.filter (fun c => !isSeparator c))

/-- A Unicode scalar value: a code point up to U+10FFFF that is not a surrogate.
The runes of a Go string are scalar values. -/
def isScalarValue (c : Nat) : Bool := decide (c < 0xD800 ∨ (0xDFFF < c ∧ c ≤ 0x10FFFF))

/-- The character that a backslash followed by `c` stands for: `\n` is a line feed,
`\t` a tab, `\\` a backslash, `\"` a double quote, and any other escaped character
is that character. -/
def unescape (c : Nat) : Nat :=
  if c = 'n'.toNat then lineFeed
  else if c = 't'.toNat then tabRune
  else if c = backslash then backslash
  else if c = quoteDouble then quoteDouble
  else c

/-- The decoded value of the body of a string literal, read left to right: a
backslash and the character after it stand for `unescape` of that character, any
other character stands for itself (a backslash that ends the body stands for
nothing). -/
def decodeBody : List Nat → List Nat
  | [] => []
  | [c] => if c = backslash then [] else [c]
  | c :: e :: rest =>
    if c = backslash then unescape e :: decodeBody rest else c :: decodeBody (e :: rest)

/-- A body that reads left to right as escape pairs (a backslash and the character
after it) and single characters other than the quote `q` and the backslash: `q`
occurs only as the escaped character of a pair, and no backslash is left unpaired. -/
def escapedBody (q : Nat) : List Nat → Bool
  | [] => true
  | [c] => decide (c ≠ backslash ∧ c ≠ q)
  | c :: e :: rest =>
    if c = backslash then escapedBody q rest else decide (c ≠ q) && escapedBody q (e :: rest)

/-- Every occurrence of `q` in the text stands directly after a backslash; `prev` is
the character before the text. -/
def quoteAfterBackslashFrom (q : Nat) : Nat → List Nat → Bool
  | _, [] => true
  | prev, c :: rest =>
    (decide (c ≠ q) || decide (prev = backslash)) && quoteAfterBackslashFrom q c rest

/-- In the body, `q` occurs only directly after a backslash. -/
def quoteOnlyAfterBackslash (q : Nat) (body : List Nat) : Bool :=
  quoteAfterBackslashFrom q 0 body

/-- The body ends in a backslash that is not paired with a backslash before it: the
run of backslashes that ends the body has odd length. -/
def endsInUnpairedBackslash (body : List Nat) : Bool :=
  decide ((body.reverse.takeWhile (fun c => decide (c = backslash))).length % 2 = 1)

/-- A text that does not close a string opened by `q`: read left to right as escape
pairs (a backslash and the character after it) and single characters, it has no `q`
outside the pairs; a backslash may end it. -/
def unclosedBody (q : Nat) : List Nat → Bool
  | [] => true
  | [c] => decide (c ≠ q)
  | c :: e :: rest =>
    if c = backslash then unclosedBody q rest else decide (c ≠ q) && unclosedBody q (e :: rest)

/-- The characters of which version-control conflict markers are made. -/
def isMarkerChar (c : Nat) : Bool := decide (c = '='.toNat ∨ c = '<'.toNat ∨ c = '>'.toNat)

/-- The doubled operator of a marker character: `==`, `<<` or `>>`. -/
def doubledKind (c : Nat) : TokenType :=
  if c = '='.toNat then TokenType.EQUAL_EQUAL
  else if c = '<'.toNat then TokenType.LESS_LESS
  else TokenType.GREATER_GREATER

/-- The single-character operator of a marker character: `=`, `<` or `>`. -/
def singleKind (c : Nat) : TokenType :=
  if c = '='.toNat then TokenType.EQUAL
  else if c = '<'.toNat then TokenType.LESS
  else TokenType.GREATER

/-- The body of a terminated block comment, between `/*` and `*/`: it contains no
`*/`, and every carriage return in it is followed by a line feed. -/
def blockBodyOK : List Nat → Bool
  | [] => true
  | [c] => decide (c ≠ carriageReturn)
  | c :: d :: rest =>
    if c = carriageReturn then decide (d = lineFeed) && blockBodyOK rest
    else if c = '*'.toNat ∧ d = '/'.toNat then false
    else blockBodyOK (d :: rest)

/-- An item of trivia without fault: a space, a tab, a line feed, a carriage return
with its line feed, a `#` or `//` comment with the line feed that ends it, or a
terminated block comment. -/
inductive TriviaItem where
  | space
  | tab
  | lineEnd
  | crlf
  | hashComment (text : List Nat)
  | slashComment (text : List Nat)
  | blockComment (body : List Nat)
  deriving DecidableEq, Repr

/-- The source text of an item of trivia. -/
def TriviaItem.text : TriviaItem → List Nat
  | .space => [' '.toNat]
  | .tab => [tabRune]
  | .lineEnd => [lineFeed]
  | .crlf => [carriageReturn, lineFeed]
  | .hashComment text => '#'.toNat :: (text ++ [lineFeed])
  | .slashComment text => '/'.toNat :: '/'.toNat :: (text ++ [lineFeed])
  | .blockComment body => '/'.toNat :: '*'.toNat :: (body ++ ['*'.toNat, '/'.toNat])

/-- The item is well formed: the text of a line comment contains no line feed, the
body of a block comment is as `blockBodyOK` says. -/
def TriviaItem.wellFormed : TriviaItem → Bool
  | .hashComment text => decide (lineFeed ∉ text)
  | .slashComment text => decide (lineFeed ∉ text)
  | .blockComment body => blockBodyOK body
  | _ => true

/-- The text of a stretch of trivia: its items one after the other. -/
def triviaText : List TriviaItem → List Nat
  | [] => []
  | it :: its => it.text ++ triviaText its

/-- A text that does not start with trivia: it is empty or starts with a character
other than a blank, a line end and `#`, a `/` counting when it does not open a
comment; a stretch of trivia followed by such a text is maximal. -/
def startsNoTrivia : List Nat → Bool
  | [] => true
  | c :: rest =>
    plainRune c || (decide (c = '/'.toNat) &&
      decide (rest.head? ≠ some '/'.toNat ∧ rest.head? ≠ some '*'.toNat))

/-- What skipping trivia without fault does to the state: the cursor moves forward,
the error queue and the delimiter stack are kept, and a newline is buffered if one
was buffered before or `nl` says that a line feed was consumed. -/
structure Skipped (nl : Bool) (t t1 : Tokenizer) : Prop where
  source : t1.source = t.source
  length : t1.length = t.length
  errorStack : t1.errorStack = t.errorStack
  parenStack : t1.parenStack = t.parenStack
  current : t._current ≤ t1._current
  pending : t1.pendingNewline = (t.pendingNewline || nl)
  newline : NewlineOK t → NewlineOK t1

/-- What may follow the last item of a maximal stretch of trivia: a text that does
not start with trivia, or a `#` or `//` comment that runs to the end of the source
without line feed. -/
def endsStretch (rest : List Nat) : Bool :=
  startsNoTrivia rest ||
    (decide (lineFeed ∉ rest) &&
      (decide (rest.head? = some '#'.toNat) ||
        decide (rest.take 2 = ['/'.toNat, '/'.toNat])))

/-- What is left unread after a maximal stretch of trivia followed by `rest`: a
comment that runs to the end of the source is consumed with the stretch. -/
def afterStretch (rest : List Nat) : List Nat := if startsNoTrivia rest = true then rest else []

/-- The keywords and named constants that the specification lists, with their kinds:
control flow, declarations, word operators, named constants. -/
def listedKeywords : List (GoString × TokenType) :=
  [ (runes "if", TokenType.IF), (runes "elif", TokenType.ELIF), (runes "else", TokenType.ELSE),
    (runes "for", TokenType.FOR), (runes "while", TokenType.WHILE),
    (runes "break", TokenType.BREAK), (runes "continue", TokenType.CONTINUE),
    (runes "pass", TokenType.PASS), (runes "return", TokenType.RETURN),
    (runes "match", TokenType.MATCH), (runes "when", TokenType.WHEN),
    (runes "class", TokenType.CLASS), (runes "const", TokenType.CONST),
    (runes "enum", TokenType.ENUM), (runes "extends", TokenType.EXTENDS),
    (runes "fn", TokenType.FUNCTION), (runes "import", TokenType.IMPORT),
    (runes "in", TokenType.IN), (runes "is", TokenType.IS), (runes "mod", TokenType.MOD),
    (runes "self", TokenType.SELF), (runes "signal", TokenType.SIGNAL),
    (runes "trait", TokenType.TRAIT), (runes "type", TokenType.TYPE),
    (runes "uses", TokenType.USES), (runes "var", TokenType.VAR), (runes "void", TokenType.VOID),
    (runes "and", TokenType.AND), (runes "or", TokenType.OR), (runes "not", TokenType.NOT),
    (runes "PI", TokenType.CONST_PI), (runes "TAU", TokenType.CONST_TAU),
    (runes "INF", TokenType.CONST_INF), (runes "NAN", TokenType.CONST_NAN) ]

/-- The listed keywords together with `as`, which the table of the tokenizer holds
as well. -/
def specKeywords : List (GoString × TokenType) := (runes "as", TokenType.AS) :: listedKeywords

/-- The kind and the payload of the token for an identifier text, as the
specification gives them for a table of keywords: `true` and `false` are boolean
literals, `null` is the literal without payload, a keyword or named constant of the
table has its own kind and its text as payload, anything else is an identifier with
its text as payload. -/
def classifyWith (table : List (GoString × TokenType)) (w : GoString) : TokenType × Value :=
  if w = runes "true" then (TokenType.LITERAL, Value.bool true)
  else if w = runes "false" then (TokenType.LITERAL, Value.bool false)
  else if w = runes "null" then (TokenType.LITERAL, Value.nil)
  else
    match table.lookup w with
    | some k => (k, Value.str w)
    | none => (TokenType.IDENTIFIER, Value.str w)

/-- The classification with the listed keywords and `as`. -/
def classifyWord (w : GoString) : TokenType × Value := classifyWith specKeywords w

/-- An identifier text: a Unicode letter or `_`, followed by Unicode letters, digits
or `_`. -/
def isIdentifierText (L : GoLib) : List Nat → Bool
  | [] => false
  | c :: cs => isUnicodeIdentifierStart L c && cs.all (isUnicodeIdentifierContinue L)

/-- The end of `potentialIdentifier`, from `length := len(name)` on: `t1` is the
state after the loop and `name` the text of the identifier. -/
def wordToken (t1 : Tokenizer) (name : GoString) : Token × Tokenizer :=
  let length := goLen name
  if MinKeywordLength ≤ length ∧ length ≤ MaxKeywordLength then
    if length = 4 ∧ name = runes "true" then makeLiteral t1 (Value.bool true)
    else if length = 4 ∧ name = runes "null" then makeLiteral t1 Value.nil
    else if length = 5 ∧ name = runes "false" then makeLiteral t1 (Value.bool false)
    else
      match keywordsByFirst.lookup (name.headD 0) with
      | none => makeIdentifier t1 name
      | some group =>
        match group.lookup name with
        | none => makeIdentifier t1 name
        | some tokenType => makeKeyword t1 tokenType name
  else makeIdentifier t1 name

/-- The quote, punctuation and operator characters that `Scan` handles. -/
def handledChars : List Nat :=
  quoteDouble :: quoteSingle :: backtickRune :: runes "@~,:;$?()[]\x7b\x7d!.+-*/%^&|=<>"

/-- The message of the error for a character that `Scan` does not recognize. -/
def invalidCharacterMessage (c : Nat) : GoString :=
  runes "Invalid character \"" ++ [c] ++ runes "\""

/-! ## token.go: the names of the token kinds -/

/-- The method `Token.GetName`; `none` stands for the panic of the `default` case. -/
def GetName (ty : TokenType) : Option GoString :=
  match ty with
  | .EMPTY => some (runes "Empty")
  | .ANNOTATION => some (runes "Annotation")
  | .IDENTIFIER => some (runes "Identifier")
  | .LITERAL => some (runes "Literal")
  | .LESS => some (runes "<")
  | .LESS_EQUAL => some (runes "<=")
  | .GREATER => some (runes ">")
  | .GREATER_EQUAL => some (runes ">=")
  | .EQUAL_EQUAL => some (runes "==")
  | .BANG_EQUAL => some (runes "!=")
  | .AND => some (runes "and")
  | .OR => some (runes "or")
  | .NOT => some (runes "not")
  | .AMPERSAND_AMPERSAND => some (runes "&&")
  | .PIPE_PIPE => some (runes "||")
  | .BANG => some (runes "!")
  | .AMPERSAND => some (runes "&")
  | .PIPE => some (runes "|")
  | .TILDE => some (runes "~")
  | .CARET => some (runes "^")
  | .LESS_LESS => some (runes "<<")
  | .GREATER_GREATER => some (runes ">>")
  | .PLUS => some (runes "+")
  | .MINUS => some (runes "-")
  | .STAR => some (runes "*")
  | .STAR_STAR => some (runes "**")
  | .SLASH => some (runes "/")
  | .PERCENT => some (runes "%")
  | .EQUAL => some (runes "=")
  | .PLUS_EQUAL => some (runes "+=")
  | .MINUS_EQUAL => some (runes "-=")
  | .STAR_EQUAL => some (runes "*=")
  | .STAR_STAR_EQUAL => some (runes "**=")
  | .SLASH_EQUAL => some (runes "/=")
  | .PERCENT_EQUAL => some (runes "%=")
  | .LESS_LESS_EQUAL => some (runes "<<=")
  | .GREATER_GREATER_EQUAL => some (runes ">>=")
  | .AMPERSAND_EQUAL => some (runes "&=")
  | .PIPE_EQUAL => some (runes "|=")
  | .CARET_EQUAL => some (runes "^=")
  | .IF => some (runes "if")
  | .ELIF => some (runes "elif")
  | .ELSE => some (runes "else")
  | .FOR => some (runes "for")
  | .WHILE => some (runes "while")
  | .BREAK => some (runes "break")
  | .CONTINUE => some (runes "continue")
  | .PASS => some (runes "pass")
  | .RETURN => some (runes "return")
  | .MATCH => some (runes "match")
  | .WHEN => some (runes "when")
  | .AS => some (runes "as")
  | .CLASS => some (runes "class")
  | .CONST => some (runes "const")
  | .ENUM => some (runes "enum")
  | .EXTENDS => some (runes "extends")
  | .FUNCTION => some (runes "fn")
  | .IMPORT => some (runes "import")
  | .IN => some (runes "in")
  | .IS => some (runes "is")
  | .MOD => some (runes "mod")
  | .SELF => some (runes "self")
  | .SIGNAL => some (runes "signal")
  | .TRAIT => some (runes "trait")
  | .TYPE => some (runes "type")
  | .USES => some (runes "uses")
  | .VAR => some (runes "var")
  | .VOID => some (runes "void")
  | .BRACKET_OPEN => some (runes "[")
  | .BRACKET_CLOSE => some (runes "]")
  | .BRACE_OPEN => some (runes "\x7b")
  | .BRACE_CLOSE => some (runes "\x7d")
  | .PARENTHESIS_OPEN => some (runes "(")
  | .PARENTHESIS_CLOSE => some (runes ")")
  | .COMMA => some (runes ",")
  | .SEMICOLON => some (runes ";")
  | .PERIOD => some (runes ".")
  | .PERIOD_PERIOD => some (runes "..")
  | .PERIOD_PERIOD_PERIOD => some (runes "...")
  | .COLON => some (runes ":")
  | .DOLLAR => some (runes "$")
  | .FORWARD_ARROW => some (runes "->")
  | .UNDERSCORE => some (runes "_")
  | .NEWLINE => some (runes "Newline")
  | .CONST_PI => some (runes "PI")
  | .CONST_TAU => some (runes "TAU")
  | .CONST_INF => some (runes "INF")
  | .CONST_NAN => some (runes "NaN")
  | .VCS_CONFLICT_MARKER => some (runes "VCS conflict marker")
  | .BACKTICK => some (runes "`")
  | .QUESTION_MARK => some (runes "?")
  | .ERROR => some (runes "Error")
  | .EOF => some (runes "End of file")
  | .MAX => none

/-- The operator and assignment kinds: the 36 kinds from `LESS` to `CARET_EQUAL` of
the enumeration (comparison, logical, bitwise, math, assignment). -/
def operatorKinds : List TokenType :=
  [TokenType.LESS, TokenType.LESS_EQUAL, TokenType.GREATER, TokenType.GREATER_EQUAL,
    TokenType.EQUAL_EQUAL, TokenType.BANG_EQUAL, TokenType.AND, TokenType.OR, TokenType.NOT,
    TokenType.AMPERSAND_AMPERSAND, TokenType.PIPE_PIPE, TokenType.BANG, TokenType.AMPERSAND,
    TokenType.PIPE, TokenType.TILDE, TokenType.CARET, TokenType.LESS_LESS,
    TokenType.GREATER_GREATER, TokenType.PLUS, TokenType.MINUS, TokenType.STAR,
    TokenType.STAR_STAR, TokenType.SLASH, TokenType.PERCENT, TokenType.EQUAL,
    TokenType.PLUS_EQUAL, TokenType.MINUS_EQUAL, TokenType.STAR_EQUAL, TokenType.STAR_STAR_EQUAL,
    TokenType.SLASH_EQUAL, TokenType.PERCENT_EQUAL, TokenType.LESS_LESS_EQUAL,
    TokenType.GREATER_GREATER_EQUAL, TokenType.AMPERSAND_EQUAL, TokenType.PIPE_EQUAL,
    TokenType.CARET_EQUAL]

/-! ## Definitions for the statements on faults and spans -/

/-- The message of the fault for a carriage return that no line feed follows. -/
def strayReturnMessage : GoString := runes "Stray carriage return character in source code."

/-- The message of the fault for a block comment that is open at the end of input. -/
def unterminatedCommentMessage : GoString := runes "Unterminated block comment."

/-- What a skip that meets one fault does to the state: the cursor moves forward, one
`ERROR` token with the message of the fault is appended to the queue, the delimiter
stack is kept, and a newline is buffered if one was buffered before or `nl` says that
a line feed was consumed. -/
structure Faulted (msg : GoString) (nl : Bool) (t t1 : Tokenizer) : Prop where
  source : t1.source = t.source
  length : t1.length = t.length
  queue : ∃ e, t1.errorStack = t.errorStack ++ [e] ∧ e.Type_ = TokenType.ERROR ∧
    e.Literal = Value.str msg
  parenStack : t1.parenStack = t.parenStack
  current : t._current ≤ t1._current
  pending : t1.pendingNewline = (t.pendingNewline || nl)
  newline : NewlineOK t → NewlineOK t1

/-- What a recognizer does to the scan cursor and to the saved token start: the line
is kept, the column grows as the offset does, and the token-start line and column
saved by `Scan` are kept. -/
structure Moved (t t1 : Tokenizer) : Prop where
  line : t1.line = t.line
  column : t1.column + (t._current : Int) = t.column + (t1._current : Int)
  startLine : t1.startLine = t.startLine
  startColumn : t1.startColumn = t.startColumn

/-- The span of the token is the single point of the scan cursor in the state
returned with it: start and end line are the line of the cursor, start and end
column are its column. -/
def SpanAtCursor (p : Token × Tokenizer) : Prop :=
  p.1.StartLine = p.2.line ∧ p.1.EndLine = p.2.line ∧ p.1.StartColumn = p.2.column ∧
    p.1.EndColumn = p.2.column

/-- What a recognizer entered in state `t` returns: a state reached by consuming
characters, and a token whose span is the point of the cursor there. -/
def Placed (t : Tokenizer) (p : Token × Tokenizer) : Prop :=
  Moved t p.2 ∧ SpanAtCursor p

/-- The property `Placed` for the result of a call, a fatal failure having no
token. -/
def ResultPlaced (t : Tokenizer) (r : ScanResult) : Prop :=
  ∀ tok t1, r = .ok (tok, t1) → Placed t (tok, t1)

/-- The property `ResultPlaced` for a branch of `scanSwitch` or `scanToken`. -/
def OptionPlaced (t : Tokenizer) (o : Option ScanResult) : Prop :=
  ∀ r, o = some r → ResultPlaced t r

/-! ## Frame facts -/

theorem Frame.refl (t : Tokenizer) : Frame t t :=
  ⟨rfl, rfl, rfl, rfl, rfl, rfl, le_rfl⟩

theorem Frame.trans {a b c : Tokenizer} (h1 : Frame a b) (h2 : Frame b c) : Frame a c :=
  ⟨h2.source.trans h1.source, h2.length.trans h1.length, h2.start.trans h1.start,
    h2.errorStack.trans h1.errorStack, h2.pendingNewline.trans h1.pendingNewline,
    h2.lastNewline.trans h1.lastNewline, le_trans h1.current h2.current⟩

theorem advance_frame (t : Tokenizer) : Frame t (advance t).2 := by
  unfold advance
  split
  · exact Frame.refl t
  · exact ⟨rfl, rfl, rfl, rfl, rfl, rfl, Nat.le_succ _⟩

theorem advance_current (t : Tokenizer) (h : isAtEnd t = false) :
    (advance t).2._current = t._current + 1 := by
  simp [advance, h]

theorem advance_parenStack (t : Tokenizer) : (advance t).2.parenStack = t.parenStack := by
  unfold advance
  split <;> rfl

theorem advance_lastToken (t : Tokenizer) : (advance t).2.lastToken = t.lastToken := by
  unfold advance
  split <;> rfl

theorem peek_ne_zero_not_atEnd (t : Tokenizer) (k : Nat) (h : peek t (k : Int) ≠ 0) :
    t._current + k < t.length := by
  unfold peek at h
  by_contra hc
  apply h
  have : ¬ ((0 : Int) ≤ (t._current : Int) + (k : Int) ∧
      (t._current : Int) + (k : Int) < (t.length : Int)) := by omega
  simp only [this, if_false]

theorem peek0_ne_zero_not_atEnd (t : Tokenizer) (h : peek t 0 ≠ 0) : isAtEnd t = false := by
  have := peek_ne_zero_not_atEnd t 0 (by simpa using h)
  simp [isAtEnd]
  omega

theorem makeToken_frame (t : Tokenizer) (k : TokenType) : Frame t (makeToken t k).2 :=
  ⟨rfl, rfl, rfl, rfl, rfl, rfl, le_rfl⟩

theorem makeToken_type (t : Tokenizer) (k : TokenType) : (makeToken t k).1.Type_ = k := rfl

theorem makeLiteral_frame (t : Tokenizer) (v : Value) : Frame t (makeLiteral t v).2 :=
  ⟨rfl, rfl, rfl, rfl, rfl, rfl, le_rfl⟩

theorem makeLiteral_type (t : Tokenizer) (v : Value) :
    (makeLiteral t v).1.Type_ = TokenType.LITERAL := rfl

theorem makeIdentifier_frame (t : Tokenizer) (n : GoString) : Frame t (makeIdentifier t n).2 :=
  ⟨rfl, rfl, rfl, rfl, rfl, rfl, le_rfl⟩

theorem makeIdentifier_type (t : Tokenizer) (n : GoString) :
    (makeIdentifier t n).1.Type_ = TokenType.IDENTIFIER := rfl

theorem makeKeyword_frame (t : Tokenizer) (k : TokenType) (n : GoString) :
    Frame t (makeKeyword t k n).2 :=
  ⟨rfl, rfl, rfl, rfl, rfl, rfl, le_rfl⟩

theorem makeKeyword_type (t : Tokenizer) (k : TokenType) (n : GoString) :
    (makeKeyword t k n).1.Type_ = k := rfl

theorem makeError_frame (t : Tokenizer) (m : GoString) : Frame t (makeError t m).2 :=
  ⟨rfl, rfl, rfl, rfl, rfl, rfl, le_rfl⟩

theorem makeError_type (t : Tokenizer) (m : GoString) :
    (makeError t m).1.Type_ = TokenType.ERROR := rfl

theorem pushParen_frame (t : Tokenizer) (c : Nat) : Frame t (pushParen t c) :=
  ⟨rfl, rfl, rfl, rfl, rfl, rfl, le_rfl⟩

theorem popParen_frame (t : Tokenizer) (c : Nat) : Frame t (popParen t c).2 := by
  unfold popParen
  split
  · exact Frame.refl t
  · exact ⟨rfl, rfl, rfl, rfl, rfl, rfl, le_rfl⟩

theorem makeParenError_frame (t : Tokenizer) (c : Nat) : Frame t (makeParenError t c).2 := by
  unfold makeParenError
  split
  · exact makeError_frame t _
  · exact ⟨rfl, rfl, rfl, rfl, rfl, rfl, le_rfl⟩

theorem makeParenError_type (t : Tokenizer) (c : Nat) :
    (makeParenError t c).1.Type_ = TokenType.ERROR := by
  unfold makeParenError
  split <;> rfl

/-! ## Frame facts for the recognizers -/

theorem decimalDigitsLoop_frame (fuel : Nat) : ∀ t : Tokenizer, Frame t (decimalDigitsLoop fuel t) := by
  induction fuel with
  | zero => intro t; exact Frame.refl t
  | succ n ih =>
    intro t
    unfold decimalDigitsLoop
    simp only
    split
    · exact (advance_frame t).trans (ih _)
    · exact Frame.refl t

theorem decimalDigits_frame (t : Tokenizer) : Frame t (decimalDigits t) :=
  decimalDigitsLoop_frame _ t

theorem baseDigitsLoop_frame (base fuel : Nat) :
    ∀ (t : Tokenizer) (d : Nat), Frame t (baseDigitsLoop base fuel t d).2 := by
  induction fuel with
  | zero => intro t d; exact Frame.refl t
  | succ n ih =>
    intro t d
    unfold baseDigitsLoop
    simp only
    split
    · exact (advance_frame t).trans (ih _ _)
    · split
      · exact (advance_frame t).trans (ih _ _)
      · exact Frame.refl t

theorem identifierLoop_frame (L : GoLib) (fuel : Nat) :
    ∀ t : Tokenizer, Frame t (identifierLoop L fuel t) := by
  induction fuel with
  | zero => intro t; exact Frame.refl t
  | succ n ih =>
    intro t
    unfold identifierLoop
    split
    · exact (advance_frame t).trans (ih _)
    · exact Frame.refl t

theorem advanceTimes_frame (n : Nat) : ∀ t : Tokenizer, Frame t (advanceTimes n t) := by
  induction n with
  | zero => intro t; exact Frame.refl t
  | succ n ih => intro t; exact (advance_frame t).trans (ih _)

theorem stringTokenLoop_frame (quote fuel : Nat) :
    ∀ (t : Tokenizer) (res : GoString),
      Frame t (stringTokenLoop quote fuel t res).2 ∧
      LiteralOrError (stringTokenLoop quote fuel t res).1 := by
  induction fuel with
  | zero => intro t res; exact ⟨makeError_frame t _, Or.inr rfl⟩
  | succ n ih =>
    intro t res
    unfold stringTokenLoop
    simp only
    split
    · exact ⟨makeError_frame t _, Or.inr rfl⟩
    · split
      · exact ⟨(advance_frame t).trans (makeLiteral_frame _ _), Or.inl rfl⟩
      · split
        · exact ⟨((advance_frame t).trans (advance_frame _)).trans (ih _ _).1, (ih _ _).2⟩
        · exact ⟨(advance_frame t).trans (ih _ _).1, (ih _ _).2⟩

theorem stringToken_frame (t : Tokenizer) :
    Frame t (stringToken t).2 ∧ LiteralOrError (stringToken t).1 :=
  stringTokenLoop_frame _ _ t []

theorem numberFinish_frame (L : GoLib) (start : Nat) (b : Bool) (t : Tokenizer) :
    Frame t (numberFinish L start b t).2 ∧ LiteralOrError (numberFinish L start b t).1 ∧
      SourceOK (numberFinish L start b t) := by
  unfold numberFinish
  simp only
  split
  · split
    · exact ⟨makeError_frame t _, Or.inr rfl, rfl⟩
    · exact ⟨makeLiteral_frame t _, Or.inl rfl, rfl⟩
  · split
    · exact ⟨makeError_frame t _, Or.inr rfl, rfl⟩
    · exact ⟨makeLiteral_frame t _, Or.inl rfl, rfl⟩

theorem numberDecimal_frame (L : GoLib) (start : Nat) (sawDot : Bool) (t1 : Tokenizer) :
    Frame t1 (numberDecimal L start sawDot t1).2 ∧
      LiteralOrError (numberDecimal L start sawDot t1).1 ∧
      SourceOK (numberDecimal L start sawDot t1) := by
  unfold numberDecimal
  simp only
  generalize ht2 : (if sawDot = true then decimalDigits t1 else t1) = t2
  have h2 : Frame t1 t2 := by
    rw [← ht2]; split
    · exact decimalDigits_frame t1
    · exact Frame.refl t1
  generalize hd : (!sawDot && decide (peek t2 0 = '.'.toNat) && isDigit (peek t2 1)) = dotNow
  generalize ht3 : (if dotNow = true then decimalDigits (advance t2).2 else t2) = t3
  have h3 : Frame t2 t3 := by
    rw [← ht3]; split
    · exact (advance_frame t2).trans (decimalDigits_frame _)
    · exact Frame.refl t2
  have h03 : Frame t1 t3 := h2.trans h3
  split
  · generalize ht5 : (if peek (advance t3).2 0 = '+'.toNat ∨ peek (advance t3).2 0 = '-'.toNat
        then (advance (advance t3).2).2 else (advance t3).2) = t5
    have h5 : Frame t3 t5 := by
      rw [← ht5]; split
      · exact (advance_frame t3).trans (advance_frame _)
      · exact advance_frame t3
    split
    · exact ⟨(h03.trans h5).trans (makeError_frame _ _), Or.inr rfl, rfl⟩
    · have hn := numberFinish_frame L start true (decimalDigits t5)
      exact ⟨((h03.trans h5).trans (decimalDigits_frame t5)).trans hn.1, hn.2⟩
  · have hn := numberFinish_frame L start (sawDot || dotNow) t3
    exact ⟨h03.trans hn.1, hn.2⟩

theorem number_frame (L : GoLib) (t : Tokenizer) :
    Frame t (number L t).2 ∧ LiteralOrError (number L t).1 ∧ SourceOK (number L t) := by
  unfold number
  simp only
  split
  · have hb := baseDigitsLoop_frame (baseOfPrefix (peek t 0))
      ((advance t).2.length - (advance t).2._current + 1) (advance t).2 0
    have hf := (advance_frame t).trans hb
    split
    · exact ⟨hf.trans (makeError_frame _ _), Or.inr rfl, rfl⟩
    · split
      · exact ⟨hf.trans (makeError_frame _ _), Or.inr rfl, rfl⟩
      · exact ⟨hf.trans (makeLiteral_frame _ _), Or.inl rfl, rfl⟩
  · generalize ht1 : (if decide (t.source.getD (t._current - 1) 0 = '.'.toNat) = false
        then decimalDigits t else t) = t1
    have h1 : Frame t t1 := by
      rw [← ht1]; split
      · exact decimalDigits_frame t
      · exact Frame.refl t
    have hn := numberDecimal_frame L (t._current - 1)
      (decide (t.source.getD (t._current - 1) 0 = '.'.toNat)) t1
    exact ⟨h1.trans hn.1, hn.2⟩

theorem lookup_mem {α β : Type} [BEq α] [LawfulBEq α] (a : α) (b : β) :
    ∀ l : List (α × β), l.lookup a = some b → (a, b) ∈ l := by
  intro l
  induction l with
  | nil => intro h; simp [List.lookup] at h
  | cons p l ih =>
    intro h
    obtain ⟨k, v⟩ := p
    by_cases hk : a == k
    · have : a = k := by simpa using hk
      subst this
      simp [List.lookup] at h
      subst h
      exact List.mem_cons_self _ _
    · have hne : (a == k) = false := by simpa using hk
      simp only [List.lookup, hne] at h
      exact List.mem_cons_of_mem _ (ih h)

theorem keyword_kinds_not_EOF :
    ∀ g ∈ keywordsByFirst, ∀ p ∈ g.2, p.2 ≠ TokenType.EOF := by
  decide

theorem potentialIdentifier_frame (L : GoLib) (t : Tokenizer) :
    Frame t (potentialIdentifier L t).2 ∧ (potentialIdentifier L t).1.Type_ ≠ TokenType.EOF := by
  unfold potentialIdentifier
  simp only
  have h1 := identifierLoop_frame L (t.length - t._current + 1) t
  split
  · split
    · exact ⟨h1.trans (makeLiteral_frame _ _), by rw [makeLiteral_type]; decide⟩
    · split
      · exact ⟨h1.trans (makeLiteral_frame _ _), by rw [makeLiteral_type]; decide⟩
      · split
        · exact ⟨h1.trans (makeLiteral_frame _ _), by rw [makeLiteral_type]; decide⟩
        · split
          · exact ⟨h1.trans (makeIdentifier_frame _ _), by rw [makeIdentifier_type]; decide⟩
          · rename_i group hg
            split
            · exact ⟨h1.trans (makeIdentifier_frame _ _), by rw [makeIdentifier_type]; decide⟩
            · rename_i ty hty
              refine ⟨h1.trans (makeKeyword_frame _ _ _), ?_⟩
              rw [makeKeyword_type]
              exact keyword_kinds_not_EOF _ (lookup_mem _ _ _ hg) _ (lookup_mem _ _ _ hty)
  · exact ⟨h1.trans (makeIdentifier_frame _ _), by rw [makeIdentifier_type]; decide⟩

theorem checkVCSMarker_frame (t : Tokenizer) (test : Nat) (k : TokenType)
    (hk : k ≠ TokenType.EOF) :
    Frame t (checkVCSMarker t test k).2 ∧ (checkVCSMarker t test k).1.Type_ ≠ TokenType.EOF := by
  unfold checkVCSMarker
  simp only
  split
  · exact ⟨(advanceTimes_frame _ t).trans (makeToken_frame _ _), by rw [makeToken_type]; decide⟩
  · exact ⟨(advance_frame t).trans (makeToken_frame _ _), by rw [makeToken_type]; exact hk⟩

theorem annotation_ok (L : GoLib) (t : Tokenizer) : ResultOK t ( annotation L t) := by
  unfold annotation
  split
  · refine ⟨by simp, ?_⟩
    intro tok t1 h
    simp only [Except.ok.injEq, Prod.mk.injEq] at h
    obtain ⟨h1, h2⟩ := h
    subst h1 h2
    exact ⟨by simp [makeToken, NewToken], ((advance_frame t).trans (identifierLoop_frame L _ _)).trans
      ⟨rfl, rfl, rfl, rfl, rfl, rfl, le_rfl⟩⟩
  · exact ⟨by simp, by intro tok t1 h; simp at h⟩

theorem ok_of_frame (t : Tokenizer) (p : Token × Tokenizer) (hk : p.1.Type_ ≠ TokenType.EOF)
    (hf : Frame t p.2) : ResultOK t (.ok p) := by
  refine ⟨by simp, ?_⟩
  intro tok t1 h
  simp only [Except.ok.injEq] at h
  subst h
  exact ⟨hk, hf⟩

theorem ok_makeToken (t x : Tokenizer) (k : TokenType) (hx : Frame t x)
    (hk : k ≠ TokenType.EOF) : ResultOK t (.ok (makeToken x k)) :=
  ok_of_frame t _ hk (hx.trans (makeToken_frame x k))

theorem literalOrError_ne_EOF (tok : Token) (h : LiteralOrError tok) :
    tok.Type_ ≠ TokenType.EOF := by
  rcases h with h | h <;> rw [h] <;> decide

theorem ok_number (L : GoLib) (t : Tokenizer) : ResultOK t (.ok (number L t)) :=
  ok_of_frame t _ (literalOrError_ne_EOF _ (number_frame L t).2.1) (number_frame L t).1

theorem ok_stringToken (t : Tokenizer) : ResultOK t (.ok (stringToken t)) :=
  ok_of_frame t _ (literalOrError_ne_EOF _ (stringToken_frame t).2) (stringToken_frame t).1

theorem ok_makeParenError (t x : Tokenizer) (c : Nat) (hx : Frame t x) :
    ResultOK t (.ok (makeParenError x c)) :=
  ok_of_frame t _ (by rw [makeParenError_type]; decide) (hx.trans (makeParenError_frame x c))

theorem ok_checkVCSMarker (t : Tokenizer) (test : Nat) (k : TokenType)
    (hk : k ≠ TokenType.EOF) : ResultOK t (.ok (checkVCSMarker t test k)) :=
  ok_of_frame t _ (checkVCSMarker_frame t test k hk).2 (checkVCSMarker_frame t test k hk).1

theorem signedNumber_ok (L : GoLib) (t : Tokenizer) (op : TokenType)
    (hop : op ≠ TokenType.EOF) : ResultOK t (signedNumber L t op) := by
  unfold signedNumber
  split
  · exact ⟨by simp, by intro tok t1 h; simp at h⟩
  · split
    · exact ok_number L t
    · exact ok_makeToken t t op (Frame.refl t) hop

theorem advance2_frame (t : Tokenizer) : Frame t (advance (advance t).2).2 :=
  (advance_frame t).trans (advance_frame _)

theorem optionOK_ite (t : Tokenizer) {p : Prop} [Decidable p] {a b : Option ScanResult}
    (ha : OptionOK t a) (hb : OptionOK t b) : OptionOK t (if p then a else b) := by
  split
  · exact ha
  · exact hb

theorem optionOK_some (t : Tokenizer) {x : ScanResult} (hx : ResultOK t x) :
    OptionOK t (some x) := by
  intro r h
  simp only [Option.some.injEq] at h
  subst h
  exact hx

theorem optionOK_none (t : Tokenizer) : OptionOK t none := by
  intro r h
  simp at h

theorem scanSwitch_ok (L : GoLib) (c : Nat) (t : Tokenizer) : OptionOK t (scanSwitch L c t) := by
  unfold scanSwitch
  repeat' first
    | refine optionOK_ite t ?_ ?_
    | refine optionOK_some t ?_
    | exact optionOK_none t
  all_goals
    first
    | exact ok_stringToken t
    | exact annotation_ok L t
    | exact ok_number L t
    | exact signedNumber_ok L t _ (by decide)
    | exact ok_checkVCSMarker t _ _ (by decide)
    | exact ok_makeParenError t _ _ (popParen_frame t _)
    | exact ok_makeToken t _ _ (Frame.refl t) (by decide)
    | exact ok_makeToken t _ _ (advance_frame t) (by decide)
    | exact ok_makeToken t _ _ (advance2_frame t) (by decide)
    | exact ok_makeToken t _ _ (pushParen_frame t _) (by decide)
    | exact ok_makeToken t _ _ (popParen_frame t _) (by decide)

theorem scanToken_ok (L : GoLib) (c : Nat) (t : Tokenizer) : OptionOK t (scanToken L c t) := by
  unfold scanToken
  refine optionOK_ite t (optionOK_some t (ok_number L t)) ?_
  refine optionOK_ite t (optionOK_some t (ok_stringToken t)) ?_
  refine optionOK_ite t (optionOK_some t ?_) (scanSwitch_ok L c t)
  exact ok_of_frame t _ (potentialIdentifier_frame L t).2 (potentialIdentifier_frame L t).1

/-! ## Trivia skipping keeps the invariants -/

theorem Frame.toTrivia {t t1 : Tokenizer} (h : Frame t t1) : Trivia 0 t t1 := by
  refine ⟨h.source, h.length, h.current, ?_, ?_, ?_⟩
  · intro he e hm
    rw [h.errorStack] at hm
    exact he e hm
  · intro hn hp
    rw [h.pendingNewline] at hp
    rw [h.lastNewline]
    exact hn hp
  · have := h.current
    simp only [workLeft, h.length, h.errorStack, h.pendingNewline]
    omega

theorem Trivia.comp {a b : Int} {t t1 t2 : Tokenizer} (h1 : Trivia a t t1)
    (h2 : Trivia b t1 t2) : Trivia (a + b) t t2 := by
  refine ⟨h2.source.trans h1.source, h2.length.trans h1.length,
    le_trans h1.current h2.current, fun h => h2.errors (h1.errors h),
    fun h => h2.newline (h1.newline h), ?_⟩
  have := h1.work
  have := h2.work
  omega

theorem Trivia.mono {a b : Int} {t t1 : Tokenizer} (h : Trivia a t t1) (hab : a ≤ b) :
    Trivia b t t1 :=
  ⟨h.source, h.length, h.current, h.errors, h.newline, le_trans h.work (by omega)⟩

theorem advance_trivia (t : Tokenizer) (h : isAtEnd t = false) : Trivia (-1) t (advance t).2 := by
  have hf := (advance_frame t).toTrivia
  refine ⟨hf.source, hf.length, hf.current, hf.errors, hf.newline, ?_⟩
  have hc := advance_current t h
  have hfr := advance_frame t
  simp only [isAtEnd, decide_eq_false_iff_not, not_le] at h
  simp only [workLeft, hfr.length, hfr.errorStack, hfr.pendingNewline, hc]
  omega

theorem newline_trivia (t : Tokenizer) : Trivia 1 t (newline t true) := by
  by_cases hp : t.pendingNewline = true
  · have h : newline t true = { t with line := t.line + 1, column := 1 } := by
      simp [newline, hp]
    rw [h]
    refine ⟨rfl, rfl, le_rfl, fun h => h, fun h => h, ?_⟩
    simp only [workLeft]
    omega
  · have hp2 : t.pendingNewline = false := by simpa using hp
    refine ⟨by simp [newline, hp2], by simp [newline, hp2], by simp [newline, hp2],
      fun h => by simpa [newline, hp2, ErrorsOK] using h, ?_, ?_⟩
    · intro _ _
      simp only [newline, hp2, Bool.not_false, Bool.and_self, if_true]
      exact ⟨_, rfl, rfl⟩
    · simp [workLeft, newline, hp2]

theorem pushError_trivia (t : Tokenizer) (m : GoString) : Trivia 1 t (pushError t m) := by
  unfold pushError
  refine ⟨rfl, rfl, le_rfl, ?_, fun h => h, ?_⟩
  · intro he e hm
    simp only [makeError, List.mem_append, List.mem_singleton] at hm
    rcases hm with hm | hm
    · exact he e hm
    · rw [hm]; rfl
  · simp only [workLeft, makeError, List.length_append, List.length_singleton]
    omega

theorem advance2_trivia (t : Tokenizer) (h : t._current + 1 < t.length) :
    Trivia (-2) t (advance (advance t).2).2 := by
  have h1 : isAtEnd t = false := by simp [isAtEnd]; omega
  have h2 : isAtEnd (advance t).2 = false := by
    simp only [isAtEnd, decide_eq_false_iff_not, not_le, advance_current t h1,
      (advance_frame t).length]
    omega
  exact ((advance_trivia t h1).comp (advance_trivia _ h2)).mono (by norm_num)

theorem skipLineCommentLoop_trivia (fuel : Nat) :
    ∀ t : Tokenizer, Trivia 0 t (skipLineCommentLoop fuel t) := by
  induction fuel with
  | zero => intro t; exact (Frame.refl t).toTrivia
  | succ n ih =>
    intro t
    unfold skipLineCommentLoop
    split
    · exact ((advance_frame t).toTrivia.comp (ih _)).mono (by norm_num)
    · exact (Frame.refl t).toTrivia

theorem skipLineComment_trivia (t : Tokenizer) : Trivia 0 t (skipLineComment t) := by
  unfold skipLineComment
  simp only
  have h1 := skipLineCommentLoop_trivia (t.length - t._current + 1) t
  split
  · exact h1
  · rename_i hend
    have hend2 : isAtEnd (skipLineCommentLoop (t.length - t._current + 1) t) = false := by
      simpa using hend
    exact (h1.comp ((advance_trivia _ hend2).comp (newline_trivia _))).mono (by norm_num)

theorem skipBlockCommentLoop_trivia (fuel : Nat) :
    ∀ t : Tokenizer, Trivia 1 t (skipBlockCommentLoop fuel t) := by
  induction fuel with
  | zero => intro t; exact (Frame.refl t).toTrivia.mono (by norm_num)
  | succ n ih =>
    intro t
    unfold skipBlockCommentLoop
    simp only
    split
    · exact pushError_trivia t _
    · rename_i hend
      have hend2 : isAtEnd t = false := by simpa using hend
      split
      · split
        · exact ((advance_trivia t hend2).comp (pushError_trivia _ _)).mono (by norm_num)
        · rename_i hlf
          have hlf2 : peek (advance t).2 0 = lineFeed := by simpa using hlf
          have h3 : isAtEnd (advance t).2 = false :=
            peek0_ne_zero_not_atEnd _ (by rw [hlf2]; decide)
          exact ((advance_trivia t hend2).comp ((advance_trivia _ h3).comp
            ((newline_trivia _).comp (ih _)))).mono (by norm_num)
      · split
        · exact ((advance_trivia t hend2).comp ((newline_trivia _).comp (ih _))).mono
            (by norm_num)
        · split
          · exact (advance2_frame t).toTrivia.mono (by norm_num)
          · exact ((advance_trivia t hend2).comp (ih _)).mono (by norm_num)

theorem skipBlockComment_trivia (t : Tokenizer) : Trivia 1 t (skipBlockComment t) :=
  skipBlockCommentLoop_trivia _ t

theorem column_trivia (t : Tokenizer) (c : Int) : Trivia 0 t { t with column := c } :=
  ⟨rfl, rfl, le_rfl, fun h => h, fun h => h, by simp [workLeft]⟩

theorem skipWhitespaceLoop_trivia (fuel : Nat) :
    ∀ t : Tokenizer, Trivia 0 t (skipWhitespaceLoop fuel t) := by
  induction fuel with
  | zero => intro t; exact (Frame.refl t).toTrivia
  | succ n ih =>
    intro t
    unfold skipWhitespaceLoop
    simp only
    split
    · exact ((advance_frame t).toTrivia.comp (ih _)).mono (by norm_num)
    · split
      · exact ((advance_frame t).toTrivia.comp ((column_trivia _ _).comp (ih _))).mono
          (by norm_num)
      · split
        · rename_i hcr
          have hend : isAtEnd t = false := peek0_ne_zero_not_atEnd _ (by rw [hcr]; decide)
          split
          · exact ((advance_trivia t hend).comp (pushError_trivia _ _)).mono (by norm_num)
          · exact ((advance_frame t).toTrivia.comp (ih _)).mono (by norm_num)
        · split
          · rename_i hlf
            have hend : isAtEnd t = false := peek0_ne_zero_not_atEnd _ (by rw [hlf]; decide)
            exact ((advance_trivia t hend).comp ((newline_trivia _).comp (ih _))).mono
              (by norm_num)
          · split
            · exact ((skipLineComment_trivia t).comp (ih _)).mono (by norm_num)
            · split
              · split
                · exact ((advance2_frame t).toTrivia.comp
                    ((skipLineComment_trivia _).comp (ih _))).mono (by norm_num)
                · split
                  · rename_i hstar
                    have h2 : t._current + 1 < t.length :=
                      peek_ne_zero_not_atEnd t 1 (by
                        have : peek t ((1 : Nat) : Int) = '*'.toNat := by simpa using hstar
                        rw [this]; decide)
                    exact ((advance2_trivia t h2).comp
                      ((skipBlockComment_trivia _).comp (ih _))).mono (by norm_num)
                  · exact (Frame.refl t).toTrivia
              · exact (Frame.refl t).toTrivia

theorem skipWhitespace_trivia (t : Tokenizer) : Trivia 0 t (skipWhitespace t) :=
  skipWhitespaceLoop_trivia _ t

/-! ## What a call of `Scan` guarantees -/

theorem scanPost_of_trivia_neg {t t1 : Tokenizer} {tok : Token} (h : Trivia (-1) t t1)
    (hk : tok.Type_ ≠ TokenType.EOF) (he : ErrorsOK t) (hn : NewlineOK t) :
    ScanPost t tok t1 := by
  have hw := h.work
  refine ⟨h.source, h.length, h.current, h.errors he, h.newline hn, by omega,
    fun _ => by omega, fun hk2 => absurd hk2 hk⟩

theorem scanPost_after {d : Int} {t t1 t2 : Tokenizer} {tok : Token} (h : Trivia d t t1)
    (hd : d ≤ 0) (p : ScanPost t1 tok t2) : ScanPost t tok t2 := by
  have hw := h.work
  have hw2 := p.work
  refine ⟨p.source.trans h.source, p.length.trans h.length, le_trans h.current p.current,
    p.errors, p.newline, by omega, fun hk => ?_, p.terminal⟩
  have := p.progress hk
  omega

theorem popError_post (t : Tokenizer) (he : ErrorsOK t) (hn : NewlineOK t) (tok : Token)
    (t1 : Tokenizer) (h : popError t = .ok (tok, t1)) : ScanPost t tok t1 := by
  unfold popError at h
  split at h
  · simp at h
  · rename_i e hlast
    simp only [Except.ok.injEq, Prod.mk.injEq] at h
    obtain ⟨h1, h2⟩ := h
    subst h1 h2
    have hmem : e ∈ t.errorStack := List.mem_of_getLast?_eq_some hlast
    have hne : t.errorStack ≠ [] := List.ne_nil_of_mem hmem
    have hlen : 0 < t.errorStack.length := List.length_pos.mpr hne
    refine scanPost_of_trivia_neg ⟨rfl, rfl, le_rfl, ?_, fun h => h, ?_⟩
      (by rw [he e hmem]; decide) he hn
    · intro he2 x hx
      exact he2 x (List.mem_of_mem_dropLast hx)
    · simp only [workLeft, List.length_dropLast]
      omega

theorem markStart_trivia (t : Tokenizer) : Trivia 0 t (markStart t) :=
  ⟨rfl, rfl, le_rfl, fun h => h, fun h => h, by simp [workLeft, markStart]⟩

theorem markStart_isAtEnd (t : Tokenizer) : isAtEnd (markStart t) = isAtEnd t := rfl

theorem ScanLoop_spec (L : GoLib) (fuel : Nat) :
    ∀ (t : Tokenizer) (tok : Token) (t1 : Tokenizer), ErrorsOK t → NewlineOK t →
      ScanLoop L fuel t = .ok (tok, t1) → ScanPost t tok t1 := by
  induction fuel with
  | zero => intro t tok t1 _ _ h; simp [ScanLoop] at h
  | succ n ih =>
    intro t tok t1 he hn h
    rw [ScanLoop] at h
    split at h
    · exact popError_post t he hn tok t1 h
    · simp only at h
      have hs := skipWhitespace_trivia t
      have he1 := hs.errors he
      have hn1 := hs.newline hn
      split at h
      · rename_i hpend
        split at h
        · simp at h
        · rename_i nl hnl
          simp only [Except.ok.injEq, Prod.mk.injEq] at h
          obtain ⟨h1, h2⟩ := h
          subst h1 h2
          obtain ⟨nl2, hnl2, hk⟩ := hn1 hpend
          rw [hnl] at hnl2
          simp only [Option.some.injEq] at hnl2
          subst hnl2
          have hx : Trivia (-1) (skipWhitespace t)
              { skipWhitespace t with pendingNewline := false } := by
            refine ⟨rfl, rfl, le_rfl, fun h => h, ?_, ?_⟩
            · intro _ hp; simp at hp
            · simp only [workLeft, hpend]
              simp
          exact scanPost_of_trivia_neg ((hs.comp hx).mono (by norm_num))
            (by rw [hk]; decide) he hn
      · rename_i hpend
        split at h
        · exact scanPost_after hs le_rfl (popError_post _ he1 hn1 tok t1 h)
        · rename_i herr
          have hst := markStart_trivia (skipWhitespace t)
          split at h
          · rename_i hend
            simp only [Except.ok.injEq] at h
            have h1 : tok = (makeToken _ _).1 := (congrArg Prod.fst h).symm
            have h2 : t1 = (makeToken _ _).2 := (congrArg Prod.snd h).symm
            subst h2
            refine scanPost_after (hs.comp hst) (by norm_num) ?_
            refine ⟨rfl, rfl, le_rfl, hst.errors he1, hst.newline hn1, le_rfl,
              fun hk => absurd (by rw [h1, makeToken_type]) hk, fun _ => ⟨?_, ?_, hend⟩⟩
            · have : (skipWhitespace t).errorStack.length = 0 := by
                simpa [hasError] using herr
              exact List.length_eq_zero.mp this
            · simpa using hpend
          · rename_i hend
            have hend2 : isAtEnd (markStart (skipWhitespace t)) = false := by simpa using hend
            have hadv := advance_trivia _ hend2
            have h03 := ((hs.comp hst).comp hadv).mono (b := -1) (by norm_num)
            split at h
            · rename_i r hr
              have hok := scanToken_ok L _ _ r hr
              have hfr := (hok.2 tok t1 h).2
              exact scanPost_of_trivia_neg
                ((h03.comp hfr.toTrivia).mono (by norm_num)) (hok.2 tok t1 h).1 he hn
            · split at h
              · have hs2 := skipWhitespace_trivia (advance (markStart (skipWhitespace t))).2
                have h04 := h03.comp hs2
                exact scanPost_after h04 (by norm_num)
                  (ih _ tok t1 (h04.errors he) (h04.newline hn) h)
              · simp only [Except.ok.injEq] at h
                have h1 : tok = (makeError _ _).1 := (congrArg Prod.fst h).symm
                have h2 : t1 = (makeError _ _).2 := (congrArg Prod.snd h).symm
                subst h2
                exact scanPost_of_trivia_neg
                  ((h03.comp (makeError_frame _ _).toTrivia).mono (by norm_num))
                  (by rw [h1, makeError_type]; decide) he hn

theorem Scan_spec (L : GoLib) (t : Tokenizer) (tok : Token) (t1 : Tokenizer)
    (he : ErrorsOK t) (hn : NewlineOK t) (h : Scan L t = .ok (tok, t1)) : ScanPost t tok t1 :=
  ScanLoop_spec L _ t tok t1 he hn h

theorem popError_ne_outOfFuel (t : Tokenizer) : popError t ≠ .error Fault.outOfFuel := by
  unfold popError
  split <;> simp

theorem ScanLoop_fuel (L : GoLib) (fuel : Nat) :
    ∀ t : Tokenizer, t.length - t._current < fuel →
      ScanLoop L fuel t ≠ .error Fault.outOfFuel := by
  induction fuel with
  | zero => intro t h; omega
  | succ n ih =>
    intro t hlt
    rw [ScanLoop]
    split
    · exact popError_ne_outOfFuel t
    · simp only
      have hs := skipWhitespace_trivia t
      split
      · split <;> simp
      · split
        · exact popError_ne_outOfFuel _
        · split
          · simp
          · rename_i hend
            have hend2 : isAtEnd (markStart (skipWhitespace t)) = false := by simpa using hend
            split
            · rename_i r hr
              exact (scanToken_ok L _ _ r hr).1
            · split
              · apply ih
                have hs2 := skipWhitespace_trivia (advance (markStart (skipWhitespace t))).2
                have hc := advance_current _ hend2
                have hl := (advance_frame (markStart (skipWhitespace t))).length
                have h1 := hs2.current
                have h2 := hs2.length
                have h3 := hs.current
                have h4 := hs.length
                have h5 : (markStart (skipWhitespace t))._current = (skipWhitespace t)._current := rfl
                have h6 : (markStart (skipWhitespace t)).length = (skipWhitespace t).length := rfl
                simp only [isAtEnd, decide_eq_false_iff_not, not_le] at hend2
                omega
              · simp

theorem Scan_ne_outOfFuel (L : GoLib) (t : Tokenizer) : Scan L t ≠ .error Fault.outOfFuel :=
  ScanLoop_fuel L _ t (by omega)

theorem scanN_ne_outOfFuel (L : GoLib) (n : Nat) :
    ∀ t : Tokenizer, scanN L n t ≠ .error Fault.outOfFuel := by
  induction n with
  | zero => intro t; simp [scanN]
  | succ n ih =>
    intro t
    rw [scanN]
    split
    · rename_i e he
      intro h
      simp only [Except.error.injEq] at h
      subst h
      exact Scan_ne_outOfFuel L t he
    · split
      · rename_i e he
        intro h
        simp only [Except.error.injEq] at h
        subst h
        exact ih _ he
      · simp

theorem NewTokenizer_errorsOK (src : List Nat) : ErrorsOK (NewTokenizer src) := by
  intro e he
  simp [NewTokenizer] at he

theorem NewTokenizer_newlineOK (src : List Nat) : NewlineOK (NewTokenizer src) := by
  intro h
  simp [NewTokenizer] at h

theorem scanN_inv (L : GoLib) (n : Nat) :
    ∀ (t : Tokenizer) (toks : List Token) (t1 : Tokenizer), ErrorsOK t → NewlineOK t →
      scanN L n t = .ok (toks, t1) →
      ErrorsOK t1 ∧ NewlineOK t1 ∧ t1.source = t.source ∧ t1.length = t.length ∧
        workLeft t1 ≤ workLeft t := by
  induction n with
  | zero =>
    intro t toks t1 he hn h
    simp only [scanN, Except.ok.injEq, Prod.mk.injEq] at h
    obtain ⟨_, h2⟩ := h
    subst h2
    exact ⟨he, hn, rfl, rfl, le_rfl⟩
  | succ n ih =>
    intro t toks t1 he hn h
    rw [scanN] at h
    split at h
    · simp at h
    · rename_i tok t2 hscan
      have hp := Scan_spec L t tok t2 he hn hscan
      split at h
      · simp at h
      · rename_i toks2 t3 hrest
        simp only [Except.ok.injEq, Prod.mk.injEq] at h
        obtain ⟨_, h2⟩ := h
        subst h2
        obtain ⟨a, b, c, d, e⟩ := ih t2 toks2 t3 hp.errors hp.newline hrest
        exact ⟨a, b, c.trans hp.source, d.trans hp.length, le_trans e hp.work⟩

theorem reachable_inv (L : GoLib) (t : Tokenizer) (h : Reachable L t) :
    ErrorsOK t ∧ NewlineOK t ∧ t.length = t.source.length := by
  obtain ⟨src, n, toks, hrun⟩ := h
  obtain ⟨a, b, c, d, _⟩ := scanN_inv L n _ toks t (NewTokenizer_errorsOK src)
    (NewTokenizer_newlineOK src) hrun
  exact ⟨a, b, by rw [d, c]; rfl⟩

/-! ## The end of input is reached and kept -/

theorem peek_atEnd (t : Tokenizer) (h : isAtEnd t = true) : peek t 0 = 0 := by
  simp only [isAtEnd, decide_eq_true_eq] at h
  unfold peek
  have : ¬ ((0 : Int) ≤ (t._current : Int) + 0 ∧ (t._current : Int) + 0 < (t.length : Int)) := by
    omega
  simp only [this, if_false]

theorem skipWhitespace_atEnd (t : Tokenizer) (h : isAtEnd t = true) : skipWhitespace t = t := by
  unfold skipWhitespace
  rw [skipWhitespaceLoop]
  simp [peek_atEnd t h, tabRune, carriageReturn, lineFeed]

theorem Scan_terminal (L : GoLib) (t : Tokenizer) (h : Terminal t) :
    ∃ tok t1, Scan L t = .ok (tok, t1) ∧ tok.Type_ = TokenType.EOF ∧ Terminal t1 := by
  obtain ⟨h1, h2, h3⟩ := h
  refine ⟨(makeToken (markStart t) TokenType.EOF).1, (makeToken (markStart t) TokenType.EOF).2,
    ?_, rfl, ?_⟩
  · unfold Scan
    rw [ScanLoop]
    have he : hasError t = false := by simp [hasError, h1]
    have ha : isAtEnd (markStart t) = true := h3
    simp only [he, skipWhitespace_atEnd t h3, h2, ha, Bool.false_eq_true, if_false, if_true]
  · exact ⟨h1, h2, h3⟩

theorem scanN_terminal (L : GoLib) (n : Nat) :
    ∀ t : Tokenizer, Terminal t →
      ∃ toks t1, scanN L n t = .ok (toks, t1) ∧ toks.length = n ∧
        ∀ x ∈ toks, x.Type_ = TokenType.EOF := by
  induction n with
  | zero => intro t _; exact ⟨[], t, rfl, rfl, by simp⟩
  | succ n ih =>
    intro t ht
    obtain ⟨tok, t1, hs, hk, ht1⟩ := Scan_terminal L t ht
    obtain ⟨toks, t2, hr, hlen, hall⟩ := ih t1 ht1
    refine ⟨tok :: toks, t2, ?_, by simp [hlen], ?_⟩
    · rw [scanN, hs]
      simp only [hr]
    · intro x hx
      rcases List.mem_cons.mp hx with hx | hx
      · rw [hx]; exact hk
      · exact hall x hx

theorem trace_x (L : GoLib) :
    scanN L 2 (NewTokenizer (runes "x")) =
    .ok ([Token.mk TokenType.IDENTIFIER (Value.str [120]) 1 1 2 2 (-1) CursorPlace.CURSOR_NONE [120],
          Token.mk TokenType.EOF Value.nil 1 1 2 2 (-1) CursorPlace.CURSOR_NONE []],
      Tokenizer.mk [120] 1 1 2 [] false
        (some (Token.mk TokenType.EOF Value.nil 1 1 2 2 (-1) CursorPlace.CURSOR_NONE []))
        none 1 1 2 1 1 4 []) := by
  have h0 : NewTokenizer (runes "x") =
      Tokenizer.mk [120] 0 0 0 [] false none none 0 1 1 0 1 4 [] := rfl
  have s1 : Scan L (Tokenizer.mk [120] 0 0 0 [] false none none 0 1 1 0 1 4 []) =
      .ok (Token.mk TokenType.IDENTIFIER (Value.str [120]) 1 1 2 2 (-1)
            CursorPlace.CURSOR_NONE [120],
        Tokenizer.mk [120] 0 1 1 [] false
          (some (Token.mk TokenType.IDENTIFIER (Value.str [120]) 1 1 2 2 (-1)
            CursorPlace.CURSOR_NONE [120])) none 1 1 2 1 1 4 []) := rfl
  have s2 : Scan L (Tokenizer.mk [120] 0 1 1 [] false
          (some (Token.mk TokenType.IDENTIFIER (Value.str [120]) 1 1 2 2 (-1)
            CursorPlace.CURSOR_NONE [120])) none 1 1 2 1 1 4 []) =
      .ok (Token.mk TokenType.EOF Value.nil 1 1 2 2 (-1) CursorPlace.CURSOR_NONE [],
        Tokenizer.mk [120] 1 1 2 [] false
          (some (Token.mk TokenType.EOF Value.nil 1 1 2 2 (-1) CursorPlace.CURSOR_NONE []))
          none 1 1 2 1 1 4 []) := rfl
  simp only [h0, scanN, s1, s2]

theorem scanN_succ_last (L : GoLib) (n : Nat) :
    ∀ (t : Tokenizer) (toks : List Token) (t1 : Tokenizer) (tok : Token) (t2 : Tokenizer),
      scanN L n t = .ok (toks, t1) → Scan L t1 = .ok (tok, t2) →
      scanN L (n + 1) t = .ok (toks ++ [tok], t2) := by
  induction n with
  | zero =>
    intro t toks t1 tok t2 h hs
    simp only [scanN, Except.ok.injEq, Prod.mk.injEq] at h
    obtain ⟨h1, h2⟩ := h
    subst h1 h2
    simp [scanN, hs]
  | succ n ih =>
    intro t toks t1 tok t2 h hs
    rw [scanN] at h
    split at h
    · simp at h
    · rename_i tok0 t0 h0
      split at h
      · simp at h
      · rename_i toks1 t3 h3
        simp only [Except.ok.injEq, Prod.mk.injEq] at h
        obtain ⟨h1, h2⟩ := h
        subst h1 h2
        have := ih t0 toks1 t3 tok t2 h3 hs
        rw [scanN, h0]
        simp only [this, List.cons_append]

/-- C1: once `Scan` has returned a token of kind `EOF` on a tokenizer (any state
reached from a fresh tokenizer), each of the next `n` calls succeeds and returns a
token of kind `EOF`, for every `n`. -/
theorem eof_is_idempotent (L : GoLib) (t : Tokenizer) (hr : Reachable L t) (tok : Token)
    (t1 : Tokenizer) (h : Scan L t = .ok (tok, t1)) (hk : tok.Type_ = TokenType.EOF) (n : Nat) :
    ∃ toks t2, scanN L n t1 = .ok (toks, t2) ∧ toks.length = n ∧
      ∀ x ∈ toks, x.Type_ = TokenType.EOF := by
  obtain ⟨he, hn, _⟩ := reachable_inv L t hr
  exact scanN_terminal L n t1 ((Scan_spec L t tok t1 he hn h).terminal hk)

theorem scanN_reaches (L : GoLib) (k : Nat) :
    ∀ t : Tokenizer, ErrorsOK t → NewlineOK t → workLeft t ≤ k →
      (∀ e, scanN L (k + 1) t ≠ .error e) →
      ∃ toks t1, scanN L (k + 1) t = .ok (toks, t1) ∧
        ∃ tok ∈ toks, tok.Type_ = TokenType.EOF := by
  induction k with
  | zero =>
    intro t he hn hw hne
    rw [scanN] at hne ⊢
    cases hs : Scan L t with
    | error e => rw [hs] at hne; exact absurd rfl (hne e)
    | ok p =>
      obtain ⟨tok, t2⟩ := p
      have hp := Scan_spec L t tok t2 he hn hs
      simp only [scanN]
      refine ⟨_, _, rfl, tok, List.mem_cons_self _ _, ?_⟩
      by_contra hk
      have := hp.progress hk
      omega
  | succ k ih =>
    intro t he hn hw hne
    rw [scanN] at hne ⊢
    cases hs : Scan L t with
    | error e => rw [hs] at hne; exact absurd rfl (hne e)
    | ok p =>
      obtain ⟨tok, t2⟩ := p
      have hp := Scan_spec L t tok t2 he hn hs
      rw [hs] at hne
      simp only at hne ⊢
      cases h3 : scanN L (k + 1) t2 with
      | error e => rw [h3] at hne; exact absurd rfl (hne e)
      | ok q =>
        obtain ⟨toks2, t3⟩ := q
        simp only
        by_cases hk : tok.Type_ = TokenType.EOF
        · exact ⟨_, _, rfl, tok, List.mem_cons_self _ _, hk⟩
        · have hlt := hp.progress hk
          obtain ⟨toks4, t4, h4, tok4, hm4, hk4⟩ :=
            ih t2 hp.errors hp.newline (by omega) (by rw [h3]; intro e; simp)
          rw [h3] at h4
          simp only [Except.ok.injEq, Prod.mk.injEq] at h4
          obtain ⟨h5, _⟩ := h4
          subst h5
          exact ⟨_, _, rfl, tok4, List.mem_cons_of_mem _ hm4, hk4⟩

/-- C3: for a source of `n` code points, the first `n + 1` calls never exhaust the
recursion budget of the model, and if none of them fails fatally one of them
returns `EOF`; moreover every call that returns a token other than `EOF` consumes
a code point, delivers the buffered newline or removes a queued error. -/
theorem scan_reaches_eof (L : GoLib) (src : List Nat) :
    scanN L (src.length + 1) (NewTokenizer src) ≠ .error Fault.outOfFuel ∧
    ((∀ e, scanN L (src.length + 1) (NewTokenizer src) ≠ .error e) →
      ∃ toks t, scanN L (src.length + 1) (NewTokenizer src) = .ok (toks, t) ∧
        ∃ tok ∈ toks, tok.Type_ = TokenType.EOF) ∧
    (∀ (n : Nat) (toks : List Token) (t : Tokenizer) (tok : Token) (t1 : Tokenizer),
      scanN L n (NewTokenizer src) = .ok (toks, t) → Scan L t = .ok (tok, t1) →
      tok.Type_ ≠ TokenType.EOF →
      t._current < t1._current ∨ (t.pendingNewline = true ∧ t1.pendingNewline = false) ∨
        t1.errorStack.length < t.errorStack.length) := by
  refine ⟨scanN_ne_outOfFuel L _ _, ?_, ?_⟩
  · exact scanN_reaches L src.length (NewTokenizer src) (NewTokenizer_errorsOK src)
      (NewTokenizer_newlineOK src) (by simp [workLeft, NewTokenizer])
  · intro n toks t tok t1 hrun hs hk
    obtain ⟨he, hn, _⟩ := scanN_inv L n _ toks t (NewTokenizer_errorsOK src)
      (NewTokenizer_newlineOK src) hrun
    have hp := Scan_spec L t tok t1 he hn hs
    have hlt := hp.progress hk
    have hc := hp.current
    have hl := hp.length
    simp only [workLeft, hl] at hlt
    by_cases h1 : t._current < t1._current
    · exact Or.inl h1
    · have heq : t1._current = t._current := by omega
      rw [heq] at hlt
      by_cases h2 : t1.errorStack.length < t.errorStack.length
      · exact Or.inr (Or.inr h2)
      · refine Or.inr (Or.inl ?_)
        cases hp1 : t.pendingNewline <;> cases hp2 : t1.pendingNewline <;>
          simp [hp1, hp2] at hlt ⊢ <;> omega

theorem eof_is_idempotent_witness :
    Reachable GoLib.trivial (Tokenizer.mk [120] 0 1 1 [] false
        (some (Token.mk TokenType.IDENTIFIER (Value.str [120]) 1 1 2 2 (-1)
          CursorPlace.CURSOR_NONE [120])) none 1 1 2 1 1 4 []) ∧
    ∃ toks t2, scanN GoLib.trivial 3 (Tokenizer.mk [120] 1 1 2 [] false
        (some (Token.mk TokenType.EOF Value.nil 1 1 2 2 (-1) CursorPlace.CURSOR_NONE []))
        none 1 1 2 1 1 4 []) = .ok (toks, t2) ∧ toks.length = 3 ∧
      ∀ x ∈ toks, x.Type_ = TokenType.EOF :=
  ⟨⟨runes "x", 1, _, rfl⟩,
    eof_is_idempotent GoLib.trivial
      (Tokenizer.mk [120] 0 1 1 [] false
        (some (Token.mk TokenType.IDENTIFIER (Value.str [120]) 1 1 2 2 (-1)
          CursorPlace.CURSOR_NONE [120])) none 1 1 2 1 1 4 [])
      ⟨runes "x", 1, _, rfl⟩
      (Token.mk TokenType.EOF Value.nil 1 1 2 2 (-1) CursorPlace.CURSOR_NONE []) _ rfl rfl 3⟩

theorem scan_reaches_eof_witness :
    (∃ toks t, scanN GoLib.trivial ((runes "x").length + 1) (NewTokenizer (runes "x")) =
        .ok (toks, t) ∧ ∃ tok ∈ toks, tok.Type_ = TokenType.EOF) ∧
    ((NewTokenizer (runes "x"))._current <
        (Tokenizer.mk [120] 0 1 1 [] false
          (some (Token.mk TokenType.IDENTIFIER (Value.str [120]) 1 1 2 2 (-1)
            CursorPlace.CURSOR_NONE [120])) none 1 1 2 1 1 4 [])._current ∨
      ((NewTokenizer (runes "x")).pendingNewline = true ∧
        (Tokenizer.mk [120] 0 1 1 [] false
          (some (Token.mk TokenType.IDENTIFIER (Value.str [120]) 1 1 2 2 (-1)
            CursorPlace.CURSOR_NONE [120])) none 1 1 2 1 1 4 []).pendingNewline = false) ∨
      (Tokenizer.mk [120] 0 1 1 [] false
          (some (Token.mk TokenType.IDENTIFIER (Value.str [120]) 1 1 2 2 (-1)
            CursorPlace.CURSOR_NONE [120])) none 1 1 2 1 1 4 []).errorStack.length <
        (NewTokenizer (runes "x")).errorStack.length) :=
  ⟨(scan_reaches_eof GoLib.trivial (runes "x")).2.1
      (by intro e; rw [show (runes "x").length + 1 = 2 from rfl, trace_x]; simp),
    (scan_reaches_eof GoLib.trivial (runes "x")).2.2 0 [] (NewTokenizer (runes "x"))
      (Token.mk TokenType.IDENTIFIER (Value.str [120]) 1 1 2 2 (-1)
        CursorPlace.CURSOR_NONE [120]) _ rfl rfl (by decide)⟩

/-! ## The cursor view of a call -/

theorem skipWhitespace_plain (t : Tokenizer) (h : plainRune (peek t 0) = true) :
    skipWhitespace t = t := by
  unfold skipWhitespace
  rw [skipWhitespaceLoop]
  simp only [plainRune, decide_eq_true_eq] at h
  obtain ⟨h1, h2, h3, h4, h5, h6⟩ := h
  simp only [h1, h2, h3, h4, h5, h6, if_false]

theorem advance_fst (t : Tokenizer) (h : isAtEnd t = false) : (advance t).1 = peek t 0 := by
  simp only [isAtEnd, decide_eq_false_iff_not, not_le] at h
  have hc : (0 : Int) ≤ (t._current : Int) + 0 ∧ (t._current : Int) + 0 < (t.length : Int) := by
    omega
  have hn : ¬ t.length ≤ t._current := by omega
  simp [advance, isAtEnd, peek, h, hn]

/-- One call of `Scan` on a state with nothing queued or buffered whose next rune
starts no trivia: the token is the one recognised by `scanToken`. -/
theorem Scan_plain (L : GoLib) (t : Tokenizer) (r : ScanResult)
    (he : t.errorStack = []) (hp : t.pendingNewline = false) (hend : isAtEnd t = false)
    (hc : plainRune (peek t 0) = true)
    (hr : scanToken L (peek t 0) (advance (markStart t)).2 = some r) : Scan L t = r := by
  unfold Scan
  rw [ScanLoop]
  have he1 : hasError t = false := by simp [hasError, he]
  have ha : isAtEnd (markStart t) = false := hend
  have hf : (advance (markStart t)).1 = peek t 0 := by
    rw [advance_fst _ ha]; rfl
  simp only [he1, skipWhitespace_plain t hc, hp, ha, hf, hr, Bool.false_eq_true, if_false]

theorem peek_eq_unread (t : Tokenizer) (hl : t.length = t.source.length) (k : Nat) :
    peek t (k : Int) = (unread t).getD k 0 := by
  unfold peek unread
  simp only [List.getD_eq_getElem?_getD, List.getElem?_drop]
  by_cases h : t._current + k < t.length
  · have hc : (0 : Int) ≤ (t._current : Int) + (k : Int) ∧
        (t._current : Int) + (k : Int) < (t.length : Int) := by omega
    have hi : ((t._current : Int) + (k : Int)).toNat = t._current + k := by omega
    simp only [hc, and_self, if_true, hi]
  · have hc : ¬ ((0 : Int) ≤ (t._current : Int) + (k : Int) ∧
        (t._current : Int) + (k : Int) < (t.length : Int)) := by omega
    simp only [hc, if_false]
    rw [List.getElem?_eq_none (by omega)]
    rfl

theorem peek0_eq_unread (t : Tokenizer) (hl : t.length = t.source.length) :
    peek t 0 = (unread t).getD 0 0 := peek_eq_unread t hl 0

theorem peek1_eq_unread (t : Tokenizer) (hl : t.length = t.source.length) :
    peek t 1 = (unread t).getD 1 0 := peek_eq_unread t hl 1

theorem isAtEnd_of_unread_cons (t : Tokenizer) (hl : t.length = t.source.length) (c : Nat)
    (cs : List Nat) (h : unread t = c :: cs) : isAtEnd t = false := by
  unfold unread at h
  simp only [isAtEnd, decide_eq_false_iff_not, not_le]
  by_contra hc
  rw [List.drop_eq_nil_of_le (by omega)] at h
  simp at h

theorem isAtEnd_of_unread_nil (t : Tokenizer) (hl : t.length = t.source.length)
    (h : unread t = []) : isAtEnd t = true := by
  unfold unread at h
  simp only [isAtEnd, decide_eq_true_eq]
  have := List.drop_eq_nil_iff.mp h
  omega

theorem unread_advance (t : Tokenizer) (hl : t.length = t.source.length) (c : Nat)
    (cs : List Nat) (h : unread t = c :: cs) : unread (advance t).2 = cs := by
  have hend := isAtEnd_of_unread_cons t hl c cs h
  unfold unread at h ⊢
  rw [advance_current t hend, (advance_frame t).source, ← List.drop_drop, h]
  rfl

/-! ## Delimiters -/

theorem scanToken_open (L : GoLib) (c : Nat) (t : Tokenizer)
    (hc : c = '('.toNat ∨ c = '['.toNat ∨ c = '{'.toNat) :
    scanToken L c t = some (.ok (makeToken (pushParen t c) (bracketKind c))) := by
  rcases hc with h | h | h <;> subst h <;> rfl

theorem scanToken_close (L : GoLib) (c : Nat) (t : Tokenizer)
    (hc : c = ')'.toNat ∨ c = ']'.toNat ∨ c = '}'.toNat) :
    scanToken L c t =
      if (popParen t (openerOf c)).1 = false then
        some (.ok (makeParenError (popParen t (openerOf c)).2 c))
      else some (.ok (makeToken (popParen t (openerOf c)).2 (bracketKind c))) := by
  rcases hc with h | h | h <;> subst h <;> rfl

theorem plainRune_bracket (c : Nat)
    (hc : c = '('.toNat ∨ c = '['.toNat ∨ c = '{'.toNat ∨ c = ')'.toNat ∨ c = ']'.toNat ∨
      c = '}'.toNat) : plainRune c = true := by
  rcases hc with h | h | h | h | h | h <;> subst h <;> rfl

theorem quiet_of_frame {t t1 : Tokenizer} (h : Frame t t1) (q : Quiet t) : Quiet t1 :=
  ⟨h.errorStack.trans q.errors, h.pendingNewline.trans q.pending,
    by rw [h.length, h.source]; exact q.length⟩

theorem quiet_markStart {t : Tokenizer} (q : Quiet t) : Quiet (markStart t) :=
  ⟨q.errors, q.pending, q.length⟩

theorem makeToken_unread (t : Tokenizer) (k : TokenType) :
    unread (makeToken t k).2 = unread t := rfl

theorem makeToken_parenStack (t : Tokenizer) (k : TokenType) :
    (makeToken t k).2.parenStack = t.parenStack := rfl

theorem Scan_nil (L : GoLib) (t : Tokenizer) (q : Quiet t) (h : unread t = []) :
    Scan L t = .ok (makeToken (markStart t) TokenType.EOF) := by
  have h3 := isAtEnd_of_unread_nil t q.length h
  unfold Scan
  rw [ScanLoop]
  have he : hasError t = false := by simp [hasError, q.errors]
  have ha : isAtEnd (markStart t) = true := h3
  simp only [he, skipWhitespace_atEnd t h3, q.pending, ha, Bool.false_eq_true, if_false, if_true]

/-- The delimiter stream of a well-nested text, from any quiet state whose
delimiter stack mirrors the checker's stack. -/
theorem scanN_wellNested (L : GoLib) :
    ∀ (rest : List Nat) (stack : List Nat) (t : Tokenizer), Quiet t → unread t = rest →
      t.parenStack = stack.reverse → wellNestedFrom rest stack = true →
      ∃ toks t1, scanN L (rest.length + 1) t = .ok (toks, t1) ∧
        toks.map (fun tok => tok.Type_) = rest.map bracketKind ++ [TokenType.EOF] ∧
        t1.parenStack = [] := by
  intro rest
  induction rest with
  | nil =>
    intro stack t q hu hst hw
    refine ⟨[(makeToken (markStart t) TokenType.EOF).1],
      (makeToken (markStart t) TokenType.EOF).2, ?_, rfl, ?_⟩
    · simp only [List.length_nil, zero_add, scanN, Scan_nil L t q hu]
    · simp only [wellNestedFrom, List.isEmpty_eq_true] at hw
      rw [makeToken_parenStack]
      show t.parenStack = []
      rw [hst, hw]; rfl
  | cons c rest ih =>
    intro stack t q hu hst hw
    have hend := isAtEnd_of_unread_cons t q.length c rest hu
    have hpeek : peek t 0 = c := by rw [peek0_eq_unread t q.length, hu]; rfl
    have hqm := quiet_markStart q
    have hum : unread (markStart t) = c :: rest := hu
    have hua := unread_advance (markStart t) hqm.length c rest hum
    have hqa := quiet_of_frame (advance_frame (markStart t)) hqm
    have hpa : (advance (markStart t)).2.parenStack = stack.reverse := by
      rw [advance_parenStack]; exact hst
    simp only [wellNestedFrom] at hw
    split at hw
    · rename_i hopen
      have hs : Scan L t = .ok (makeToken (pushParen (advance (markStart t)).2 c)
          (bracketKind c)) :=
        Scan_plain L t _ q.errors q.pending hend
          (by rw [hpeek]; exact plainRune_bracket c (by tauto))
          (by rw [hpeek]; exact scanToken_open L c _ hopen)
      obtain ⟨toks, t1, hrun, hk, hp⟩ := ih (c :: stack)
        (makeToken (pushParen (advance (markStart t)).2 c) (bracketKind c)).2
        (quiet_of_frame ((pushParen_frame _ _).trans (makeToken_frame _ _)) hqa)
        hua (by rw [makeToken_parenStack]; simp [pushParen, hpa]) hw
      refine ⟨(makeToken (pushParen (advance (markStart t)).2 c) (bracketKind c)).1 :: toks,
        t1, ?_, ?_, hp⟩
      · rw [List.length_cons, scanN, hs]
        simp only [hrun]
      · simp only [List.map_cons, hk, List.cons_append, makeToken_type]
    · split at hw
      · rename_i hclose
        cases stack with
        | nil => simp at hw
        | cons o stack1 =>
          simp only [Bool.and_eq_true, decide_eq_true_eq] at hw
          obtain ⟨ho, hw1⟩ := hw
          have hlast : (advance (markStart t)).2.parenStack.getLast? = some (openerOf c) := by
            rw [hpa, List.reverse_cons, List.getLast?_append, ho]; rfl
          have hpop1 : (popParen (advance (markStart t)).2 (openerOf c)).1 = true := by
            simp [popParen, hlast]
          have hpop2 : (popParen (advance (markStart t)).2 (openerOf c)).2.parenStack =
              stack1.reverse := by
            simp [popParen, hlast, hpa]
          have hs : Scan L t = .ok (makeToken (popParen (advance (markStart t)).2 (openerOf c)).2
              (bracketKind c)) :=
            Scan_plain L t _ q.errors q.pending hend
              (by rw [hpeek]; exact plainRune_bracket c (by tauto))
              (by rw [hpeek, scanToken_close L c _ hclose]; simp [hpop1])
          obtain ⟨toks, t1, hrun, hk, hp⟩ := ih stack1
            (makeToken (popParen (advance (markStart t)).2 (openerOf c)).2 (bracketKind c)).2
            (quiet_of_frame ((popParen_frame _ _).trans (makeToken_frame _ _)) hqa)
            (by
              rw [makeToken_unread]
              have : unread (popParen (advance (markStart t)).2 (openerOf c)).2 =
                  unread (advance (markStart t)).2 := by
                simp [popParen, hlast, unread]
              rw [this]; exact hua)
            (by rw [makeToken_parenStack]; exact hpop2) hw1
          refine ⟨(makeToken (popParen (advance (markStart t)).2 (openerOf c)).2
            (bracketKind c)).1 :: toks, t1, ?_, ?_, hp⟩
          · rw [List.length_cons, scanN, hs]
            simp only [hrun]
          · simp only [List.map_cons, hk, List.cons_append, makeToken_type]
      · simp at hw

theorem trace_paren_bracket (L : GoLib) :
    scanN L 3 (NewTokenizer (runes "(]")) =
    .ok ([(Token.mk TokenType.PARENTHESIS_OPEN Value.nil 1 1 2 2 (-1) CursorPlace.CURSOR_NONE (runes
        "(")), (Token.mk TokenType.ERROR (Value.str (runes
        "Closing \"]\" doesn't have an opening counterpart.")) 1 1 3 3 (-1) CursorPlace.CURSOR_NONE
        (runes "]")), (Token.mk TokenType.EOF Value.nil 1 1 3 3 (-1) CursorPlace.CURSOR_NONE [])],
        (Tokenizer.mk (runes "(]") 2 1 3 [] false (some (Token.mk TokenType.EOF Value.nil 1 1 3 3
        (-1) CursorPlace.CURSOR_NONE [])) none 2 1 3 2 2 4 [])) := by
  have h0 : NewTokenizer (runes "(]") = (Tokenizer.mk (runes "(]") 0 0 0 [] false none none 0 1 1 0
      2 4 []) := rfl
  have s1 : Scan L (Tokenizer.mk (runes "(]") 0 0 0 [] false none none 0 1 1 0 2 4 []) = .ok
      ((Token.mk TokenType.PARENTHESIS_OPEN Value.nil 1 1 2 2 (-1) CursorPlace.CURSOR_NONE (runes
      "(")), (Tokenizer.mk (runes "(]") 0 1 1 [] false (some (Token.mk TokenType.PARENTHESIS_OPEN
      Value.nil 1 1 2 2 (-1) CursorPlace.CURSOR_NONE (runes "("))) none 1 1 2 1 2 4 (runes "("))) :=
      rfl
  have s2 : Scan L (Tokenizer.mk (runes "(]") 0 1 1 [] false (some (Token.mk
      TokenType.PARENTHESIS_OPEN Value.nil 1 1 2 2 (-1) CursorPlace.CURSOR_NONE (runes "("))) none 1
      1 2 1 2 4 (runes "(")) = .ok ((Token.mk TokenType.ERROR (Value.str (runes
      "Closing \"]\" doesn't have an opening counterpart.")) 1 1 3 3 (-1) CursorPlace.CURSOR_NONE
      (runes "]")), (Tokenizer.mk (runes "(]") 1 1 2 [] false (some (Token.mk TokenType.ERROR
      (Value.str (runes "Closing \"]\" doesn't have an opening counterpart.")) 1 1 3 3 (-1)
      CursorPlace.CURSOR_NONE (runes "]"))) none 2 1 3 2 2 4 [])) := rfl
  have s3 : Scan L (Tokenizer.mk (runes "(]") 1 1 2 [] false (some (Token.mk TokenType.ERROR
      (Value.str (runes "Closing \"]\" doesn't have an opening counterpart.")) 1 1 3 3 (-1)
      CursorPlace.CURSOR_NONE (runes "]"))) none 2 1 3 2 2 4 []) = .ok ((Token.mk TokenType.EOF
      Value.nil 1 1 3 3 (-1) CursorPlace.CURSOR_NONE []), (Tokenizer.mk (runes "(]") 2 1 3 [] false
      (some (Token.mk TokenType.EOF Value.nil 1 1 3 3 (-1) CursorPlace.CURSOR_NONE [])) none 2 1 3 2
      2 4 [])) := rfl
  simp only [h0, scanN, s1, s2, s3]

theorem trace_brace_paren_bracket (L : GoLib) :
    scanN L 5 (NewTokenizer (runes "\x7b(]\x7d")) =
    .ok ([(Token.mk TokenType.BRACE_OPEN Value.nil 1 1 2 2 (-1) CursorPlace.CURSOR_NONE (runes
        "\x7b")), (Token.mk TokenType.PARENTHESIS_OPEN Value.nil 1 1 3 3 (-1)
        CursorPlace.CURSOR_NONE (runes "(")), (Token.mk TokenType.ERROR (Value.str (runes
        "Closing \"]\" doesn't match the opening \"\x7b\".")) 1 1 4 4 (-1) CursorPlace.CURSOR_NONE
        (runes "]")), (Token.mk TokenType.ERROR (Value.str (runes
        "Closing \"\x7d\" doesn't have an opening counterpart.")) 1 1 5 5 (-1)
        CursorPlace.CURSOR_NONE (runes "\x7d")), (Token.mk TokenType.EOF Value.nil 1 1 5 5 (-1)
        CursorPlace.CURSOR_NONE [])], (Tokenizer.mk (runes "\x7b(]\x7d") 4 1 5 [] false (some
        (Token.mk TokenType.EOF Value.nil 1 1 5 5 (-1) CursorPlace.CURSOR_NONE [])) none 4 1 5 4 4 4
        [])) := by
  have h0 : NewTokenizer (runes "\x7b(]\x7d") = (Tokenizer.mk (runes "\x7b(]\x7d") 0 0 0 [] false
      none none 0 1 1 0 4 4 []) := rfl
  have s1 : Scan L (Tokenizer.mk (runes "\x7b(]\x7d") 0 0 0 [] false none none 0 1 1 0 4 4 []) = .ok
      ((Token.mk TokenType.BRACE_OPEN Value.nil 1 1 2 2 (-1) CursorPlace.CURSOR_NONE (runes
      "\x7b")), (Tokenizer.mk (runes "\x7b(]\x7d") 0 1 1 [] false (some (Token.mk
      TokenType.BRACE_OPEN Value.nil 1 1 2 2 (-1) CursorPlace.CURSOR_NONE (runes "\x7b"))) none 1 1
      2 1 4 4 (runes "\x7b"))) := rfl
  have s2 : Scan L (Tokenizer.mk (runes "\x7b(]\x7d") 0 1 1 [] false (some (Token.mk
      TokenType.BRACE_OPEN Value.nil 1 1 2 2 (-1) CursorPlace.CURSOR_NONE (runes "\x7b"))) none 1 1
      2 1 4 4 (runes "\x7b")) = .ok ((Token.mk TokenType.PARENTHESIS_OPEN Value.nil 1 1 3 3 (-1)
      CursorPlace.CURSOR_NONE (runes "(")), (Tokenizer.mk (runes "\x7b(]\x7d") 1 1 2 [] false (some
      (Token.mk TokenType.PARENTHESIS_OPEN Value.nil 1 1 3 3 (-1) CursorPlace.CURSOR_NONE (runes
      "("))) none 2 1 3 2 4 4 (runes "\x7b("))) := rfl
  have s3 : Scan L (Tokenizer.mk (runes "\x7b(]\x7d") 1 1 2 [] false (some (Token.mk
      TokenType.PARENTHESIS_OPEN Value.nil 1 1 3 3 (-1) CursorPlace.CURSOR_NONE (runes "("))) none 2
      1 3 2 4 4 (runes "\x7b(")) = .ok ((Token.mk TokenType.ERROR (Value.str (runes
      "Closing \"]\" doesn't match the opening \"\x7b\".")) 1 1 4 4 (-1) CursorPlace.CURSOR_NONE
      (runes "]")), (Tokenizer.mk (runes "\x7b(]\x7d") 2 1 3 [] false (some (Token.mk
      TokenType.ERROR (Value.str (runes "Closing \"]\" doesn't match the opening \"\x7b\".")) 1 1 4
      4 (-1) CursorPlace.CURSOR_NONE (runes "]"))) none 3 1 4 3 4 4 [])) := rfl
  have s4 : Scan L (Tokenizer.mk (runes "\x7b(]\x7d") 2 1 3 [] false (some (Token.mk TokenType.ERROR
      (Value.str (runes "Closing \"]\" doesn't match the opening \"\x7b\".")) 1 1 4 4 (-1)
      CursorPlace.CURSOR_NONE (runes "]"))) none 3 1 4 3 4 4 []) = .ok ((Token.mk TokenType.ERROR
      (Value.str (runes "Closing \"\x7d\" doesn't have an opening counterpart.")) 1 1 5 5 (-1)
      CursorPlace.CURSOR_NONE (runes "\x7d")), (Tokenizer.mk (runes "\x7b(]\x7d") 3 1 4 [] false
      (some (Token.mk TokenType.ERROR (Value.str (runes
      "Closing \"\x7d\" doesn't have an opening counterpart.")) 1 1 5 5 (-1) CursorPlace.CURSOR_NONE
      (runes "\x7d"))) none 4 1 5 4 4 4 [])) := rfl
  have s5 : Scan L (Tokenizer.mk (runes "\x7b(]\x7d") 3 1 4 [] false (some (Token.mk TokenType.ERROR
      (Value.str (runes "Closing \"\x7d\" doesn't have an opening counterpart.")) 1 1 5 5 (-1)
      CursorPlace.CURSOR_NONE (runes "\x7d"))) none 4 1 5 4 4 4 []) = .ok ((Token.mk TokenType.EOF
      Value.nil 1 1 5 5 (-1) CursorPlace.CURSOR_NONE []), (Tokenizer.mk (runes "\x7b(]\x7d") 4 1 5
      [] false (some (Token.mk TokenType.EOF Value.nil 1 1 5 5 (-1) CursorPlace.CURSOR_NONE []))
      none 4 1 5 4 4 4 [])) := rfl
  simp only [h0, scanN, s1, s2, s3, s4, s5]

theorem bracketKind_ne_ERROR (c : Nat) : bracketKind c ≠ TokenType.ERROR := by
  unfold bracketKind
  repeat' split
  all_goals decide

/-- C4: for every source that is a well-nested text of the delimiters `( ) [ ] { }`,
the first `n + 1` calls of `Scan` succeed and return, in order, one token per
character of the matching open/close punctuation kind and then `EOF`; no token
has kind `ERROR`, and the delimiter stack is empty at the end. -/
theorem wellNested_scans_clean (L : GoLib) (src : List Nat) (h : wellNested src = true) :
    ∃ toks t, scanN L (src.length + 1) (NewTokenizer src) = .ok (toks, t) ∧
      toks.map (fun tok => tok.Type_) = src.map bracketKind ++ [TokenType.EOF] ∧
      (∀ tok ∈ toks, tok.Type_ ≠ TokenType.ERROR) ∧ t.parenStack = [] := by
  obtain ⟨toks, t, hrun, hk, hp⟩ := scanN_wellNested L src [] (NewTokenizer src)
    ⟨rfl, rfl, rfl⟩ rfl rfl h
  refine ⟨toks, t, hrun, hk, ?_, hp⟩
  intro tok hm
  have hmem : tok.Type_ ∈ toks.map (fun tok => tok.Type_) := List.mem_map_of_mem _ hm
  rw [hk] at hmem
  rcases List.mem_append.mp hmem with h1 | h1
  · obtain ⟨c, _, hc⟩ := List.mem_map.mp h1
    rw [← hc]; exact bracketKind_ne_ERROR c
  · rw [List.mem_singleton.mp h1]; decide

theorem wellNested_scans_clean_witness :
    wellNested (runes "([]())") = true ∧
    ∃ toks t, scanN GoLib.trivial ((runes "([]())").length + 1)
        (NewTokenizer (runes "([]())")) = .ok (toks, t) ∧
      toks.map (fun tok => tok.Type_) = (runes "([]())").map bracketKind ++ [TokenType.EOF] ∧
      (∀ tok ∈ toks, tok.Type_ ≠ TokenType.ERROR) ∧ t.parenStack = [] :=
  ⟨by decide, wellNested_scans_clean GoLib.trivial (runes "([]())") (by decide)⟩

/-- C5 (evaluation of the code): scanning `(]` yields `PARENTHESIS_OPEN`, one
`ERROR` and `EOF`, and the message of the error is the one for a closer without
opening counterpart, not the mismatch message: `popParen` has already removed the
`(` when `makeParenError` looks at the stack. -/
theorem paren_bracket_error_message (L : GoLib) :
    ∃ toks t, scanN L 3 (NewTokenizer (runes "(]")) = .ok (toks, t) ∧
      toks.map (fun tok => tok.Type_) =
        [TokenType.PARENTHESIS_OPEN, TokenType.ERROR, TokenType.EOF] ∧
      toks.map (fun tok => tok.Literal) =
        [Value.nil, Value.str (runes "Closing \"]\" doesn't have an opening counterpart."),
          Value.nil] :=
  ⟨_, _, trace_paren_bracket L, rfl, rfl⟩

/-- C6 (evaluation of the code): scanning `{(]}` yields `BRACE_OPEN`,
`PARENTHESIS_OPEN`, `ERROR`, a second `ERROR` and `EOF`: the mismatched `]` removes
both the `(` and the `{` from the delimiter stack (its message names the `{`), so
the final `}` finds no opener and is reported too. -/
theorem mismatch_pops_two_frames (L : GoLib) :
    ∃ toks t, scanN L 5 (NewTokenizer (runes "\x7b(]\x7d")) = .ok (toks, t) ∧
      toks.map (fun tok => tok.Type_) =
        [TokenType.BRACE_OPEN, TokenType.PARENTHESIS_OPEN, TokenType.ERROR, TokenType.ERROR,
          TokenType.EOF] ∧
      toks.map (fun tok => tok.Literal) =
        [Value.nil, Value.nil,
          Value.str (runes "Closing \"]\" doesn't match the opening \"\x7b\"."),
          Value.str (runes "Closing \"\x7d\" doesn't have an opening counterpart."),
          Value.nil] :=
  ⟨_, _, trace_brace_paren_bracket L, rfl, rfl⟩

/-! ## Signs in front of digits -/

theorem scanToken_plus (L : GoLib) (t : Tokenizer) :
    scanToken L '+'.toNat t =
      if peek t 0 = '='.toNat then some (.ok (makeToken (advance t).2 TokenType.PLUS_EQUAL))
      else if isDigit (peek t 0) = true then some (signedNumber L t TokenType.PLUS)
      else some (.ok (makeToken t TokenType.PLUS)) := rfl

theorem scanToken_minus (L : GoLib) (t : Tokenizer) :
    scanToken L '-'.toNat t =
      if peek t 0 = '='.toNat then some (.ok (makeToken (advance t).2 TokenType.MINUS_EQUAL))
      else if isDigit (peek t 0) = true then some (signedNumber L t TokenType.MINUS)
      else if peek t 0 = '>'.toNat then
        some (.ok (makeToken (advance t).2 TokenType.FORWARD_ARROW))
      else some (.ok (makeToken t TokenType.MINUS)) := rfl

theorem scanToken_sign (L : GoLib) (s : Nat) (t : Tokenizer)
    (hs : s = '+'.toNat ∨ s = '-'.toNat) (hd : isDigit (peek t 0) = true) :
    scanToken L s t = some (signedNumber L t (signOperator s)) := by
  have hne : peek t 0 ≠ '='.toNat := by
    intro h
    rw [h] at hd
    exact absurd hd (by decide)
  rcases hs with h | h
  · subst h
    rw [scanToken_plus]
    simp only [hne, hd, if_false, if_true]
    rfl
  · subst h
    rw [scanToken_minus]
    simp only [hne, hd, if_false, if_true]
    rfl

theorem scanToken_digit (L : GoLib) (d : Nat) (t : Tokenizer) (hd : isDigit d = true) :
    scanToken L d t = some (.ok (number L t)) := by
  unfold scanToken
  simp only [hd, if_true]

theorem plainRune_digit (d : Nat) (hd : isDigit d = true) : plainRune d = true := by
  simp only [isDigit, decide_eq_true_eq] at hd
  simp only [plainRune, tabRune, carriageReturn, lineFeed, decide_eq_true_eq]
  simp only [Char.reduceToNat] at hd ⊢
  omega

theorem plainRune_sign (s : Nat) (hs : s = '+'.toNat ∨ s = '-'.toNat) : plainRune s = true := by
  rcases hs with h | h <;> subst h <;> rfl

theorem slice_of_drop (src : List Nat) (a b : Nat) (l : List Nat) (h : src.drop a = l) :
    slice src a b = l.take (b - a) := by
  unfold slice
  rw [h]

theorem source_getD_current (t : Tokenizer) (c : Nat) (cs : List Nat)
    (h : unread t = c :: cs) : t.source.getD t._current 0 = c := by
  unfold unread at h
  have : (t.source.drop t._current)[0]? = some c := by rw [h]; simp
  rw [List.getElem?_drop] at this
  simp only [List.getD_eq_getElem?_getD]
  simpa using congrArg (fun o => o.getD 0) this

/-- The facts about the state after `markStart` and `advance` at a rune `c`. -/
theorem after_first_rune (t : Tokenizer) (q : Quiet t) (c : Nat) (cs : List Nat)
    (hu : unread t = c :: cs) :
    Quiet (advance (markStart t)).2 ∧ unread (advance (markStart t)).2 = cs ∧
      (advance (markStart t)).2._current = t._current + 1 ∧
      (advance (markStart t)).2._start = t._current ∧
      (advance (markStart t)).2.source = t.source ∧
      (advance (markStart t)).2.lastToken = t.lastToken ∧
      (advance (markStart t)).2.source.getD ((advance (markStart t)).2._current - 1) 0 = c := by
  have hqm := quiet_markStart q
  have hend : isAtEnd (markStart t) = false := isAtEnd_of_unread_cons t q.length c cs hu
  have hcur : (advance (markStart t)).2._current = t._current + 1 := advance_current _ hend
  have hsrc : (advance (markStart t)).2.source = t.source := (advance_frame (markStart t)).source
  refine ⟨quiet_of_frame (advance_frame _) hqm, unread_advance _ hqm.length c cs hu, hcur,
    (advance_frame (markStart t)).start, hsrc, advance_lastToken _, ?_⟩
  rw [hcur, hsrc, Nat.add_sub_cancel]
  exact source_getD_current t c cs hu

theorem removeSeparators_eq (s : List Nat) :
    removeSeparators s = s.filter (fun c => !isSeparator c) := by
  unfold removeSeparators isSeparator
  congr 1
  funext r
  by_cases h1 : r = '_'.toNat <;> by_cases h2 : r = ','.toNat <;> simp [h1, h2]

theorem digitVal_of_isDigitForBase (c base : Nat) (hb : base = 2 ∨ base = 8 ∨ base = 10 ∨ base = 16)
    (h : isDigitForBase c base = true) :
    digitVal c = some (radixDigitValue c) ∧ radixDigitValue c < base := by
  unfold isDigitForBase at h
  unfold digitVal radixDigitValue
  simp only [Char.reduceToNat] at h ⊢
  rcases hb with hb | hb | hb | hb <;> subst hb <;> simp at h
  · have h1 : 48 ≤ c ∧ c ≤ 57 := by omega
    simp only [h1, and_self, if_true]
    exact ⟨trivial, by omega⟩
  · have h1 : 48 ≤ c ∧ c ≤ 57 := by omega
    simp only [h1, and_self, if_true]
    exact ⟨trivial, by omega⟩
  · have h1 : 48 ≤ c ∧ c ≤ 57 := by omega
    simp only [h1, and_self, if_true]
    exact ⟨trivial, by omega⟩
  · by_cases h1 : 48 ≤ c ∧ c ≤ 57
    · simp only [h1, and_self, if_true]
      exact ⟨trivial, by omega⟩
    · simp only [h1, if_false]
      have h2 : 97 ≤ c ∧ c ≤ 102 ∨ 65 ≤ c ∧ c ≤ 70 := by omega
      rcases h2 with h2 | h2
      · have h3 : 97 ≤ c ∧ c ≤ 122 := by omega
        simp only [h3, h2, and_self, if_true]
        exact ⟨trivial, by omega⟩
      · have h3 : ¬ (97 ≤ c ∧ c ≤ 122) := by omega
        have h4 : ¬ (97 ≤ c ∧ c ≤ 102) := by omega
        have h5 : 65 ≤ c ∧ c ≤ 90 := by omega
        simp only [h3, h4, h5, and_self, if_true, if_false]
        exact ⟨trivial, by omega⟩

theorem parseDigits_value (base : Nat) (hb : base = 2 ∨ base = 8 ∨ base = 10 ∨ base = 16) :
    ∀ (ds : List Nat) (acc : Nat), (∀ c ∈ ds, isDigitForBase c base = true) →
      parseDigits base ds acc =
        some (ds.foldl (fun a c => a * base + radixDigitValue c) acc) := by
  intro ds
  induction ds with
  | nil => intro acc _; rfl
  | cons c cs ih =>
    intro acc h
    obtain ⟨h1, h2⟩ := digitVal_of_isDigitForBase c base hb (h c (List.mem_cons_self _ _))
    simp only [parseDigits, h1, h2, if_true, List.foldl_cons]
    exact ih _ (fun x hx => h x (List.mem_cons_of_mem _ hx))

theorem isDigitForBase_not_sign (c base : Nat)
    (hb : base = 2 ∨ base = 8 ∨ base = 10 ∨ base = 16) (h : isDigitForBase c base = true) :
    c ≠ '+'.toNat ∧ c ≠ '-'.toNat ∧ isSeparator c = false := by
  unfold isDigitForBase at h
  unfold isSeparator
  simp only [Char.reduceToNat] at h ⊢
  rcases hb with hb | hb | hb | hb <;> subst hb <;> simp at h
  · refine ⟨by omega, by omega, by simp; omega⟩
  · refine ⟨by omega, by omega, by simp; omega⟩
  · refine ⟨by omega, by omega, by simp; omega⟩
  · by_cases h1 : 48 ≤ c ∧ c ≤ 57
    · refine ⟨by omega, by omega, by simp; omega⟩
    · refine ⟨by omega, by omega, by simp; omega⟩

/-- The conversion `strconv.ParseInt` on a non-empty string of digits of the base:
the value when it is below `2^63`, an error otherwise. -/
theorem ParseInt_digits (base : Nat) (hb : base = 2 ∨ base = 8 ∨ base = 10 ∨ base = 16)
    (ds : List Nat) (hne : ds ≠ []) (h : ∀ c ∈ ds, isDigitForBase c base = true) :
    ParseInt ds base =
      if digitsValue base ds < 2 ^ 63 then some (digitsValue base ds : Int) else none := by
  cases ds with
  | nil => exact absurd rfl hne
  | cons c cs =>
    obtain ⟨hp, hm, _⟩ := isDigitForBase_not_sign c base hb (h c (List.mem_cons_self _ _))
    have hd : decide (c = '-'.toNat) = false := decide_eq_false hm
    unfold ParseInt
    simp only [hp, hm, hd, or_self, if_false, parseDigits_value base hb (c :: cs) 0 h]
    simp only [digitsValue]
    generalize List.foldl (fun a c => a * base + radixDigitValue c) 0 (c :: cs) = v
    simp
    split_ifs <;> first | rfl | omega

theorem isSeparator_iff (c : Nat) : isSeparator c = true ↔ (c = '_'.toNat ∨ c = ','.toNat) := by
  simp [isSeparator]

theorem quiet_length_of_frame {t t1 : Tokenizer} (h : Frame t t1)
    (hl : t.length = t.source.length) : t1.length = t1.source.length := by
  rw [h.length, h.source]; exact hl

/-- The digit loop of a base-prefixed literal on `body ++ rest`, where `body` is made
of separators and digits of the base and `rest` does not start with one: the loop
consumes exactly `body` and counts its digits. -/
theorem baseDigitsLoop_run (base : Nat) (rest : List Nat)
    (hstop : isSeparator (rest.getD 0 0) = false ∧ isDigitForBase (rest.getD 0 0) base = false) :
    ∀ (body : List Nat) (t : Tokenizer) (digits fuel : Nat), t.length = t.source.length →
      unread t = body ++ rest →
      (∀ c ∈ body, isSeparator c = true ∨ isDigitForBase c base = true) →
      body.length < fuel →
      Frame t (baseDigitsLoop base fuel t digits).2 ∧
        unread (baseDigitsLoop base fuel t digits).2 = rest ∧
        (baseDigitsLoop base fuel t digits).2._current = t._current + body.length ∧
        (baseDigitsLoop base fuel t digits).1 =
          digits + (body.filter (fun c => !isSeparator c)).length := by
  intro body
  induction body with
  | nil =>
    intro t digits fuel hl hu _ hf
    obtain ⟨k, rfl⟩ : ∃ k, fuel = k + 1 := ⟨fuel - 1, by simp at hf; omega⟩
    have hpeek : peek t 0 = rest.getD 0 0 := by
      rw [peek0_eq_unread t hl, hu]; rfl
    have h1 : ¬ (rest.getD 0 0 = '_'.toNat ∨ rest.getD 0 0 = ','.toNat) := by
      rw [← isSeparator_iff, hstop.1]; simp
    rw [baseDigitsLoop]
    simp only [hpeek, h1, hstop.2, if_false, Bool.false_eq_true]
    exact ⟨Frame.refl t, by simpa using hu, by simp, by simp⟩
  | cons c cs ih =>
    intro t digits fuel hl hu hbody hf
    obtain ⟨k, rfl⟩ : ∃ k, fuel = k + 1 := ⟨fuel - 1, by simp at hf; omega⟩
    have hu2 : unread t = c :: (cs ++ rest) := hu
    have hpeek : peek t 0 = c := by rw [peek0_eq_unread t hl, hu2]; rfl
    have hend := isAtEnd_of_unread_cons t hl c _ hu2
    have hua := unread_advance t hl c _ hu2
    have hla := quiet_length_of_frame (advance_frame t) hl
    have hca := advance_current t hend
    have hcs : ∀ x ∈ cs, isSeparator x = true ∨ isDigitForBase x base = true :=
      fun x hx => hbody x (List.mem_cons_of_mem _ hx)
    have hk : cs.length < k := by simp at hf; omega
    rw [baseDigitsLoop]
    simp only [hpeek]
    by_cases hsep : isSeparator c = true
    · have h1 : c = '_'.toNat ∨ c = ','.toNat := (isSeparator_iff c).mp hsep
      simp only [h1, if_true]
      obtain ⟨a, b, d, e⟩ := ih (advance t).2 digits k hla hua hcs hk
      refine ⟨(advance_frame t).trans a, b, ?_, ?_⟩
      · rw [d, hca, List.length_cons]; omega
      · rw [e]; simp [hsep]
    · have h1 : ¬ (c = '_'.toNat ∨ c = ','.toNat) := fun h => hsep ((isSeparator_iff c).mpr h)
      have hdig : isDigitForBase c base = true := by
        rcases hbody c (List.mem_cons_self _ _) with h | h
        · exact absurd h hsep
        · exact h
      simp only [h1, hdig, if_false, if_true]
      obtain ⟨a, b, d, e⟩ := ih (advance t).2 (digits + 1) k hla hua hcs hk
      refine ⟨(advance_frame t).trans a, b, ?_, ?_⟩
      · rw [d, hca, List.length_cons]; omega
      · rw [e]
        have : isSeparator c = false := by simpa using hsep
        simp [this]
        omega

/-- The digit loop of a decimal literal on `body ++ rest`, where `body` is made of
decimal digits and separators and `rest` does not start with one: the loop consumes
exactly `body`. -/
theorem decimalDigitsLoop_run (rest : List Nat)
    (hstop : isSeparator (rest.getD 0 0) = false ∧ isDigit (rest.getD 0 0) = false) :
    ∀ (body : List Nat) (t : Tokenizer) (fuel : Nat), t.length = t.source.length →
      unread t = body ++ rest →
      (∀ c ∈ body, isSeparator c = true ∨ isDigit c = true) →
      body.length < fuel →
      Frame t (decimalDigitsLoop fuel t) ∧ unread (decimalDigitsLoop fuel t) = rest ∧
        (decimalDigitsLoop fuel t)._current = t._current + body.length := by
  intro body
  induction body with
  | nil =>
    intro t fuel hl hu _ hf
    obtain ⟨k, rfl⟩ : ∃ k, fuel = k + 1 := ⟨fuel - 1, by simp at hf; omega⟩
    have hpeek : peek t 0 = rest.getD 0 0 := by
      rw [peek0_eq_unread t hl, hu]; rfl
    have h1 : ¬ (isDigit (rest.getD 0 0) = true ∨ rest.getD 0 0 = '_'.toNat ∨
        rest.getD 0 0 = ','.toNat) := by
      intro h
      rcases h with h | h
      · rw [hstop.2] at h; exact absurd h (by decide)
      · have := (isSeparator_iff _).mpr h
        rw [hstop.1] at this; exact absurd this (by decide)
    rw [decimalDigitsLoop]
    simp only [hpeek, h1, if_false]
    exact ⟨Frame.refl t, by simpa using hu, by simp⟩
  | cons c cs ih =>
    intro t fuel hl hu hbody hf
    obtain ⟨k, rfl⟩ : ∃ k, fuel = k + 1 := ⟨fuel - 1, by simp at hf; omega⟩
    have hu2 : unread t = c :: (cs ++ rest) := hu
    have hpeek : peek t 0 = c := by rw [peek0_eq_unread t hl, hu2]; rfl
    have hend := isAtEnd_of_unread_cons t hl c _ hu2
    have hua := unread_advance t hl c _ hu2
    have hla := quiet_length_of_frame (advance_frame t) hl
    have hca := advance_current t hend
    have hcs : ∀ x ∈ cs, isSeparator x = true ∨ isDigit x = true :=
      fun x hx => hbody x (List.mem_cons_of_mem _ hx)
    have hk : cs.length < k := by simp at hf; omega
    have h1 : isDigit c = true ∨ c = '_'.toNat ∨ c = ','.toNat := by
      rcases hbody c (List.mem_cons_self _ _) with h | h
      · exact Or.inr ((isSeparator_iff c).mp h)
      · exact Or.inl h
    rw [decimalDigitsLoop]
    simp only [hpeek, h1, if_true]
    obtain ⟨a, b, d⟩ := ih (advance t).2 k hla hua hcs hk
    refine ⟨(advance_frame t).trans a, b, ?_⟩
    rw [d, hca, List.length_cons]; omega

theorem unread_length (t : Tokenizer) (hl : t.length = t.source.length) :
    (unread t).length = t.length - t._current := by
  unfold unread
  rw [List.length_drop, hl]

theorem isBasePrefix_not_separator (pfx : Nat) (h : isBasePrefix pfx = true) :
    isSeparator pfx = false := by
  simp only [isBasePrefix, decide_eq_true_eq] at h
  rcases h with h | h | h | h | h | h <;> subst h <;> rfl

/-- The method `number` entered after the `0` of a base prefix: with `body` made of
separators and digits of the base and `rest` not starting with one, it consumes
the prefix letter and `body`, and returns the error for missing digits, the error
of the conversion, or the literal. -/
theorem number_base_prefix (L : GoLib) (t : Tokenizer) (pfx : Nat) (body rest : List Nat)
    (q : Quiet t) (hu : unread t = '0'.toNat :: pfx :: (body ++ rest))
    (hp : isBasePrefix pfx = true)
    (hbody : ∀ c ∈ body, isSeparator c = true ∨ isDigitForBase c (baseOfPrefix pfx) = true)
    (hstop : isSeparator (rest.getD 0 0) = false ∧
      isDigitForBase (rest.getD 0 0) (baseOfPrefix pfx) = false) :
    ∃ t5, Quiet t5 ∧ unread t5 = rest ∧ t5._start = t._current ∧ t5.source = t.source ∧
      t5._current = t._current + 2 + body.length ∧
      number L (advance (markStart t)).2 =
        if (body.filter (fun c => !isSeparator c)).length = 0 then
          makeError t5 (runes "Expected digits after base prefix.")
        else
          match ParseInt (body.filter (fun c => !isSeparator c)) (baseOfPrefix pfx) with
          | none => makeError t5 (runes "Invalid numeric literal.")
          | some value => makeLiteral t5 (Value.int value) := by
  obtain ⟨hq3, hu3, hc3, hst3, hsrc3, _, hf3⟩ := after_first_rune t q _ _ hu
  have hpeek3 : peek (advance (markStart t)).2 0 = pfx := by
    rw [peek0_eq_unread _ hq3.length, hu3]; rfl
  have hend3 := isAtEnd_of_unread_cons _ hq3.length pfx _ hu3
  have hu4 := unread_advance _ hq3.length pfx _ hu3
  have hl4 := quiet_length_of_frame (advance_frame (advance (markStart t)).2) hq3.length
  have hc4 := advance_current _ hend3
  have hfuel : body.length <
      (advance (advance (markStart t)).2).2.length -
        (advance (advance (markStart t)).2).2._current + 1 := by
    rw [← unread_length _ hl4, hu4, List.length_append]; omega
  obtain ⟨hfr, hur, hcr, hdr⟩ := baseDigitsLoop_run (baseOfPrefix pfx) rest hstop body
    (advance (advance (markStart t)).2).2 0 _ hl4 hu4 hbody hfuel
  have hfr03 := (advance_frame (advance (markStart t)).2).trans hfr
  refine ⟨_, quiet_of_frame hfr03 hq3, hur, hfr03.start.trans hst3, hfr03.source.trans hsrc3,
    by rw [hcr, hc4, hc3], ?_⟩
  unfold number
  simp only [hf3, hpeek3, hp, and_self, if_true]
  rw [hdr]
  simp only [zero_add]
  have hraw : slice
      (baseDigitsLoop (baseOfPrefix pfx)
        ((advance (advance (markStart t)).2).2.length -
          (advance (advance (markStart t)).2).2._current + 1)
        (advance (advance (markStart t)).2).2 0).2.source
      ((advance (markStart t)).2._current - 1)
      (baseDigitsLoop (baseOfPrefix pfx)
        ((advance (advance (markStart t)).2).2.length -
          (advance (advance (markStart t)).2).2._current + 1)
        (advance (advance (markStart t)).2).2 0).2._current = '0'.toNat :: pfx :: body := by
    rw [hfr03.source, hsrc3, hcr, hc4, hc3, Nat.add_sub_cancel, slice_of_drop _ _ _ _ hu]
    have : t._current + 1 + 1 + body.length - t._current = body.length + 2 := by omega
    rw [this]
    simp [List.take_append_eq_append_take]
  rw [hraw, removeSeparators_eq]
  have h0 : isSeparator '0'.toNat = false := rfl
  simp only [List.filter_cons, h0, isBasePrefix_not_separator pfx hp, Bool.not_false, if_true,
    List.drop_succ_cons, List.drop_zero]

theorem Scan_digit (L : GoLib) (t : Tokenizer) (d : Nat) (rest : List Nat) (q : Quiet t)
    (hd : isDigit d = true) (hu : unread t = d :: rest) :
    Scan L t = .ok (number L (advance (markStart t)).2) := by
  have hend := isAtEnd_of_unread_cons t q.length d _ hu
  have hpeek : peek t 0 = d := by rw [peek0_eq_unread t q.length, hu]; rfl
  exact Scan_plain L t _ q.errors q.pending hend (by rw [hpeek]; exact plainRune_digit d hd)
    (by rw [hpeek]; exact scanToken_digit L d _ hd)

theorem scanN_two (L : GoLib) (t : Tokenizer) (tok1 : Token) (t1 : Tokenizer)
    (h1 : Scan L t = .ok (tok1, t1)) (q1 : Quiet t1) (hu1 : unread t1 = []) :
    scanN L 2 t = .ok ([tok1, (makeToken (markStart t1) TokenType.EOF).1],
      (makeToken (markStart t1) TokenType.EOF).2) := by
  simp only [scanN, h1, Scan_nil L t1 q1 hu1]

theorem makeLiteral_source (t : Tokenizer) (v : Value) (src : List Nat) (hs : t.source = src)
    (hst : t._start = 0) (hc : t._current = src.length) : (makeLiteral t v).1.Source = src := by
  show slice t.source t._start t._current = src
  rw [hs, hst, hc]
  simp [slice]

theorem isDigit_iff_base10 (c : Nat) : isDigitForBase c 10 = isDigit c := by
  unfold isDigitForBase isDigit
  simp only [Char.reduceToNat, le_refl, if_true]
  apply decide_eq_decide.mpr
  omega

theorem isDigit_not_separator (c : Nat) (h : isDigit c = true) : isSeparator c = false := by
  have h1 : isDigitForBase c 10 = true := by rw [isDigit_iff_base10]; exact h
  exact (isDigitForBase_not_sign c 10 (by simp) h1).2.2

theorem isBasePrefix_of_digit_or_sep (c : Nat)
    (h : isSeparator c = true ∨ isDigit c = true ∨ c = 0) : isBasePrefix c = false := by
  simp only [isSeparator, isDigit, isBasePrefix, Char.reduceToNat, decide_eq_true_eq] at h ⊢
  simp
  omega

theorem makeError_source (t : Tokenizer) (m : GoString) (src : List Nat) (hs : t.source = src)
    (hst : t._start = 0) (hc : t._current = src.length) : (makeError t m).1.Source = src := by
  show slice t.source t._start t._current = src
  rw [hs, hst, hc]
  simp [slice]

/-- C9: in a state with nothing queued or buffered whose unread text starts with a
base prefix (`0` and a prefix letter) followed by separators only and then by the
end of the text or a rune that is no digit of the base, `Scan` returns an `ERROR`
token with message `Expected digits after base prefix.` whose slice is the prefix
and the separators; the sources `0b`, `0x_` and `0b2` are instances. -/
theorem base_prefix_without_digits (L : GoLib) :
    (∀ (t : Tokenizer) (pfx : Nat) (seps rest : List Nat), Quiet t →
      isBasePrefix pfx = true → (∀ c ∈ seps, isSeparator c = true) →
      isSeparator (rest.getD 0 0) = false →
      isDigitForBase (rest.getD 0 0) (baseOfPrefix pfx) = false →
      unread t = '0'.toNat :: pfx :: (seps ++ rest) →
      ∃ tok t1, Scan L t = .ok (tok, t1) ∧ tok.Type_ = TokenType.ERROR ∧
        tok.Literal = Value.str (runes "Expected digits after base prefix.") ∧
        tok.Source = '0'.toNat :: pfx :: seps ∧ unread t1 = rest) ∧
    (∃ tok t1, Scan L (NewTokenizer (runes "0b")) = .ok (tok, t1) ∧
      tok.Type_ = TokenType.ERROR ∧
      tok.Literal = Value.str (runes "Expected digits after base prefix.")) ∧
    (∃ tok t1, Scan L (NewTokenizer (runes "0x_")) = .ok (tok, t1) ∧
      tok.Type_ = TokenType.ERROR ∧
      tok.Literal = Value.str (runes "Expected digits after base prefix.")) ∧
    (∃ tok t1, Scan L (NewTokenizer (runes "0b2")) = .ok (tok, t1) ∧
      tok.Type_ = TokenType.ERROR ∧
      tok.Literal = Value.str (runes "Expected digits after base prefix.") ∧
      unread t1 = runes "2") := by
  have main : ∀ (t : Tokenizer) (pfx : Nat) (seps rest : List Nat), Quiet t →
      isBasePrefix pfx = true → (∀ c ∈ seps, isSeparator c = true) →
      isSeparator (rest.getD 0 0) = false →
      isDigitForBase (rest.getD 0 0) (baseOfPrefix pfx) = false →
      unread t = '0'.toNat :: pfx :: (seps ++ rest) →
      ∃ tok t1, Scan L t = .ok (tok, t1) ∧ tok.Type_ = TokenType.ERROR ∧
        tok.Literal = Value.str (runes "Expected digits after base prefix.") ∧
        tok.Source = '0'.toNat :: pfx :: seps ∧ unread t1 = rest := by
    intro t pfx seps rest q hp hseps hs1 hs2 hu
    obtain ⟨t5, hq5, hu5, hst5, hsrc5, hc5, hnum⟩ := number_base_prefix L t pfx seps rest q hu hp
      (fun c hc => Or.inl (hseps c hc)) ⟨hs1, hs2⟩
    have hfil : seps.filter (fun c => !isSeparator c) = [] := by
      apply List.filter_eq_nil_iff.mpr
      intro c hc
      simp [hseps c hc]
    simp only [hfil, List.length_nil, if_true] at hnum
    have hscan := Scan_digit L t '0'.toNat _ q rfl hu
    rw [hnum] at hscan
    refine ⟨(makeError t5 _).1, (makeError t5 _).2, hscan, rfl, rfl, ?_, hu5⟩
    show slice t5.source t5._start t5._current = '0'.toNat :: pfx :: seps
    rw [hsrc5, hst5, hc5, slice_of_drop _ _ _ _ hu]
    have : t._current + 2 + seps.length - t._current = seps.length + 2 := by omega
    rw [this]
    simp [List.take_append_eq_append_take]
  refine ⟨main, ?_, ?_, ?_⟩
  · obtain ⟨tok, t1, h1, h2, h3, _, _⟩ := main (NewTokenizer (runes "0b")) 'b'.toNat [] []
      ⟨rfl, rfl, rfl⟩ rfl (by simp) rfl rfl rfl
    exact ⟨tok, t1, h1, h2, h3⟩
  · obtain ⟨tok, t1, h1, h2, h3, _, _⟩ := main (NewTokenizer (runes "0x_")) 'x'.toNat
      (runes "_") [] ⟨rfl, rfl, rfl⟩ rfl (by decide) rfl rfl rfl
    exact ⟨tok, t1, h1, h2, h3⟩
  · obtain ⟨tok, t1, h1, h2, h3, _, h5⟩ := main (NewTokenizer (runes "0b2")) 'b'.toNat []
      (runes "2") ⟨rfl, rfl, rfl⟩ rfl (by simp) rfl rfl rfl
    exact ⟨tok, t1, h1, h2, h3, h5⟩

theorem base_prefix_without_digits_witness :
    Quiet (NewTokenizer (runes "0o_,9")) ∧ isBasePrefix 'o'.toNat = true ∧
    (∀ c ∈ runes "_,", isSeparator c = true) ∧
    ∃ tok t1, Scan GoLib.trivial (NewTokenizer (runes "0o_,9")) = .ok (tok, t1) ∧
      tok.Type_ = TokenType.ERROR ∧
      tok.Literal = Value.str (runes "Expected digits after base prefix.") ∧
      tok.Source = '0'.toNat :: 'o'.toNat :: runes "_," ∧ unread t1 = runes "9" :=
  ⟨⟨rfl, rfl, rfl⟩, rfl, by decide,
    (base_prefix_without_digits GoLib.trivial).1 (NewTokenizer (runes "0o_,9")) 'o'.toNat
      (runes "_,") (runes "9") ⟨rfl, rfl, rfl⟩ rfl (by decide) rfl rfl rfl⟩

/-! ## Decimal integers -/

theorem number_decimal_start (L : GoLib) (t : Tokenizer) (d : Nat)
    (hfirst : t.source.getD (t._current - 1) 0 = d) (hd : d ≠ '.'.toNat)
    (hnp : isBasePrefix (peek t 0) = false) :
    number L t = numberDecimal L (t._current - 1) false (decimalDigits t) := by
  unfold number
  simp only [hfirst, hnp, hd, decide_False, and_false, if_false, if_true, Bool.false_eq_true]

theorem numberDecimal_at_end (L : GoLib) (start : Nat) (t1 : Tokenizer) (hpeek : peek t1 0 = 0) :
    numberDecimal L start false t1 = numberFinish L start false t1 := by
  have e1 : ¬ ((0 : Nat) = '.'.toNat) := by decide
  have e2 : ¬ ((0 : Nat) = 'e'.toNat ∨ (0 : Nat) = 'E'.toNat) := by decide
  unfold numberDecimal
  simp only [Bool.false_eq_true, if_false, hpeek, e1, e2, decide_False, Bool.not_false,
    Bool.true_and, Bool.false_and, Bool.or_self]

theorem numberFinish_int (L : GoLib) (start : Nat) (t : Tokenizer) :
    numberFinish L start false t =
      match ParseInt (removeSeparators (slice t.source start t._current)) 10 with
      | none => makeError t (runes "Invalid numeric literal.")
      | some value => makeLiteral t (Value.int value) := by
  unfold numberFinish
  simp only [Bool.false_eq_true, if_false]

/-- The method `number` entered after the first digit `d` of a text `d :: body` that
ends the source, `body` being made of decimal digits and separators: it consumes
the body and converts the digits in base 10. -/
theorem number_decimal_whole (L : GoLib) (t : Tokenizer) (d : Nat) (body : List Nat)
    (q : Quiet t) (hd : isDigit d = true)
    (hbody : ∀ c ∈ body, isSeparator c = true ∨ isDigit c = true)
    (hu : unread t = d :: body) :
    ∃ t5, Quiet t5 ∧ unread t5 = [] ∧ t5._start = t._current ∧ t5.source = t.source ∧
      t5._current = t._current + 1 + body.length ∧
      number L (advance (markStart t)).2 =
        if literalValue 10 (d :: body) < 2 ^ 63 then
          makeLiteral t5 (Value.int (literalValue 10 (d :: body) : Int))
        else makeError t5 (runes "Invalid numeric literal.") := by
  obtain ⟨hq3, hu3, hc3, hst3, hsrc3, _, hf3⟩ := after_first_rune t q _ _ hu
  have hpeek3 : peek (advance (markStart t)).2 0 = body.getD 0 0 := by
    rw [peek0_eq_unread _ hq3.length, hu3]
  have hnotpfx : isBasePrefix (peek (advance (markStart t)).2 0) = false := by
    rw [hpeek3]
    apply isBasePrefix_of_digit_or_sep
    cases body with
    | nil => exact Or.inr (Or.inr rfl)
    | cons c cs =>
      rcases hbody c (List.mem_cons_self _ _) with h | h
      · exact Or.inl h
      · exact Or.inr (Or.inl h)
  have hnotdot : d ≠ '.'.toNat := by
    intro h; rw [h] at hd; exact absurd hd (by decide)
  have hfuel : body.length <
      (advance (markStart t)).2.length - (advance (markStart t)).2._current + 1 := by
    rw [← unread_length _ hq3.length, hu3]; omega
  have hrun : Frame (advance (markStart t)).2 (decimalDigits (advance (markStart t)).2) ∧
      unread (decimalDigits (advance (markStart t)).2) = [] ∧
      (decimalDigits (advance (markStart t)).2)._current =
        (advance (markStart t)).2._current + body.length :=
    decimalDigitsLoop_run [] ⟨rfl, rfl⟩ body (advance (markStart t)).2 _
      hq3.length (by rw [hu3]; simp) hbody hfuel
  obtain ⟨hfr, hur, hcr⟩ := hrun
  have hq5 := quiet_of_frame hfr hq3
  have hpeek5 : peek (decimalDigits (advance (markStart t)).2) 0 = 0 := by
    rw [peek0_eq_unread _ hq5.length, hur]; rfl
  refine ⟨decimalDigits (advance (markStart t)).2, hq5, hur, hfr.start.trans hst3,
    hfr.source.trans hsrc3, by rw [hcr, hc3], ?_⟩
  have hraw : slice (decimalDigits (advance (markStart t)).2).source
      ((advance (markStart t)).2._current - 1)
      (decimalDigits (advance (markStart t)).2)._current = d :: body := by
    rw [hfr.source, hsrc3, hcr, hc3, Nat.add_sub_cancel, slice_of_drop _ _ _ _ hu]
    have h2 : t._current + 1 + body.length - t._current = (d :: body).length := by
      simp only [List.length_cons]; omega
    rw [h2, List.take_length]
  have hclean : ∀ c ∈ (d :: body).filter (fun c => !isSeparator c),
      isDigitForBase c 10 = true := by
    intro c hc
    obtain ⟨hc1, hc2⟩ := List.mem_filter.mp hc
    rw [isDigit_iff_base10]
    rcases List.mem_cons.mp hc1 with h | h
    · rw [h]; exact hd
    · rcases hbody c h with h3 | h3
      · simp [h3] at hc2
      · exact h3
  have hne : (d :: body).filter (fun c => !isSeparator c) ≠ [] :=
    List.ne_nil_of_mem (List.mem_filter.mpr
      ⟨List.mem_cons_self _ _, by simp [isDigit_not_separator d hd]⟩)
  have hparse := ParseInt_digits 10 (by simp) _ hne hclean
  rw [number_decimal_start L _ d hf3 hnotdot hnotpfx, numberDecimal_at_end L _ _ hpeek5,
    numberFinish_int, hraw, removeSeparators_eq, hparse]
  unfold literalValue
  by_cases hv : digitsValue 10 ((d :: body).filter (fun c => !isSeparator c)) < 2 ^ 63
  · rw [if_pos hv, if_pos hv]
  · rw [if_neg hv, if_neg hv]

/-- C10: a source made of a decimal digit followed by decimal digits and
separators is scanned as one token whose slice is the whole source, followed by
`EOF`: a `LITERAL` with the integer value of the digits when that value is at most
`2^63 - 1`, an `ERROR` with message `Invalid numeric literal.` when it is larger.
`1_000` and `1,000` yield 1000 (the comma belongs to the number) and
`9223372036854775808` yields the error. -/
theorem decimal_integer_literal (L : GoLib) :
    (∀ (d : Nat) (body : List Nat), isDigit d = true →
      (∀ c ∈ body, isSeparator c = true ∨ isDigit c = true) →
      ∃ tok1 tok2 t, scanN L 2 (NewTokenizer (d :: body)) = .ok ([tok1, tok2], t) ∧
        tok1.Source = d :: body ∧ tok2.Type_ = TokenType.EOF ∧
        (literalValue 10 (d :: body) < 2 ^ 63 →
          tok1.Type_ = TokenType.LITERAL ∧
          tok1.Literal = Value.int (literalValue 10 (d :: body))) ∧
        (2 ^ 63 ≤ literalValue 10 (d :: body) →
          tok1.Type_ = TokenType.ERROR ∧
          tok1.Literal = Value.str (runes "Invalid numeric literal."))) ∧
    (∃ tok1 tok2 t, scanN L 2 (NewTokenizer (runes "1_000")) = .ok ([tok1, tok2], t) ∧
      tok1.Type_ = TokenType.LITERAL ∧ tok1.Literal = Value.int 1000 ∧
      tok2.Type_ = TokenType.EOF) ∧
    (∃ tok1 tok2 t, scanN L 2 (NewTokenizer (runes "1,000")) = .ok ([tok1, tok2], t) ∧
      tok1.Type_ = TokenType.LITERAL ∧ tok1.Literal = Value.int 1000 ∧
      tok2.Type_ = TokenType.EOF) ∧
    (∃ tok1 tok2 t, scanN L 2 (NewTokenizer (runes "9223372036854775808")) =
        .ok ([tok1, tok2], t) ∧
      tok1.Type_ = TokenType.ERROR ∧
      tok1.Literal = Value.str (runes "Invalid numeric literal.") ∧
      tok2.Type_ = TokenType.EOF) := by
  have main : ∀ (d : Nat) (body : List Nat), isDigit d = true →
      (∀ c ∈ body, isSeparator c = true ∨ isDigit c = true) →
      ∃ tok1 tok2 t, scanN L 2 (NewTokenizer (d :: body)) = .ok ([tok1, tok2], t) ∧
        tok1.Source = d :: body ∧ tok2.Type_ = TokenType.EOF ∧
        (literalValue 10 (d :: body) < 2 ^ 63 →
          tok1.Type_ = TokenType.LITERAL ∧
          tok1.Literal = Value.int (literalValue 10 (d :: body))) ∧
        (2 ^ 63 ≤ literalValue 10 (d :: body) →
          tok1.Type_ = TokenType.ERROR ∧
          tok1.Literal = Value.str (runes "Invalid numeric literal.")) := by
    intro d body hd hbody
    have q0 : Quiet (NewTokenizer (d :: body)) := ⟨rfl, rfl, rfl⟩
    have hu0 : unread (NewTokenizer (d :: body)) = d :: body := rfl
    obtain ⟨t5, hq5, hu5, hst5, hsrc5, hc5, hnum⟩ :=
      number_decimal_whole L _ d body q0 hd hbody hu0
    have hscan := Scan_digit L _ d _ q0 hd hu0
    have hc5b : t5._current = (d :: body).length := by
      rw [hc5]; simp [NewTokenizer]; omega
    by_cases hv : literalValue 10 (d :: body) < 2 ^ 63
    · rw [if_pos hv] at hnum
      rw [hnum] at hscan
      refine ⟨_, _, _, scanN_two L _ _ _ hscan (quiet_of_frame (makeLiteral_frame _ _) hq5) hu5,
        makeLiteral_source t5 _ _ hsrc5 hst5 hc5b, rfl, fun _ => ⟨rfl, rfl⟩,
        fun h => absurd hv (by omega)⟩
    · rw [if_neg hv] at hnum
      rw [hnum] at hscan
      refine ⟨_, _, _, scanN_two L _ _ _ hscan (quiet_of_frame (makeError_frame _ _) hq5) hu5,
        makeError_source t5 _ _ hsrc5 hst5 hc5b, rfl, fun h => absurd h hv,
        fun _ => ⟨rfl, rfl⟩⟩
  refine ⟨main, ?_, ?_, ?_⟩
  · obtain ⟨tok1, tok2, t, h1, _, h3, h4, _⟩ := main '1'.toNat (runes "_000") rfl (by decide)
    exact ⟨tok1, tok2, t, h1, (h4 (by decide)).1, (h4 (by decide)).2, h3⟩
  · obtain ⟨tok1, tok2, t, h1, _, h3, h4, _⟩ := main '1'.toNat (runes ",000") rfl (by decide)
    exact ⟨tok1, tok2, t, h1, (h4 (by decide)).1, (h4 (by decide)).2, h3⟩
  · obtain ⟨tok1, tok2, t, h1, _, h3, _, h5⟩ := main '9'.toNat (runes "223372036854775808") rfl
      (by decide)
    exact ⟨tok1, tok2, t, h1, (h5 (by decide)).1, (h5 (by decide)).2, h3⟩

theorem decimal_integer_literal_witness :
    isDigit '4'.toNat = true ∧ (∀ c ∈ runes "2_", isSeparator c = true ∨ isDigit c = true) ∧
    ∃ tok1 tok2 t, scanN GoLib.trivial 2 (NewTokenizer ('4'.toNat :: runes "2_")) =
        .ok ([tok1, tok2], t) ∧
      tok1.Source = '4'.toNat :: runes "2_" ∧ tok2.Type_ = TokenType.EOF ∧
      (literalValue 10 ('4'.toNat :: runes "2_") < 2 ^ 63 →
        tok1.Type_ = TokenType.LITERAL ∧
        tok1.Literal = Value.int (literalValue 10 ('4'.toNat :: runes "2_"))) ∧
      (2 ^ 63 ≤ literalValue 10 ('4'.toNat :: runes "2_") →
        tok1.Type_ = TokenType.ERROR ∧
        tok1.Literal = Value.str (runes "Invalid numeric literal.")) :=
  ⟨rfl, by decide, (decimal_integer_literal GoLib.trivial).1 '4'.toNat (runes "2_") rfl
    (by decide)⟩

/-! ## The fuel of the loops is sufficient

Each loop function, given more fuel than there are unread runes, returns the same
result with one more unit of fuel: the callers' `t.length - t._current + 1` is never
exhausted, so the loop functions compute what the Go loops compute. -/

theorem remaining_advance (t : Tokenizer) (n : Nat) (hne : peek t 0 ≠ 0)
    (h : t.length - t._current < n + 1) :
    (advance t).2.length - (advance t).2._current < n := by
  have hend := peek0_ne_zero_not_atEnd t hne
  rw [advance_current t hend, (advance_frame t).length]
  simp only [isAtEnd, decide_eq_false_iff_not, not_le] at hend
  omega

theorem remaining_mono {t t1 : Tokenizer} (n : Nat) (hl : t1.length = t.length)
    (hc : t._current ≤ t1._current) (h : t.length - t._current < n) :
    t1.length - t1._current < n := by
  rw [hl]; omega

theorem decimalDigitsLoop_fuel (fuel : Nat) :
    ∀ t : Tokenizer, t.length - t._current < fuel →
      decimalDigitsLoop (fuel + 1) t = decimalDigitsLoop fuel t := by
  induction fuel with
  | zero => intro t h; omega
  | succ n ih =>
    intro t h
    conv_lhs => rw [decimalDigitsLoop]
    conv_rhs => rw [decimalDigitsLoop]
    split
    · rename_i hc
      refine ih _ (remaining_advance t n ?_ h)
      intro h0
      rw [h0] at hc
      exact absurd hc (by decide)
    · rfl

theorem baseDigitsLoop_fuel (base fuel : Nat) :
    ∀ (t : Tokenizer) (digits : Nat), t.length - t._current < fuel →
      baseDigitsLoop base (fuel + 1) t digits = baseDigitsLoop base fuel t digits := by
  induction fuel with
  | zero => intro t _ h; omega
  | succ n ih =>
    intro t digits h
    conv_lhs => rw [baseDigitsLoop]
    conv_rhs => rw [baseDigitsLoop]
    split
    · rename_i hc
      refine ih _ _ (remaining_advance t n ?_ h)
      intro h0
      rw [h0] at hc
      exact absurd hc (by decide)
    · split
      · rename_i hc
        refine ih _ _ (remaining_advance t n ?_ h)
        intro h0
        rw [h0] at hc
        unfold isDigitForBase at hc
        split at hc
        · simp at hc
        · simp at hc
      · rfl

theorem identifierContinue_zero (L : GoLib) : isUnicodeIdentifierContinue L 0 = false := rfl

theorem identifierLoop_fuel (L : GoLib) (fuel : Nat) :
    ∀ t : Tokenizer, t.length - t._current < fuel →
      identifierLoop L (fuel + 1) t = identifierLoop L fuel t := by
  induction fuel with
  | zero => intro t h; omega
  | succ n ih =>
    intro t h
    conv_lhs => rw [identifierLoop]
    conv_rhs => rw [identifierLoop]
    split
    · rename_i hc
      refine ih _ (remaining_advance t n ?_ h)
      intro h0
      rw [h0, identifierContinue_zero] at hc
      exact absurd hc (by decide)
    · rfl

theorem skipLineCommentLoop_fuel (fuel : Nat) :
    ∀ t : Tokenizer, t.length - t._current < fuel →
      skipLineCommentLoop (fuel + 1) t = skipLineCommentLoop fuel t := by
  induction fuel with
  | zero => intro t h; omega
  | succ n ih =>
    intro t h
    conv_lhs => rw [skipLineCommentLoop]
    conv_rhs => rw [skipLineCommentLoop]
    split
    · rename_i hc
      have hend := hc.2
      refine ih _ ?_
      rw [advance_current t hend, (advance_frame t).length]
      simp only [isAtEnd, decide_eq_false_iff_not, not_le] at hend
      omega
    · rfl

theorem remaining_step {t t1 : Tokenizer} (n : Nat) (hend : isAtEnd t = false)
    (hl : t1.length = t.length) (hc : t._current + 1 ≤ t1._current)
    (h : t.length - t._current < n + 1) : t1.length - t1._current < n := by
  simp only [isAtEnd, decide_eq_false_iff_not, not_le] at hend
  rw [hl]; omega

theorem advance_step (t : Tokenizer) (hend : isAtEnd t = false) :
    t._current + 1 ≤ (advance t).2._current := by
  rw [advance_current t hend]

theorem stringTokenLoop_fuel (quote fuel : Nat) :
    ∀ (t : Tokenizer) (res : GoString), t.length - t._current < fuel →
      stringTokenLoop quote (fuel + 1) t res = stringTokenLoop quote fuel t res := by
  induction fuel with
  | zero => intro t _ h; omega
  | succ n ih =>
    intro t res h
    conv_lhs => rw [stringTokenLoop]
    conv_rhs => rw [stringTokenLoop]
    split
    · rfl
    · rename_i hend
      have hend2 : isAtEnd t = false := by simpa using hend
      split
      · rfl
      · split
        · exact ih _ _ (remaining_step n hend2 (advance2_frame t).length
            (le_trans (advance_step t hend2) (advance_frame _).current) h)
        · exact ih _ _ (remaining_step n hend2 (advance_frame t).length
            (advance_step t hend2) h)

theorem countRun_fuel (t : Tokenizer) (test fuel : Nat) :
    ∀ (chars next : Nat), t.length - next < fuel →
      countRun t test (fuel + 1) chars next = countRun t test fuel chars next := by
  induction fuel with
  | zero => intro _ next h; omega
  | succ n ih =>
    intro chars next h
    conv_lhs => rw [countRun]
    conv_rhs => rw [countRun]
    split
    · rename_i hc
      exact ih _ _ (by omega)
    · rfl

theorem skipBlockCommentLoop_fuel (fuel : Nat) :
    ∀ t : Tokenizer, t.length - t._current < fuel →
      skipBlockCommentLoop (fuel + 1) t = skipBlockCommentLoop fuel t := by
  induction fuel with
  | zero => intro t h; omega
  | succ n ih =>
    intro t h
    conv_lhs => rw [skipBlockCommentLoop]
    conv_rhs => rw [skipBlockCommentLoop]
    split
    · rfl
    · rename_i hend
      have hend2 : isAtEnd t = false := by simpa using hend
      split
      · dsimp only
        split
        · rfl
        · exact ih _ (remaining_step n hend2
            ((newline_trivia _).length.trans (advance2_frame t).length)
            (le_trans (le_trans (advance_step t hend2) (advance_frame _).current)
              (newline_trivia _).current) h)
      · split
        · exact ih _ (remaining_step n hend2
            ((newline_trivia _).length.trans (advance_frame t).length)
            (le_trans (advance_step t hend2) (newline_trivia _).current) h)
        · split
          · rfl
          · exact ih _ (remaining_step n hend2 (advance_frame t).length
              (advance_step t hend2) h)

theorem skipLineComment_step (t : Tokenizer) (hc : peek t 0 = '#'.toNat) :
    t._current + 1 ≤ (skipLineComment t)._current := by
  have hend : isAtEnd t = false := peek0_ne_zero_not_atEnd t (by rw [hc]; decide)
  have h1 : t._current + 1 ≤
      (skipLineCommentLoop (t.length - t._current + 1) t)._current := by
    rw [skipLineCommentLoop]
    have hcond : peek t 0 ≠ lineFeed ∧ isAtEnd t = false := ⟨by rw [hc]; decide, hend⟩
    rw [if_pos hcond]
    exact le_trans (advance_step t hend) (skipLineCommentLoop_trivia _ _).current
  unfold skipLineComment
  simp only
  split
  · exact h1
  · exact le_trans h1 (le_trans (advance_frame _).current (newline_trivia _).current)

theorem skipWhitespaceLoop_fuel (fuel : Nat) :
    ∀ t : Tokenizer, t.length - t._current < fuel →
      skipWhitespaceLoop (fuel + 1) t = skipWhitespaceLoop fuel t := by
  induction fuel with
  | zero => intro t h; omega
  | succ n ih =>
    intro t h
    conv_lhs => rw [skipWhitespaceLoop]
    conv_rhs => rw [skipWhitespaceLoop]
    simp only
    split
    · rename_i hc
      have hend : isAtEnd t = false := peek0_ne_zero_not_atEnd _ (by rw [hc]; decide)
      exact ih _ (remaining_step n hend (advance_frame t).length (advance_step t hend) h)
    · split
      · rename_i hc
        have hend : isAtEnd t = false := peek0_ne_zero_not_atEnd _ (by rw [hc]; decide)
        exact ih _ (remaining_step n hend (advance_frame t).length (advance_step t hend) h)
      · split
        · rename_i hc
          have hend : isAtEnd t = false := peek0_ne_zero_not_atEnd _ (by rw [hc]; decide)
          split
          · rfl
          · exact ih _ (remaining_step n hend (advance_frame t).length (advance_step t hend) h)
        · split
          · rename_i hc
            have hend : isAtEnd t = false := peek0_ne_zero_not_atEnd _ (by rw [hc]; decide)
            exact ih _ (remaining_step n hend
              ((newline_trivia _).length.trans (advance_frame t).length)
              (le_trans (advance_step t hend) (newline_trivia _).current) h)
          · split
            · rename_i hc
              have hend : isAtEnd t = false := peek0_ne_zero_not_atEnd _ (by rw [hc]; decide)
              exact ih _ (remaining_step n hend (skipLineComment_trivia t).length
                (skipLineComment_step t hc) h)
            · split
              · rename_i hc
                have hend : isAtEnd t = false :=
                  peek0_ne_zero_not_atEnd _ (by rw [hc]; decide)
                split
                · exact ih _ (remaining_step n hend
                    ((skipLineComment_trivia _).length.trans (advance2_frame t).length)
                    (le_trans (le_trans (advance_step t hend) (advance_frame _).current)
                      (skipLineComment_trivia _).current) h)
                · split
                  · exact ih _ (remaining_step n hend
                      ((skipBlockComment_trivia _).length.trans (advance2_frame t).length)
                      (le_trans (le_trans (advance_step t hend) (advance_frame _).current)
                        (skipBlockComment_trivia _).current) h)
                  · rfl
              · rfl

/-- The loop of `skipWhitespace` with any larger amount of fuel returns what
`skipWhitespace` returns. -/
theorem skipWhitespaceLoop_enough (t : Tokenizer) (k : Nat) :
    skipWhitespaceLoop (t.length - t._current + 1 + k) t = skipWhitespace t := by
  induction k with
  | zero => rfl
  | succ k ih =>
    have h := skipWhitespaceLoop_fuel (t.length - t._current + 1 + k) t (by omega)
    exact h.trans ih

/-- The recursion of `Scan` with one more level than needed returns the same
result: the budget `t.length - t._current + 1` of `Scan` is never exhausted. -/
theorem ScanLoop_more_fuel (L : GoLib) (fuel : Nat) :
    ∀ t : Tokenizer, t.length - t._current < fuel →
      ScanLoop L (fuel + 1) t = ScanLoop L fuel t := by
  induction fuel with
  | zero => intro t h; omega
  | succ n ih =>
    intro t h
    conv_lhs => rw [ScanLoop]
    conv_rhs => rw [ScanLoop]
    split
    · rfl
    · dsimp only
      have hs := skipWhitespace_trivia t
      split
      · rfl
      · split
        · rfl
        · split
          · rfl
          · rename_i hend
            have hend2 : isAtEnd (markStart (skipWhitespace t)) = false := by simpa using hend
            split
            · rfl
            · split
              · apply ih
                have hs2 := skipWhitespace_trivia (advance (markStart (skipWhitespace t))).2
                have hc := advance_current _ hend2
                have hl := (advance_frame (markStart (skipWhitespace t))).length
                have h1 := hs2.current
                have h2 := hs2.length
                have h3 := hs.current
                have h4 := hs.length
                have h5 : (markStart (skipWhitespace t))._current = (skipWhitespace t)._current :=
                  rfl
                have h6 : (markStart (skipWhitespace t)).length = (skipWhitespace t).length := rfl
                simp only [isAtEnd, decide_eq_false_iff_not, not_le] at hend2
                omega
              · rfl

/-! ## A sign in front of a digit as first token -/

theorem sign_first_faults (L : GoLib) (s d : Nat) (rest : List Nat)
    (hs : s = '+'.toNat ∨ s = '-'.toNat) (hd : isDigit d = true) :
    Scan L (NewTokenizer (s :: d :: rest)) = .error Fault.nilDereference := by
  have q0 : Quiet (NewTokenizer (s :: d :: rest)) := ⟨rfl, rfl, rfl⟩
  have hu0 : unread (NewTokenizer (s :: d :: rest)) = s :: d :: rest := rfl
  obtain ⟨hq3, hu3, _, _, _, hl3, _⟩ := after_first_rune _ q0 s (d :: rest) hu0
  have hend := isAtEnd_of_unread_cons _ q0.length s _ hu0
  have hpeek : peek (NewTokenizer (s :: d :: rest)) 0 = s := by
    rw [peek0_eq_unread _ q0.length, hu0]; rfl
  have hpeek3 : peek (advance (markStart (NewTokenizer (s :: d :: rest)))).2 0 = d := by
    rw [peek0_eq_unread _ hq3.length, hu3]; rfl
  have hscan := Scan_plain L _ _ q0.errors q0.pending hend
    (by rw [hpeek]; exact plainRune_sign s hs)
    (by rw [hpeek]; exact scanToken_sign L s _ hs (by rw [hpeek3]; exact hd))
  rw [hscan]
  have hnone : (advance (markStart (NewTokenizer (s :: d :: rest)))).2.lastToken = none := hl3
  simp [signedNumber, hnone]

/-- C2 (evaluation of the code): on a fresh tokenizer whose source starts with a
sign followed by a decimal digit, the first call dereferences the `nil` `lastToken`
and fails fatally; the sources `-1` and `+2` are instances. -/
theorem sign_first_token_faults (L : GoLib) :
    (∀ (s d : Nat) (rest : List Nat), (s = '+'.toNat ∨ s = '-'.toNat) → isDigit d = true →
      Scan L (NewTokenizer (s :: d :: rest)) = .error Fault.nilDereference) ∧
    Scan L (NewTokenizer (runes "-1")) = .error Fault.nilDereference ∧
    Scan L (NewTokenizer (runes "+2")) = .error Fault.nilDereference :=
  ⟨sign_first_faults L, rfl, rfl⟩

theorem sign_first_token_faults_witness :
    isDigit '7'.toNat = true ∧
    Scan GoLib.trivial (NewTokenizer ('-'.toNat :: '7'.toNat :: runes " + x")) =
      .error Fault.nilDereference :=
  ⟨rfl, (sign_first_token_faults GoLib.trivial).1 '-'.toNat '7'.toNat (runes " + x")
    (Or.inr rfl) rfl⟩

/-! ## Decimal literals with fraction and exponent -/

theorem stringOfRune_scalar (c : Nat) (h : isScalarValue c = true) : stringOfRune c = [c] := by
  simp only [isScalarValue, decide_eq_true_eq] at h
  unfold stringOfRune
  rw [if_neg]
  omega

/-- What `stringToken` appends for an escape pair. -/
theorem escape_append (e : Nat) (h : isScalarValue e = true) :
    (if e = 'n'.toNat then [lineFeed]
      else if e = 't'.toNat then [tabRune]
      else if e = backslash then [backslash]
      else if e = quoteDouble then [quoteDouble]
      else stringOfRune e) = [unescape e] := by
  unfold unescape
  rw [stringOfRune_scalar e h]
  split_ifs <;> rfl

theorem peek_back (t : Tokenizer) (h1 : 1 ≤ t._current) (h2 : t._current ≤ t.length) :
    peek t (-1) = t.source.getD (t._current - 1) 0 := by
  unfold peek
  have hc : (0 : Int) ≤ (t._current : Int) + -1 ∧ (t._current : Int) + -1 < (t.length : Int) := by
    omega
  have hn : ((t._current : Int) + -1).toNat = t._current - 1 := by omega
  simp only [hc, and_self, if_true, hn]

theorem stringTokenLoop_end (quote fuel : Nat) (t : Tokenizer) (result : GoString)
    (hend : isAtEnd t = true) :
    stringTokenLoop quote fuel t result = makeError t (runes "Unterminated string") := by
  cases fuel with
  | zero => rfl
  | succ k =>
    rw [stringTokenLoop]
    simp only [hend, if_true]

theorem stringTokenLoop_close (quote k : Nat) (t : Tokenizer) (result : GoString)
    (hend : isAtEnd t = false) (hpeek : peek t 0 = quote) :
    stringTokenLoop quote (k + 1) t result = makeLiteral (advance t).2 (Value.str result) := by
  rw [stringTokenLoop]
  simp only [hend, hpeek, Bool.false_eq_true, if_false, if_true]

theorem stringTokenLoop_char (quote k : Nat) (t : Tokenizer) (result : GoString)
    (hend : isAtEnd t = false) (hq : peek t 0 ≠ quote) (hb : peek t 0 ≠ backslash) :
    stringTokenLoop quote (k + 1) t result =
      stringTokenLoop quote k (advance t).2 (result ++ stringOfRune (peek t 0)) := by
  rw [stringTokenLoop]
  simp only [hend, hq, hb, Bool.false_eq_true, if_false]

theorem stringTokenLoop_escape (quote k : Nat) (t : Tokenizer) (result : GoString)
    (hend : isAtEnd t = false) (hq : quote ≠ backslash) (hb : peek t 0 = backslash) :
    stringTokenLoop quote (k + 1) t result =
      stringTokenLoop quote k (advance (advance t).2).2
        (result ++
          (if peek (advance t).2 0 = 'n'.toNat then [lineFeed]
           else if peek (advance t).2 0 = 't'.toNat then [tabRune]
           else if peek (advance t).2 0 = backslash then [backslash]
           else if peek (advance t).2 0 = quoteDouble then [quoteDouble]
           else stringOfRune (peek (advance t).2 0))) := by
  have hq2 : ¬ (backslash = quote) := fun h => hq h.symm
  rw [stringTokenLoop]
  simp only [hend, hb, hq2, Bool.false_eq_true, if_false, if_true]

/-- The loop of `stringToken` on a body of escape pairs and plain characters that is
followed by the closing quote: it consumes the body and the quote, and returns the
literal of the decoded body. -/
theorem stringTokenLoop_closed (q : Nat) (hq : q ≠ backslash) (rest : List Nat) :
    ∀ (n : Nat) (body : List Nat), body.length ≤ n →
      ∀ (t : Tokenizer) (result : GoString) (fuel : Nat),
        t.length = t.source.length → unread t = body ++ q :: rest →
        escapedBody q body = true → (∀ c ∈ body, isScalarValue c = true) →
        body.length < fuel →
        ∃ t1, Frame t t1 ∧ unread t1 = rest ∧ t1._current = t._current + body.length + 1 ∧
          stringTokenLoop q fuel t result =
            makeLiteral t1 (Value.str (result ++ decodeBody body)) := by
  intro n
  induction n with
  | zero =>
    intro body hn t result fuel hl hu _ _ hf
    have hb : body = [] := List.length_eq_zero.mp (Nat.le_zero.mp hn)
    subst hb
    obtain ⟨k, rfl⟩ : ∃ k, fuel = k + 1 := ⟨fuel - 1, by simp at hf; omega⟩
    have hu2 : unread t = q :: rest := hu
    have hpeek : peek t 0 = q := by rw [peek0_eq_unread t hl, hu2]; rfl
    have hend := isAtEnd_of_unread_cons t hl q _ hu2
    refine ⟨(advance t).2, advance_frame t, unread_advance t hl q _ hu2,
      by rw [advance_current t hend]; rfl, ?_⟩
    rw [stringTokenLoop_close q k t result hend hpeek]
    simp [decodeBody]
  | succ n ih =>
    intro body hn t result fuel hl hu hesc hsv hf
    obtain ⟨k, rfl⟩ : ∃ k, fuel = k + 1 := ⟨fuel - 1, by omega⟩
    match body, hn, hu, hesc, hsv, hf with
    | [], _, hu, _, _, _ =>
      have hu2 : unread t = q :: rest := hu
      have hpeek : peek t 0 = q := by rw [peek0_eq_unread t hl, hu2]; rfl
      have hend := isAtEnd_of_unread_cons t hl q _ hu2
      refine ⟨(advance t).2, advance_frame t, unread_advance t hl q _ hu2,
        by rw [advance_current t hend]; rfl, ?_⟩
      rw [stringTokenLoop_close q k t result hend hpeek]
      simp [decodeBody]
    | [c], _, hu, hesc, hsv, hf =>
      simp only [escapedBody, decide_eq_true_eq] at hesc
      have hu2 : unread t = c :: q :: rest := hu
      have hpeek : peek t 0 = c := by rw [peek0_eq_unread t hl, hu2]; rfl
      have hend := isAtEnd_of_unread_cons t hl c _ hu2
      have hua := unread_advance t hl c _ hu2
      have hla := quiet_length_of_frame (advance_frame t) hl
      obtain ⟨t1, hfr, hur, hcr, hres⟩ := ih [] (Nat.zero_le _) (advance t).2
        (result ++ stringOfRune c) k hla hua rfl (by simp) (by simp at hf ⊢; omega)
      refine ⟨t1, (advance_frame t).trans hfr, hur, ?_, ?_⟩
      · rw [hcr, advance_current t hend]; rfl
      · rw [stringTokenLoop_char q k t result hend (by rw [hpeek]; exact hesc.2)
          (by rw [hpeek]; exact hesc.1), hpeek, hres,
          stringOfRune_scalar c (hsv c (List.mem_cons_self _ _))]
        simp [decodeBody, hesc.1]
    | c :: e :: more, hn, hu, hesc, hsv, hf =>
      have hu2 : unread t = c :: e :: (more ++ q :: rest) := hu
      have hpeek : peek t 0 = c := by rw [peek0_eq_unread t hl, hu2]; rfl
      have hend := isAtEnd_of_unread_cons t hl c _ hu2
      have hua := unread_advance t hl c _ hu2
      have hla := quiet_length_of_frame (advance_frame t) hl
      have hca := advance_current t hend
      by_cases hc : c = backslash
      · simp only [escapedBody, hc, if_true] at hesc
        have hpeek1 : peek (advance t).2 0 = e := by rw [peek0_eq_unread _ hla, hua]; rfl
        have hend1 := isAtEnd_of_unread_cons _ hla e _ hua
        have hub := unread_advance _ hla e _ hua
        have hlb := quiet_length_of_frame (advance_frame (advance t).2) hla
        have hcb := advance_current _ hend1
        obtain ⟨t1, hfr, hur, hcr, hres⟩ := ih more
          (by simp only [List.length_cons] at hn; omega) (advance (advance t).2).2
          (result ++ [unescape e]) k hlb hub hesc
          (fun x hx => hsv x (List.mem_cons_of_mem _ (List.mem_cons_of_mem _ hx)))
          (by simp only [List.length_cons] at hf; omega)
        refine ⟨t1, ((advance_frame t).trans (advance_frame _)).trans hfr, hur, ?_, ?_⟩
        · rw [hcr, hcb, hca]; simp only [List.length_cons]; omega
        · rw [stringTokenLoop_escape q k t result hend hq (by rw [hpeek]; exact hc), hpeek1,
            escape_append e (hsv e (List.mem_cons_of_mem _ (List.mem_cons_self _ _))), hres]
          simp [decodeBody, hc]
      · simp only [escapedBody, hc, if_false, Bool.and_eq_true, decide_eq_true_eq] at hesc
        obtain ⟨t1, hfr, hur, hcr, hres⟩ := ih (e :: more)
          (by simp only [List.length_cons] at hn ⊢; omega) (advance t).2
          (result ++ stringOfRune c) k hla hua hesc.2
          (fun x hx => hsv x (List.mem_cons_of_mem _ hx))
          (by simp only [List.length_cons] at hf ⊢; omega)
        refine ⟨t1, (advance_frame t).trans hfr, hur, ?_, ?_⟩
        · rw [hcr, hca]; simp only [List.length_cons]; omega
        · rw [stringTokenLoop_char q k t result hend (by rw [hpeek]; exact hesc.1)
            (by rw [hpeek]; exact hc), hpeek, hres,
            stringOfRune_scalar c (hsv c (List.mem_cons_self _ _))]
          simp [decodeBody, hc]

theorem scanToken_quote (L : GoLib) (q : Nat) (t : Tokenizer)
    (hq : q = quoteDouble ∨ q = quoteSingle) :
    scanToken L q t = some (.ok (stringToken t)) := by
  rcases hq with h | h <;> subst h <;> rfl

theorem quote_ne_backslash (q : Nat) (hq : q = quoteDouble ∨ q = quoteSingle) :
    q ≠ backslash := by
  rcases hq with h | h <;> subst h <;> decide

/-- A call of `Scan` on a quote character, in a state with nothing queued: the result
is that of the loop of `stringToken`, entered after the quote. -/
theorem Scan_quote (L : GoLib) (t : Tokenizer) (q : Nat) (rest : List Nat)
    (hq : q = quoteDouble ∨ q = quoteSingle) (qt : Quiet t) (hu : unread t = q :: rest) :
    Quiet (advance (markStart t)).2 ∧ unread (advance (markStart t)).2 = rest ∧
      (advance (markStart t)).2._current = t._current + 1 ∧
      (advance (markStart t)).2._start = t._current ∧
      (advance (markStart t)).2.source = t.source ∧
      Scan L t = .ok (stringTokenLoop q
        ((advance (markStart t)).2.length - (advance (markStart t)).2._current + 1)
        (advance (markStart t)).2 []) := by
  obtain ⟨hq3, hu3, hc3, hst3, hsrc3, _, hf3⟩ := after_first_rune t qt _ _ hu
  have hend := isAtEnd_of_unread_cons t qt.length _ _ hu
  have hpeek : peek t 0 = q := by rw [peek0_eq_unread t qt.length, hu]; rfl
  have hplain : plainRune q = true := by rcases hq with h | h <;> subst h <;> rfl
  have hlen : (advance (markStart t)).2._current ≤ (advance (markStart t)).2.length := by
    have := unread_length _ hq3.length
    have h2 : t.length - t._current = (q :: rest).length := by
      rw [← hu, unread_length t qt.length]
    have h3 : (advance (markStart t)).2.length = t.length := (advance_frame (markStart t)).length
    rw [h3, hc3]
    simp only [List.length_cons] at h2
    omega
  have hback : peek (advance (markStart t)).2 (-1) = q := by
    rw [peek_back _ (by rw [hc3]; omega) hlen, hf3]
  refine ⟨hq3, hu3, hc3, hst3, hsrc3, ?_⟩
  have hscan := Scan_plain L t (.ok (stringToken (advance (markStart t)).2)) qt.errors
    qt.pending hend (by rw [hpeek]; exact hplain) (by rw [hpeek]; exact scanToken_quote L q _ hq)
  rw [hscan]
  unfold stringToken
  rw [hback]

/-- A string literal that is the whole source: the quote, a body of escape pairs and
plain characters, the closing quote. -/
theorem string_whole (L : GoLib) (q : Nat) (body : List Nat)
    (hq : q = quoteDouble ∨ q = quoteSingle) (hesc : escapedBody q body = true)
    (hsv : ∀ c ∈ body, isScalarValue c = true) :
    ∃ tok1 tok2 t, scanN L 2 (NewTokenizer (q :: (body ++ [q]))) = .ok ([tok1, tok2], t) ∧
      tok1.Type_ = TokenType.LITERAL ∧ tok1.Literal = Value.str (decodeBody body) ∧
      tok1.Source = q :: (body ++ [q]) ∧ tok2.Type_ = TokenType.EOF := by
  have q0 : Quiet (NewTokenizer (q :: (body ++ [q]))) := ⟨rfl, rfl, rfl⟩
  have hu0 : unread (NewTokenizer (q :: (body ++ [q]))) = q :: (body ++ [q]) := rfl
  obtain ⟨hq3, hu3, hc3, hst3, hsrc3, hscan⟩ := Scan_quote L _ q _ hq q0 hu0
  have hfuel : body.length <
      (advance (markStart (NewTokenizer (q :: (body ++ [q]))))).2.length -
        (advance (markStart (NewTokenizer (q :: (body ++ [q]))))).2._current + 1 := by
    rw [← unread_length _ hq3.length, hu3, List.length_append]; omega
  obtain ⟨t1, hfr, hur, hcr, hres⟩ := stringTokenLoop_closed q (quote_ne_backslash q hq) []
    body.length body le_rfl _ [] _ hq3.length hu3 hesc hsv hfuel
  rw [hres] at hscan
  have hq1 := quiet_of_frame hfr hq3
  refine ⟨_, _, _, scanN_two L _ _ _ hscan (quiet_of_frame (makeLiteral_frame _ _) hq1) hur,
    rfl, by simp, ?_, rfl⟩
  apply makeLiteral_source t1 _ _ (hfr.source.trans hsrc3) (hfr.start.trans hst3)
  rw [hcr, hc3]
  simp [NewTokenizer]
  omega

/-- C12 (amended): for every source made of a quote character `q`, a body that reads
left to right as escape pairs (a backslash and the character after it) and single
characters other than `q` and the backslash, and a closing `q`, the scan yields one
`LITERAL` whose slice is the source and whose string payload is the decoded body,
followed by `EOF`. The source made of a double quote, `a`, a backslash, `n`, `b` and
a double quote yields the 3-character string `a`, line feed, `b`. -/
theorem string_literal_decoded (L : GoLib) :
    (∀ (q : Nat) (body : List Nat), (q = quoteDouble ∨ q = quoteSingle) →
      escapedBody q body = true → (∀ c ∈ body, isScalarValue c = true) →
      ∃ tok1 tok2 t, scanN L 2 (NewTokenizer (q :: (body ++ [q]))) = .ok ([tok1, tok2], t) ∧
        tok1.Type_ = TokenType.LITERAL ∧ tok1.Literal = Value.str (decodeBody body) ∧
        tok1.Source = q :: (body ++ [q]) ∧ tok2.Type_ = TokenType.EOF) ∧
    (∃ tok1 tok2 t, scanN L 2 (NewTokenizer (runes "\"a\\nb\"")) = .ok ([tok1, tok2], t) ∧
      tok1.Type_ = TokenType.LITERAL ∧
      tok1.Literal = Value.str ['a'.toNat, lineFeed, 'b'.toNat] ∧
      tok2.Type_ = TokenType.EOF) := by
  refine ⟨fun q body hq hesc hsv => string_whole L q body hq hesc hsv, ?_⟩
  obtain ⟨tok1, tok2, t, h1, h2, h3, _, h5⟩ :=
    string_whole L quoteDouble (runes "a\\nb") (Or.inl rfl) rfl (by decide)
  exact ⟨tok1, tok2, t, h1, h2, h3, h5⟩

theorem string_literal_decoded_witness :
    escapedBody quoteSingle (runes "it\\'s \\\\ \"x\"") = true ∧
    (∀ c ∈ runes "it\\'s \\\\ \"x\"", isScalarValue c = true) ∧
    decodeBody (runes "it\\'s \\\\ \"x\"") = runes "it's \\ \"x\"" ∧
    ∃ tok1 tok2 t,
      scanN GoLib.trivial 2
        (NewTokenizer (quoteSingle :: (runes "it\\'s \\\\ \"x\"" ++ [quoteSingle]))) =
        .ok ([tok1, tok2], t) ∧
      tok1.Type_ = TokenType.LITERAL ∧
      tok1.Literal = Value.str (decodeBody (runes "it\\'s \\\\ \"x\"")) ∧
      tok1.Source = quoteSingle :: (runes "it\\'s \\\\ \"x\"" ++ [quoteSingle]) ∧
      tok2.Type_ = TokenType.EOF :=
  ⟨rfl, by decide, rfl,
    (string_literal_decoded GoLib.trivial).1 quoteSingle (runes "it\\'s \\\\ \"x\"")
      (Or.inr rfl) rfl (by decide)⟩

theorem trace_backslash_pair_quote (L : GoLib) :
    scanN L 3 (NewTokenizer (runes "\"\\\\\"\"")) =
    .ok ([(Token.mk TokenType.LITERAL (Value.str (runes "\\")) 1 1 5 5 (-1) CursorPlace.CURSOR_NONE
        (runes "\"\\\\\"")), (Token.mk TokenType.ERROR (Value.str (runes "Unterminated string")) 1 1
        6 6 (-1) CursorPlace.CURSOR_NONE (runes "\"")), (Token.mk TokenType.EOF Value.nil 1 1 6 6
        (-1) CursorPlace.CURSOR_NONE [])], (Tokenizer.mk (runes "\"\\\\\"\"") 5 1 6 [] false (some
        (Token.mk TokenType.EOF Value.nil 1 1 6 6 (-1) CursorPlace.CURSOR_NONE [])) none 5 1 6 5 5 4
        [])) := by
  have h0 : NewTokenizer (runes "\"\\\\\"\"") = (Tokenizer.mk (runes "\"\\\\\"\"") 0 0 0 [] false
      none none 0 1 1 0 5 4 []) := rfl
  have s1 : Scan L (Tokenizer.mk (runes "\"\\\\\"\"") 0 0 0 [] false none none 0 1 1 0 5 4 []) = .ok
      ((Token.mk TokenType.LITERAL (Value.str (runes "\\")) 1 1 5 5 (-1) CursorPlace.CURSOR_NONE
      (runes "\"\\\\\"")), (Tokenizer.mk (runes "\"\\\\\"\"") 0 1 1 [] false (some (Token.mk
      TokenType.LITERAL (Value.str (runes "\\")) 1 1 5 5 (-1) CursorPlace.CURSOR_NONE (runes
      "\"\\\\\""))) none 4 1 5 4 5 4 [])) := rfl
  have s2 : Scan L (Tokenizer.mk (runes "\"\\\\\"\"") 0 1 1 [] false (some (Token.mk
      TokenType.LITERAL (Value.str (runes "\\")) 1 1 5 5 (-1) CursorPlace.CURSOR_NONE (runes
      "\"\\\\\""))) none 4 1 5 4 5 4 []) = .ok ((Token.mk TokenType.ERROR (Value.str (runes
      "Unterminated string")) 1 1 6 6 (-1) CursorPlace.CURSOR_NONE (runes "\"")), (Tokenizer.mk
      (runes "\"\\\\\"\"") 4 1 5 [] false (some (Token.mk TokenType.ERROR (Value.str (runes
      "Unterminated string")) 1 1 6 6 (-1) CursorPlace.CURSOR_NONE (runes "\""))) none 5 1 6 5 5 4
      [])) := rfl
  have s3 : Scan L (Tokenizer.mk (runes "\"\\\\\"\"") 4 1 5 [] false (some (Token.mk TokenType.ERROR
      (Value.str (runes "Unterminated string")) 1 1 6 6 (-1) CursorPlace.CURSOR_NONE (runes "\"")))
      none 5 1 6 5 5 4 []) = .ok ((Token.mk TokenType.EOF Value.nil 1 1 6 6 (-1)
      CursorPlace.CURSOR_NONE []), (Tokenizer.mk (runes "\"\\\\\"\"") 5 1 6 [] false (some (Token.mk
      TokenType.EOF Value.nil 1 1 6 6 (-1) CursorPlace.CURSOR_NONE [])) none 5 1 6 5 5 4 [])) := rfl
  simp only [h0, scanN, s1, s2, s3]

/-- C12 (counterexample): the source made of a double quote, two backslashes and two
double quotes. In its body (two backslashes and a double quote) the quote stands
directly after a backslash and the body does not end in a backslash; its decoded
value is a backslash and a double quote. The scan ends the string at the quote of
the body, the backslash before it being the escaped character of a pair: the first
token is the literal `\`, with the first four characters as slice, and the second
is the error of an unterminated string. -/
theorem string_quote_after_backslash_counterexample :
    quoteOnlyAfterBackslash quoteDouble [backslash, backslash, quoteDouble] = true ∧
    endsInUnpairedBackslash [backslash, backslash, quoteDouble] = false ∧
    decodeBody [backslash, backslash, quoteDouble] = [backslash, quoteDouble] ∧
    ∃ tok1 tok2 tok3 t,
      scanN GoLib.trivial 3
        (NewTokenizer (quoteDouble :: ([backslash, backslash, quoteDouble] ++ [quoteDouble]))) =
        .ok ([tok1, tok2, tok3], t) ∧
      tok1.Type_ = TokenType.LITERAL ∧ tok1.Literal = Value.str [backslash] ∧
      tok1.Literal ≠ Value.str (decodeBody [backslash, backslash, quoteDouble]) ∧
      tok1.Source = [quoteDouble, backslash, backslash, quoteDouble] ∧
      tok2.Type_ = TokenType.ERROR ∧ tok2.Literal = Value.str (runes "Unterminated string") ∧
      tok3.Type_ = TokenType.EOF :=
  ⟨rfl, rfl, rfl, _, _, _, _, trace_backslash_pair_quote GoLib.trivial, rfl, rfl, by decide, rfl,
    rfl, rfl, rfl⟩

theorem trace_raw_string (L : GoLib) :
    scanN L 2 (NewTokenizer (runes "r\"ab\"")) =
    .ok ([(Token.mk TokenType.ERROR (Value.str (runes "Unterminated string")) 1 1 6 6 (-1)
        CursorPlace.CURSOR_NONE (runes "r\"ab\"")), (Token.mk TokenType.EOF Value.nil 1 1 6 6 (-1)
        CursorPlace.CURSOR_NONE [])], (Tokenizer.mk (runes "r\"ab\"") 5 1 6 [] false (some (Token.mk
        TokenType.EOF Value.nil 1 1 6 6 (-1) CursorPlace.CURSOR_NONE [])) none 5 1 6 5 5 4 [])) := by
  have h0 : NewTokenizer (runes "r\"ab\"") = (Tokenizer.mk (runes "r\"ab\"") 0 0 0 [] false none
      none 0 1 1 0 5 4 []) := rfl
  have s1 : Scan L (Tokenizer.mk (runes "r\"ab\"") 0 0 0 [] false none none 0 1 1 0 5 4 []) = .ok
      ((Token.mk TokenType.ERROR (Value.str (runes "Unterminated string")) 1 1 6 6 (-1)
      CursorPlace.CURSOR_NONE (runes "r\"ab\"")), (Tokenizer.mk (runes "r\"ab\"") 0 1 1 [] false
      (some (Token.mk TokenType.ERROR (Value.str (runes "Unterminated string")) 1 1 6 6 (-1)
      CursorPlace.CURSOR_NONE (runes "r\"ab\""))) none 5 1 6 5 5 4 [])) := rfl
  have s2 : Scan L (Tokenizer.mk (runes "r\"ab\"") 0 1 1 [] false (some (Token.mk TokenType.ERROR
      (Value.str (runes "Unterminated string")) 1 1 6 6 (-1) CursorPlace.CURSOR_NONE (runes
      "r\"ab\""))) none 5 1 6 5 5 4 []) = .ok ((Token.mk TokenType.EOF Value.nil 1 1 6 6 (-1)
      CursorPlace.CURSOR_NONE []), (Tokenizer.mk (runes "r\"ab\"") 5 1 6 [] false (some (Token.mk
      TokenType.EOF Value.nil 1 1 6 6 (-1) CursorPlace.CURSOR_NONE [])) none 5 1 6 5 5 4 [])) := rfl
  simp only [h0, scanN, s1, s2]

theorem trace_caret_string (L : GoLib) :
    scanN L 2 (NewTokenizer (runes "^\"ab\"")) =
    .ok ([(Token.mk TokenType.ERROR (Value.str (runes "Unterminated string")) 1 1 6 6 (-1)
        CursorPlace.CURSOR_NONE (runes "^\"ab\"")), (Token.mk TokenType.EOF Value.nil 1 1 6 6 (-1)
        CursorPlace.CURSOR_NONE [])], (Tokenizer.mk (runes "^\"ab\"") 5 1 6 [] false (some (Token.mk
        TokenType.EOF Value.nil 1 1 6 6 (-1) CursorPlace.CURSOR_NONE [])) none 5 1 6 5 5 4 [])) := by
  have h0 : NewTokenizer (runes "^\"ab\"") = (Tokenizer.mk (runes "^\"ab\"") 0 0 0 [] false none
      none 0 1 1 0 5 4 []) := rfl
  have s1 : Scan L (Tokenizer.mk (runes "^\"ab\"") 0 0 0 [] false none none 0 1 1 0 5 4 []) = .ok
      ((Token.mk TokenType.ERROR (Value.str (runes "Unterminated string")) 1 1 6 6 (-1)
      CursorPlace.CURSOR_NONE (runes "^\"ab\"")), (Tokenizer.mk (runes "^\"ab\"") 0 1 1 [] false
      (some (Token.mk TokenType.ERROR (Value.str (runes "Unterminated string")) 1 1 6 6 (-1)
      CursorPlace.CURSOR_NONE (runes "^\"ab\""))) none 5 1 6 5 5 4 [])) := rfl
  have s2 : Scan L (Tokenizer.mk (runes "^\"ab\"") 0 1 1 [] false (some (Token.mk TokenType.ERROR
      (Value.str (runes "Unterminated string")) 1 1 6 6 (-1) CursorPlace.CURSOR_NONE (runes
      "^\"ab\""))) none 5 1 6 5 5 4 []) = .ok ((Token.mk TokenType.EOF Value.nil 1 1 6 6 (-1)
      CursorPlace.CURSOR_NONE []), (Tokenizer.mk (runes "^\"ab\"") 5 1 6 [] false (some (Token.mk
      TokenType.EOF Value.nil 1 1 6 6 (-1) CursorPlace.CURSOR_NONE [])) none 5 1 6 5 5 4 [])) := rfl
  simp only [h0, scanN, s1, s2]

theorem trace_ampersand_string (L : GoLib) :
    scanN L 2 (NewTokenizer (runes "&\"ab\"")) =
    .ok ([(Token.mk TokenType.ERROR (Value.str (runes "Unterminated string")) 1 1 6 6 (-1)
        CursorPlace.CURSOR_NONE (runes "&\"ab\"")), (Token.mk TokenType.EOF Value.nil 1 1 6 6 (-1)
        CursorPlace.CURSOR_NONE [])], (Tokenizer.mk (runes "&\"ab\"") 5 1 6 [] false (some (Token.mk
        TokenType.EOF Value.nil 1 1 6 6 (-1) CursorPlace.CURSOR_NONE [])) none 5 1 6 5 5 4 [])) := by
  have h0 : NewTokenizer (runes "&\"ab\"") = (Tokenizer.mk (runes "&\"ab\"") 0 0 0 [] false none
      none 0 1 1 0 5 4 []) := rfl
  have s1 : Scan L (Tokenizer.mk (runes "&\"ab\"") 0 0 0 [] false none none 0 1 1 0 5 4 []) = .ok
      ((Token.mk TokenType.ERROR (Value.str (runes "Unterminated string")) 1 1 6 6 (-1)
      CursorPlace.CURSOR_NONE (runes "&\"ab\"")), (Tokenizer.mk (runes "&\"ab\"") 0 1 1 [] false
      (some (Token.mk TokenType.ERROR (Value.str (runes "Unterminated string")) 1 1 6 6 (-1)
      CursorPlace.CURSOR_NONE (runes "&\"ab\""))) none 5 1 6 5 5 4 [])) := rfl
  have s2 : Scan L (Tokenizer.mk (runes "&\"ab\"") 0 1 1 [] false (some (Token.mk TokenType.ERROR
      (Value.str (runes "Unterminated string")) 1 1 6 6 (-1) CursorPlace.CURSOR_NONE (runes
      "&\"ab\""))) none 5 1 6 5 5 4 []) = .ok ((Token.mk TokenType.EOF Value.nil 1 1 6 6 (-1)
      CursorPlace.CURSOR_NONE []), (Tokenizer.mk (runes "&\"ab\"") 5 1 6 [] false (some (Token.mk
      TokenType.EOF Value.nil 1 1 6 6 (-1) CursorPlace.CURSOR_NONE [])) none 5 1 6 5 5 4 [])) := rfl
  simp only [h0, scanN, s1, s2]

theorem trace_raw_string_sigil (L : GoLib) :
    scanN L 2 (NewTokenizer (runes "r\"abr")) =
    .ok ([(Token.mk TokenType.LITERAL (Value.str (runes "\"ab")) 1 1 6 6 (-1)
        CursorPlace.CURSOR_NONE (runes "r\"abr")), (Token.mk TokenType.EOF Value.nil 1 1 6 6 (-1)
        CursorPlace.CURSOR_NONE [])], (Tokenizer.mk (runes "r\"abr") 5 1 6 [] false (some (Token.mk
        TokenType.EOF Value.nil 1 1 6 6 (-1) CursorPlace.CURSOR_NONE [])) none 5 1 6 5 5 4 [])) := by
  have h0 : NewTokenizer (runes "r\"abr") = (Tokenizer.mk (runes "r\"abr") 0 0 0 [] false none none
      0 1 1 0 5 4 []) := rfl
  have s1 : Scan L (Tokenizer.mk (runes "r\"abr") 0 0 0 [] false none none 0 1 1 0 5 4 []) = .ok
      ((Token.mk TokenType.LITERAL (Value.str (runes "\"ab")) 1 1 6 6 (-1) CursorPlace.CURSOR_NONE
      (runes "r\"abr")), (Tokenizer.mk (runes "r\"abr") 0 1 1 [] false (some (Token.mk
      TokenType.LITERAL (Value.str (runes "\"ab")) 1 1 6 6 (-1) CursorPlace.CURSOR_NONE (runes
      "r\"abr"))) none 5 1 6 5 5 4 [])) := rfl
  have s2 : Scan L (Tokenizer.mk (runes "r\"abr") 0 1 1 [] false (some (Token.mk TokenType.LITERAL
      (Value.str (runes "\"ab")) 1 1 6 6 (-1) CursorPlace.CURSOR_NONE (runes "r\"abr"))) none 5 1 6
      5 5 4 []) = .ok ((Token.mk TokenType.EOF Value.nil 1 1 6 6 (-1) CursorPlace.CURSOR_NONE []),
      (Tokenizer.mk (runes "r\"abr") 5 1 6 [] false (some (Token.mk TokenType.EOF Value.nil 1 1 6 6
      (-1) CursorPlace.CURSOR_NONE [])) none 5 1 6 5 5 4 [])) := rfl
  simp only [h0, scanN, s1, s2]

/-- C13 (evaluation of the code): scanning `r"ab"`, `^"ab"` or `&"ab"` yields an
`ERROR` with message `Unterminated string` whose slice is the whole source, and then
`EOF`: `stringToken` takes the character before the cursor as the closing quote,
which is the sigil `r`, `^` or `&` and not the quote, so the quote after `ab` does not
end the string. Accordingly `r"abr` is scanned as one `LITERAL` with value `"ab`. -/
theorem sigil_string_unterminated (L : GoLib) :
    (∃ toks t, scanN L 2 (NewTokenizer (runes "r\"ab\"")) = .ok (toks, t) ∧
      toks.map (fun tok => tok.Type_) = [TokenType.ERROR, TokenType.EOF] ∧
      toks.map (fun tok => tok.Literal) =
        [Value.str (runes "Unterminated string"), Value.nil]) ∧
    (∃ toks t, scanN L 2 (NewTokenizer (runes "^\"ab\"")) = .ok (toks, t) ∧
      toks.map (fun tok => tok.Type_) = [TokenType.ERROR, TokenType.EOF] ∧
      toks.map (fun tok => tok.Literal) =
        [Value.str (runes "Unterminated string"), Value.nil]) ∧
    (∃ toks t, scanN L 2 (NewTokenizer (runes "&\"ab\"")) = .ok (toks, t) ∧
      toks.map (fun tok => tok.Type_) = [TokenType.ERROR, TokenType.EOF] ∧
      toks.map (fun tok => tok.Literal) =
        [Value.str (runes "Unterminated string"), Value.nil]) ∧
    (∃ toks t, scanN L 2 (NewTokenizer (runes "r\"abr")) = .ok (toks, t) ∧
      toks.map (fun tok => tok.Type_) = [TokenType.LITERAL, TokenType.EOF] ∧
      toks.map (fun tok => tok.Literal) = [Value.str (runes "\"ab"), Value.nil]) :=
  ⟨⟨_, _, trace_raw_string L, rfl, rfl⟩, ⟨_, _, trace_caret_string L, rfl, rfl⟩,
    ⟨_, _, trace_ampersand_string L, rfl, rfl⟩, ⟨_, _, trace_raw_string_sigil L, rfl, rfl⟩⟩

theorem advance_atEnd (t : Tokenizer) (h : isAtEnd t = true) : (advance t).2 = t := by
  simp [advance, h]

/-- The loop of `stringToken` on a text without closing quote that ends the source:
it consumes the text and returns the error. -/
theorem stringTokenLoop_open (q : Nat) (hq : q ≠ backslash) :
    ∀ (n : Nat) (body : List Nat), body.length ≤ n →
      ∀ (t : Tokenizer) (result : GoString) (fuel : Nat),
        t.length = t.source.length → unread t = body → unclosedBody q body = true →
        body.length < fuel →
        ∃ t1, Frame t t1 ∧ unread t1 = [] ∧ t1._current = t._current + body.length ∧
          stringTokenLoop q fuel t result = makeError t1 (runes "Unterminated string") := by
  intro n
  induction n with
  | zero =>
    intro body hn t result fuel hl hu _ _
    have hb : body = [] := List.length_eq_zero.mp (Nat.le_zero.mp hn)
    subst hb
    exact ⟨t, Frame.refl t, hu, rfl,
      stringTokenLoop_end q fuel t result (isAtEnd_of_unread_nil t hl hu)⟩
  | succ n ih =>
    intro body hn t result fuel hl hu hopen hf
    obtain ⟨k, rfl⟩ : ∃ k, fuel = k + 1 := ⟨fuel - 1, by omega⟩
    match body, hn, hu, hopen, hf with
    | [], _, hu, _, _ =>
      exact ⟨t, Frame.refl t, hu, rfl,
        stringTokenLoop_end q _ t result (isAtEnd_of_unread_nil t hl hu)⟩
    | [c], _, hu, hopen, _ =>
      simp only [unclosedBody, decide_eq_true_eq] at hopen
      have hpeek : peek t 0 = c := by rw [peek0_eq_unread t hl, hu]; rfl
      have hend := isAtEnd_of_unread_cons t hl c _ hu
      have hua := unread_advance t hl c _ hu
      have hla := quiet_length_of_frame (advance_frame t) hl
      have hca := advance_current t hend
      have henda := isAtEnd_of_unread_nil _ hla hua
      refine ⟨(advance t).2, advance_frame t, hua, by rw [hca]; rfl, ?_⟩
      by_cases hc : c = backslash
      · rw [stringTokenLoop_escape q k t result hend hq (by rw [hpeek]; exact hc),
          advance_atEnd _ henda, stringTokenLoop_end q k _ _ henda]
      · rw [stringTokenLoop_char q k t result hend (by rw [hpeek]; exact hopen)
          (by rw [hpeek]; exact hc), stringTokenLoop_end q k _ _ henda]
    | c :: e :: more, hn, hu, hopen, hf =>
      have hpeek : peek t 0 = c := by rw [peek0_eq_unread t hl, hu]; rfl
      have hend := isAtEnd_of_unread_cons t hl c _ hu
      have hua := unread_advance t hl c _ hu
      have hla := quiet_length_of_frame (advance_frame t) hl
      have hca := advance_current t hend
      by_cases hc : c = backslash
      · simp only [unclosedBody, hc, if_true] at hopen
        have hend1 := isAtEnd_of_unread_cons _ hla e _ hua
        have hub := unread_advance _ hla e _ hua
        have hlb := quiet_length_of_frame (advance_frame (advance t).2) hla
        have hcb := advance_current _ hend1
        obtain ⟨t1, hfr, hur, hcr, hres⟩ := ih more
          (by simp only [List.length_cons] at hn; omega) (advance (advance t).2).2
          (result ++
            (if peek (advance t).2 0 = 'n'.toNat then [lineFeed]
             else if peek (advance t).2 0 = 't'.toNat then [tabRune]
             else if peek (advance t).2 0 = backslash then [backslash]
             else if peek (advance t).2 0 = quoteDouble then [quoteDouble]
             else stringOfRune (peek (advance t).2 0))) k hlb hub hopen
          (by simp only [List.length_cons] at hf; omega)
        refine ⟨t1, ((advance_frame t).trans (advance_frame _)).trans hfr, hur, ?_, ?_⟩
        · rw [hcr, hcb, hca]; simp only [List.length_cons]; omega
        · rw [stringTokenLoop_escape q k t result hend hq (by rw [hpeek]; exact hc), hres]
      · simp only [unclosedBody, hc, if_false, Bool.and_eq_true, decide_eq_true_eq] at hopen
        obtain ⟨t1, hfr, hur, hcr, hres⟩ := ih (e :: more)
          (by simp only [List.length_cons] at hn ⊢; omega) (advance t).2
          (result ++ stringOfRune (peek t 0)) k hla hua hopen.2
          (by simp only [List.length_cons] at hf ⊢; omega)
        refine ⟨t1, (advance_frame t).trans hfr, hur, ?_, ?_⟩
        · rw [hcr, hca]; simp only [List.length_cons]; omega
        · rw [stringTokenLoop_char q k t result hend (by rw [hpeek]; exact hopen.1)
            (by rw [hpeek]; exact hc), hres]

/-- C14: in a state with nothing queued or buffered whose unread text is a quote
character `q` followed by a text in which `q` occurs only as the escaped character
of an escape pair, `Scan` returns an `ERROR` with message `Unterminated string`
whose slice is the quote and all the text, nothing is left unread, and the next call
returns `EOF`. A fresh tokenizer on such a source is an instance, as are the
sources `"abc` and `'it\'`. -/
theorem unterminated_string (L : GoLib) :
    (∀ (t : Tokenizer) (q : Nat) (body : List Nat), Quiet t →
      (q = quoteDouble ∨ q = quoteSingle) → unread t = q :: body →
      unclosedBody q body = true →
      ∃ tok t1 tok2 t2, Scan L t = .ok (tok, t1) ∧ tok.Type_ = TokenType.ERROR ∧
        tok.Literal = Value.str (runes "Unterminated string") ∧ tok.Source = q :: body ∧
        unread t1 = [] ∧ Scan L t1 = .ok (tok2, t2) ∧ tok2.Type_ = TokenType.EOF) ∧
    (∀ (q : Nat) (body : List Nat), (q = quoteDouble ∨ q = quoteSingle) →
      unclosedBody q body = true →
      ∃ tok1 tok2 t, scanN L 2 (NewTokenizer (q :: body)) = .ok ([tok1, tok2], t) ∧
        tok1.Type_ = TokenType.ERROR ∧
        tok1.Literal = Value.str (runes "Unterminated string") ∧ tok1.Source = q :: body ∧
        tok2.Type_ = TokenType.EOF) ∧
    (∃ tok1 tok2 t, scanN L 2 (NewTokenizer (runes "\"abc")) = .ok ([tok1, tok2], t) ∧
      tok1.Type_ = TokenType.ERROR ∧
      tok1.Literal = Value.str (runes "Unterminated string") ∧
      tok2.Type_ = TokenType.EOF) ∧
    (∃ tok1 tok2 t, scanN L 2 (NewTokenizer (runes "'it\\'")) = .ok ([tok1, tok2], t) ∧
      tok1.Type_ = TokenType.ERROR ∧
      tok1.Literal = Value.str (runes "Unterminated string") ∧
      tok2.Type_ = TokenType.EOF) := by
  have main : ∀ (t : Tokenizer) (q : Nat) (body : List Nat), Quiet t →
      (q = quoteDouble ∨ q = quoteSingle) → unread t = q :: body →
      unclosedBody q body = true →
      ∃ t1, Quiet t1 ∧ unread t1 = [] ∧
        Scan L t = .ok (makeError t1 (runes "Unterminated string")) ∧
        (makeError t1 (runes "Unterminated string")).1.Source = q :: body := by
    intro t q body qt hq hu hopen
    obtain ⟨hq3, hu3, hc3, hst3, hsrc3, hscan⟩ := Scan_quote L t q _ hq qt hu
    have hfuel : body.length <
        (advance (markStart t)).2.length - (advance (markStart t)).2._current + 1 := by
      rw [← unread_length _ hq3.length, hu3]; omega
    obtain ⟨t1, hfr, hur, hcr, hres⟩ := stringTokenLoop_open q (quote_ne_backslash q hq)
      body.length body le_rfl _ [] _ hq3.length hu3 hopen hfuel
    rw [hres] at hscan
    refine ⟨t1, quiet_of_frame hfr hq3, hur, hscan, ?_⟩
    show slice t1.source t1._start t1._current = q :: body
    rw [hfr.source, hsrc3, hfr.start, hst3, hcr, hc3, slice_of_drop _ _ _ _ hu]
    have h2 : t._current + 1 + body.length - t._current = (q :: body).length := by
      simp only [List.length_cons]; omega
    rw [h2, List.take_length]
  have fresh : ∀ (q : Nat) (body : List Nat), (q = quoteDouble ∨ q = quoteSingle) →
      unclosedBody q body = true →
      ∃ tok1 tok2 t, scanN L 2 (NewTokenizer (q :: body)) = .ok ([tok1, tok2], t) ∧
        tok1.Type_ = TokenType.ERROR ∧
        tok1.Literal = Value.str (runes "Unterminated string") ∧ tok1.Source = q :: body ∧
        tok2.Type_ = TokenType.EOF := by
    intro q body hq hopen
    obtain ⟨t1, hq1, hu1, hscan, hsrc⟩ :=
      main (NewTokenizer (q :: body)) q body ⟨rfl, rfl, rfl⟩ hq rfl hopen
    exact ⟨_, _, _, scanN_two L _ _ _ hscan (quiet_of_frame (makeError_frame _ _) hq1) hu1,
      rfl, rfl, hsrc, rfl⟩
  refine ⟨?_, fresh, ?_, ?_⟩
  · intro t q body qt hq hu hopen
    obtain ⟨t1, hq1, hu1, hscan, hsrc⟩ := main t q body qt hq hu hopen
    exact ⟨_, _, _, _, hscan, rfl, rfl, hsrc, hu1,
      Scan_nil L _ (quiet_of_frame (makeError_frame _ _) hq1) hu1, rfl⟩
  · obtain ⟨tok1, tok2, t, h1, h2, h3, _, h5⟩ :=
      fresh quoteDouble (runes "abc") (Or.inl rfl) rfl
    exact ⟨tok1, tok2, t, h1, h2, h3, h5⟩
  · obtain ⟨tok1, tok2, t, h1, h2, h3, _, h5⟩ :=
      fresh quoteSingle (runes "it\\'") (Or.inr rfl) rfl
    exact ⟨tok1, tok2, t, h1, h2, h3, h5⟩

theorem unterminated_string_witness :
    Quiet (NewTokenizer (runes "\"a\\\"b\\")) ∧
    unread (NewTokenizer (runes "\"a\\\"b\\")) = quoteDouble :: runes "a\\\"b\\" ∧
    unclosedBody quoteDouble (runes "a\\\"b\\") = true ∧
    ∃ tok t1 tok2 t2, Scan GoLib.trivial (NewTokenizer (runes "\"a\\\"b\\")) = .ok (tok, t1) ∧
      tok.Type_ = TokenType.ERROR ∧
      tok.Literal = Value.str (runes "Unterminated string") ∧
      tok.Source = quoteDouble :: runes "a\\\"b\\" ∧
      unread t1 = [] ∧ Scan GoLib.trivial t1 = .ok (tok2, t2) ∧ tok2.Type_ = TokenType.EOF :=
  ⟨⟨rfl, rfl, rfl⟩, rfl, rfl,
    (unterminated_string GoLib.trivial).1 (NewTokenizer (runes "\"a\\\"b\\")) quoteDouble
      (runes "a\\\"b\\") ⟨rfl, rfl, rfl⟩ (Or.inl rfl) rfl rfl⟩

/-! ## Conflict markers -/

theorem getD_of_drop (l : List Nat) (n c : Nat) (cs : List Nat) (h : l.drop n = c :: cs) :
    l.getD n 0 = c := by
  have : (l.drop n)[0]? = some c := by rw [h]; simp
  rw [List.getElem?_drop] at this
  simp only [List.getD_eq_getElem?_getD]
  simpa using congrArg (fun o => o.getD 0) this

theorem lt_length_of_drop (l : List Nat) (n c : Nat) (cs : List Nat) (h : l.drop n = c :: cs) :
    n < l.length := by
  by_contra hn
  rw [List.drop_of_length_le (by omega)] at h
  exact absurd h (by simp)

theorem drop_succ_of_drop (l : List Nat) (n c : Nat) (cs : List Nat) (h : l.drop n = c :: cs) :
    l.drop (n + 1) = cs := by
  have : l.drop (n + 1) = (l.drop n).drop 1 := by rw [List.drop_drop]
  rw [this, h]; rfl

/-- The counting loop of `checkVCSMarker` on a run of `m` copies of `test` that
starts at `next` and is followed by another character or the end of the source. -/
theorem countRun_run (t : Tokenizer) (test : Nat) (hl : t.length = t.source.length)
    (rest : List Nat) (hstop : rest.head? ≠ some test) :
    ∀ (m fuel chars next : Nat), t.source.drop next = List.replicate m test ++ rest →
      m < fuel → countRun t test fuel chars next = chars + m := by
  intro m
  induction m with
  | zero =>
    intro fuel chars next hd hf
    obtain ⟨k, rfl⟩ : ∃ k, fuel = k + 1 := ⟨fuel - 1, by omega⟩
    rw [countRun]
    have hcond : ¬ (next < t.length ∧ t.source.getD next 0 = test) := by
      rintro ⟨_, h2⟩
      simp only [List.replicate_zero, List.nil_append] at hd
      cases rest with
      | nil =>
        have := congrArg List.length hd
        simp only [List.length_drop, List.length_nil] at this
        omega
      | cons r rs =>
        rw [getD_of_drop _ _ _ _ hd] at h2
        exact hstop (by rw [h2]; rfl)
    rw [if_neg hcond]; rfl
  | succ m ih =>
    intro fuel chars next hd hf
    obtain ⟨k, rfl⟩ : ∃ k, fuel = k + 1 := ⟨fuel - 1, by omega⟩
    have hd2 : t.source.drop next = test :: (List.replicate m test ++ rest) := by
      rw [hd, List.replicate_succ]; rfl
    rw [countRun]
    have hcond : next < t.length ∧ t.source.getD next 0 = test :=
      ⟨by rw [hl]; exact lt_length_of_drop _ _ _ _ hd2, getD_of_drop _ _ _ _ hd2⟩
    rw [if_pos hcond, ih k (chars + 1) (next + 1) (drop_succ_of_drop _ _ _ _ hd2) (by omega)]
    omega

theorem advanceTimes_run :
    ∀ (body : List Nat) (t : Tokenizer) (rest : List Nat), t.length = t.source.length →
      unread t = body ++ rest →
      unread (advanceTimes body.length t) = rest ∧
        (advanceTimes body.length t)._current = t._current + body.length := by
  intro body
  induction body with
  | nil => intro t rest _ hu; exact ⟨hu, rfl⟩
  | cons c cs ih =>
    intro t rest hl hu
    have hu2 : unread t = c :: (cs ++ rest) := hu
    have hend := isAtEnd_of_unread_cons t hl c _ hu2
    have hua := unread_advance t hl c _ hu2
    have hla := quiet_length_of_frame (advance_frame t) hl
    obtain ⟨h1, h2⟩ := ih (advance t).2 rest hla hua
    refine ⟨h1, ?_⟩
    show (advanceTimes cs.length (advance t).2)._current = _
    rw [h2, advance_current t hend, List.length_cons]; omega

theorem advance_position (t : Tokenizer) (h : t.position = t._current) :
    (advance t).2.position = (advance t).2._current := by
  unfold advance
  split
  · exact h
  · simp [h]

theorem advanceTimes_position (n : Nat) :
    ∀ t : Tokenizer, t.position = t._current →
      (advanceTimes n t).position = (advanceTimes n t)._current := by
  induction n with
  | zero => intro t h; exact h
  | succ n ih => intro t h; exact ih _ (advance_position t h)

theorem scanToken_equal (L : GoLib) (t : Tokenizer) :
    scanToken L '='.toNat t =
      if peek t 0 = '='.toNat then
        some (.ok (checkVCSMarker t '='.toNat TokenType.EQUAL_EQUAL))
      else some (.ok (makeToken t TokenType.EQUAL)) := rfl

theorem scanToken_less (L : GoLib) (t : Tokenizer) :
    scanToken L '<'.toNat t =
      if peek t 0 = '='.toNat then some (.ok (makeToken (advance t).2 TokenType.LESS_EQUAL))
      else if peek t 0 = '<'.toNat then
        if peek t 1 = '='.toNat then
          some (.ok (makeToken (advance (advance t).2).2 TokenType.LESS_LESS_EQUAL))
        else some (.ok (checkVCSMarker t '<'.toNat TokenType.LESS_LESS))
      else some (.ok (makeToken t TokenType.LESS)) := rfl

theorem scanToken_greater (L : GoLib) (t : Tokenizer) :
    scanToken L '>'.toNat t =
      if peek t 0 = '='.toNat then some (.ok (makeToken (advance t).2 TokenType.GREATER_EQUAL))
      else if peek t 0 = '>'.toNat then
        if peek t 1 = '='.toNat then
          some (.ok (makeToken (advance (advance t).2).2 TokenType.GREATER_GREATER_EQUAL))
        else some (.ok (checkVCSMarker t '>'.toNat TokenType.GREATER_GREATER))
      else some (.ok (makeToken t TokenType.GREATER)) := rfl

/-- The dispatch of `Scan` on a marker character followed by the same character and
not by `=` after that. -/
theorem scanToken_marker_pair (L : GoLib) (c : Nat) (t : Tokenizer)
    (hc : isMarkerChar c = true) (h0 : peek t 0 = c) (h1 : peek t 1 = c ∨ peek t 1 = 0) :
    scanToken L c t = some (.ok (checkVCSMarker t c (doubledKind c))) := by
  simp only [isMarkerChar, decide_eq_true_eq] at hc
  rcases hc with h | h | h <;> subst h
  · rw [scanToken_equal, if_pos h0]; rfl
  · have hne : peek t 1 ≠ '='.toNat := by rcases h1 with h | h <;> rw [h] <;> decide
    have hn0 : peek t 0 ≠ '='.toNat := by rw [h0]; decide
    rw [scanToken_less, if_neg hn0, if_pos h0, if_neg hne]; rfl
  · have hne : peek t 1 ≠ '='.toNat := by rcases h1 with h | h <;> rw [h] <;> decide
    have hn0 : peek t 0 ≠ '='.toNat := by rw [h0]; decide
    rw [scanToken_greater, if_neg hn0, if_pos h0, if_neg hne]; rfl

/-- The dispatch of `Scan` on a marker character that ends the source. -/
theorem scanToken_marker_single (L : GoLib) (c : Nat) (t : Tokenizer)
    (hc : isMarkerChar c = true) (h0 : peek t 0 = 0) :
    scanToken L c t = some (.ok (makeToken t (singleKind c))) := by
  have e1 : ¬ ((0 : Nat) = '='.toNat) := by decide
  have e2 : ¬ ((0 : Nat) = '<'.toNat) := by decide
  have e3 : ¬ ((0 : Nat) = '>'.toNat) := by decide
  simp only [isMarkerChar, decide_eq_true_eq] at hc
  rcases hc with h | h | h <;> subst h
  · rw [scanToken_equal, h0, if_neg e1]; rfl
  · rw [scanToken_less, h0, if_neg e1, if_neg e2]; rfl
  · rw [scanToken_greater, h0, if_neg e1, if_neg e3]; rfl

theorem plainRune_marker (c : Nat) (hc : isMarkerChar c = true) : plainRune c = true := by
  simp only [isMarkerChar, decide_eq_true_eq] at hc
  rcases hc with h | h | h <;> subst h <;> rfl

/-- The method `checkVCSMarker`, entered after the first character of a run of
`m + 2` copies of `test` that ends the source: it counts `m + 2` characters. -/
theorem checkVCSMarker_run (t : Tokenizer) (test : Nat) (k : TokenType) (m : Nat)
    (hl : t.length = t.source.length) (hp : t.position = t._current)
    (hu : unread t = List.replicate (m + 1) test) :
    checkVCSMarker t test k =
      if 7 ≤ m + 2 then makeToken (advanceTimes (m + 1) t) TokenType.VCS_CONFLICT_MARKER
      else makeToken (advance t).2 k := by
  have hu2 : t.source.drop t._current = test :: List.replicate m test := by
    rw [← List.replicate_succ]; exact hu
  have hd : t.source.drop (t.position + 1) = List.replicate m test ++ [] := by
    rw [hp, drop_succ_of_drop _ _ _ _ hu2, List.append_nil]
  have hlen : t.length - (t.position + 1) = m := by
    have := unread_length t hl
    rw [hu, List.length_replicate] at this
    rw [hp]; omega
  have hcount := countRun_run t test hl [] (by simp) m (t.length - (t.position + 1) + 1) 2
    (t.position + 1) hd (by omega)
  unfold checkVCSMarker
  simp only [hcount]
  have h2 : 2 + m = m + 2 := by omega
  rw [h2]
  rfl

/-- One call of `Scan` on a run of `m + 2` copies of a marker character that ends
the source. -/
theorem Scan_marker_run (L : GoLib) (t : Tokenizer) (c m : Nat) (qt : Quiet t)
    (hp : t.position = t._current) (hc : isMarkerChar c = true)
    (hu : unread t = List.replicate (m + 2) c) :
    Quiet (advance (markStart t)).2 ∧
      (advance (markStart t)).2.position = (advance (markStart t)).2._current ∧
      unread (advance (markStart t)).2 = List.replicate (m + 1) c ∧
      (advance (markStart t)).2._start = t._current ∧
      (advance (markStart t)).2._current = t._current + 1 ∧
      (advance (markStart t)).2.source = t.source ∧
      Scan L t = .ok
        (if 7 ≤ m + 2 then
          makeToken (advanceTimes (m + 1) (advance (markStart t)).2)
            TokenType.VCS_CONFLICT_MARKER
        else makeToken (advance (advance (markStart t)).2).2 (doubledKind c)) := by
  have hu1 : unread t = c :: List.replicate (m + 1) c := by rw [hu, List.replicate_succ]
  obtain ⟨hq3, hu3, hc3, hst3, hsrc3, _, _⟩ := after_first_rune t qt _ _ hu1
  have hend := isAtEnd_of_unread_cons t qt.length _ _ hu1
  have hpeek : peek t 0 = c := by rw [peek0_eq_unread t qt.length, hu1]; rfl
  have hp3 : (advance (markStart t)).2.position = (advance (markStart t)).2._current :=
    advance_position (markStart t) hp
  have hpeek3 : peek (advance (markStart t)).2 0 = c := by
    rw [peek0_eq_unread _ hq3.length, hu3]; rfl
  have hpeek31 : peek (advance (markStart t)).2 1 = c ∨ peek (advance (markStart t)).2 1 = 0 := by
    rw [peek1_eq_unread _ hq3.length, hu3]
    cases m with
    | zero => exact Or.inr rfl
    | succ j => exact Or.inl rfl
  refine ⟨hq3, hp3, hu3, hst3, hc3, hsrc3, ?_⟩
  rw [Scan_plain L t _ qt.errors qt.pending hend (by rw [hpeek]; exact plainRune_marker c hc)
    (by rw [hpeek]; exact scanToken_marker_pair L c _ hc hpeek3 hpeek31),
    checkVCSMarker_run _ c _ m hq3.length hp3 hu3]

/-- One call of `Scan` on a marker character that ends the source. -/
theorem Scan_marker_single (L : GoLib) (t : Tokenizer) (c : Nat) (qt : Quiet t)
    (hc : isMarkerChar c = true) (hu : unread t = [c]) :
    Quiet (advance (markStart t)).2 ∧ unread (advance (markStart t)).2 = [] ∧
      Scan L t = .ok (makeToken (advance (markStart t)).2 (singleKind c)) := by
  obtain ⟨hq3, hu3, hc3, _, _, _, _⟩ := after_first_rune t qt _ _ hu
  have hend := isAtEnd_of_unread_cons t qt.length _ _ hu
  have hpeek : peek t 0 = c := by rw [peek0_eq_unread t qt.length, hu]; rfl
  have hpeek3 : peek (advance (markStart t)).2 0 = 0 := by
    rw [peek0_eq_unread _ hq3.length, hu3]; rfl
  exact ⟨hq3, hu3, Scan_plain L t _ qt.errors qt.pending hend
    (by rw [hpeek]; exact plainRune_marker c hc)
    (by rw [hpeek]; exact scanToken_marker_single L c _ hc hpeek3)⟩

theorem scanN_cons (L : GoLib) (n : Nat) (t : Tokenizer) (tok : Token) (t1 : Tokenizer)
    (toks : List Token) (t2 : Tokenizer) (h1 : Scan L t = .ok (tok, t1))
    (h2 : scanN L n t1 = .ok (toks, t2)) : scanN L (n + 1) t = .ok (tok :: toks, t2) := by
  simp only [scanN, h1, h2]

theorem scanN_one_nil (L : GoLib) (t : Tokenizer) (q : Quiet t) (hu : unread t = []) :
    scanN L 1 t = .ok ([(makeToken (markStart t) TokenType.EOF).1],
      (makeToken (markStart t) TokenType.EOF).2) := by
  simp only [scanN, Scan_nil L t q hu]

/-- A run of at most six copies of a marker character that ends the source: the
calls return the doubled operator for each pair, the single operator for a
remaining character, and `EOF`. -/
theorem marker_run_short (L : GoLib) (c : Nat) (hc : isMarkerChar c = true) :
    ∀ (m : Nat), m ≤ 6 → ∀ t : Tokenizer, Quiet t → t.position = t._current →
      unread t = List.replicate m c →
      ∃ toks t1, scanN L (m / 2 + m % 2 + 1) t = .ok (toks, t1) ∧
        toks.map (fun tok => tok.Type_) =
          List.replicate (m / 2) (doubledKind c) ++ List.replicate (m % 2) (singleKind c) ++
            [TokenType.EOF] := by
  intro m
  induction m using Nat.strong_induction_on with
  | _ m ih =>
    intro hm t qt hp hu
    match m, ih, hm, hu with
    | 0, _, _, hu => exact ⟨_, _, scanN_one_nil L t qt hu, rfl⟩
    | 1, _, _, hu =>
      obtain ⟨hq3, hu3, hscan⟩ := Scan_marker_single L t c qt hc hu
      exact ⟨_, _, scanN_cons L 1 t _ _ _ _ hscan
        (scanN_one_nil L _ (quiet_of_frame (makeToken_frame _ _) hq3) hu3), rfl⟩
    | j + 2, ih, hm, hu =>
      obtain ⟨hq3, hp3, hu3, _, _, _, hscan⟩ := Scan_marker_run L t c j qt hp hc hu
      rw [if_neg (by omega)] at hscan
      have hu31 : unread (advance (markStart t)).2 = c :: List.replicate j c := by
        rw [hu3, List.replicate_succ]
      have hua := unread_advance _ hq3.length c _ hu31
      have hq4 := quiet_of_frame (advance_frame (advance (markStart t)).2) hq3
      have hp4 := advance_position _ hp3
      obtain ⟨toks, t1, h1, h2⟩ := ih j (by omega) (by omega)
        (makeToken (advance (advance (markStart t)).2).2 (doubledKind c)).2
        (quiet_of_frame (makeToken_frame _ _) hq4) hp4 hua
      have he : (j + 2) / 2 + (j + 2) % 2 + 1 = (j / 2 + j % 2 + 1) + 1 := by omega
      rw [he]
      refine ⟨_, _, scanN_cons L _ t _ _ _ _ hscan h1, ?_⟩
      have h3 : (j + 2) / 2 = j / 2 + 1 := by omega
      have h4 : (j + 2) % 2 = j % 2 := by omega
      rw [List.map_cons, h2, h3, h4, List.replicate_succ]
      rfl

/-- A run of seven or more copies of a marker character that is the whole source. -/
theorem marker_run_long (L : GoLib) (c n : Nat) (hc : isMarkerChar c = true) (hn : 7 ≤ n) :
    ∃ tok1 tok2 t, scanN L 2 (NewTokenizer (List.replicate n c)) = .ok ([tok1, tok2], t) ∧
      tok1.Type_ = TokenType.VCS_CONFLICT_MARKER ∧ tok1.Source = List.replicate n c ∧
      tok2.Type_ = TokenType.EOF := by
  obtain ⟨m, rfl⟩ : ∃ m, n = m + 2 := ⟨n - 2, by omega⟩
  have q0 : Quiet (NewTokenizer (List.replicate (m + 2) c)) := ⟨rfl, rfl, by simp [NewTokenizer]⟩
  obtain ⟨hq3, hp3, hu3, hst3, hc3, hsrc3, hscan⟩ :=
    Scan_marker_run L _ c m q0 rfl hc rfl
  rw [if_pos (by omega)] at hscan
  have hrun := advanceTimes_run (List.replicate (m + 1) c)
    (advance (markStart (NewTokenizer (List.replicate (m + 2) c)))).2 [] hq3.length
    (by rw [hu3, List.append_nil])
  rw [List.length_replicate] at hrun
  obtain ⟨hur, hcr⟩ := hrun
  have hfr := advanceTimes_frame (m + 1)
    (advance (markStart (NewTokenizer (List.replicate (m + 2) c)))).2
  have hq5 := quiet_of_frame hfr hq3
  refine ⟨_, _, _, scanN_two L _ _ _ hscan (quiet_of_frame (makeToken_frame _ _) hq5) hur,
    rfl, ?_, rfl⟩
  show slice _ _ _ = _
  rw [hfr.source, hsrc3, hfr.start, hst3, hcr, hc3]
  simp [NewTokenizer, slice]
  omega

/-- C15: for a marker character `c` (`=`, `<` or `>`), a source made of `n >= 7`
copies of `c` is scanned as one `VCS_CONFLICT_MARKER` whose slice is the whole
source, followed by `EOF`; a source made of `2 <= n <= 6` copies is scanned as
`n / 2` doubled operators (`EQUAL_EQUAL`, `LESS_LESS` or `GREATER_GREATER`), one
single-character operator when `n` is odd, and `EOF`, with no conflict marker.
Seven `<` yield one `VCS_CONFLICT_MARKER`. -/
theorem conflict_marker_runs (L : GoLib) :
    (∀ (c n : Nat), isMarkerChar c = true → 7 ≤ n →
      ∃ tok1 tok2 t, scanN L 2 (NewTokenizer (List.replicate n c)) = .ok ([tok1, tok2], t) ∧
        tok1.Type_ = TokenType.VCS_CONFLICT_MARKER ∧ tok1.Source = List.replicate n c ∧
        tok2.Type_ = TokenType.EOF) ∧
    (∀ (c n : Nat), isMarkerChar c = true → 2 ≤ n → n ≤ 6 →
      ∃ toks t, scanN L (n / 2 + n % 2 + 1) (NewTokenizer (List.replicate n c)) = .ok (toks, t) ∧
        toks.map (fun tok => tok.Type_) =
          List.replicate (n / 2) (doubledKind c) ++ List.replicate (n % 2) (singleKind c) ++
            [TokenType.EOF] ∧
        ∀ tok ∈ toks, tok.Type_ ≠ TokenType.VCS_CONFLICT_MARKER) ∧
    (∃ tok1 tok2 t, scanN L 2 (NewTokenizer (runes "<<<<<<<")) = .ok ([tok1, tok2], t) ∧
      tok1.Type_ = TokenType.VCS_CONFLICT_MARKER ∧ tok1.Source = runes "<<<<<<<" ∧
      tok2.Type_ = TokenType.EOF) := by
  refine ⟨fun c n hc hn => marker_run_long L c n hc hn, fun c n hc _ hn => ?_,
    marker_run_long L '<'.toNat 7 rfl (by decide)⟩
  obtain ⟨toks, t, h1, h2⟩ := marker_run_short L c hc n hn (NewTokenizer (List.replicate n c))
    ⟨rfl, rfl, by simp [NewTokenizer]⟩ rfl rfl
  refine ⟨toks, t, h1, h2, fun tok htok => ?_⟩
  have hmem : tok.Type_ ∈ toks.map (fun tok => tok.Type_) := List.mem_map_of_mem _ htok
  rw [h2] at hmem
  simp only [isMarkerChar, decide_eq_true_eq] at hc
  simp only [List.mem_append, List.mem_replicate, List.mem_singleton] at hmem
  rcases hmem with (⟨_, h⟩ | ⟨_, h⟩) | h
  · rw [h]; unfold doubledKind; split_ifs <;> decide
  · rw [h]; unfold singleKind; split_ifs <;> decide
  · rw [h]; decide

theorem conflict_marker_runs_witness :
    isMarkerChar '='.toNat = true ∧
    (∃ tok1 tok2 t, scanN GoLib.trivial 2 (NewTokenizer (List.replicate 9 '='.toNat)) =
        .ok ([tok1, tok2], t) ∧
      tok1.Type_ = TokenType.VCS_CONFLICT_MARKER ∧
      tok1.Source = List.replicate 9 '='.toNat ∧ tok2.Type_ = TokenType.EOF) ∧
    (∃ toks t, scanN GoLib.trivial (5 / 2 + 5 % 2 + 1) (NewTokenizer (List.replicate 5 '='.toNat)) =
        .ok (toks, t) ∧
      toks.map (fun tok => tok.Type_) =
        List.replicate (5 / 2) (doubledKind '='.toNat) ++
          List.replicate (5 % 2) (singleKind '='.toNat) ++ [TokenType.EOF] ∧
      ∀ tok ∈ toks, tok.Type_ ≠ TokenType.VCS_CONFLICT_MARKER) :=
  ⟨rfl, (conflict_marker_runs GoLib.trivial).1 '='.toNat 9 rfl (by decide),
    (conflict_marker_runs GoLib.trivial).2.1 '='.toNat 5 rfl (by decide) (by decide)⟩

/-! ## Trivia without fault and the newline token -/

theorem Skipped.here (t : Tokenizer) : Skipped false t t :=
  ⟨rfl, rfl, rfl, rfl, le_rfl, by simp, id⟩

theorem Skipped.andThen {a b : Bool} {t t1 t2 : Tokenizer} (h1 : Skipped a t t1)
    (h2 : Skipped b t1 t2) : Skipped (a || b) t t2 :=
  ⟨h2.source.trans h1.source, h2.length.trans h1.length, h2.errorStack.trans h1.errorStack,
    h2.parenStack.trans h1.parenStack, le_trans h1.current h2.current,
    by rw [h2.pending, h1.pending, Bool.or_assoc], fun h => h2.newline (h1.newline h)⟩

theorem advance_skipped (t : Tokenizer) : Skipped false t (advance t).2 := by
  unfold advance
  split
  · exact Skipped.here t
  · exact ⟨rfl, rfl, rfl, rfl, Nat.le_succ _, by simp, id⟩

theorem newline_skipped (t : Tokenizer) : Skipped true t (newline t true) := by
  refine ⟨(newline_trivia t).source, (newline_trivia t).length, ?_, ?_,
    (newline_trivia t).current, ?_, (newline_trivia t).newline⟩
  · unfold newline; simp only; split <;> rfl
  · unfold newline; simp only; split <;> rfl
  · unfold newline
    cases h : t.pendingNewline <;> simp [h]

theorem Skipped.cast {a b : Bool} {t t1 : Tokenizer} (h : Skipped a t t1) (hab : a = b) :
    Skipped b t t1 := hab ▸ h

theorem Skipped.length_ok {a : Bool} {t t1 : Tokenizer} (h : Skipped a t t1)
    (hl : t.length = t.source.length) : t1.length = t1.source.length := by
  rw [h.length, h.source]; exact hl

theorem newline_unread (t : Tokenizer) (m : Bool) : unread (newline t m) = unread t := by
  unfold newline unread
  simp only
  split <;> rfl

/-- The loop of `skipLineComment` on a text without line feed that is followed by a
line feed: it stops in front of the line feed. -/
theorem skipLineCommentLoop_run (rest : List Nat) :
    ∀ (text : List Nat) (t : Tokenizer) (fuel : Nat), t.length = t.source.length →
      unread t = text ++ lineFeed :: rest → lineFeed ∉ text → text.length < fuel →
      Skipped false t (skipLineCommentLoop fuel t) ∧
        unread (skipLineCommentLoop fuel t) = lineFeed :: rest := by
  intro text
  induction text with
  | nil =>
    intro t fuel hl hu _ hf
    obtain ⟨k, rfl⟩ : ∃ k, fuel = k + 1 := ⟨fuel - 1, by simp at hf; omega⟩
    have hu2 : unread t = lineFeed :: rest := hu
    have hpeek : peek t 0 = lineFeed := by rw [peek0_eq_unread t hl, hu2]; rfl
    rw [skipLineCommentLoop]
    have hcond : ¬ (peek t 0 ≠ lineFeed ∧ isAtEnd t = false) := fun h => h.1 hpeek
    rw [if_neg hcond]
    exact ⟨Skipped.here t, hu2⟩
  | cons c cs ih =>
    intro t fuel hl hu hnl hf
    obtain ⟨k, rfl⟩ : ∃ k, fuel = k + 1 := ⟨fuel - 1, by simp at hf; omega⟩
    have hu2 : unread t = c :: (cs ++ lineFeed :: rest) := hu
    have hpeek : peek t 0 = c := by rw [peek0_eq_unread t hl, hu2]; rfl
    have hend := isAtEnd_of_unread_cons t hl c _ hu2
    have hua := unread_advance t hl c _ hu2
    have hla := quiet_length_of_frame (advance_frame t) hl
    have hc : c ≠ lineFeed := fun h => hnl (by rw [h]; exact List.mem_cons_self _ _)
    rw [skipLineCommentLoop]
    have hcond : peek t 0 ≠ lineFeed ∧ isAtEnd t = false := ⟨by rw [hpeek]; exact hc, hend⟩
    rw [if_pos hcond]
    obtain ⟨h1, h2⟩ := ih (advance t).2 k hla hua
      (fun h => hnl (List.mem_cons_of_mem _ h)) (by simp at hf; omega)
    exact ⟨((advance_skipped t).andThen h1).cast rfl, h2⟩

/-- The method `skipLineComment` on a comment text that is followed by a line feed:
it consumes the text and the line feed. -/
theorem skipLineComment_run (t : Tokenizer) (text rest : List Nat)
    (hl : t.length = t.source.length) (hu : unread t = text ++ lineFeed :: rest)
    (hnl : lineFeed ∉ text) :
    Skipped true t (skipLineComment t) ∧ unread (skipLineComment t) = rest := by
  have hfuel : text.length < t.length - t._current + 1 := by
    rw [← unread_length t hl, hu, List.length_append]; omega
  obtain ⟨h1, h2⟩ := skipLineCommentLoop_run rest text t _ hl hu hnl hfuel
  have hl1 := h1.length_ok hl
  have hend := isAtEnd_of_unread_cons _ hl1 _ _ h2
  have hua := unread_advance _ hl1 _ _ h2
  unfold skipLineComment
  simp only [hend, Bool.false_eq_true, if_false]
  refine ⟨((h1.andThen (advance_skipped _)).andThen (newline_skipped _)).cast rfl, ?_⟩
  rw [newline_unread, hua]

theorem skipBlockCommentLoop_close (k : Nat) (t : Tokenizer) (rest : List Nat)
    (hl : t.length = t.source.length) (hu : unread t = '*'.toNat :: '/'.toNat :: rest) :
    Skipped false t (skipBlockCommentLoop (k + 1) t) ∧
      unread (skipBlockCommentLoop (k + 1) t) = rest := by
  have hpeek : peek t 0 = '*'.toNat := by rw [peek0_eq_unread t hl, hu]; rfl
  have hpeek1 : peek t 1 = '/'.toNat := by rw [peek1_eq_unread t hl, hu]; rfl
  have hend := isAtEnd_of_unread_cons t hl _ _ hu
  have hua := unread_advance t hl _ _ hu
  have hla := quiet_length_of_frame (advance_frame t) hl
  have hub := unread_advance _ hla _ _ hua
  have e1 : ¬ ('*'.toNat = carriageReturn) := by decide
  have e2 : ¬ ('*'.toNat = lineFeed) := by decide
  rw [skipBlockCommentLoop]
  simp only [hend, hpeek, hpeek1, e1, e2, and_self, Bool.false_eq_true, if_false, if_true]
  exact ⟨((advance_skipped t).andThen (advance_skipped _)).cast rfl, hub⟩

/-- One round of the loop of `skipBlockComment` on a character that is neither a
line end nor the start of `*/`. -/
theorem skipBlockCommentLoop_char (k : Nat) (t : Tokenizer) (hend : isAtEnd t = false)
    (h1 : peek t 0 ≠ carriageReturn) (h2 : peek t 0 ≠ lineFeed)
    (h3 : ¬ (peek t 0 = '*'.toNat ∧ peek t 1 = '/'.toNat)) :
    skipBlockCommentLoop (k + 1) t = skipBlockCommentLoop k (advance t).2 := by
  rw [skipBlockCommentLoop]
  simp only [hend, h1, h2, h3, Bool.false_eq_true, if_false]

theorem skipBlockCommentLoop_lf (k : Nat) (t : Tokenizer) (hend : isAtEnd t = false)
    (h2 : peek t 0 = lineFeed) :
    skipBlockCommentLoop (k + 1) t = skipBlockCommentLoop k (newline (advance t).2 true) := by
  have e1 : ¬ (lineFeed = carriageReturn) := by decide
  rw [skipBlockCommentLoop]
  simp only [hend, h2, e1, Bool.false_eq_true, if_false, if_true]

theorem skipBlockCommentLoop_crlf (k : Nat) (t : Tokenizer) (hend : isAtEnd t = false)
    (h1 : peek t 0 = carriageReturn) (h2 : peek (advance t).2 0 = lineFeed) :
    skipBlockCommentLoop (k + 1) t =
      skipBlockCommentLoop k (newline (advance (advance t).2).2 true) := by
  rw [skipBlockCommentLoop]
  simp only [hend, h1, h2, ne_eq, not_true_eq_false, Bool.false_eq_true, if_false, if_true]

/-- The loop of `skipBlockComment` on the body of a terminated comment followed by
`*/`: it consumes the body and the `*/`, and buffers a newline if the body contains
a line feed. -/
theorem skipBlockCommentLoop_run (rest : List Nat) :
    ∀ (n : Nat) (body : List Nat), body.length ≤ n →
      ∀ (t : Tokenizer) (fuel : Nat), t.length = t.source.length →
        unread t = body ++ '*'.toNat :: '/'.toNat :: rest → blockBodyOK body = true →
        body.length < fuel →
        Skipped (decide (lineFeed ∈ body)) t (skipBlockCommentLoop fuel t) ∧
          unread (skipBlockCommentLoop fuel t) = rest := by
  intro n
  induction n with
  | zero =>
    intro body hn t fuel hl hu _ hf
    have hb : body = [] := List.length_eq_zero.mp (Nat.le_zero.mp hn)
    subst hb
    obtain ⟨k, rfl⟩ : ∃ k, fuel = k + 1 := ⟨fuel - 1, by simp at hf; omega⟩
    obtain ⟨h1, h2⟩ := skipBlockCommentLoop_close k t rest hl hu
    exact ⟨h1.cast (by simp), h2⟩
  | succ n ih =>
    intro body hn t fuel hl hu hok hf
    obtain ⟨k, rfl⟩ : ∃ k, fuel = k + 1 := ⟨fuel - 1, by omega⟩
    match body, hn, hu, hok, hf with
    | [], _, hu, _, _ =>
      obtain ⟨h1, h2⟩ := skipBlockCommentLoop_close k t rest hl hu
      exact ⟨h1.cast (by simp), h2⟩
    | [c], _, hu, hok, hf =>
      simp only [blockBodyOK, decide_eq_true_eq] at hok
      have hu2 : unread t = c :: '*'.toNat :: '/'.toNat :: rest := hu
      have hpeek : peek t 0 = c := by rw [peek0_eq_unread t hl, hu2]; rfl
      have hpeek1 : peek t 1 = '*'.toNat := by rw [peek1_eq_unread t hl, hu2]; rfl
      have hend := isAtEnd_of_unread_cons t hl c _ hu2
      have hua := unread_advance t hl c _ hu2
      have hla := quiet_length_of_frame (advance_frame t) hl
      by_cases hc : c = lineFeed
      · rw [skipBlockCommentLoop_lf k t hend (by rw [hpeek]; exact hc)]
        have hs := (advance_skipped t).andThen (newline_skipped (advance t).2)
        obtain ⟨h1, h2⟩ := ih [] (Nat.zero_le _) (newline (advance t).2 true) k
          (hs.length_ok hl) (by rw [newline_unread, hua]; rfl) rfl (by simp at hf ⊢; omega)
        exact ⟨(hs.andThen h1).cast (by simp [hc]), h2⟩
      · rw [skipBlockCommentLoop_char k t hend (by rw [hpeek]; exact hok)
          (by rw [hpeek]; exact hc) (by rw [hpeek1]; intro h; exact absurd h.2 (by decide))]
        obtain ⟨h1, h2⟩ := ih [] (Nat.zero_le _) (advance t).2 k hla hua rfl
          (by simp at hf ⊢; omega)
        refine ⟨((advance_skipped t).andThen h1).cast ?_, h2⟩
        have : lineFeed ≠ c := fun h => hc h.symm
        simp [this]
    | c :: d :: more, hn, hu, hok, hf =>
      have hu2 : unread t = c :: d :: (more ++ '*'.toNat :: '/'.toNat :: rest) := hu
      have hpeek : peek t 0 = c := by rw [peek0_eq_unread t hl, hu2]; rfl
      have hpeek1 : peek t 1 = d := by rw [peek1_eq_unread t hl, hu2]; rfl
      have hend := isAtEnd_of_unread_cons t hl c _ hu2
      have hua := unread_advance t hl c _ hu2
      have hla := quiet_length_of_frame (advance_frame t) hl
      by_cases hcr : c = carriageReturn
      · simp only [blockBodyOK, hcr, if_true, Bool.and_eq_true, decide_eq_true_eq] at hok
        have hpeeka : peek (advance t).2 0 = lineFeed := by
          rw [peek0_eq_unread _ hla, hua, ← hok.1]; rfl
        have hub := unread_advance _ hla d _ hua
        rw [skipBlockCommentLoop_crlf k t hend (by rw [hpeek]; exact hcr) hpeeka]
        have hs := ((advance_skipped t).andThen (advance_skipped (advance t).2)).andThen
          (newline_skipped (advance (advance t).2).2)
        obtain ⟨h1, h2⟩ := ih more (by simp only [List.length_cons] at hn; omega)
          (newline (advance (advance t).2).2 true) k (hs.length_ok hl)
          (by rw [newline_unread, hub]) hok.2 (by simp only [List.length_cons] at hf; omega)
        exact ⟨(hs.andThen h1).cast (by simp [hok.1]), h2⟩
      · by_cases hc : c = lineFeed
        · have hok2 : blockBodyOK (d :: more) = true := by
            have e1 : ¬ (lineFeed = carriageReturn) := by decide
            have e2 : ¬ (lineFeed = '*'.toNat ∧ d = '/'.toNat) := fun h => absurd h.1 (by decide)
            simpa only [blockBodyOK, hc, e1, e2, if_false] using hok
          rw [skipBlockCommentLoop_lf k t hend (by rw [hpeek]; exact hc)]
          have hs := (advance_skipped t).andThen (newline_skipped (advance t).2)
          obtain ⟨h1, h2⟩ := ih (d :: more) (by simp only [List.length_cons] at hn ⊢; omega)
            (newline (advance t).2 true) k (hs.length_ok hl) (by rw [newline_unread, hua]; rfl)
            hok2 (by simp only [List.length_cons] at hf ⊢; omega)
          exact ⟨(hs.andThen h1).cast (by simp [hc]), h2⟩
        · have hstar : ¬ (c = '*'.toNat ∧ d = '/'.toNat) := by
            intro h
            have hst : (c = '*'.toNat ∧ d = '/'.toNat) = True := eq_true h
            simp only [blockBodyOK, hcr, hst, if_false, if_true] at hok
            exact absurd hok (by decide)
          have hok2 : blockBodyOK (d :: more) = true := by
            simpa only [blockBodyOK, hcr, hstar, if_false] using hok
          rw [skipBlockCommentLoop_char k t hend (by rw [hpeek]; exact hcr)
            (by rw [hpeek]; exact hc) (by rw [hpeek, hpeek1]; exact hstar)]
          obtain ⟨h1, h2⟩ := ih (d :: more) (by simp only [List.length_cons] at hn ⊢; omega)
            (advance t).2 k hla hua hok2 (by simp only [List.length_cons] at hf ⊢; omega)
          refine ⟨((advance_skipped t).andThen h1).cast ?_, h2⟩
          have : lineFeed ≠ c := fun h => hc h.symm
          simp [this]

theorem skipWhitespaceLoop_space (k : Nat) (t : Tokenizer) (h : peek t 0 = ' '.toNat) :
    skipWhitespaceLoop (k + 1) t = skipWhitespaceLoop k (advance t).2 := by
  rw [skipWhitespaceLoop]
  simp only [h, if_true]

theorem skipWhitespaceLoop_tab (k : Nat) (t : Tokenizer) (h : peek t 0 = tabRune) :
    skipWhitespaceLoop (k + 1) t =
      skipWhitespaceLoop k
        { (advance t).2 with column := (advance t).2.column + ((advance t).2.tabSize - 1) } := by
  have e1 : ¬ (tabRune = ' '.toNat) := by decide
  rw [skipWhitespaceLoop]
  simp only [h, e1, if_false, if_true]

theorem skipWhitespaceLoop_cr (k : Nat) (t : Tokenizer) (h : peek t 0 = carriageReturn)
    (h2 : peek (advance t).2 0 = lineFeed) :
    skipWhitespaceLoop (k + 1) t = skipWhitespaceLoop k (advance t).2 := by
  have e1 : ¬ (carriageReturn = ' '.toNat) := by decide
  have e2 : ¬ (carriageReturn = tabRune) := by decide
  rw [skipWhitespaceLoop]
  simp only [h, h2, e1, e2, ne_eq, not_true_eq_false, if_false, if_true]

theorem skipWhitespaceLoop_lf (k : Nat) (t : Tokenizer) (h : peek t 0 = lineFeed) :
    skipWhitespaceLoop (k + 1) t = skipWhitespaceLoop k (newline (advance t).2 true) := by
  have e1 : ¬ (lineFeed = ' '.toNat) := by decide
  have e2 : ¬ (lineFeed = tabRune) := by decide
  have e3 : ¬ (lineFeed = carriageReturn) := by decide
  rw [skipWhitespaceLoop]
  simp only [h, e1, e2, e3, if_false, if_true]

theorem skipWhitespaceLoop_hash (k : Nat) (t : Tokenizer) (h : peek t 0 = '#'.toNat) :
    skipWhitespaceLoop (k + 1) t = skipWhitespaceLoop k (skipLineComment t) := by
  have e1 : ¬ ('#'.toNat = ' '.toNat) := by decide
  have e2 : ¬ ('#'.toNat = tabRune) := by decide
  have e3 : ¬ ('#'.toNat = carriageReturn) := by decide
  have e4 : ¬ ('#'.toNat = lineFeed) := by decide
  rw [skipWhitespaceLoop]
  simp only [h, e1, e2, e3, e4, if_false, if_true]

theorem skipWhitespaceLoop_slash (k : Nat) (t : Tokenizer) (h : peek t 0 = '/'.toNat) :
    skipWhitespaceLoop (k + 1) t =
      if peek t 1 = '/'.toNat then
        skipWhitespaceLoop k (skipLineComment (advance (advance t).2).2)
      else if peek t 1 = '*'.toNat then
        skipWhitespaceLoop k (skipBlockComment (advance (advance t).2).2)
      else t := by
  have e1 : ¬ ('/'.toNat = ' '.toNat) := by decide
  have e2 : ¬ ('/'.toNat = tabRune) := by decide
  have e3 : ¬ ('/'.toNat = carriageReturn) := by decide
  have e4 : ¬ ('/'.toNat = lineFeed) := by decide
  have e5 : ¬ ('/'.toNat = '#'.toNat) := by decide
  rw [skipWhitespaceLoop]
  simp only [h, e1, e2, e3, e4, e5, if_false, if_true]

/-- A round of the loop of `skipWhitespace` that consumes at least one character
and goes on from `t1`: the whole skip from `t` is the skip from `t1`. -/
theorem skipWhitespace_step (t t1 : Tokenizer) (hlt : t._current < t.length)
    (hl1 : t1.length = t.length) (hc : t._current + 1 ≤ t1._current)
    (h : skipWhitespaceLoop (t.length - t._current + 1) t =
      skipWhitespaceLoop (t.length - t._current) t1) :
    skipWhitespace t = skipWhitespace t1 := by
  show skipWhitespaceLoop (t.length - t._current + 1) t = skipWhitespace t1
  rw [h]
  have e : t.length - t._current =
      t1.length - t1._current + 1 + (t.length - t._current - (t1.length - t1._current + 1)) := by
    omega
  rw [e]
  exact skipWhitespaceLoop_enough t1 _

/-- The skip on a text that does not start with trivia returns at once. -/
theorem skipWhitespace_stop (t : Tokenizer) (rest : List Nat) (hl : t.length = t.source.length)
    (hu : unread t = rest) (hrest : startsNoTrivia rest = true) : skipWhitespace t = t := by
  cases rest with
  | nil =>
    apply skipWhitespace_plain
    rw [peek0_eq_unread t hl, hu]; rfl
  | cons c cs =>
    have hpeek : peek t 0 = c := by rw [peek0_eq_unread t hl, hu]; rfl
    simp only [startsNoTrivia, Bool.or_eq_true, Bool.and_eq_true, decide_eq_true_eq] at hrest
    rcases hrest with h | ⟨h1, h2, h3⟩
    · exact skipWhitespace_plain t (by rw [hpeek]; exact h)
    · have hpeek1 : peek t 1 = cs.getD 0 0 := by rw [peek1_eq_unread t hl, hu]; rfl
      have hn1 : peek t 1 ≠ '/'.toNat := by
        rw [hpeek1]
        cases cs with
        | nil => decide
        | cons d ds => intro h; exact h2 (by rw [← h]; rfl)
      have hn2 : peek t 1 ≠ '*'.toNat := by
        rw [hpeek1]
        cases cs with
        | nil => decide
        | cons d ds => intro h; exact h3 (by rw [← h]; rfl)
      unfold skipWhitespace
      rw [skipWhitespaceLoop_slash _ t (by rw [hpeek]; exact h1), if_neg hn1, if_neg hn2]

theorem lt_length_of_unread_cons (t : Tokenizer) (hl : t.length = t.source.length) (c : Nat)
    (cs : List Nat) (h : unread t = c :: cs) : t._current < t.length := by
  have := isAtEnd_of_unread_cons t hl c cs h
  simp only [isAtEnd, decide_eq_false_iff_not] at this
  omega

/-- The loop of `skipWhitespace` on one item of trivia: the skip goes on after the
item, a newline being buffered if the item contains a line feed. -/
theorem skip_item (it : TriviaItem) (t : Tokenizer) (rest : List Nat)
    (hl : t.length = t.source.length) (hu : unread t = it.text ++ rest)
    (hw : it.wellFormed = true) :
    ∃ t1, skipWhitespace t = skipWhitespace t1 ∧
      Skipped (decide (lineFeed ∈ it.text)) t t1 ∧ unread t1 = rest := by
  cases it with
  | space =>
    have hu2 : unread t = ' '.toNat :: rest := hu
    have hpeek : peek t 0 = ' '.toNat := by rw [peek0_eq_unread t hl, hu2]; rfl
    have hend := isAtEnd_of_unread_cons t hl _ _ hu2
    exact ⟨(advance t).2,
      skipWhitespace_step t _ (lt_length_of_unread_cons t hl _ _ hu2) (advance_frame t).length
        (by rw [advance_current t hend]) (skipWhitespaceLoop_space _ t hpeek),
      (advance_skipped t).cast (by decide), unread_advance t hl _ _ hu2⟩
  | tab =>
    have hu2 : unread t = tabRune :: rest := hu
    have hpeek : peek t 0 = tabRune := by rw [peek0_eq_unread t hl, hu2]; rfl
    have hend := isAtEnd_of_unread_cons t hl _ _ hu2
    have hs : Skipped false (advance t).2
        { (advance t).2 with column := (advance t).2.column + ((advance t).2.tabSize - 1) } :=
      ⟨rfl, rfl, rfl, rfl, le_rfl, by simp, id⟩
    refine ⟨{ (advance t).2 with
        column := (advance t).2.column + ((advance t).2.tabSize - 1) },
      skipWhitespace_step t _ (lt_length_of_unread_cons t hl _ _ hu2)
        (advance_frame t).length ?_ (skipWhitespaceLoop_tab _ t hpeek),
      ((advance_skipped t).andThen hs).cast (by decide), unread_advance t hl _ _ hu2⟩
    show t._current + 1 ≤ (advance t).2._current
    rw [advance_current t hend]
  | lineEnd =>
    have hu2 : unread t = lineFeed :: rest := hu
    have hpeek : peek t 0 = lineFeed := by rw [peek0_eq_unread t hl, hu2]; rfl
    have hend := isAtEnd_of_unread_cons t hl _ _ hu2
    have hs := (advance_skipped t).andThen (newline_skipped (advance t).2)
    refine ⟨_, skipWhitespace_step t _ (lt_length_of_unread_cons t hl _ _ hu2) hs.length ?_
        (skipWhitespaceLoop_lf _ t hpeek), hs.cast (by decide), ?_⟩
    · have := (newline_skipped (advance t).2).current
      rw [advance_current t hend] at this
      exact this
    · rw [newline_unread]; exact unread_advance t hl _ _ hu2
  | crlf =>
    have hu2 : unread t = carriageReturn :: lineFeed :: rest := hu
    have hpeek : peek t 0 = carriageReturn := by rw [peek0_eq_unread t hl, hu2]; rfl
    have hend := isAtEnd_of_unread_cons t hl _ _ hu2
    have hua := unread_advance t hl _ _ hu2
    have hla := quiet_length_of_frame (advance_frame t) hl
    have hpeeka : peek (advance t).2 0 = lineFeed := by rw [peek0_eq_unread _ hla, hua]; rfl
    have henda := isAtEnd_of_unread_cons _ hla _ _ hua
    have step1 := skipWhitespace_step t _ (lt_length_of_unread_cons t hl _ _ hu2)
      (advance_frame t).length (by rw [advance_current t hend])
      (skipWhitespaceLoop_cr _ t hpeek hpeeka)
    have hs := (advance_skipped (advance t).2).andThen (newline_skipped (advance (advance t).2).2)
    have step2 := skipWhitespace_step (advance t).2 _ (lt_length_of_unread_cons _ hla _ _ hua)
      hs.length
      (by
        have := (newline_skipped (advance (advance t).2).2).current
        rw [advance_current _ henda] at this
        exact this)
      (skipWhitespaceLoop_lf _ _ hpeeka)
    refine ⟨_, step1.trans step2, ((advance_skipped t).andThen hs).cast (by decide), ?_⟩
    rw [newline_unread]; exact unread_advance _ hla _ _ hua
  | hashComment text =>
    have hnl : lineFeed ∉ text := by simpa [TriviaItem.wellFormed] using hw
    have hu2 : unread t = ('#'.toNat :: text) ++ lineFeed :: rest := by
      rw [hu]; simp [TriviaItem.text]
    have hu3 : unread t = '#'.toNat :: (text ++ lineFeed :: rest) := hu2
    have hpeek : peek t 0 = '#'.toNat := by rw [peek0_eq_unread t hl, hu3]; rfl
    have hnl2 : lineFeed ∉ '#'.toNat :: text := by
      intro h
      rcases List.mem_cons.mp h with h | h
      · exact absurd h (by decide)
      · exact hnl h
    obtain ⟨h1, h2⟩ := skipLineComment_run t _ rest hl hu2 hnl2
    exact ⟨_, skipWhitespace_step t _ (lt_length_of_unread_cons t hl _ _ hu3) h1.length
      (skipLineComment_step t hpeek) (skipWhitespaceLoop_hash _ t hpeek),
      h1.cast (by simp [TriviaItem.text]), h2⟩
  | slashComment text =>
    have hnl : lineFeed ∉ text := by simpa [TriviaItem.wellFormed] using hw
    have hu2 : unread t = '/'.toNat :: '/'.toNat :: (text ++ lineFeed :: rest) := by
      rw [hu]; simp [TriviaItem.text]
    have hpeek : peek t 0 = '/'.toNat := by rw [peek0_eq_unread t hl, hu2]; rfl
    have hpeek1 : peek t 1 = '/'.toNat := by rw [peek1_eq_unread t hl, hu2]; rfl
    have hend := isAtEnd_of_unread_cons t hl _ _ hu2
    have hua := unread_advance t hl _ _ hu2
    have hla := quiet_length_of_frame (advance_frame t) hl
    have hub := unread_advance _ hla _ _ hua
    have hlb := quiet_length_of_frame (advance_frame (advance t).2) hla
    obtain ⟨h1, h2⟩ := skipLineComment_run (advance (advance t).2).2 text rest hlb hub hnl
    have hs := ((advance_skipped t).andThen (advance_skipped (advance t).2)).andThen h1
    refine ⟨_, skipWhitespace_step t _ (lt_length_of_unread_cons t hl _ _ hu2) hs.length ?_
        (by rw [skipWhitespaceLoop_slash _ t hpeek, if_pos hpeek1]),
      hs.cast (by simp [TriviaItem.text]), h2⟩
    have := ((advance_skipped (advance t).2).andThen h1).current
    rw [advance_current t hend] at this
    exact this
  | blockComment body =>
    have hok : blockBodyOK body = true := hw
    have hu2 : unread t =
        '/'.toNat :: '*'.toNat :: (body ++ '*'.toNat :: '/'.toNat :: rest) := by
      rw [hu]; simp [TriviaItem.text]
    have hpeek : peek t 0 = '/'.toNat := by rw [peek0_eq_unread t hl, hu2]; rfl
    have hpeek1 : peek t 1 = '*'.toNat := by rw [peek1_eq_unread t hl, hu2]; rfl
    have hn1 : peek t 1 ≠ '/'.toNat := by rw [hpeek1]; decide
    have hend := isAtEnd_of_unread_cons t hl _ _ hu2
    have hua := unread_advance t hl _ _ hu2
    have hla := quiet_length_of_frame (advance_frame t) hl
    have hub := unread_advance _ hla _ _ hua
    have hlb := quiet_length_of_frame (advance_frame (advance t).2) hla
    have hfuel : body.length <
        (advance (advance t).2).2.length - (advance (advance t).2).2._current + 1 := by
      rw [← unread_length _ hlb, hub, List.length_append]; omega
    obtain ⟨h1, h2⟩ := skipBlockCommentLoop_run rest body.length body le_rfl
      (advance (advance t).2).2 _ hlb hub hok hfuel
    have hs := ((advance_skipped t).andThen (advance_skipped (advance t).2)).andThen h1
    refine ⟨skipBlockComment (advance (advance t).2).2,
      skipWhitespace_step t _ (lt_length_of_unread_cons t hl _ _ hu2) hs.length ?_
        (by rw [skipWhitespaceLoop_slash _ t hpeek, if_neg hn1, if_pos hpeek1]),
      hs.cast (by simp [TriviaItem.text, lineFeed]), h2⟩
    have := ((advance_skipped (advance t).2).andThen h1).current
    rw [advance_current t hend] at this
    exact this

/-- The method `skipWhitespace` on a stretch of trivia: the skip goes on after the
stretch, and a newline is buffered there if one was buffered before or the stretch
contains a line feed. -/
theorem skip_items :
    ∀ (items : List TriviaItem) (t : Tokenizer) (rest : List Nat),
      t.length = t.source.length → unread t = triviaText items ++ rest →
      (∀ it ∈ items, it.wellFormed = true) →
      ∃ t1, skipWhitespace t = skipWhitespace t1 ∧
        Skipped (decide (lineFeed ∈ triviaText items)) t t1 ∧ unread t1 = rest := by
  intro items
  induction items with
  | nil =>
    intro t rest _ hu _
    exact ⟨t, rfl, (Skipped.here t).cast (by simp [triviaText]), hu⟩
  | cons it its ih =>
    intro t rest hl hu hw
    have hu2 : unread t = it.text ++ (triviaText its ++ rest) := by
      rw [hu, triviaText, List.append_assoc]
    obtain ⟨t1, hstep, hs, hu1⟩ := skip_item it t _ hl hu2 (hw it (List.mem_cons_self _ _))
    obtain ⟨t2, hstep2, hs2, hu2⟩ := ih t1 rest (hs.length_ok hl) hu1
      (fun x hx => hw x (List.mem_cons_of_mem _ hx))
    exact ⟨t2, hstep.trans hstep2, (hs.andThen hs2).cast (by simp [triviaText]), hu2⟩

/-- The loop of `skipLineComment` on a text without line feed that ends the source:
it consumes the text. -/
theorem skipLineCommentLoop_open :
    ∀ (text : List Nat) (t : Tokenizer) (fuel : Nat), t.length = t.source.length →
      unread t = text → lineFeed ∉ text → text.length < fuel →
      Skipped false t (skipLineCommentLoop fuel t) ∧ unread (skipLineCommentLoop fuel t) = [] := by
  intro text
  induction text with
  | nil =>
    intro t fuel hl hu _ hf
    obtain ⟨k, rfl⟩ : ∃ k, fuel = k + 1 := ⟨fuel - 1, by simp at hf; omega⟩
    have hend := isAtEnd_of_unread_nil t hl hu
    rw [skipLineCommentLoop]
    have hcond : ¬ (peek t 0 ≠ lineFeed ∧ isAtEnd t = false) := by
      rw [hend]; exact fun h => absurd h.2 (by decide)
    rw [if_neg hcond]
    exact ⟨Skipped.here t, hu⟩
  | cons c cs ih =>
    intro t fuel hl hu hnl hf
    obtain ⟨k, rfl⟩ : ∃ k, fuel = k + 1 := ⟨fuel - 1, by simp at hf; omega⟩
    have hpeek : peek t 0 = c := by rw [peek0_eq_unread t hl, hu]; rfl
    have hend := isAtEnd_of_unread_cons t hl c _ hu
    have hua := unread_advance t hl c _ hu
    have hla := quiet_length_of_frame (advance_frame t) hl
    have hc : c ≠ lineFeed := fun h => hnl (by rw [h]; exact List.mem_cons_self _ _)
    rw [skipLineCommentLoop]
    have hcond : peek t 0 ≠ lineFeed ∧ isAtEnd t = false := ⟨by rw [hpeek]; exact hc, hend⟩
    rw [if_pos hcond]
    obtain ⟨h1, h2⟩ := ih (advance t).2 k hla hua
      (fun h => hnl (List.mem_cons_of_mem _ h)) (by simp at hf; omega)
    exact ⟨((advance_skipped t).andThen h1).cast rfl, h2⟩

/-- The method `skipLineComment` on a comment text that ends the source. -/
theorem skipLineComment_open (t : Tokenizer) (text : List Nat)
    (hl : t.length = t.source.length) (hu : unread t = text) (hnl : lineFeed ∉ text) :
    Skipped false t (skipLineComment t) ∧ unread (skipLineComment t) = [] := by
  have hfuel : text.length < t.length - t._current + 1 := by
    rw [← unread_length t hl, hu]; omega
  obtain ⟨h1, h2⟩ := skipLineCommentLoop_open text t _ hl hu hnl hfuel
  have hend := isAtEnd_of_unread_nil _ (h1.length_ok hl) h2
  unfold skipLineComment
  simp only [hend, if_true]
  exact ⟨h1, h2⟩

/-- The method `skipWhitespace` at the end of a stretch. -/
theorem skipWhitespace_end (t : Tokenizer) (rest : List Nat) (hl : t.length = t.source.length)
    (hu : unread t = rest) (hrest : endsStretch rest = true) :
    Skipped false t (skipWhitespace t) ∧ unread (skipWhitespace t) = afterStretch rest := by
  unfold afterStretch
  by_cases hs : startsNoTrivia rest = true
  · rw [skipWhitespace_stop t rest hl hu hs, if_pos hs]
    exact ⟨Skipped.here t, hu⟩
  · rw [if_neg hs]
    simp only [endsStretch, hs, Bool.false_or, Bool.and_eq_true, Bool.or_eq_true,
      decide_eq_true_eq] at hrest
    obtain ⟨hnl, hopen⟩ := hrest
    have hstop : ∀ t1 : Tokenizer, t1.length = t1.source.length → unread t1 = [] →
        skipWhitespace t1 = t1 := fun t1 hl1 hu1 => skipWhitespace_stop t1 [] hl1 hu1 rfl
    rcases hopen with hh | hh
    · obtain ⟨cs, rfl⟩ : ∃ cs, rest = '#'.toNat :: cs := by
        cases rest with
        | nil => simp at hh
        | cons c cs =>
          simp only [List.head?_cons, Option.some.injEq] at hh
          exact ⟨cs, by rw [hh]⟩
      have hpeek : peek t 0 = '#'.toNat := by rw [peek0_eq_unread t hl, hu]; rfl
      obtain ⟨h1, h2⟩ := skipLineComment_open t _ hl hu hnl
      rw [skipWhitespace_step t _ (lt_length_of_unread_cons t hl _ _ hu) h1.length
        (skipLineComment_step t hpeek) (skipWhitespaceLoop_hash _ t hpeek),
        hstop _ (h1.length_ok hl) h2]
      exact ⟨h1, h2⟩
    · obtain ⟨cs, rfl⟩ : ∃ cs, rest = '/'.toNat :: '/'.toNat :: cs := by
        match rest, hh with
        | [], hh => simp at hh
        | [c], hh => simp at hh
        | c :: d :: cs, hh =>
          simp only [List.take_succ_cons, List.take_zero, List.cons.injEq, and_true] at hh
          exact ⟨cs, by rw [hh.1, hh.2]⟩
      have hpeek : peek t 0 = '/'.toNat := by rw [peek0_eq_unread t hl, hu]; rfl
      have hpeek1 : peek t 1 = '/'.toNat := by rw [peek1_eq_unread t hl, hu]; rfl
      have hend := isAtEnd_of_unread_cons t hl _ _ hu
      have hua := unread_advance t hl _ _ hu
      have hla := quiet_length_of_frame (advance_frame t) hl
      have hub := unread_advance _ hla _ _ hua
      have hlb := quiet_length_of_frame (advance_frame (advance t).2) hla
      have hnl2 : lineFeed ∉ cs :=
        fun h => hnl (List.mem_cons_of_mem _ (List.mem_cons_of_mem _ h))
      obtain ⟨h1, h2⟩ := skipLineComment_open (advance (advance t).2).2 cs hlb hub hnl2
      have hsk := ((advance_skipped t).andThen (advance_skipped (advance t).2)).andThen h1
      have hprog : t._current + 1 ≤ (skipLineComment (advance (advance t).2).2)._current := by
        have := ((advance_skipped (advance t).2).andThen h1).current
        rw [advance_current t hend] at this
        exact this
      rw [skipWhitespace_step t _ (lt_length_of_unread_cons t hl _ _ hu) hsk.length hprog
        (by rw [skipWhitespaceLoop_slash _ t hpeek, if_pos hpeek1]),
        hstop _ (hsk.length_ok hl) h2]
      exact ⟨hsk.cast rfl, h2⟩

/-- The method `skipWhitespace` on a maximal stretch of trivia: it consumes the
stretch, and a newline is buffered afterwards if one was buffered before or the
stretch contains a line feed. -/
theorem skip_stretch (items : List TriviaItem) (t : Tokenizer) (rest : List Nat)
    (hl : t.length = t.source.length) (hu : unread t = triviaText items ++ rest)
    (hw : ∀ it ∈ items, it.wellFormed = true) (hrest : endsStretch rest = true) :
    Skipped (decide (lineFeed ∈ triviaText items)) t (skipWhitespace t) ∧
      unread (skipWhitespace t) = afterStretch rest := by
  obtain ⟨t1, hstep, hs, hu1⟩ := skip_items items t rest hl hu hw
  obtain ⟨h1, h2⟩ := skipWhitespace_end t1 rest (hs.length_ok hl) hu1 hrest
  rw [hstep]
  exact ⟨(hs.andThen h1).cast (by simp), h2⟩

/-! ## Identifiers and keywords -/

theorem potentialIdentifier_wordToken (L : GoLib) (t : Tokenizer) :
    potentialIdentifier L t =
      wordToken (identifierLoop L (t.length - t._current + 1) t)
        (slice (identifierLoop L (t.length - t._current + 1) t).source (t._current - 1)
          (identifierLoop L (t.length - t._current + 1) t)._current) := rfl

/-- Every keyword of the table `keywordsByFirst` is listed with the same kind in
`specKeywords`. -/
theorem keywordsByFirst_listed :
    ∀ p ∈ keywordsByFirst, ∀ q ∈ p.2, specKeywords.lookup q.1 = some q.2 := by decide

/-- Every keyword of `specKeywords` is found by the two lookups of
`potentialIdentifier`, and has a length within the keyword bounds. -/
theorem specKeywords_found :
    ∀ p ∈ specKeywords,
      (keywordsByFirst.lookup (p.1.headD 0)).bind (fun g => g.lookup p.1) = some p.2 ∧
        MinKeywordLength ≤ goLen p.1 ∧ goLen p.1 ≤ MaxKeywordLength ∧
        p.1 ≠ runes "true" ∧ p.1 ≠ runes "null" ∧ p.1 ≠ runes "false" := by decide

/-- The loop of `potentialIdentifier` on a text of identifier characters that ends
the source: it consumes the text. -/
theorem identifierLoop_run (L : GoLib) :
    ∀ (body : List Nat) (t : Tokenizer) (fuel : Nat), t.length = t.source.length →
      unread t = body → body.all (isUnicodeIdentifierContinue L) = true → body.length < fuel →
      Frame t (identifierLoop L fuel t) ∧ unread (identifierLoop L fuel t) = [] ∧
        (identifierLoop L fuel t)._current = t._current + body.length := by
  intro body
  induction body with
  | nil =>
    intro t fuel hl hu _ hf
    obtain ⟨k, rfl⟩ : ∃ k, fuel = k + 1 := ⟨fuel - 1, by simp at hf; omega⟩
    have hpeek : peek t 0 = 0 := by rw [peek0_eq_unread t hl, hu]; rfl
    rw [identifierLoop]
    simp only [hpeek, identifierContinue_zero, Bool.false_eq_true, if_false]
    exact ⟨Frame.refl t, hu, rfl⟩
  | cons c cs ih =>
    intro t fuel hl hu hall hf
    obtain ⟨k, rfl⟩ : ∃ k, fuel = k + 1 := ⟨fuel - 1, by simp at hf; omega⟩
    simp only [List.all_cons, Bool.and_eq_true] at hall
    have hpeek : peek t 0 = c := by rw [peek0_eq_unread t hl, hu]; rfl
    have hend := isAtEnd_of_unread_cons t hl c _ hu
    have hua := unread_advance t hl c _ hu
    have hla := quiet_length_of_frame (advance_frame t) hl
    rw [identifierLoop]
    simp only [hpeek, hall.1, if_true]
    obtain ⟨a, b, d⟩ := ih (advance t).2 k hla hua hall.2 (by simp at hf; omega)
    refine ⟨(advance_frame t).trans a, b, ?_⟩
    rw [d, advance_current t hend, List.length_cons]; omega

theorem latin1Letter_ge (c : Nat) (h : latin1Letter c = true) : 65 ≤ c := by
  simp only [latin1Letter, decide_eq_true_eq] at h
  have e1 : 'A'.toNat = 65 := rfl
  have e3 : 'a'.toNat = 97 := rfl
  rw [e1, e3] at h
  omega

/-- An identifier start is not below `A`. -/
theorem identifierStart_ge (L : GoLib) (c : Nat) (h : isUnicodeIdentifierStart L c = true) :
    65 ≤ c := by
  by_cases hc : c ≤ 0xFF
  · simp only [isUnicodeIdentifierStart, unicodeIsLetter, hc, if_true, Bool.or_eq_true,
      decide_eq_true_eq] at h
    rcases h with h | h
    · rw [h]; decide
    · exact latin1Letter_ge c h
  · omega

/-- An identifier character is not below `0`. -/
theorem identifierContinue_ge (L : GoLib) (c : Nat)
    (h : isUnicodeIdentifierContinue L c = true) : 48 ≤ c := by
  by_cases hc : c ≤ 0xFF
  · simp only [isUnicodeIdentifierContinue, unicodeIsLetter, unicodeIsDigit, hc, if_true,
      Bool.or_eq_true, decide_eq_true_eq] at h
    rcases h with (h | h) | h
    · rw [h]; decide
    · have := latin1Letter_ge c h; omega
    · have e : '0'.toNat = 48 := rfl
      rw [e] at h; omega
  · omega

theorem plainRune_of_ge (c : Nat) (h : 48 ≤ c) : plainRune c = true := by
  simp only [plainRune, decide_eq_true_eq]
  have e1 : ' '.toNat = 32 := rfl
  have e2 : tabRune = 9 := rfl
  have e3 : carriageReturn = 13 := rfl
  have e4 : lineFeed = 10 := rfl
  have e5 : '#'.toNat = 35 := rfl
  have e6 : '/'.toNat = 47 := rfl
  rw [e1, e2, e3, e4, e5, e6]
  omega

/-- The dispatch of `Scan` on an identifier start that is followed by identifier
characters or the end of the source. -/
theorem scanToken_identifier (L : GoLib) (c : Nat) (t : Tokenizer)
    (hc : isUnicodeIdentifierStart L c = true) (hnext : peek t 0 = 0 ∨ 48 ≤ peek t 0) :
    scanToken L c t = some (.ok (potentialIdentifier L t)) := by
  have hge := identifierStart_ge L c hc
  have hd : isDigit c = false := by
    simp only [isDigit, decide_eq_false_iff_not]
    have e : '9'.toNat = 57 := rfl
    rw [e]; omega
  have hq : ¬ (c = 'r'.toNat ∧ (peek t 0 = quoteDouble ∨ peek t 0 = quoteSingle)) := by
    rintro ⟨_, h | h⟩ <;> rw [h] at hnext <;> revert hnext <;> decide
  unfold scanToken
  simp only [hd, hq, hc, Bool.false_eq_true, if_false, if_true]

theorem wordToken_identifier (t1 : Tokenizer) (name : GoString) (h1 : name ≠ runes "true")
    (h2 : name ≠ runes "null") (h3 : name ≠ runes "false")
    (hk : (keywordsByFirst.lookup (name.headD 0)).bind (fun g => g.lookup name) = none) :
    wordToken t1 name = makeIdentifier t1 name := by
  have e1 : ¬ (goLen name = 4 ∧ name = runes "true") := fun h => h1 h.2
  have e2 : ¬ (goLen name = 4 ∧ name = runes "null") := fun h => h2 h.2
  have e3 : ¬ (goLen name = 5 ∧ name = runes "false") := fun h => h3 h.2
  unfold wordToken
  simp only [e1, e2, e3, if_false]
  split
  · cases hg : keywordsByFirst.lookup (name.headD 0) with
    | none => rfl
    | some g =>
      rw [hg] at hk
      have hk2 : g.lookup name = none := hk
      simp only [hk2]
  · rfl

theorem wordToken_keyword (t1 : Tokenizer) (name : GoString) (k : TokenType)
    (hb : MinKeywordLength ≤ goLen name ∧ goLen name ≤ MaxKeywordLength)
    (h1 : name ≠ runes "true") (h2 : name ≠ runes "null") (h3 : name ≠ runes "false")
    (hk : (keywordsByFirst.lookup (name.headD 0)).bind (fun g => g.lookup name) = some k) :
    wordToken t1 name = makeKeyword t1 k name := by
  have e1 : ¬ (goLen name = 4 ∧ name = runes "true") := fun h => h1 h.2
  have e2 : ¬ (goLen name = 4 ∧ name = runes "null") := fun h => h2 h.2
  have e3 : ¬ (goLen name = 5 ∧ name = runes "false") := fun h => h3 h.2
  unfold wordToken
  simp only [e1, e2, e3, hb, and_self, if_false, if_true]
  cases hg : keywordsByFirst.lookup (name.headD 0) with
  | none => rw [hg] at hk; exact absurd hk (by simp)
  | some g =>
    rw [hg] at hk
    have hk2 : g.lookup name = some k := hk
    simp only [hk2]

/-- The token that `potentialIdentifier` builds for a text has the kind and the
payload of `classifyWord`. -/
theorem wordToken_classify (t1 : Tokenizer) (name : GoString) :
    (wordToken t1 name).1.Type_ = (classifyWord name).1 ∧
      (wordToken t1 name).1.Literal = (classifyWord name).2 ∧
      (wordToken t1 name).1.Source = slice t1.source t1._start t1._current ∧
      Frame t1 (wordToken t1 name).2 := by
  by_cases h1 : name = runes "true"
  · subst h1; exact ⟨rfl, rfl, rfl, makeLiteral_frame t1 _⟩
  by_cases h2 : name = runes "null"
  · subst h2; exact ⟨rfl, rfl, rfl, makeLiteral_frame t1 _⟩
  by_cases h3 : name = runes "false"
  · subst h3; exact ⟨rfl, rfl, rfl, makeLiteral_frame t1 _⟩
  cases hk : specKeywords.lookup name with
  | none =>
    have hcode : (keywordsByFirst.lookup (name.headD 0)).bind (fun g => g.lookup name) =
        none := by
      cases hb : (keywordsByFirst.lookup (name.headD 0)).bind (fun g => g.lookup name) with
      | none => rfl
      | some tt =>
        obtain ⟨g, hg1, hg2⟩ := Option.bind_eq_some.mp hb
        have := keywordsByFirst_listed _ (lookup_mem _ _ _ hg1) _ (lookup_mem _ _ _ hg2)
        rw [hk] at this
        exact absurd this (by simp)
    rw [wordToken_identifier t1 name h1 h2 h3 hcode]
    refine ⟨?_, ?_, rfl, makeIdentifier_frame t1 _⟩
    · simp only [classifyWord, classifyWith, h1, h2, h3, hk, if_false]; rfl
    · simp only [classifyWord, classifyWith, h1, h2, h3, hk, if_false]; rfl
  | some k =>
    obtain ⟨f1, f2, f3, _, _, _⟩ := specKeywords_found _ (lookup_mem _ _ _ hk)
    rw [wordToken_keyword t1 name k ⟨f2, f3⟩ h1 h2 h3 f1]
    refine ⟨?_, ?_, rfl, makeKeyword_frame t1 _ _⟩
    · simp only [classifyWord, classifyWith, h1, h2, h3, hk, if_false]; rfl
    · simp only [classifyWord, classifyWith, h1, h2, h3, hk, if_false]; rfl

theorem unread_nil_of_frame {t t1 : Tokenizer} (h : Frame t t1) (hu : unread t = []) :
    unread t1 = [] := by
  unfold unread at hu ⊢
  rw [h.source]
  have hlen : t.source.length ≤ t._current := List.drop_eq_nil_iff.mp hu
  exact List.drop_eq_nil_iff.mpr (le_trans hlen h.current)

/-- An identifier text that is the whole source is scanned as one token with the
kind and the payload of `classifyWord`, followed by `EOF`. -/
theorem word_scan (L : GoLib) (w : List Nat) (hw : isIdentifierText L w = true) :
    ∃ tok1 tok2 t, scanN L 2 (NewTokenizer w) = .ok ([tok1, tok2], t) ∧
      tok1.Type_ = (classifyWord w).1 ∧ tok1.Literal = (classifyWord w).2 ∧
      tok1.Source = w ∧ tok2.Type_ = TokenType.EOF := by
  cases w with
  | nil => simp [isIdentifierText] at hw
  | cons c cs =>
    simp only [isIdentifierText, Bool.and_eq_true] at hw
    obtain ⟨hc, hcs⟩ := hw
    have q0 : Quiet (NewTokenizer (c :: cs)) := ⟨rfl, rfl, rfl⟩
    have hu0 : unread (NewTokenizer (c :: cs)) = c :: cs := rfl
    obtain ⟨hq3, hu3, hc3, hst3, hsrc3, _, _⟩ := after_first_rune _ q0 _ _ hu0
    have hend := isAtEnd_of_unread_cons _ q0.length _ _ hu0
    have hpeek : peek (NewTokenizer (c :: cs)) 0 = c := by
      rw [peek0_eq_unread _ q0.length, hu0]; rfl
    have hge := identifierStart_ge L c hc
    have hnext : peek (advance (markStart (NewTokenizer (c :: cs)))).2 0 = 0 ∨
        48 ≤ peek (advance (markStart (NewTokenizer (c :: cs)))).2 0 := by
      rw [peek0_eq_unread _ hq3.length, hu3]
      cases cs with
      | nil => exact Or.inl rfl
      | cons x xs =>
        simp only [List.all_cons, Bool.and_eq_true] at hcs
        exact Or.inr (identifierContinue_ge L x hcs.1)
    have hscan := Scan_plain L _ _ q0.errors q0.pending hend
      (by rw [hpeek]; exact plainRune_of_ge c (by omega))
      (by rw [hpeek]; exact scanToken_identifier L c _ hc hnext)
    have hfuel : cs.length <
        (advance (markStart (NewTokenizer (c :: cs)))).2.length -
          (advance (markStart (NewTokenizer (c :: cs)))).2._current + 1 := by
      rw [← unread_length _ hq3.length, hu3]; omega
    obtain ⟨hfr, hur, hcr⟩ := identifierLoop_run L cs _ _ hq3.length hu3 hcs hfuel
    have hname : slice
        (identifierLoop L
          ((advance (markStart (NewTokenizer (c :: cs)))).2.length -
            (advance (markStart (NewTokenizer (c :: cs)))).2._current + 1)
          (advance (markStart (NewTokenizer (c :: cs)))).2).source
        ((advance (markStart (NewTokenizer (c :: cs)))).2._current - 1)
        (identifierLoop L
          ((advance (markStart (NewTokenizer (c :: cs)))).2.length -
            (advance (markStart (NewTokenizer (c :: cs)))).2._current + 1)
          (advance (markStart (NewTokenizer (c :: cs)))).2)._current = c :: cs := by
      rw [hfr.source, hsrc3, hcr, hc3]
      simp [NewTokenizer, slice]
      omega
    rw [potentialIdentifier_wordToken, hname] at hscan
    obtain ⟨k1, k2, k3, k4⟩ := wordToken_classify
      (identifierLoop L
        ((advance (markStart (NewTokenizer (c :: cs)))).2.length -
          (advance (markStart (NewTokenizer (c :: cs)))).2._current + 1)
        (advance (markStart (NewTokenizer (c :: cs)))).2) (c :: cs)
    have hq4 := quiet_of_frame hfr hq3
    refine ⟨_, _, _, scanN_two L _ _ _ hscan (quiet_of_frame k4 hq4)
      (unread_nil_of_frame k4 hur), k1, k2, k3.trans ?_, rfl⟩
    rw [hfr.source, hsrc3, hfr.start, hst3, hcr, hc3]
    simp [NewTokenizer, slice]
    omega

theorem latin1Letter_identifier (L : GoLib) (c : Nat) (h : latin1Letter c = true) :
    isUnicodeIdentifierStart L c = true ∧ isUnicodeIdentifierContinue L c = true := by
  have hle : c ≤ 0xFF := by
    simp only [latin1Letter, decide_eq_true_eq] at h
    have e2 : 'Z'.toNat = 90 := rfl
    have e4 : 'z'.toNat = 122 := rfl
    rw [e2, e4] at h
    omega
  simp [isUnicodeIdentifierStart, isUnicodeIdentifierContinue, unicodeIsLetter, hle, h]

theorem letters_identifierText (L : GoLib) (w : List Nat) (hne : w ≠ [])
    (h : ∀ c ∈ w, latin1Letter c = true) : isIdentifierText L w = true := by
  cases w with
  | nil => exact absurd rfl hne
  | cons c cs =>
    simp only [isIdentifierText, Bool.and_eq_true, List.all_eq_true]
    exact ⟨(latin1Letter_identifier L c (h c (List.mem_cons_self _ _))).1,
      fun x hx => (latin1Letter_identifier L x (h x (List.mem_cons_of_mem _ hx))).2⟩

theorem specKeywords_letters :
    ∀ p ∈ specKeywords, p.1 ≠ [] ∧ (∀ c ∈ p.1, latin1Letter c = true) ∧
      classifyWord p.1 = (p.2, Value.str p.1) := by decide

/-- C17 (amended): every identifier text `w` (a Unicode letter or `_` followed by
Unicode letters, digits or `_`) that is the whole source is scanned as one token
with slice `w`, followed by `EOF`, whose kind and payload are those of
`classifyWord`: `true` and `false` are `LITERAL` with the boolean payload, `null` is
`LITERAL` without payload, each keyword and named constant of the list, and `as`,
has its own kind and `w` as payload, and every other `w`, whatever its length, is
`IDENTIFIER` with payload `w` (so are `If` and `pi`). -/
theorem identifier_classification (L : GoLib) :
    (∀ w : List Nat, isIdentifierText L w = true →
      ∃ tok1 tok2 t, scanN L 2 (NewTokenizer w) = .ok ([tok1, tok2], t) ∧
        tok1.Type_ = (classifyWord w).1 ∧ tok1.Literal = (classifyWord w).2 ∧
        tok1.Source = w ∧ tok2.Type_ = TokenType.EOF) ∧
    (∀ p ∈ specKeywords, isIdentifierText L p.1 = true ∧
      classifyWord p.1 = (p.2, Value.str p.1)) ∧
    (isIdentifierText L (runes "true") = true ∧
      classifyWord (runes "true") = (TokenType.LITERAL, Value.bool true)) ∧
    (isIdentifierText L (runes "false") = true ∧
      classifyWord (runes "false") = (TokenType.LITERAL, Value.bool false)) ∧
    (isIdentifierText L (runes "null") = true ∧
      classifyWord (runes "null") = (TokenType.LITERAL, Value.nil)) ∧
    (∀ w : List Nat, w ≠ runes "true" → w ≠ runes "false" → w ≠ runes "null" →
      (∀ p ∈ specKeywords, p.1 ≠ w) → classifyWord w = (TokenType.IDENTIFIER, Value.str w)) ∧
    classifyWord (runes "If") = (TokenType.IDENTIFIER, Value.str (runes "If")) ∧
    classifyWord (runes "pi") = (TokenType.IDENTIFIER, Value.str (runes "pi")) := by
  refine ⟨fun w hw => word_scan L w hw, fun p hp => ?_, ⟨?_, rfl⟩, ⟨?_, rfl⟩, ⟨?_, rfl⟩,
    fun w h1 h2 h3 hk => ?_, rfl, rfl⟩
  · obtain ⟨a, b, c⟩ := specKeywords_letters p hp
    exact ⟨letters_identifierText L p.1 a b, c⟩
  · exact letters_identifierText L _ (by decide) (by decide)
  · exact letters_identifierText L _ (by decide) (by decide)
  · exact letters_identifierText L _ (by decide) (by decide)
  · cases hl : specKeywords.lookup w with
    | none => simp only [classifyWord, classifyWith, h1, h2, h3, hl, if_false]
    | some k => exact absurd rfl (hk _ (lookup_mem _ _ _ hl))

theorem identifier_classification_witness :
    isIdentifierText GoLib.trivial (runes "_élan9") = true ∧
    ∃ tok1 tok2 t, scanN GoLib.trivial 2 (NewTokenizer (runes "_élan9")) =
        .ok ([tok1, tok2], t) ∧
      tok1.Type_ = (classifyWord (runes "_élan9")).1 ∧
      tok1.Literal = (classifyWord (runes "_élan9")).2 ∧
      tok1.Source = runes "_élan9" ∧ tok2.Type_ = TokenType.EOF :=
  ⟨rfl, (identifier_classification GoLib.trivial).1 (runes "_élan9") rfl⟩

/-- C17 (counterexample): `as` is an identifier text that is none of `true`, `false`,
`null` and is not among the listed keywords and named constants, so that the
classification with the list makes it an `IDENTIFIER`; scanned as a whole source it
yields a token of kind `AS`, the table `keywordsByFirst` holding `as` as well. -/
theorem keyword_as_counterexample :
    isIdentifierText GoLib.trivial (runes "as") = true ∧
    classifyWith listedKeywords (runes "as") =
      (TokenType.IDENTIFIER, Value.str (runes "as")) ∧
    ∃ tok1 tok2 t, scanN GoLib.trivial 2 (NewTokenizer (runes "as")) = .ok ([tok1, tok2], t) ∧
      tok1.Type_ = TokenType.AS ∧ tok1.Literal = Value.str (runes "as") ∧
      tok1.Type_ ≠ (classifyWith listedKeywords (runes "as")).1 ∧
      tok2.Type_ = TokenType.EOF := by
  obtain ⟨tok1, tok2, t, h1, h2, h3, _, h5⟩ := word_scan GoLib.trivial (runes "as") rfl
  have e1 : (classifyWord (runes "as")).1 = TokenType.AS := rfl
  have e2 : (classifyWord (runes "as")).2 = Value.str (runes "as") := rfl
  refine ⟨rfl, rfl, tok1, tok2, t, h1, h2.trans e1, h3.trans e2, ?_, h5⟩
  rw [h2, e1]
  decide

/-! ## Source slices of the tokens -/

theorem trace_x_newline (L : GoLib) :
    scanN L 3 (NewTokenizer (runes "x\n")) =
    .ok ([(Token.mk TokenType.IDENTIFIER (Value.str (runes "x")) 1 1 2 2 (-1)
        CursorPlace.CURSOR_NONE (runes "x")), (Token.mk TokenType.NEWLINE Value.nil 1 1 2 3 (-1)
        CursorPlace.CURSOR_NONE (runes "x\n")), (Token.mk TokenType.EOF Value.nil 2 2 1 1 (-1)
        CursorPlace.CURSOR_NONE [])], (Tokenizer.mk (runes "x\n") 2 2 1 [] false (some (Token.mk
        TokenType.EOF Value.nil 2 2 1 1 (-1) CursorPlace.CURSOR_NONE [])) (some (Token.mk
        TokenType.NEWLINE Value.nil 1 1 2 3 (-1) CursorPlace.CURSOR_NONE (runes "x\n"))) 2 2 1 2 2 4
        [])) := by
  have h0 : NewTokenizer (runes "x\n") = (Tokenizer.mk (runes "x\n") 0 0 0 [] false none none 0 1 1 0 2 4
      []) := rfl
  have s1 : Scan L (Tokenizer.mk (runes "x\n") 0 0 0 [] false none none 0 1 1 0 2 4 []) = .ok ((Token.mk
      TokenType.IDENTIFIER (Value.str (runes "x")) 1 1 2 2 (-1) CursorPlace.CURSOR_NONE (runes
      "x")), (Tokenizer.mk (runes "x\n") 0 1 1 [] false (some (Token.mk TokenType.IDENTIFIER (Value.str
      (runes "x")) 1 1 2 2 (-1) CursorPlace.CURSOR_NONE (runes "x"))) none 1 1 2 1 2 4 [])) := rfl
  have s2 : Scan L (Tokenizer.mk (runes "x\n") 0 1 1 [] false (some (Token.mk TokenType.IDENTIFIER
      (Value.str (runes "x")) 1 1 2 2 (-1) CursorPlace.CURSOR_NONE (runes "x"))) none 1 1 2 1 2 4
      []) = .ok ((Token.mk TokenType.NEWLINE Value.nil 1 1 2 3 (-1) CursorPlace.CURSOR_NONE (runes
      "x\n")), (Tokenizer.mk (runes "x\n") 0 1 1 [] false (some (Token.mk TokenType.NEWLINE Value.nil 1 1 2
      3 (-1) CursorPlace.CURSOR_NONE (runes "x\n"))) (some (Token.mk TokenType.NEWLINE Value.nil 1 1 2 3
      (-1) CursorPlace.CURSOR_NONE (runes "x\n"))) 2 2 1 2 2 4 [])) := rfl
  have s3 : Scan L (Tokenizer.mk (runes "x\n") 0 1 1 [] false (some (Token.mk TokenType.NEWLINE
      Value.nil 1 1 2 3 (-1) CursorPlace.CURSOR_NONE (runes "x\n"))) (some (Token.mk TokenType.NEWLINE
      Value.nil 1 1 2 3 (-1) CursorPlace.CURSOR_NONE (runes "x\n"))) 2 2 1 2 2 4 []) = .ok ((Token.mk
      TokenType.EOF Value.nil 2 2 1 1 (-1) CursorPlace.CURSOR_NONE []), (Tokenizer.mk (runes "x\n") 2 2
      1 [] false (some (Token.mk TokenType.EOF Value.nil 2 2 1 1 (-1) CursorPlace.CURSOR_NONE []))
      (some (Token.mk TokenType.NEWLINE Value.nil 1 1 2 3 (-1) CursorPlace.CURSOR_NONE (runes "x\n"))) 2
      2 1 2 2 4 [])) := rfl
  simp only [h0, scanN, s1, s2, s3]

theorem trace_x_stray_return (L : GoLib) :
    scanN L 4 (NewTokenizer (runes "x \ry")) =
    .ok ([(Token.mk TokenType.IDENTIFIER (Value.str (runes "x")) 1 1 2 2 (-1)
        CursorPlace.CURSOR_NONE (runes "x")), (Token.mk TokenType.ERROR (Value.str (runes
        "Stray carriage return character in source code.")) 1 1 4 4 (-1) CursorPlace.CURSOR_NONE
        (runes "x \r")), (Token.mk TokenType.IDENTIFIER (Value.str (runes "y")) 1 1 5 5 (-1)
        CursorPlace.CURSOR_NONE (runes "y")), (Token.mk TokenType.EOF Value.nil 1 1 5 5 (-1)
        CursorPlace.CURSOR_NONE [])], (Tokenizer.mk (runes "x \ry") 4 1 5 [] false (some
        (Token.mk TokenType.EOF Value.nil 1 1 5 5 (-1) CursorPlace.CURSOR_NONE [])) none 4 1 5 4 4 4
        [])) := by
  have h0 : NewTokenizer (runes "x \ry") = (Tokenizer.mk (runes "x \ry") 0 0 0 [] false none
      none 0 1 1 0 4 4 []) := rfl
  have s1 : Scan L (Tokenizer.mk (runes "x \ry") 0 0 0 [] false none none 0 1 1 0 4 4 []) = .ok
      ((Token.mk TokenType.IDENTIFIER (Value.str (runes "x")) 1 1 2 2 (-1) CursorPlace.CURSOR_NONE
      (runes "x")), (Tokenizer.mk (runes "x \ry") 0 1 1 [] false (some (Token.mk
      TokenType.IDENTIFIER (Value.str (runes "x")) 1 1 2 2 (-1) CursorPlace.CURSOR_NONE (runes
      "x"))) none 1 1 2 1 4 4 [])) := rfl
  have s2 : Scan L (Tokenizer.mk (runes "x \ry") 0 1 1 [] false (some (Token.mk
      TokenType.IDENTIFIER (Value.str (runes "x")) 1 1 2 2 (-1) CursorPlace.CURSOR_NONE (runes
      "x"))) none 1 1 2 1 4 4 []) = .ok ((Token.mk TokenType.ERROR (Value.str (runes
      "Stray carriage return character in source code.")) 1 1 4 4 (-1) CursorPlace.CURSOR_NONE (runes
      "x \r")), (Tokenizer.mk (runes "x \ry") 0 1 1 [] false (some (Token.mk TokenType.ERROR
      (Value.str (runes "Stray carriage return character in source code.")) 1 1 4 4 (-1)
      CursorPlace.CURSOR_NONE (runes "x \r"))) none 3 1 4 3 4 4 [])) := rfl
  have s3 : Scan L (Tokenizer.mk (runes "x \ry") 0 1 1 [] false (some (Token.mk TokenType.ERROR
      (Value.str (runes "Stray carriage return character in source code.")) 1 1 4 4 (-1)
      CursorPlace.CURSOR_NONE (runes "x \r"))) none 3 1 4 3 4 4 []) = .ok ((Token.mk
      TokenType.IDENTIFIER (Value.str (runes "y")) 1 1 5 5 (-1) CursorPlace.CURSOR_NONE (runes
      "y")), (Tokenizer.mk (runes "x \ry") 3 1 4 [] false (some (Token.mk TokenType.IDENTIFIER
      (Value.str (runes "y")) 1 1 5 5 (-1) CursorPlace.CURSOR_NONE (runes "y"))) none 4 1 5 4 4 4
      [])) := rfl
  have s4 : Scan L (Tokenizer.mk (runes "x \ry") 3 1 4 [] false (some (Token.mk
      TokenType.IDENTIFIER (Value.str (runes "y")) 1 1 5 5 (-1) CursorPlace.CURSOR_NONE (runes
      "y"))) none 4 1 5 4 4 4 []) = .ok ((Token.mk TokenType.EOF Value.nil 1 1 5 5 (-1)
      CursorPlace.CURSOR_NONE []), (Tokenizer.mk (runes "x \ry") 4 1 5 [] false (some (Token.mk
      TokenType.EOF Value.nil 1 1 5 5 (-1) CursorPlace.CURSOR_NONE [])) none 4 1 5 4 4 4 [])) := rfl
  simp only [h0, scanN, s1, s2, s3, s4]

theorem classifyWord_payload (w : GoString)
    (h : (classifyWord w).1 = TokenType.IDENTIFIER) : (classifyWord w).2 = Value.str w := by
  unfold classifyWord classifyWith at h ⊢
  by_cases h1 : w = runes "true"
  · rw [if_pos h1] at h; exact absurd h (by decide)
  by_cases h2 : w = runes "false"
  · rw [if_neg h1, if_pos h2] at h; exact absurd h (by decide)
  by_cases h3 : w = runes "null"
  · rw [if_neg h1, if_neg h2, if_pos h3] at h; exact absurd h (by decide)
  rw [if_neg h1, if_neg h2, if_neg h3]
  cases hk : specKeywords.lookup w <;> rfl

/-- The token that `Scan` builds for an identifier: when `potentialIdentifier` is
entered after the token start has been marked and the first character consumed, an
`IDENTIFIER` token has its slice as payload. -/
theorem identifier_slice_payload (L : GoLib) (t : Tokenizer) (hend : isAtEnd t = false)
    (h : (potentialIdentifier L (advance (markStart t)).2).1.Type_ = TokenType.IDENTIFIER) :
    (potentialIdentifier L (advance (markStart t)).2).1.Literal =
      Value.str (potentialIdentifier L (advance (markStart t)).2).1.Source := by
  have hc3 : (advance (markStart t)).2._current = t._current + 1 :=
    advance_current (markStart t) hend
  have hst3 : (advance (markStart t)).2._start = t._current := (advance_frame (markStart t)).start
  have hfr := identifierLoop_frame L
    ((advance (markStart t)).2.length - (advance (markStart t)).2._current + 1)
    (advance (markStart t)).2
  rw [potentialIdentifier_wordToken] at h ⊢
  obtain ⟨k1, k2, k3, _⟩ := wordToken_classify
    (identifierLoop L ((advance (markStart t)).2.length - (advance (markStart t)).2._current + 1)
      (advance (markStart t)).2)
    (slice
      (identifierLoop L
        ((advance (markStart t)).2.length - (advance (markStart t)).2._current + 1)
        (advance (markStart t)).2).source
      ((advance (markStart t)).2._current - 1)
      (identifierLoop L
        ((advance (markStart t)).2.length - (advance (markStart t)).2._current + 1)
        (advance (markStart t)).2)._current)
  rw [k2, classifyWord_payload _ (k1.symm.trans h), k3, hfr.start, hst3, hc3,
    Nat.add_sub_cancel]

/-- C18 (evaluation of the code): for the source `x` and a line feed, the calls
return `IDENTIFIER`, `NEWLINE` and `EOF`, and the slice of the `NEWLINE` token is `x`
and the line feed, not the line feed alone: `newline` builds the token with
`makeToken`, which slices from the token start of the previous token, the start being
moved only after the trivia has been skipped. For the same reason the `ERROR` for the
stray carriage return in `x`, space, carriage return, `y` has the slice `x`, space,
carriage return. The tokens built after the start has been moved are not concerned:
an `IDENTIFIER` has its slice as payload. -/
theorem trivia_token_slice (L : GoLib) :
    (∃ tok1 tok2 tok3 t,
      scanN L 3 (NewTokenizer (runes "x\n")) = .ok ([tok1, tok2, tok3], t) ∧
      tok1.Type_ = TokenType.IDENTIFIER ∧ tok1.Source = runes "x" ∧
      tok2.Type_ = TokenType.NEWLINE ∧ tok2.Source = runes "x\n" ∧
      tok2.Source ≠ [lineFeed] ∧ tok3.Type_ = TokenType.EOF) ∧
    (∃ tok1 tok2 tok3 tok4 t,
      scanN L 4 (NewTokenizer (runes "x \ry")) = .ok ([tok1, tok2, tok3, tok4], t) ∧
      tok1.Type_ = TokenType.IDENTIFIER ∧ tok2.Type_ = TokenType.ERROR ∧
      tok2.Literal = Value.str (runes "Stray carriage return character in source code.") ∧
      tok2.Source = runes "x \r" ∧ tok2.Source ≠ [carriageReturn] ∧
      tok3.Type_ = TokenType.IDENTIFIER ∧ tok4.Type_ = TokenType.EOF) ∧
    (∀ t : Tokenizer, isAtEnd t = false →
      (potentialIdentifier L (advance (markStart t)).2).1.Type_ = TokenType.IDENTIFIER →
      (potentialIdentifier L (advance (markStart t)).2).1.Literal =
        Value.str (potentialIdentifier L (advance (markStart t)).2).1.Source) :=
  ⟨⟨_, _, _, _, trace_x_newline L, rfl, rfl, rfl, rfl, by decide, rfl⟩,
    ⟨_, _, _, _, _, trace_x_stray_return L, rfl, rfl, rfl, rfl, by decide, rfl, rfl⟩,
    fun t hend h => identifier_slice_payload L t hend h⟩

theorem trivia_token_slice_witness :
    isAtEnd (NewTokenizer (runes "ab c")) = false ∧
    (potentialIdentifier GoLib.trivial
      (advance (markStart (NewTokenizer (runes "ab c")))).2).1.Type_ = TokenType.IDENTIFIER ∧
    (potentialIdentifier GoLib.trivial
      (advance (markStart (NewTokenizer (runes "ab c")))).2).1.Literal =
      Value.str (potentialIdentifier GoLib.trivial
        (advance (markStart (NewTokenizer (runes "ab c")))).2).1.Source :=
  ⟨rfl, rfl, (trivia_token_slice GoLib.trivial).2.2 (NewTokenizer (runes "ab c")) rfl rfl⟩

/-! ## Unhandled characters -/

theorem scanSwitch_none (L : GoLib) (c : Nat) (t : Tokenizer) (h : c ∉ handledChars) :
    scanSwitch L c t = none := by
  have hne : ∀ x ∈ handledChars, c ≠ x := fun x hx hcx => h (hcx ▸ hx)
  have q1 : ¬ (c = quoteDouble ∨ c = quoteSingle) := by
    rintro (h1 | h1)
    · exact hne _ (by decide) h1
    · exact hne _ (by decide) h1
  unfold scanSwitch
  rw [if_neg q1, if_neg (hne '@'.toNat (by decide)), if_neg (hne '~'.toNat (by decide)),
    if_neg (hne ','.toNat (by decide)), if_neg (hne ':'.toNat (by decide)),
    if_neg (hne ';'.toNat (by decide)), if_neg (hne '$'.toNat (by decide)),
    if_neg (hne '?'.toNat (by decide)), if_neg (hne backtickRune (by decide)),
    if_neg (hne '('.toNat (by decide)), if_neg (hne '['.toNat (by decide)),
    if_neg (hne '{'.toNat (by decide)), if_neg (hne ')'.toNat (by decide)),
    if_neg (hne ']'.toNat (by decide)), if_neg (hne '}'.toNat (by decide)),
    if_neg (hne '!'.toNat (by decide)), if_neg (hne '.'.toNat (by decide)),
    if_neg (hne '+'.toNat (by decide)), if_neg (hne '-'.toNat (by decide)),
    if_neg (hne '*'.toNat (by decide)), if_neg (hne '/'.toNat (by decide)),
    if_neg (hne '%'.toNat (by decide)), if_neg (hne '^'.toNat (by decide)),
    if_neg (hne '&'.toNat (by decide)), if_neg (hne '|'.toNat (by decide)),
    if_neg (hne '='.toNat (by decide)), if_neg (hne '<'.toNat (by decide)),
    if_neg (hne '>'.toNat (by decide))]

/-- A call of `Scan` in a state with nothing queued or buffered, on a character on
which `skipWhitespace` returns at once, that no case of the dispatch handles and that
is not classified as whitespace: the error for an invalid character. -/
theorem Scan_plain_none (L : GoLib) (t : Tokenizer)
    (he : t.errorStack = []) (hp : t.pendingNewline = false) (hend : isAtEnd t = false)
    (hc : plainRune (peek t 0) = true)
    (hr : scanToken L (peek t 0) (advance (markStart t)).2 = none)
    (hw : isWhitespace (peek t 0) = false) :
    Scan L t = .ok (makeError (advance (markStart t)).2
      (runes "Invalid character \"" ++ stringOfRune (peek t 0) ++ runes "\"")) := by
  unfold Scan
  rw [ScanLoop]
  have he1 : hasError t = false := by simp [hasError, he]
  have ha : isAtEnd (markStart t) = false := hend
  have hf : (advance (markStart t)).1 = peek t 0 := by
    rw [advance_fst _ ha]; rfl
  simp only [he1, skipWhitespace_plain t hc, hp, ha, hf, hr, hw, Bool.false_eq_true, if_false]

theorem scanToken_none (L : GoLib) (c : Nat) (t : Tokenizer) (hd : isDigit c = false)
    (hi : isUnicodeIdentifierStart L c = false) (hh : c ∉ handledChars) :
    scanToken L c t = none := by
  have hr : ¬ (c = 'r'.toNat ∧ (peek t 0 = quoteDouble ∨ peek t 0 = quoteSingle)) := by
    rintro ⟨h, _⟩
    rw [h] at hi
    exact absurd hi (by simp [isUnicodeIdentifierStart, unicodeIsLetter, latin1Letter])
  unfold scanToken
  simp only [hd, hr, hi, Bool.false_eq_true, if_false]
  exact scanSwitch_none L c t hh

theorem plainRune_of_unhandled (c : Nat) (hw : isWhitespace c = false) (hs : c ≠ '#'.toNat)
    (hh : c ∉ handledChars) : plainRune c = true := by
  have h1 : c ≠ '/'.toNat := fun h => hh (h ▸ by decide)
  simp only [isWhitespace, decide_eq_false_iff_not] at hw
  simp only [plainRune, decide_eq_true_eq]
  have e1 : ' '.toNat = 32 := rfl
  have e2 : tabRune = 9 := rfl
  have e3 : carriageReturn = 13 := rfl
  have e4 : lineFeed = 10 := rfl
  rw [e1] at hw
  rw [e1, e2, e3, e4]
  refine ⟨?_, ?_, ?_, ?_, hs, h1⟩ <;> omega

theorem trace_backslash_x (L : GoLib) :
    scanN L 3 (NewTokenizer (runes "\\x")) =
    .ok ([(Token.mk TokenType.ERROR (Value.str (runes "Invalid character \"\\\"")) 1 1 2 2 (-1)
        CursorPlace.CURSOR_NONE (runes "\\")), (Token.mk TokenType.IDENTIFIER (Value.str (runes
        "x")) 1 1 3 3 (-1) CursorPlace.CURSOR_NONE (runes "x")), (Token.mk TokenType.EOF Value.nil 1
        1 3 3 (-1) CursorPlace.CURSOR_NONE [])], (Tokenizer.mk (runes "\\x") 2 1 3 [] false (some
        (Token.mk TokenType.EOF Value.nil 1 1 3 3 (-1) CursorPlace.CURSOR_NONE [])) none 2 1 3 2 2 4
        [])) := by
  have h0 : NewTokenizer (runes "\\x") = (Tokenizer.mk (runes "\\x") 0 0 0 [] false none none 0 1 1
      0 2 4 []) := rfl
  have s1 : Scan L (Tokenizer.mk (runes "\\x") 0 0 0 [] false none none 0 1 1 0 2 4 []) = .ok
      ((Token.mk TokenType.ERROR (Value.str (runes "Invalid character \"\\\"")) 1 1 2 2 (-1)
      CursorPlace.CURSOR_NONE (runes "\\")), (Tokenizer.mk (runes "\\x") 0 1 1 [] false (some
      (Token.mk TokenType.ERROR (Value.str (runes "Invalid character \"\\\"")) 1 1 2 2 (-1)
      CursorPlace.CURSOR_NONE (runes "\\"))) none 1 1 2 1 2 4 [])) := rfl
  have s2 : Scan L (Tokenizer.mk (runes "\\x") 0 1 1 [] false (some (Token.mk TokenType.ERROR
      (Value.str (runes "Invalid character \"\\\"")) 1 1 2 2 (-1) CursorPlace.CURSOR_NONE (runes
      "\\"))) none 1 1 2 1 2 4 []) = .ok ((Token.mk TokenType.IDENTIFIER (Value.str (runes "x")) 1 1
      3 3 (-1) CursorPlace.CURSOR_NONE (runes "x")), (Tokenizer.mk (runes "\\x") 1 1 2 [] false
      (some (Token.mk TokenType.IDENTIFIER (Value.str (runes "x")) 1 1 3 3 (-1)
      CursorPlace.CURSOR_NONE (runes "x"))) none 2 1 3 2 2 4 [])) := rfl
  have s3 : Scan L (Tokenizer.mk (runes "\\x") 1 1 2 [] false (some (Token.mk TokenType.IDENTIFIER
      (Value.str (runes "x")) 1 1 3 3 (-1) CursorPlace.CURSOR_NONE (runes "x"))) none 2 1 3 2 2 4
      []) = .ok ((Token.mk TokenType.EOF Value.nil 1 1 3 3 (-1) CursorPlace.CURSOR_NONE []),
      (Tokenizer.mk (runes "\\x") 2 1 3 [] false (some (Token.mk TokenType.EOF Value.nil 1 1 3 3
      (-1) CursorPlace.CURSOR_NONE [])) none 2 1 3 2 2 4 [])) := rfl
  simp only [h0, scanN, s1, s2, s3]

/-- C19: in a state with nothing queued or buffered whose unread text starts with a
code point `c` (a Unicode scalar value) that is not a decimal digit, not an
identifier start, not `#`, not one of the quote, punctuation and operator characters
that `Scan` handles and not classified as whitespace, `Scan` returns an `ERROR` with
message `Invalid character "c"` whose slice is `c` alone; afterwards nothing is
queued or buffered, the delimiter stack is unchanged and the unread text is what
follows `c`. A backslash followed by `x` yields `ERROR`, `IDENTIFIER` with payload
`x`, and `EOF`. -/
theorem invalid_character (L : GoLib) :
    (∀ (t : Tokenizer) (c : Nat) (rest : List Nat), Quiet t → unread t = c :: rest →
      isScalarValue c = true → isDigit c = false → isUnicodeIdentifierStart L c = false →
      c ≠ '#'.toNat → c ∉ handledChars → isWhitespace c = false →
      ∃ tok t1, Scan L t = .ok (tok, t1) ∧ tok.Type_ = TokenType.ERROR ∧
        tok.Literal = Value.str (invalidCharacterMessage c) ∧ tok.Source = [c] ∧
        Quiet t1 ∧ unread t1 = rest ∧ t1.parenStack = t.parenStack) ∧
    (∃ tok1 tok2 tok3 t,
      scanN L 3 (NewTokenizer (backslash :: runes "x")) = .ok ([tok1, tok2, tok3], t) ∧
      tok1.Type_ = TokenType.ERROR ∧
      tok1.Literal = Value.str (runes "Invalid character \"\\\"") ∧
      tok2.Type_ = TokenType.IDENTIFIER ∧ tok2.Literal = Value.str (runes "x") ∧
      tok3.Type_ = TokenType.EOF) := by
  have main : ∀ (t : Tokenizer) (c : Nat) (rest : List Nat), Quiet t → unread t = c :: rest →
      isScalarValue c = true → isDigit c = false → isUnicodeIdentifierStart L c = false →
      c ≠ '#'.toNat → c ∉ handledChars → isWhitespace c = false →
      ∃ tok t1, Scan L t = .ok (tok, t1) ∧ tok.Type_ = TokenType.ERROR ∧
        tok.Literal = Value.str (invalidCharacterMessage c) ∧ tok.Source = [c] ∧
        Quiet t1 ∧ unread t1 = rest ∧ t1.parenStack = t.parenStack := by
    intro t c rest qt hu hsv hd hi hs hh hw
    obtain ⟨hq3, hu3, hc3, hst3, hsrc3, _, _⟩ := after_first_rune t qt _ _ hu
    have hend := isAtEnd_of_unread_cons t qt.length _ _ hu
    have hpeek : peek t 0 = c := by rw [peek0_eq_unread t qt.length, hu]; rfl
    have hscan := Scan_plain_none L t qt.errors qt.pending hend
      (by rw [hpeek]; exact plainRune_of_unhandled c hw hs hh)
      (by rw [hpeek]; exact scanToken_none L c _ hd hi hh) (by rw [hpeek]; exact hw)
    rw [hpeek, stringOfRune_scalar c hsv] at hscan
    refine ⟨_, _, hscan, rfl, rfl, ?_, quiet_of_frame (makeError_frame _ _) hq3, hu3, ?_⟩
    · show slice _ _ _ = _
      rw [hsrc3, hst3, hc3, slice_of_drop _ _ _ _ hu]
      simp
    · show (advance (markStart t)).2.parenStack = t.parenStack
      rw [advance_parenStack]; rfl
  exact ⟨main, _, _, _, _, trace_backslash_x L, rfl, rfl, rfl, rfl, rfl⟩

theorem invalid_character_witness :
    Quiet (NewTokenizer (runes "\\ 1")) ∧ unread (NewTokenizer (runes "\\ 1")) =
      backslash :: runes " 1" ∧
    isScalarValue backslash = true ∧ isDigit backslash = false ∧
    isUnicodeIdentifierStart GoLib.trivial backslash = false ∧ backslash ≠ '#'.toNat ∧
    backslash ∉ handledChars ∧ isWhitespace backslash = false ∧
    ∃ tok t1, Scan GoLib.trivial (NewTokenizer (runes "\\ 1")) = .ok (tok, t1) ∧
      tok.Type_ = TokenType.ERROR ∧
      tok.Literal = Value.str (invalidCharacterMessage backslash) ∧
      tok.Source = [backslash] ∧ Quiet t1 ∧ unread t1 = runes " 1" ∧
      t1.parenStack = (NewTokenizer (runes "\\ 1")).parenStack :=
  ⟨⟨rfl, rfl, rfl⟩, rfl, rfl, rfl, rfl, by decide, by decide, rfl,
    (invalid_character GoLib.trivial).1 (NewTokenizer (runes "\\ 1")) backslash (runes " 1")
      ⟨rfl, rfl, rfl⟩ rfl rfl rfl rfl (by decide) (by decide) rfl⟩

/-! ## Operator spellings -/

/-- A source that one call of `Scan` consumes as a token of kind `k` is scanned as
that token followed by `EOF`. -/
theorem operator_scan (L : GoLib) (src : List Nat) (k : TokenType)
    (h : ∃ tok t1, Scan L (NewTokenizer src) = .ok (tok, t1) ∧ tok.Type_ = k ∧
      tok.Source = src ∧ Quiet t1 ∧ unread t1 = []) :
    ∃ tok1 tok2 t, scanN L 2 (NewTokenizer src) = .ok ([tok1, tok2], t) ∧
      tok1.Type_ = k ∧ tok1.Source = src ∧ tok2.Type_ = TokenType.EOF := by
  obtain ⟨tok, t1, h1, h2, h3, h4, h5⟩ := h
  exact ⟨_, _, _, scanN_two L _ _ _ h1 h4 h5, h2, h3, rfl⟩

/-- C20: for every operator and assignment kind, the spelling that `GetName` returns
for the kind, taken as the whole source, is scanned as one token of that kind whose
slice is the spelling, followed by `EOF`. In particular `**=` is one
`STAR_STAR_EQUAL`, `**` one `STAR_STAR` and `<<=` one `LESS_LESS_EQUAL`. -/
theorem operator_spelling_scans (L : GoLib) (k : TokenType) (hk : k ∈ operatorKinds) :
    ∃ name, GetName k = some name ∧
      ∃ tok1 tok2 t, scanN L 2 (NewTokenizer name) = .ok ([tok1, tok2], t) ∧
        tok1.Type_ = k ∧ tok1.Source = name ∧ tok2.Type_ = TokenType.EOF := by
  simp only [operatorKinds, List.mem_cons, List.mem_singleton, List.not_mem_nil, or_false] at hk
  rcases hk with rfl | rfl | rfl | rfl | rfl | rfl | rfl | rfl | rfl | rfl | rfl | rfl | rfl | rfl | rfl | rfl | rfl | rfl | rfl | rfl | rfl | rfl | rfl | rfl | rfl | rfl | rfl | rfl | rfl | rfl | rfl | rfl | rfl | rfl | rfl | rfl
  · exact ⟨_, rfl, operator_scan L _ _ ⟨_, _, rfl, rfl, rfl, ⟨rfl, rfl, rfl⟩, rfl⟩⟩
  · exact ⟨_, rfl, operator_scan L _ _ ⟨_, _, rfl, rfl, rfl, ⟨rfl, rfl, rfl⟩, rfl⟩⟩
  · exact ⟨_, rfl, operator_scan L _ _ ⟨_, _, rfl, rfl, rfl, ⟨rfl, rfl, rfl⟩, rfl⟩⟩
  · exact ⟨_, rfl, operator_scan L _ _ ⟨_, _, rfl, rfl, rfl, ⟨rfl, rfl, rfl⟩, rfl⟩⟩
  · exact ⟨_, rfl, operator_scan L _ _ ⟨_, _, rfl, rfl, rfl, ⟨rfl, rfl, rfl⟩, rfl⟩⟩
  · exact ⟨_, rfl, operator_scan L _ _ ⟨_, _, rfl, rfl, rfl, ⟨rfl, rfl, rfl⟩, rfl⟩⟩
  · exact ⟨_, rfl, operator_scan L _ _ ⟨_, _, rfl, rfl, rfl, ⟨rfl, rfl, rfl⟩, rfl⟩⟩
  · exact ⟨_, rfl, operator_scan L _ _ ⟨_, _, rfl, rfl, rfl, ⟨rfl, rfl, rfl⟩, rfl⟩⟩
  · exact ⟨_, rfl, operator_scan L _ _ ⟨_, _, rfl, rfl, rfl, ⟨rfl, rfl, rfl⟩, rfl⟩⟩
  · exact ⟨_, rfl, operator_scan L _ _ ⟨_, _, rfl, rfl, rfl, ⟨rfl, rfl, rfl⟩, rfl⟩⟩
  · exact ⟨_, rfl, operator_scan L _ _ ⟨_, _, rfl, rfl, rfl, ⟨rfl, rfl, rfl⟩, rfl⟩⟩
  · exact ⟨_, rfl, operator_scan L _ _ ⟨_, _, rfl, rfl, rfl, ⟨rfl, rfl, rfl⟩, rfl⟩⟩
  · exact ⟨_, rfl, operator_scan L _ _ ⟨_, _, rfl, rfl, rfl, ⟨rfl, rfl, rfl⟩, rfl⟩⟩
  · exact ⟨_, rfl, operator_scan L _ _ ⟨_, _, rfl, rfl, rfl, ⟨rfl, rfl, rfl⟩, rfl⟩⟩
  · exact ⟨_, rfl, operator_scan L _ _ ⟨_, _, rfl, rfl, rfl, ⟨rfl, rfl, rfl⟩, rfl⟩⟩
  · exact ⟨_, rfl, operator_scan L _ _ ⟨_, _, rfl, rfl, rfl, ⟨rfl, rfl, rfl⟩, rfl⟩⟩
  · exact ⟨_, rfl, operator_scan L _ _ ⟨_, _, rfl, rfl, rfl, ⟨rfl, rfl, rfl⟩, rfl⟩⟩
  · exact ⟨_, rfl, operator_scan L _ _ ⟨_, _, rfl, rfl, rfl, ⟨rfl, rfl, rfl⟩, rfl⟩⟩
  · exact ⟨_, rfl, operator_scan L _ _ ⟨_, _, rfl, rfl, rfl, ⟨rfl, rfl, rfl⟩, rfl⟩⟩
  · exact ⟨_, rfl, operator_scan L _ _ ⟨_, _, rfl, rfl, rfl, ⟨rfl, rfl, rfl⟩, rfl⟩⟩
  · exact ⟨_, rfl, operator_scan L _ _ ⟨_, _, rfl, rfl, rfl, ⟨rfl, rfl, rfl⟩, rfl⟩⟩
  · exact ⟨_, rfl, operator_scan L _ _ ⟨_, _, rfl, rfl, rfl, ⟨rfl, rfl, rfl⟩, rfl⟩⟩
  · exact ⟨_, rfl, operator_scan L _ _ ⟨_, _, rfl, rfl, rfl, ⟨rfl, rfl, rfl⟩, rfl⟩⟩
  · exact ⟨_, rfl, operator_scan L _ _ ⟨_, _, rfl, rfl, rfl, ⟨rfl, rfl, rfl⟩, rfl⟩⟩
  · exact ⟨_, rfl, operator_scan L _ _ ⟨_, _, rfl, rfl, rfl, ⟨rfl, rfl, rfl⟩, rfl⟩⟩
  · exact ⟨_, rfl, operator_scan L _ _ ⟨_, _, rfl, rfl, rfl, ⟨rfl, rfl, rfl⟩, rfl⟩⟩
  · exact ⟨_, rfl, operator_scan L _ _ ⟨_, _, rfl, rfl, rfl, ⟨rfl, rfl, rfl⟩, rfl⟩⟩
  · exact ⟨_, rfl, operator_scan L _ _ ⟨_, _, rfl, rfl, rfl, ⟨rfl, rfl, rfl⟩, rfl⟩⟩
  · exact ⟨_, rfl, operator_scan L _ _ ⟨_, _, rfl, rfl, rfl, ⟨rfl, rfl, rfl⟩, rfl⟩⟩
  · exact ⟨_, rfl, operator_scan L _ _ ⟨_, _, rfl, rfl, rfl, ⟨rfl, rfl, rfl⟩, rfl⟩⟩
  · exact ⟨_, rfl, operator_scan L _ _ ⟨_, _, rfl, rfl, rfl, ⟨rfl, rfl, rfl⟩, rfl⟩⟩
  · exact ⟨_, rfl, operator_scan L _ _ ⟨_, _, rfl, rfl, rfl, ⟨rfl, rfl, rfl⟩, rfl⟩⟩
  · exact ⟨_, rfl, operator_scan L _ _ ⟨_, _, rfl, rfl, rfl, ⟨rfl, rfl, rfl⟩, rfl⟩⟩
  · exact ⟨_, rfl, operator_scan L _ _ ⟨_, _, rfl, rfl, rfl, ⟨rfl, rfl, rfl⟩, rfl⟩⟩
  · exact ⟨_, rfl, operator_scan L _ _ ⟨_, _, rfl, rfl, rfl, ⟨rfl, rfl, rfl⟩, rfl⟩⟩
  · exact ⟨_, rfl, operator_scan L _ _ ⟨_, _, rfl, rfl, rfl, ⟨rfl, rfl, rfl⟩, rfl⟩⟩

theorem operator_spelling_scans_witness :
    TokenType.STAR_STAR_EQUAL ∈ operatorKinds ∧
    GetName TokenType.STAR_STAR_EQUAL = some (runes "**=") ∧
    ∃ name, GetName TokenType.STAR_STAR_EQUAL = some name ∧
      ∃ tok1 tok2 t, scanN GoLib.trivial 2 (NewTokenizer name) = .ok ([tok1, tok2], t) ∧
        tok1.Type_ = TokenType.STAR_STAR_EQUAL ∧ tok1.Source = name ∧
        tok2.Type_ = TokenType.EOF :=
  ⟨by decide, rfl, operator_spelling_scans GoLib.trivial TokenType.STAR_STAR_EQUAL (by decide)⟩

/-! ## Faults met while skipping trivia -/

/-- The method `popError` on a queue with last entry `e`: it returns `e` and leaves
the entries before it. -/
theorem popError_last (t : Tokenizer) (older : List Token) (e : Token)
    (h : t.errorStack = older ++ [e]) :
    popError t = .ok (e, { t with errorStack := older }) := by
  unfold popError
  rw [h]
  simp

theorem pushError_unread (t : Tokenizer) (m : GoString) : unread (pushError t m) = unread t :=
  rfl

theorem pushError_faulted {nl : Bool} {t x : Tokenizer} (h : Skipped nl t x) (m : GoString) :
    Faulted m nl t (pushError x m) :=
  ⟨h.source, h.length, ⟨(makeError x m).1, by rw [← h.errorStack]; rfl, rfl, rfl⟩,
    h.parenStack, h.current, h.pending, fun hn => h.newline hn⟩

theorem Faulted.after {a b : Bool} {m : GoString} {t t1 t2 : Tokenizer} (h1 : Skipped a t t1)
    (h2 : Faulted m b t1 t2) : Faulted m (a || b) t t2 := by
  obtain ⟨e, he, hty, hl⟩ := h2.queue
  exact ⟨h2.source.trans h1.source, h2.length.trans h1.length,
    ⟨e, by rw [he, h1.errorStack], hty, hl⟩, h2.parenStack.trans h1.parenStack,
    le_trans h1.current h2.current, by rw [h2.pending, h1.pending, Bool.or_assoc],
    fun h => h2.newline (h1.newline h)⟩

theorem Faulted.flag {a b : Bool} {m : GoString} {t t1 : Tokenizer} (h : Faulted m a t t1)
    (hab : a = b) : Faulted m b t t1 := hab ▸ h

theorem Faulted.length_source {a : Bool} {m : GoString} {t t1 : Tokenizer} (h : Faulted m a t t1)
    (hl : t.length = t.source.length) : t1.length = t1.source.length := by
  rw [h.length, h.source]; exact hl

/-- The round of the loop of `skipWhitespace` on a carriage return that no line feed
follows: the error is pushed and the loop is left. -/
theorem skipWhitespaceLoop_stray (k : Nat) (t : Tokenizer) (h : peek t 0 = carriageReturn)
    (h2 : peek (advance t).2 0 ≠ lineFeed) :
    skipWhitespaceLoop (k + 1) t = pushError (advance t).2 strayReturnMessage := by
  have e1 : ¬ (carriageReturn = ' '.toNat) := by decide
  have e2 : ¬ (carriageReturn = tabRune) := by decide
  rw [skipWhitespaceLoop]
  simp only [h, h2, e1, e2, ne_eq, not_false_eq_true, if_false, if_true]
  rfl

/-- The round of the loop of `skipBlockComment` on a carriage return that no line
feed follows: the error is pushed and the loop is left. -/
theorem skipBlockCommentLoop_stray (k : Nat) (t : Tokenizer) (hend : isAtEnd t = false)
    (h : peek t 0 = carriageReturn) (h2 : peek (advance t).2 0 ≠ lineFeed) :
    skipBlockCommentLoop (k + 1) t = pushError (advance t).2 strayReturnMessage := by
  rw [skipBlockCommentLoop]
  simp only [hend, h, h2, ne_eq, not_false_eq_true, Bool.false_eq_true, if_false, if_true]
  rfl

/-- The round of the loop of `skipBlockComment` at the end of input: the error is
pushed and the loop is left. -/
theorem skipBlockCommentLoop_atEnd (k : Nat) (t : Tokenizer) (hend : isAtEnd t = true) :
    skipBlockCommentLoop (k + 1) t = pushError t unterminatedCommentMessage := by
  rw [skipBlockCommentLoop]
  simp only [hend, if_true]
  rfl

/-- The loop of `skipBlockComment` on a comment body without fault and without `*/`,
followed by a text that does not start with `/`: it consumes the body and goes on
in front of what follows, with fuel left for one round. -/
theorem skipBlockCommentLoop_body (rest : List Nat) (hrest : rest.head? ≠ some '/'.toNat) :
    ∀ (n : Nat) (body : List Nat), body.length ≤ n →
      ∀ (t : Tokenizer) (fuel : Nat), t.length = t.source.length →
        unread t = body ++ rest → blockBodyOK body = true → body.length < fuel →
        ∃ (k : Nat) (t1 : Tokenizer),
          skipBlockCommentLoop fuel t = skipBlockCommentLoop (k + 1) t1 ∧
          Skipped (decide (lineFeed ∈ body)) t t1 ∧ unread t1 = rest := by
  intro n
  induction n with
  | zero =>
    intro body hn t fuel hl hu _ hf
    have hb : body = [] := List.length_eq_zero.mp (Nat.le_zero.mp hn)
    subst hb
    obtain ⟨k, rfl⟩ : ∃ k, fuel = k + 1 := ⟨fuel - 1, by simp at hf; omega⟩
    exact ⟨k, t, rfl, (Skipped.here t).cast (by simp), hu⟩
  | succ n ih =>
    intro body hn t fuel hl hu hok hf
    obtain ⟨k, rfl⟩ : ∃ k, fuel = k + 1 := ⟨fuel - 1, by omega⟩
    match body, hn, hu, hok, hf with
    | [], _, hu, _, _ =>
      exact ⟨k, t, rfl, (Skipped.here t).cast (by simp), hu⟩
    | [c], _, hu, hok, hf =>
      simp only [blockBodyOK, decide_eq_true_eq] at hok
      have hu2 : unread t = c :: rest := hu
      have hpeek : peek t 0 = c := by rw [peek0_eq_unread t hl, hu2]; rfl
      have hpeek1 : peek t 1 ≠ '/'.toNat := by
        rw [peek1_eq_unread t hl, hu2]
        cases rest with
        | nil => show (0 : Nat) ≠ '/'.toNat; decide
        | cons d ds => intro h; exact hrest (by rw [← h]; rfl)
      have hend := isAtEnd_of_unread_cons t hl c _ hu2
      have hua := unread_advance t hl c _ hu2
      have hla := quiet_length_of_frame (advance_frame t) hl
      by_cases hc : c = lineFeed
      · rw [skipBlockCommentLoop_lf k t hend (by rw [hpeek]; exact hc)]
        have hs := (advance_skipped t).andThen (newline_skipped (advance t).2)
        obtain ⟨k1, t1, h0, h1, h2⟩ := ih [] (Nat.zero_le _) (newline (advance t).2 true) k
          (hs.length_ok hl) (by rw [newline_unread, hua]; rfl) rfl (by simp at hf ⊢; omega)
        exact ⟨k1, t1, h0, (hs.andThen h1).cast (by simp [hc]), h2⟩
      · rw [skipBlockCommentLoop_char k t hend (by rw [hpeek]; exact hok)
          (by rw [hpeek]; exact hc) (fun h => hpeek1 h.2)]
        obtain ⟨k1, t1, h0, h1, h2⟩ := ih [] (Nat.zero_le _) (advance t).2 k hla hua rfl
          (by simp at hf ⊢; omega)
        refine ⟨k1, t1, h0, ((advance_skipped t).andThen h1).cast ?_, h2⟩
        have : lineFeed ≠ c := fun h => hc h.symm
        simp [this]
    | c :: d :: more, hn, hu, hok, hf =>
      have hu2 : unread t = c :: d :: (more ++ rest) := hu
      have hpeek : peek t 0 = c := by rw [peek0_eq_unread t hl, hu2]; rfl
      have hpeek1 : peek t 1 = d := by rw [peek1_eq_unread t hl, hu2]; rfl
      have hend := isAtEnd_of_unread_cons t hl c _ hu2
      have hua := unread_advance t hl c _ hu2
      have hla := quiet_length_of_frame (advance_frame t) hl
      by_cases hcr : c = carriageReturn
      · simp only [blockBodyOK, hcr, if_true, Bool.and_eq_true, decide_eq_true_eq] at hok
        have hpeeka : peek (advance t).2 0 = lineFeed := by
          rw [peek0_eq_unread _ hla, hua, ← hok.1]; rfl
        have hub := unread_advance _ hla d _ hua
        rw [skipBlockCommentLoop_crlf k t hend (by rw [hpeek]; exact hcr) hpeeka]
        have hs := ((advance_skipped t).andThen (advance_skipped (advance t).2)).andThen
          (newline_skipped (advance (advance t).2).2)
        obtain ⟨k1, t1, h0, h1, h2⟩ := ih more (by simp only [List.length_cons] at hn; omega)
          (newline (advance (advance t).2).2 true) k (hs.length_ok hl)
          (by rw [newline_unread, hub]) hok.2 (by simp only [List.length_cons] at hf; omega)
        exact ⟨k1, t1, h0, (hs.andThen h1).cast (by simp [hok.1]), h2⟩
      · by_cases hc : c = lineFeed
        · have hok2 : blockBodyOK (d :: more) = true := by
            have e1 : ¬ (lineFeed = carriageReturn) := by decide
            have e2 : ¬ (lineFeed = '*'.toNat ∧ d = '/'.toNat) := fun h => absurd h.1 (by decide)
            simpa only [blockBodyOK, hc, e1, e2, if_false] using hok
          rw [skipBlockCommentLoop_lf k t hend (by rw [hpeek]; exact hc)]
          have hs := (advance_skipped t).andThen (newline_skipped (advance t).2)
          obtain ⟨k1, t1, h0, h1, h2⟩ := ih (d :: more)
            (by simp only [List.length_cons] at hn ⊢; omega)
            (newline (advance t).2 true) k (hs.length_ok hl) (by rw [newline_unread, hua]; rfl)
            hok2 (by simp only [List.length_cons] at hf ⊢; omega)
          exact ⟨k1, t1, h0, (hs.andThen h1).cast (by simp [hc]), h2⟩
        · have hstar : ¬ (c = '*'.toNat ∧ d = '/'.toNat) := by
            intro h
            have hst : (c = '*'.toNat ∧ d = '/'.toNat) = True := eq_true h
            simp only [blockBodyOK, hcr, hst, if_false, if_true] at hok
            exact absurd hok (by decide)
          have hok2 : blockBodyOK (d :: more) = true := by
            simpa only [blockBodyOK, hcr, hstar, if_false] using hok
          rw [skipBlockCommentLoop_char k t hend (by rw [hpeek]; exact hcr)
            (by rw [hpeek]; exact hc) (by rw [hpeek, hpeek1]; exact hstar)]
          obtain ⟨k1, t1, h0, h1, h2⟩ := ih (d :: more)
            (by simp only [List.length_cons] at hn ⊢; omega)
            (advance t).2 k hla hua hok2 (by simp only [List.length_cons] at hf ⊢; omega)
          refine ⟨k1, t1, h0, ((advance_skipped t).andThen h1).cast ?_, h2⟩
          have : lineFeed ≠ c := fun h => hc h.symm
          simp [this]

theorem head_ne_getD (rest : List Nat) (c : Nat) (hc : c ≠ 0) (h : rest.head? ≠ some c) :
    rest.getD 0 0 ≠ c := by
  cases rest with
  | nil => exact fun h0 => hc h0.symm
  | cons d ds => intro h0; exact h (by rw [← h0]; rfl)

/-- The method `skipWhitespace` in front of a carriage return that no line feed
follows: it consumes the carriage return, pushes the error and returns. -/
theorem skipWhitespace_stray (t : Tokenizer) (rest : List Nat) (hl : t.length = t.source.length)
    (hu : unread t = carriageReturn :: rest) (hr : rest.head? ≠ some lineFeed) :
    skipWhitespace t = pushError (advance t).2 strayReturnMessage ∧
      Faulted strayReturnMessage false t (skipWhitespace t) ∧
      unread (skipWhitespace t) = rest := by
  have hpeek : peek t 0 = carriageReturn := by rw [peek0_eq_unread t hl, hu]; rfl
  have hua := unread_advance t hl _ _ hu
  have hla := quiet_length_of_frame (advance_frame t) hl
  have hne : peek (advance t).2 0 ≠ lineFeed := by
    rw [peek0_eq_unread _ hla, hua]
    exact head_ne_getD rest lineFeed (by decide) hr
  have h : skipWhitespace t = pushError (advance t).2 strayReturnMessage :=
    skipWhitespaceLoop_stray _ t hpeek hne
  rw [h]
  exact ⟨rfl, pushError_faulted (advance_skipped t) _, hua⟩

/-- The method `skipBlockComment` behind the `/*` of a comment whose body has no fault
and is followed by a carriage return that no line feed follows: it consumes the
body and the carriage return, pushes the error and returns. -/
theorem skipBlockComment_stray (t : Tokenizer) (body rest : List Nat)
    (hl : t.length = t.source.length) (hu : unread t = body ++ carriageReturn :: rest)
    (hok : blockBodyOK body = true) (hr : rest.head? ≠ some lineFeed) :
    Faulted strayReturnMessage (decide (lineFeed ∈ body)) t (skipBlockComment t) ∧
      unread (skipBlockComment t) = rest := by
  have hfuel : body.length < t.length - t._current + 1 := by
    rw [← unread_length _ hl, hu, List.length_append]; omega
  obtain ⟨k, t1, h0, h1, h2⟩ := skipBlockCommentLoop_body (carriageReturn :: rest)
    (by simp only [List.head?_cons, ne_eq, Option.some.injEq]; decide) body.length body le_rfl
    t _ hl hu hok hfuel
  have hl1 := h1.length_ok hl
  have hpeek : peek t1 0 = carriageReturn := by rw [peek0_eq_unread t1 hl1, h2]; rfl
  have hend := isAtEnd_of_unread_cons t1 hl1 _ _ h2
  have hua := unread_advance t1 hl1 _ _ h2
  have hla := quiet_length_of_frame (advance_frame t1) hl1
  have hne : peek (advance t1).2 0 ≠ lineFeed := by
    rw [peek0_eq_unread _ hla, hua]
    exact head_ne_getD rest lineFeed (by decide) hr
  have h : skipBlockComment t = pushError (advance t1).2 strayReturnMessage :=
    h0.trans (skipBlockCommentLoop_stray k t1 hend hpeek hne)
  rw [h]
  exact ⟨(Faulted.after h1 (pushError_faulted (advance_skipped t1) _)).flag (by simp), hua⟩

/-- The method `skipBlockComment` behind the `/*` of a comment whose body has no fault
and runs to the end of input: it consumes the body, pushes the error and returns. -/
theorem skipBlockComment_open (t : Tokenizer) (body : List Nat)
    (hl : t.length = t.source.length) (hu : unread t = body)
    (hok : blockBodyOK body = true) :
    Faulted unterminatedCommentMessage (decide (lineFeed ∈ body)) t (skipBlockComment t) ∧
      unread (skipBlockComment t) = [] := by
  have hfuel : body.length < t.length - t._current + 1 := by
    rw [← unread_length _ hl, hu]; omega
  obtain ⟨k, t1, h0, h1, h2⟩ := skipBlockCommentLoop_body [] (by simp) body.length body le_rfl
    t _ hl (by rw [hu, List.append_nil]) hok hfuel
  have hl1 := h1.length_ok hl
  have hend := isAtEnd_of_unread_nil t1 hl1 h2
  have h : skipBlockComment t = pushError t1 unterminatedCommentMessage :=
    h0.trans (skipBlockCommentLoop_atEnd k t1 hend)
  rw [h]
  exact ⟨(Faulted.after h1 (pushError_faulted (Skipped.here t1) _)).flag (by simp), h2⟩

/-- The round of the loop of `skipWhitespace` on `/*`: the whole skip is the skip from
the state in which `skipBlockComment` returns, with or without fault. -/
theorem skipWhitespace_comment (t : Tokenizer) (rest : List Nat)
    (hl : t.length = t.source.length) (hu : unread t = '/'.toNat :: '*'.toNat :: rest) :
    skipWhitespace t = skipWhitespace (skipBlockComment (advance (advance t).2).2) ∧
      Skipped false t (advance (advance t).2).2 ∧ unread (advance (advance t).2).2 = rest := by
  have hpeek : peek t 0 = '/'.toNat := by rw [peek0_eq_unread t hl, hu]; rfl
  have hpeek1 : peek t 1 = '*'.toNat := by rw [peek1_eq_unread t hl, hu]; rfl
  have hn1 : peek t 1 ≠ '/'.toNat := by rw [hpeek1]; decide
  have hend := isAtEnd_of_unread_cons t hl _ _ hu
  have hua := unread_advance t hl _ _ hu
  have hla := quiet_length_of_frame (advance_frame t) hl
  have hub := unread_advance _ hla _ _ hua
  have hs := (advance_skipped t).andThen (advance_skipped (advance t).2)
  have htr := skipBlockComment_trivia (advance (advance t).2).2
  refine ⟨skipWhitespace_step t _ (lt_length_of_unread_cons t hl _ _ hu)
    (htr.length.trans hs.length) ?_
    (by rw [skipWhitespaceLoop_slash _ t hpeek, if_neg hn1, if_pos hpeek1]), hs.cast rfl, hub⟩
  have h1 := (advance_skipped (advance t).2).current
  rw [advance_current t hend] at h1
  exact le_trans h1 htr.current

/-- The method `Scan` in a state with nothing queued or buffered, when the skip meets
one fault: the error is returned at once, or it stays queued behind the buffered
`NEWLINE` that is returned first. -/
theorem Scan_faulted (L : GoLib) (t : Tokenizer) (msg : GoString) (nl : Bool) (qt : Quiet t)
    (hf : Faulted msg nl t (skipWhitespace t)) :
    ∃ e tok t1, Scan L t = .ok (tok, t1) ∧ e.Type_ = TokenType.ERROR ∧
      e.Literal = Value.str msg ∧ unread t1 = unread (skipWhitespace t) ∧
      t1.pendingNewline = false ∧
      ((nl = true ∧ tok.Type_ = TokenType.NEWLINE ∧ t1.errorStack = [e]) ∨
        (nl = false ∧ tok = e ∧ t1.errorStack = [])) := by
  obtain ⟨e, he, hty, hlit⟩ := hf.queue
  rw [qt.errors, List.nil_append] at he
  have he1 : hasError t = false := by simp [hasError, qt.errors]
  have he2 : hasError (skipWhitespace t) = true := by simp [hasError, he]
  have hpend := hf.pending
  rw [qt.pending, Bool.false_or] at hpend
  cases nl with
  | true =>
    have hok : NewlineOK (skipWhitespace t) :=
      hf.newline (fun h => by rw [qt.pending] at h; exact absurd h (by decide))
    obtain ⟨tok, hln, htok⟩ := hok hpend
    refine ⟨e, tok, { skipWhitespace t with pendingNewline := false }, ?_, hty, hlit, rfl, rfl,
      Or.inl ⟨rfl, htok, he⟩⟩
    unfold Scan
    rw [ScanLoop]
    simp only [he1, hpend, hln, Bool.false_eq_true, if_false, if_true]
  | false =>
    refine ⟨e, e, { skipWhitespace t with errorStack := [] }, ?_, hty, hlit, rfl, hpend,
      Or.inr ⟨rfl, rfl, rfl⟩⟩
    unfold Scan
    rw [ScanLoop]
    simp only [he1, Bool.false_eq_true, if_false]
    rw [if_neg (by rw [hpend]; decide), if_pos he2]
    exact popError_last _ [] e he

theorem trace_two_faults (L : GoLib) :
    scanN L 4 (NewTokenizer (runes "\n/*\r\r")) =
    .ok ([(Token.mk TokenType.NEWLINE Value.nil 1 1 1 2 (-1) CursorPlace.CURSOR_NONE (runes "\n")),
        (Token.mk TokenType.ERROR (Value.str (runes
        "Stray carriage return character in source code.")) 2 2 5 5 (-1) CursorPlace.CURSOR_NONE
        (runes "\n/*\r\r")), (Token.mk TokenType.ERROR (Value.str (runes
        "Stray carriage return character in source code.")) 2 2 4 4 (-1) CursorPlace.CURSOR_NONE
        (runes "\n/*\r")), (Token.mk TokenType.EOF Value.nil 2 2 5 5 (-1) CursorPlace.CURSOR_NONE
        [])], (Tokenizer.mk (runes "\n/*\r\r") 5 2 5 [] false (some (Token.mk TokenType.EOF
        Value.nil 2 2 5 5 (-1) CursorPlace.CURSOR_NONE [])) (some (Token.mk TokenType.NEWLINE
        Value.nil 1 1 1 2 (-1) CursorPlace.CURSOR_NONE (runes "\n"))) 5 2 5 5 5 4 [])) := by
  have h0 : NewTokenizer (runes "\n/*\r\r") = (Tokenizer.mk (runes "\n/*\r\r") 0 0 0 [] false none
      none 0 1 1 0 5 4 []) := rfl
  have s1 : Scan L (Tokenizer.mk (runes "\n/*\r\r") 0 0 0 [] false none none 0 1 1 0 5 4 []) = .ok
      ((Token.mk TokenType.NEWLINE Value.nil 1 1 1 2 (-1) CursorPlace.CURSOR_NONE (runes "\n")),
      (Tokenizer.mk (runes "\n/*\r\r") 0 0 0 [(Token.mk TokenType.ERROR (Value.str (runes
      "Stray carriage return character in source code.")) 2 2 4 4 (-1) CursorPlace.CURSOR_NONE
      (runes "\n/*\r")), (Token.mk TokenType.ERROR (Value.str (runes
      "Stray carriage return character in source code.")) 2 2 5 5 (-1) CursorPlace.CURSOR_NONE
      (runes "\n/*\r\r"))] false (some (Token.mk TokenType.ERROR (Value.str (runes
      "Stray carriage return character in source code.")) 2 2 5 5 (-1) CursorPlace.CURSOR_NONE
      (runes "\n/*\r\r"))) (some (Token.mk TokenType.NEWLINE Value.nil 1 1 1 2 (-1)
      CursorPlace.CURSOR_NONE (runes "\n"))) 5 2 5 5 5 4 [])) := rfl
  have s2 : Scan L (Tokenizer.mk (runes "\n/*\r\r") 0 0 0 [(Token.mk TokenType.ERROR (Value.str
      (runes "Stray carriage return character in source code.")) 2 2 4 4 (-1)
      CursorPlace.CURSOR_NONE (runes "\n/*\r")), (Token.mk TokenType.ERROR (Value.str (runes
      "Stray carriage return character in source code.")) 2 2 5 5 (-1) CursorPlace.CURSOR_NONE
      (runes "\n/*\r\r"))] false (some (Token.mk TokenType.ERROR (Value.str (runes
      "Stray carriage return character in source code.")) 2 2 5 5 (-1) CursorPlace.CURSOR_NONE
      (runes "\n/*\r\r"))) (some (Token.mk TokenType.NEWLINE Value.nil 1 1 1 2 (-1)
      CursorPlace.CURSOR_NONE (runes "\n"))) 5 2 5 5 5 4 []) = .ok ((Token.mk TokenType.ERROR
      (Value.str (runes "Stray carriage return character in source code.")) 2 2 5 5 (-1)
      CursorPlace.CURSOR_NONE (runes "\n/*\r\r")), (Tokenizer.mk (runes "\n/*\r\r") 0 0 0 [(Token.mk
      TokenType.ERROR (Value.str (runes "Stray carriage return character in source code.")) 2 2 4 4
      (-1) CursorPlace.CURSOR_NONE (runes "\n/*\r"))] false (some (Token.mk TokenType.ERROR
      (Value.str (runes "Stray carriage return character in source code.")) 2 2 5 5 (-1)
      CursorPlace.CURSOR_NONE (runes "\n/*\r\r"))) (some (Token.mk TokenType.NEWLINE Value.nil 1 1 1
      2 (-1) CursorPlace.CURSOR_NONE (runes "\n"))) 5 2 5 5 5 4 [])) := rfl
  have s3 : Scan L (Tokenizer.mk (runes "\n/*\r\r") 0 0 0 [(Token.mk TokenType.ERROR (Value.str
      (runes "Stray carriage return character in source code.")) 2 2 4 4 (-1)
      CursorPlace.CURSOR_NONE (runes "\n/*\r"))] false (some (Token.mk TokenType.ERROR (Value.str
      (runes "Stray carriage return character in source code.")) 2 2 5 5 (-1)
      CursorPlace.CURSOR_NONE (runes "\n/*\r\r"))) (some (Token.mk TokenType.NEWLINE Value.nil 1 1 1
      2 (-1) CursorPlace.CURSOR_NONE (runes "\n"))) 5 2 5 5 5 4 []) = .ok ((Token.mk TokenType.ERROR
      (Value.str (runes "Stray carriage return character in source code.")) 2 2 4 4 (-1)
      CursorPlace.CURSOR_NONE (runes "\n/*\r")), (Tokenizer.mk (runes "\n/*\r\r") 0 0 0 [] false
      (some (Token.mk TokenType.ERROR (Value.str (runes
      "Stray carriage return character in source code.")) 2 2 5 5 (-1) CursorPlace.CURSOR_NONE
      (runes "\n/*\r\r"))) (some (Token.mk TokenType.NEWLINE Value.nil 1 1 1 2 (-1)
      CursorPlace.CURSOR_NONE (runes "\n"))) 5 2 5 5 5 4 [])) := rfl
  have s4 : Scan L (Tokenizer.mk (runes "\n/*\r\r") 0 0 0 [] false (some (Token.mk TokenType.ERROR
      (Value.str (runes "Stray carriage return character in source code.")) 2 2 5 5 (-1)
      CursorPlace.CURSOR_NONE (runes "\n/*\r\r"))) (some (Token.mk TokenType.NEWLINE Value.nil 1 1 1
      2 (-1) CursorPlace.CURSOR_NONE (runes "\n"))) 5 2 5 5 5 4 []) = .ok ((Token.mk TokenType.EOF
      Value.nil 2 2 5 5 (-1) CursorPlace.CURSOR_NONE []), (Tokenizer.mk (runes "\n/*\r\r") 5 2 5 []
      false (some (Token.mk TokenType.EOF Value.nil 2 2 5 5 (-1) CursorPlace.CURSOR_NONE [])) (some
      (Token.mk TokenType.NEWLINE Value.nil 1 1 1 2 (-1) CursorPlace.CURSOR_NONE (runes "\n"))) 5 2
      5 5 5 4 [])) := rfl
  simp only [h0, scanN, s1, s2, s3, s4]

theorem trace_two_faults_first (L : GoLib) :
    Scan L (Tokenizer.mk (runes "\n/*\r\r") 0 0 0 [] false none none 0 1 1 0 5 4 []) = .ok
      ((Token.mk TokenType.NEWLINE Value.nil 1 1 1 2 (-1) CursorPlace.CURSOR_NONE (runes "\n")),
      (Tokenizer.mk (runes "\n/*\r\r") 0 0 0 [(Token.mk TokenType.ERROR (Value.str (runes
      "Stray carriage return character in source code.")) 2 2 4 4 (-1) CursorPlace.CURSOR_NONE
      (runes "\n/*\r")), (Token.mk TokenType.ERROR (Value.str (runes
      "Stray carriage return character in source code.")) 2 2 5 5 (-1) CursorPlace.CURSOR_NONE
      (runes "\n/*\r\r"))] false (some (Token.mk TokenType.ERROR (Value.str (runes
      "Stray carriage return character in source code.")) 2 2 5 5 (-1) CursorPlace.CURSOR_NONE
      (runes "\n/*\r\r"))) (some (Token.mk TokenType.NEWLINE Value.nil 1 1 1 2 (-1)
      CursorPlace.CURSOR_NONE (runes "\n"))) 5 2 5 5 5 4 [])) := rfl

/-- The method `skipWhitespace` on a stretch of fault-free trivia followed by a
carriage return that no line feed follows: the pass consumes the stretch and the
carriage return, pushes one error and stops. -/
theorem skip_stray_return (t : Tokenizer) (items : List TriviaItem) (rest : List Nat)
    (hl : t.length = t.source.length) (hw : ∀ it ∈ items, it.wellFormed = true)
    (hu : unread t = triviaText items ++ carriageReturn :: rest)
    (hr : rest.head? ≠ some lineFeed) :
    Faulted strayReturnMessage (decide (lineFeed ∈ triviaText items)) t (skipWhitespace t) ∧
      unread (skipWhitespace t) = rest := by
  obtain ⟨t1, hstep, hs, hu1⟩ := skip_items items t _ hl hu hw
  obtain ⟨_, h2, h3⟩ := skipWhitespace_stray t1 rest (hs.length_ok hl) hu1 hr
  rw [hstep]
  exact ⟨(Faulted.after hs h2).flag (by simp), h3⟩

/-- The method `skipWhitespace` on a stretch of fault-free trivia followed by a block
comment that is open at the end of input: the pass consumes all of it and pushes one
error. -/
theorem skip_open_comment (t : Tokenizer) (items : List TriviaItem) (body : List Nat)
    (hl : t.length = t.source.length) (hw : ∀ it ∈ items, it.wellFormed = true)
    (hu : unread t = triviaText items ++ '/'.toNat :: '*'.toNat :: body)
    (hok : blockBodyOK body = true) :
    Faulted unterminatedCommentMessage (decide (lineFeed ∈ triviaText items ++ body)) t
        (skipWhitespace t) ∧
      unread (skipWhitespace t) = [] := by
  obtain ⟨t1, hstep, hs, hu1⟩ := skip_items items t _ hl hu hw
  have hl1 := hs.length_ok hl
  obtain ⟨h1, h2, h3⟩ := skipWhitespace_comment t1 _ hl1 hu1
  obtain ⟨h4, h5⟩ := skipBlockComment_open _ body (h2.length_ok hl1) h3 hok
  rw [hstep, h1, skipWhitespace_stop _ [] (h4.length_source (h2.length_ok hl1)) h5 rfl]
  exact ⟨(Faulted.after (hs.andThen h2) h4).flag (by simp), h5⟩

/-- The method `skipWhitespace` on a stretch of fault-free trivia followed by a block
comment in which a carriage return has no line feed behind it: one error is pushed
with the cursor behind the carriage return, and the pass goes on from there. -/
theorem skip_comment_stray (t : Tokenizer) (items : List TriviaItem) (body rest : List Nat)
    (hl : t.length = t.source.length) (hw : ∀ it ∈ items, it.wellFormed = true)
    (hu : unread t =
      triviaText items ++ '/'.toNat :: '*'.toNat :: (body ++ carriageReturn :: rest))
    (hok : blockBodyOK body = true) (hr : rest.head? ≠ some lineFeed) :
    ∃ t1, Faulted strayReturnMessage (decide (lineFeed ∈ triviaText items ++ body)) t t1 ∧
      unread t1 = rest ∧ skipWhitespace t = skipWhitespace t1 := by
  obtain ⟨t1, hstep, hs, hu1⟩ := skip_items items t _ hl hu hw
  have hl1 := hs.length_ok hl
  obtain ⟨h1, h2, h3⟩ := skipWhitespace_comment t1 _ hl1 hu1
  obtain ⟨h4, h5⟩ := skipBlockComment_stray _ body rest (h2.length_ok hl1) h3 hok hr
  refine ⟨_, (Faulted.after (hs.andThen h2) h4).flag ?_, h5, hstep.trans h1⟩
  simp

/-- The pass that has met a stray carriage return inside a block comment and finds a
second one behind it pushes a second error. -/
theorem skip_two_strays (t : Tokenizer) (items : List TriviaItem) (body rest : List Nat)
    (hl : t.length = t.source.length) (hw : ∀ it ∈ items, it.wellFormed = true)
    (hu : unread t = triviaText items ++
      '/'.toNat :: '*'.toNat :: (body ++ carriageReturn :: carriageReturn :: rest))
    (hok : blockBodyOK body = true) (hr : rest.head? ≠ some lineFeed) :
    ∃ e1 e2, (skipWhitespace t).errorStack = t.errorStack ++ [e1, e2] ∧
      e1.Type_ = TokenType.ERROR ∧ e2.Type_ = TokenType.ERROR ∧
      unread (skipWhitespace t) = rest := by
  obtain ⟨t1, hf, hu1, hstep⟩ := skip_comment_stray t items body (carriageReturn :: rest) hl hw
    hu hok (by simp only [List.head?_cons, ne_eq, Option.some.injEq]; decide)
  obtain ⟨_, h2, h3⟩ := skipWhitespace_stray t1 rest (hf.length_source hl) hu1 hr
  obtain ⟨e1, he1, hty1, _⟩ := hf.queue
  obtain ⟨e2, he2, hty2, _⟩ := h2.queue
  rw [hstep]
  exact ⟨e1, e2, by rw [he2, he1, List.append_assoc]; rfl, hty1, hty2, h3⟩

/-- C21 (evaluation of the code): a fault met by `skipWhitespace` itself ends the
pass, a fault met inside a block comment ends the comment only, the `return` of
`skipBlockComment` leading back into the loop of `skipWhitespace`. For the source made
of a line feed, `/*` and two carriage returns, the first carriage return is a fault
inside the block comment; the pass of the first call goes on behind it, consumes the
second carriage return (the cursor ends at offset 5, not 4) and pushes a second error:
the call, which returns the buffered `NEWLINE`, adds two errors to the queue that was
empty, and the next calls return them, the later one first. In general, in a state
whose unread text starts with a stretch of fault-free trivia:
* when the stretch is followed by a carriage return that no line feed follows, the
  pass consumes the stretch and the carriage return, pushes one `ERROR` and stops:
  what follows the carriage return is left unread;
* when it is followed by `/*` and a body without fault and without `*/` up to the
  end of input, the pass consumes all of it and pushes one `ERROR`;
* in both cases a call of `Scan` in a state with nothing queued or buffered adds that
  one error: it returns it, or returns the buffered `NEWLINE` and leaves it queued;
* when the stretch is followed by `/*`, a body without fault and a carriage return
  that no line feed follows, one `ERROR` is pushed with the cursor behind the
  carriage return, and the pass goes on from there as a skip of its own;
* so that, when a second stray carriage return follows directly, the same pass
  consumes it and pushes a second `ERROR`. -/
theorem trivia_fault_pushes_error (L : GoLib) :
    (unread (NewTokenizer (runes "\n/*\r\r")) =
        triviaText [TriviaItem.lineEnd] ++
          '/'.toNat :: '*'.toNat :: ([] ++ carriageReturn :: [carriageReturn]) ∧
      (NewTokenizer (runes "\n/*\r\r")).errorStack = [] ∧
      (skipWhitespace (NewTokenizer (runes "\n/*\r\r"))).errorStack.length = 2 ∧
      (skipWhitespace (NewTokenizer (runes "\n/*\r\r")))._current = 5 ∧
      (∃ tok t1, Scan L (NewTokenizer (runes "\n/*\r\r")) = .ok (tok, t1) ∧
        tok.Type_ = TokenType.NEWLINE ∧ t1.errorStack.length = 2 ∧ t1._current = 5 ∧
        ¬ (t1.errorStack.length ≤ (NewTokenizer (runes "\n/*\r\r")).errorStack.length + 1)) ∧
      ∃ tok1 tok2 tok3 tok4 t,
        scanN L 4 (NewTokenizer (runes "\n/*\r\r")) = .ok ([tok1, tok2, tok3, tok4], t) ∧
        tok1.Type_ = TokenType.NEWLINE ∧ tok2.Type_ = TokenType.ERROR ∧
        tok2.Source = runes "\n/*\r\r" ∧ tok3.Type_ = TokenType.ERROR ∧
        tok3.Source = runes "\n/*\r" ∧ tok4.Type_ = TokenType.EOF) ∧
    (∀ (t : Tokenizer) (items : List TriviaItem) (rest : List Nat),
      t.length = t.source.length → (∀ it ∈ items, it.wellFormed = true) →
      unread t = triviaText items ++ carriageReturn :: rest → rest.head? ≠ some lineFeed →
      Faulted strayReturnMessage (decide (lineFeed ∈ triviaText items)) t (skipWhitespace t) ∧
        unread (skipWhitespace t) = rest) ∧
    (∀ (t : Tokenizer) (items : List TriviaItem) (body : List Nat),
      t.length = t.source.length → (∀ it ∈ items, it.wellFormed = true) →
      unread t = triviaText items ++ '/'.toNat :: '*'.toNat :: body → blockBodyOK body = true →
      Faulted unterminatedCommentMessage (decide (lineFeed ∈ triviaText items ++ body)) t
          (skipWhitespace t) ∧
        unread (skipWhitespace t) = []) ∧
    (∀ (t : Tokenizer) (msg : GoString) (nl : Bool), Quiet t →
      Faulted msg nl t (skipWhitespace t) →
      ∃ e tok t1, Scan L t = .ok (tok, t1) ∧ e.Type_ = TokenType.ERROR ∧
        e.Literal = Value.str msg ∧ unread t1 = unread (skipWhitespace t) ∧
        t1.pendingNewline = false ∧
        ((nl = true ∧ tok.Type_ = TokenType.NEWLINE ∧ t1.errorStack = [e]) ∨
          (nl = false ∧ tok = e ∧ t1.errorStack = []))) ∧
    (∀ (t : Tokenizer) (items : List TriviaItem) (body rest : List Nat),
      t.length = t.source.length → (∀ it ∈ items, it.wellFormed = true) →
      unread t = triviaText items ++ '/'.toNat :: '*'.toNat :: (body ++ carriageReturn :: rest) →
      blockBodyOK body = true → rest.head? ≠ some lineFeed →
      ∃ t1, Faulted strayReturnMessage (decide (lineFeed ∈ triviaText items ++ body)) t t1 ∧
        unread t1 = rest ∧ skipWhitespace t = skipWhitespace t1) ∧
    (∀ (t : Tokenizer) (items : List TriviaItem) (body rest : List Nat),
      t.length = t.source.length → (∀ it ∈ items, it.wellFormed = true) →
      unread t = triviaText items ++
        '/'.toNat :: '*'.toNat :: (body ++ carriageReturn :: carriageReturn :: rest) →
      blockBodyOK body = true → rest.head? ≠ some lineFeed →
      ∃ e1 e2, (skipWhitespace t).errorStack = t.errorStack ++ [e1, e2] ∧
        e1.Type_ = TokenType.ERROR ∧ e2.Type_ = TokenType.ERROR ∧
        unread (skipWhitespace t) = rest) :=
  ⟨⟨rfl, rfl, rfl, rfl, ⟨_, _, trace_two_faults_first L, rfl, rfl, rfl, by decide⟩,
      ⟨_, _, _, _, _, trace_two_faults L, rfl, rfl, rfl, rfl, rfl, rfl⟩⟩,
    fun t items rest hl hw hu hr => skip_stray_return t items rest hl hw hu hr,
    fun t items body hl hw hu hok => skip_open_comment t items body hl hw hu hok,
    fun t msg nl qt hf => Scan_faulted L t msg nl qt hf,
    fun t items body rest hl hw hu hok hr => skip_comment_stray t items body rest hl hw hu hok hr,
    fun t items body rest hl hw hu hok hr => skip_two_strays t items body rest hl hw hu hok hr⟩

theorem trivia_fault_pushes_error_witness :
    (NewTokenizer (runes "# c\n \rx")).length = (NewTokenizer (runes "# c\n \rx")).source.length ∧
    (∀ it ∈ [TriviaItem.hashComment (runes " c"), TriviaItem.space], it.wellFormed = true) ∧
    unread (NewTokenizer (runes "# c\n \rx")) =
      triviaText [TriviaItem.hashComment (runes " c"), TriviaItem.space] ++
        carriageReturn :: runes "x" ∧
    (runes "x").head? ≠ some lineFeed ∧
    Faulted strayReturnMessage
      (decide (lineFeed ∈ triviaText [TriviaItem.hashComment (runes " c"), TriviaItem.space]))
      (NewTokenizer (runes "# c\n \rx")) (skipWhitespace (NewTokenizer (runes "# c\n \rx"))) ∧
    unread (skipWhitespace (NewTokenizer (runes "# c\n \rx"))) = runes "x" :=
  ⟨rfl, by decide, rfl, by decide,
    (trivia_fault_pushes_error GoLib.trivial).2.1 (NewTokenizer (runes "# c\n \rx"))
      [TriviaItem.hashComment (runes " c"), TriviaItem.space] (runes "x") rfl (by decide) rfl
      (by decide)⟩

theorem trace_newline_comment_fault (L : GoLib) :
    scanN L 5 (NewTokenizer (runes "a\n/*\r \nb")) =
    .ok ([(Token.mk TokenType.IDENTIFIER (Value.str (runes "a")) 1 1 2 2 (-1)
        CursorPlace.CURSOR_NONE (runes "a")), (Token.mk TokenType.NEWLINE Value.nil 1 1 2 3 (-1)
        CursorPlace.CURSOR_NONE (runes "a\n")), (Token.mk TokenType.ERROR (Value.str (runes
        "Stray carriage return character in source code.")) 2 2 4 4 (-1) CursorPlace.CURSOR_NONE
        (runes "a\n/*\r")), (Token.mk TokenType.IDENTIFIER (Value.str (runes "b")) 3 3 2 2 (-1)
        CursorPlace.CURSOR_NONE (runes "b")), (Token.mk TokenType.EOF Value.nil 3 3 2 2 (-1)
        CursorPlace.CURSOR_NONE [])], (Tokenizer.mk (runes "a\n/*\r \nb") 8 3 2 [] false (some
        (Token.mk TokenType.EOF Value.nil 3 3 2 2 (-1) CursorPlace.CURSOR_NONE [])) (some (Token.mk
        TokenType.NEWLINE Value.nil 1 1 2 3 (-1) CursorPlace.CURSOR_NONE (runes "a\n"))) 8 3 2 8 8 4
        [])) := by
  have h0 : NewTokenizer (runes "a\n/*\r \nb") = (Tokenizer.mk (runes "a\n/*\r \nb") 0 0 0 [] false
      none none 0 1 1 0 8 4 []) := rfl
  have s1 : Scan L (Tokenizer.mk (runes "a\n/*\r \nb") 0 0 0 [] false none none 0 1 1 0 8 4 []) =
      .ok ((Token.mk TokenType.IDENTIFIER (Value.str (runes "a")) 1 1 2 2 (-1)
      CursorPlace.CURSOR_NONE (runes "a")), (Tokenizer.mk (runes "a\n/*\r \nb") 0 1 1 [] false (some
      (Token.mk TokenType.IDENTIFIER (Value.str (runes "a")) 1 1 2 2 (-1) CursorPlace.CURSOR_NONE
      (runes "a"))) none 1 1 2 1 8 4 [])) := rfl
  have s2 : Scan L (Tokenizer.mk (runes "a\n/*\r \nb") 0 1 1 [] false (some (Token.mk
      TokenType.IDENTIFIER (Value.str (runes "a")) 1 1 2 2 (-1) CursorPlace.CURSOR_NONE (runes
      "a"))) none 1 1 2 1 8 4 []) = .ok ((Token.mk TokenType.NEWLINE Value.nil 1 1 2 3 (-1)
      CursorPlace.CURSOR_NONE (runes "a\n")), (Tokenizer.mk (runes "a\n/*\r \nb") 0 1 1 [(Token.mk
      TokenType.ERROR (Value.str (runes "Stray carriage return character in source code.")) 2 2 4 4
      (-1) CursorPlace.CURSOR_NONE (runes "a\n/*\r"))] false (some (Token.mk TokenType.ERROR
      (Value.str (runes "Stray carriage return character in source code.")) 2 2 4 4 (-1)
      CursorPlace.CURSOR_NONE (runes "a\n/*\r"))) (some (Token.mk TokenType.NEWLINE Value.nil 1 1 2
      3 (-1) CursorPlace.CURSOR_NONE (runes "a\n"))) 7 3 1 7 8 4 [])) := rfl
  have s3 : Scan L (Tokenizer.mk (runes "a\n/*\r \nb") 0 1 1 [(Token.mk TokenType.ERROR (Value.str
      (runes "Stray carriage return character in source code.")) 2 2 4 4 (-1)
      CursorPlace.CURSOR_NONE (runes "a\n/*\r"))] false (some (Token.mk TokenType.ERROR (Value.str
      (runes "Stray carriage return character in source code.")) 2 2 4 4 (-1)
      CursorPlace.CURSOR_NONE (runes "a\n/*\r"))) (some (Token.mk TokenType.NEWLINE Value.nil 1 1 2
      3 (-1) CursorPlace.CURSOR_NONE (runes "a\n"))) 7 3 1 7 8 4 []) = .ok ((Token.mk
      TokenType.ERROR (Value.str (runes "Stray carriage return character in source code.")) 2 2 4 4
      (-1) CursorPlace.CURSOR_NONE (runes "a\n/*\r")), (Tokenizer.mk (runes "a\n/*\r \nb") 0 1 1 []
      false (some (Token.mk TokenType.ERROR (Value.str (runes
      "Stray carriage return character in source code.")) 2 2 4 4 (-1) CursorPlace.CURSOR_NONE
      (runes "a\n/*\r"))) (some (Token.mk TokenType.NEWLINE Value.nil 1 1 2 3 (-1)
      CursorPlace.CURSOR_NONE (runes "a\n"))) 7 3 1 7 8 4 [])) := rfl
  have s4 : Scan L (Tokenizer.mk (runes "a\n/*\r \nb") 0 1 1 [] false (some (Token.mk
      TokenType.ERROR (Value.str (runes "Stray carriage return character in source code.")) 2 2 4 4
      (-1) CursorPlace.CURSOR_NONE (runes "a\n/*\r"))) (some (Token.mk TokenType.NEWLINE Value.nil 1
      1 2 3 (-1) CursorPlace.CURSOR_NONE (runes "a\n"))) 7 3 1 7 8 4 []) = .ok ((Token.mk
      TokenType.IDENTIFIER (Value.str (runes "b")) 3 3 2 2 (-1) CursorPlace.CURSOR_NONE (runes
      "b")), (Tokenizer.mk (runes "a\n/*\r \nb") 7 3 1 [] false (some (Token.mk TokenType.IDENTIFIER
      (Value.str (runes "b")) 3 3 2 2 (-1) CursorPlace.CURSOR_NONE (runes "b"))) (some (Token.mk
      TokenType.NEWLINE Value.nil 1 1 2 3 (-1) CursorPlace.CURSOR_NONE (runes "a\n"))) 8 3 2 8 8 4
      [])) := rfl
  have s5 : Scan L (Tokenizer.mk (runes "a\n/*\r \nb") 7 3 1 [] false (some (Token.mk
      TokenType.IDENTIFIER (Value.str (runes "b")) 3 3 2 2 (-1) CursorPlace.CURSOR_NONE (runes
      "b"))) (some (Token.mk TokenType.NEWLINE Value.nil 1 1 2 3 (-1) CursorPlace.CURSOR_NONE (runes
      "a\n"))) 8 3 2 8 8 4 []) = .ok ((Token.mk TokenType.EOF Value.nil 3 3 2 2 (-1)
      CursorPlace.CURSOR_NONE []), (Tokenizer.mk (runes "a\n/*\r \nb") 8 3 2 [] false (some
      (Token.mk TokenType.EOF Value.nil 3 3 2 2 (-1) CursorPlace.CURSOR_NONE [])) (some (Token.mk
      TokenType.NEWLINE Value.nil 1 1 2 3 (-1) CursorPlace.CURSOR_NONE (runes "a\n"))) 8 3 2 8 8 4
      [])) := rfl
  simp only [h0, scanN, s1, s2, s3, s4, s5]

/-! ## The newline token of a stretch of trivia -/

/-- The call of `Scan` on a maximal stretch of fault-free trivia that contains a line
feed, in a state with nothing queued or buffered: it consumes the stretch and
returns one `NEWLINE`. -/
theorem Scan_stretch (L : GoLib) (t : Tokenizer) (items : List TriviaItem) (rest : List Nat)
    (qt : Quiet t) (hw : ∀ it ∈ items, it.wellFormed = true) (hrest : endsStretch rest = true)
    (hu : unread t = triviaText items ++ rest) (hnl : lineFeed ∈ triviaText items) :
    ∃ tok t1, Scan L t = .ok (tok, t1) ∧ tok.Type_ = TokenType.NEWLINE ∧ Quiet t1 ∧
      unread t1 = afterStretch rest ∧ t1.parenStack = t.parenStack := by
  obtain ⟨hs, hur⟩ := skip_stretch items t rest qt.length hu hw hrest
  have hpend : (skipWhitespace t).pendingNewline = true := by
    rw [hs.pending, qt.pending]; simp [hnl]
  have hok : NewlineOK (skipWhitespace t) :=
    hs.newline (fun h => by rw [qt.pending] at h; exact absurd h (by decide))
  obtain ⟨nl, hln, hty⟩ := hok hpend
  have he1 : hasError t = false := by simp [hasError, qt.errors]
  refine ⟨nl, { skipWhitespace t with pendingNewline := false }, ?_, hty,
    ⟨hs.errorStack.trans qt.errors, rfl, hs.length_ok qt.length⟩, hur, hs.parenStack⟩
  unfold Scan
  rw [ScanLoop]
  simp only [he1, hpend, hln, Bool.false_eq_true, if_false, if_true]

/-- The call of `Scan` whose skip consumes a line feed and meets one fault, in a state
with nothing queued or buffered: it returns the one `NEWLINE`, the error stays
queued. -/
theorem Scan_newline_fault (L : GoLib) (t : Tokenizer) (msg : GoString) (qt : Quiet t)
    (hf : Faulted msg true t (skipWhitespace t)) :
    ∃ tok t1 e, Scan L t = .ok (tok, t1) ∧ tok.Type_ = TokenType.NEWLINE ∧
      t1.errorStack = [e] ∧ e.Type_ = TokenType.ERROR ∧ e.Literal = Value.str msg ∧
      t1.pendingNewline = false ∧ unread t1 = unread (skipWhitespace t) := by
  obtain ⟨e, tok, t1, h1, h2, h3, h4, h5, h6⟩ := Scan_faulted L t msg true qt hf
  rcases h6 with ⟨_, h7, h8⟩ | ⟨h7, _, _⟩
  · exact ⟨tok, t1, e, h1, h7, h8, h2, h3, h5, h4⟩
  · exact absurd h7 (by decide)

theorem startsNoTrivia_afterStretch (rest : List Nat) :
    startsNoTrivia (afterStretch rest) = true := by
  unfold afterStretch
  split
  · assumption
  · rfl

theorem whitespace_unhandled (w : Nat) (h : isWhitespace w = true) :
    isDigit w = false ∧ w ∉ handledChars := by
  have h1 : ∀ c ∈ handledChars, isWhitespace c = false := by decide
  refine ⟨?_, fun hm => ?_⟩
  · simp only [isWhitespace, decide_eq_true_eq] at h
    simp only [isDigit, decide_eq_false_iff_not, Char.reduceToNat]
    simp only [Char.reduceToNat] at h
    omega
  · rw [h1 w hm] at h
    exact absurd h (by decide)

/-- The call of `Scan` on a whitespace character that `skipWhitespace` does not handle
(the `default` case of the switch), followed by a maximal stretch of fault-free
trivia that contains a line feed: the call consumes the character and the stretch,
and returns one `NEWLINE`. -/
theorem Scan_behind_whitespace (L : GoLib) (t : Tokenizer) (w : Nat)
    (items : List TriviaItem) (rest : List Nat) (qt : Quiet t)
    (hws : isWhitespace w = true) (hplain : plainRune w = true)
    (hid : isUnicodeIdentifierStart L w = false)
    (hw : ∀ it ∈ items, it.wellFormed = true) (hrest : endsStretch rest = true)
    (hu : unread t = w :: (triviaText items ++ rest)) (hnl : lineFeed ∈ triviaText items) :
    ∃ tok t1, Scan L t = .ok (tok, t1) ∧ tok.Type_ = TokenType.NEWLINE ∧ Quiet t1 ∧
      unread t1 = afterStretch rest ∧ t1.parenStack = t.parenStack := by
  obtain ⟨hq3, hu3, hc3, _, _, _, _⟩ := after_first_rune t qt _ _ hu
  have hend := isAtEnd_of_unread_cons t qt.length _ _ hu
  have hpeek : peek t 0 = w := by rw [peek0_eq_unread t qt.length, hu]; rfl
  obtain ⟨hdig, hunh⟩ := whitespace_unhandled w hws
  have hnone := scanToken_none L w (advance (markStart t)).2 hdig hid hunh
  obtain ⟨hs, hur⟩ := skip_stretch items _ rest hq3.length hu3 hw hrest
  have hpend : (skipWhitespace (advance (markStart t)).2).pendingNewline = true := by
    rw [hs.pending, hq3.pending]; simp [hnl]
  have hok : NewlineOK (skipWhitespace (advance (markStart t)).2) :=
    hs.newline (fun h => by rw [hq3.pending] at h; exact absurd h (by decide))
  obtain ⟨nl, hln, hty⟩ := hok hpend
  have hlx := hs.length_ok hq3.length
  have hstop := skipWhitespace_stop (skipWhitespace (advance (markStart t)).2) _ hlx hur
    (startsNoTrivia_afterStretch rest)
  have hex : hasError (skipWhitespace (advance (markStart t)).2) = false := by
    simp [hasError, hs.errorStack, hq3.errors]
  have he1 : hasError t = false := by simp [hasError, qt.errors]
  have ha : isAtEnd (markStart t) = false := hend
  have hf : (advance (markStart t)).1 = peek t 0 := by rw [advance_fst _ ha]; rfl
  have hpar : (skipWhitespace (advance (markStart t)).2).parenStack = t.parenStack := by
    rw [hs.parenStack, advance_parenStack]; rfl
  obtain ⟨k, hk⟩ : ∃ k, t.length - t._current = k + 1 := by
    have := lt_length_of_unread_cons t qt.length _ _ hu
    exact ⟨t.length - t._current - 1, by omega⟩
  refine ⟨nl, { skipWhitespace (advance (markStart t)).2 with pendingNewline := false }, ?_,
    hty, ⟨hs.errorStack.trans hq3.errors, rfl, hlx⟩, hur, hpar⟩
  unfold Scan
  rw [ScanLoop]
  simp only [he1, skipWhitespace_plain t (by rw [hpeek]; exact hplain), qt.pending, ha, hf,
    hpeek, hnone, hws, Bool.false_eq_true, if_false, if_true]
  rw [hk, ScanLoop]
  simp only [hex, hstop, hpend, hln, Bool.false_eq_true, if_false, if_true]

/-- C16 (evaluation of the code): a maximal stretch of fault-free trivia (spaces,
tabs, line feeds, carriage return and line feed pairs, `#` and `//` comments with
their line feed, terminated block comments) that contains a line feed yields one
`NEWLINE`, except next to a stray carriage return inside a block comment. For the
source `a`, line feed, `/*`, carriage return, space, line feed, `b` the calls return
`IDENTIFIER`, `NEWLINE`, `ERROR`, `IDENTIFIER`, `EOF`: the line feed before the
comment and the space and line feed behind the carriage return are two maximal
stretches, each with a line feed, and there is one `NEWLINE`; the skip pass that met
the fault inside the comment went on and consumed the second stretch while the
`NEWLINE` of the first was buffered. Elsewhere one call of `Scan` consumes the whole
stretch and returns its one `NEWLINE`, in a state with nothing queued or buffered:
* when the stretch is followed by a text that does not start with trivia, or by a
  line comment that runs to the end of the source; afterwards nothing is queued or
  buffered and the unread text is what follows the stretch;
* when it is followed by a carriage return that no line feed follows, or by a block
  comment that is open at the end of input: the error stays queued behind the
  `NEWLINE`, and the pass has stopped at the fault;
* when the stretch stands behind a whitespace character that the skip does not
  handle (the `default` case of `Scan`).
A comment line followed by a blank line (`# c`, line feed, line feed) yields one
`NEWLINE` and then `EOF`. -/
theorem newline_coalescing (L : GoLib) :
    (∀ (t : Tokenizer) (items : List TriviaItem) (rest : List Nat), Quiet t →
      (∀ it ∈ items, it.wellFormed = true) → endsStretch rest = true →
      unread t = triviaText items ++ rest → lineFeed ∈ triviaText items →
      ∃ tok t1, Scan L t = .ok (tok, t1) ∧ tok.Type_ = TokenType.NEWLINE ∧ Quiet t1 ∧
        unread t1 = afterStretch rest ∧ t1.parenStack = t.parenStack) ∧
    (∃ tok1 tok2 t, scanN L 2 (NewTokenizer (runes "# c\n\n")) = .ok ([tok1, tok2], t) ∧
      tok1.Type_ = TokenType.NEWLINE ∧ tok2.Type_ = TokenType.EOF) ∧
    (runes "a\n/*\r \nb" =
        runes "a" ++ (triviaText [TriviaItem.lineEnd] ++ (runes "/*" ++ (carriageReturn ::
          (triviaText [TriviaItem.space, TriviaItem.lineEnd] ++ runes "b")))) ∧
      ∃ tok1 tok2 tok3 tok4 tok5 t,
        scanN L 5 (NewTokenizer (runes "a\n/*\r \nb")) =
          .ok ([tok1, tok2, tok3, tok4, tok5], t) ∧
        tok1.Type_ = TokenType.IDENTIFIER ∧ tok2.Type_ = TokenType.NEWLINE ∧
        tok3.Type_ = TokenType.ERROR ∧
        tok3.Literal = Value.str strayReturnMessage ∧
        tok4.Type_ = TokenType.IDENTIFIER ∧ tok4.Literal = Value.str (runes "b") ∧
        tok5.Type_ = TokenType.EOF) ∧
    (∀ (t : Tokenizer) (items : List TriviaItem) (rest : List Nat), Quiet t →
      (∀ it ∈ items, it.wellFormed = true) → lineFeed ∈ triviaText items →
      unread t = triviaText items ++ carriageReturn :: rest → rest.head? ≠ some lineFeed →
      ∃ tok t1 e, Scan L t = .ok (tok, t1) ∧ tok.Type_ = TokenType.NEWLINE ∧
        t1.errorStack = [e] ∧ e.Type_ = TokenType.ERROR ∧
        e.Literal = Value.str strayReturnMessage ∧ t1.pendingNewline = false ∧
        unread t1 = rest) ∧
    (∀ (t : Tokenizer) (items : List TriviaItem) (body : List Nat), Quiet t →
      (∀ it ∈ items, it.wellFormed = true) → lineFeed ∈ triviaText items →
      unread t = triviaText items ++ '/'.toNat :: '*'.toNat :: body → blockBodyOK body = true →
      ∃ tok t1 e, Scan L t = .ok (tok, t1) ∧ tok.Type_ = TokenType.NEWLINE ∧
        t1.errorStack = [e] ∧ e.Type_ = TokenType.ERROR ∧
        e.Literal = Value.str unterminatedCommentMessage ∧ t1.pendingNewline = false ∧
        unread t1 = []) ∧
    (∀ (t : Tokenizer) (w : Nat) (items : List TriviaItem) (rest : List Nat), Quiet t →
      isWhitespace w = true → plainRune w = true → isUnicodeIdentifierStart L w = false →
      (∀ it ∈ items, it.wellFormed = true) → endsStretch rest = true →
      unread t = w :: (triviaText items ++ rest) → lineFeed ∈ triviaText items →
      ∃ tok t1, Scan L t = .ok (tok, t1) ∧ tok.Type_ = TokenType.NEWLINE ∧ Quiet t1 ∧
        unread t1 = afterStretch rest ∧ t1.parenStack = t.parenStack) := by
  refine ⟨fun t items rest qt hw hrest hu hnl => Scan_stretch L t items rest qt hw hrest hu hnl,
    ?_, ⟨rfl, _, _, _, _, _, _, trace_newline_comment_fault L, rfl, rfl, rfl, rfl, rfl, rfl,
      rfl⟩, ?_, ?_,
    fun t w items rest qt hws hp hid hw hrest hu hnl =>
      Scan_behind_whitespace L t w items rest qt hws hp hid hw hrest hu hnl⟩
  · obtain ⟨tok, t1, hscan, hty, hq1, hu1, _⟩ := Scan_stretch L (NewTokenizer (runes "# c\n\n"))
      [TriviaItem.hashComment (runes " c"), TriviaItem.lineEnd] [] ⟨rfl, rfl, rfl⟩ (by decide)
      rfl rfl (by decide)
    exact ⟨_, _, _, scanN_two L _ _ _ hscan hq1 hu1, hty, rfl⟩
  · intro t items rest qt hw hnl hu hr
    obtain ⟨hf, hur⟩ := skip_stray_return t items rest qt.length hw hu hr
    obtain ⟨tok, t1, e, h1, h2, h3, h4, h5, h6, h7⟩ :=
      Scan_newline_fault L t _ qt (hf.flag (by simp [hnl]))
    exact ⟨tok, t1, e, h1, h2, h3, h4, h5, h6, h7.trans hur⟩
  · intro t items body qt hw hnl hu hok
    obtain ⟨hf, hur⟩ := skip_open_comment t items body qt.length hw hu hok
    obtain ⟨tok, t1, e, h1, h2, h3, h4, h5, h6, h7⟩ :=
      Scan_newline_fault L t _ qt (hf.flag (by simp [hnl]))
    exact ⟨tok, t1, e, h1, h2, h3, h4, h5, h6, h7.trans hur⟩

theorem newline_coalescing_witness :
    Quiet (NewTokenizer (runes " \t// a\n\r\n/* b\n* c */ \n# d\n\nx")) ∧
    (∀ it ∈ [TriviaItem.space, TriviaItem.tab, TriviaItem.slashComment (runes " a"),
        TriviaItem.crlf, TriviaItem.blockComment (runes " b\n* c "), TriviaItem.space,
        TriviaItem.lineEnd, TriviaItem.hashComment (runes " d"), TriviaItem.lineEnd],
      it.wellFormed = true) ∧
    endsStretch (runes "x") = true ∧
    unread (NewTokenizer (runes " \t// a\n\r\n/* b\n* c */ \n# d\n\nx")) =
      triviaText [TriviaItem.space, TriviaItem.tab, TriviaItem.slashComment (runes " a"),
        TriviaItem.crlf, TriviaItem.blockComment (runes " b\n* c "), TriviaItem.space,
        TriviaItem.lineEnd, TriviaItem.hashComment (runes " d"), TriviaItem.lineEnd] ++
        runes "x" ∧
    (∃ tok t1, Scan GoLib.trivial (NewTokenizer (runes " \t// a\n\r\n/* b\n* c */ \n# d\n\nx")) =
        .ok (tok, t1) ∧
      tok.Type_ = TokenType.NEWLINE ∧ Quiet t1 ∧ unread t1 = afterStretch (runes "x") ∧
      t1.parenStack =
        (NewTokenizer (runes " \t// a\n\r\n/* b\n* c */ \n# d\n\nx")).parenStack) ∧
    (isWhitespace 0x0C = true ∧ plainRune 0x0C = true ∧
      isUnicodeIdentifierStart GoLib.trivial 0x0C = false ∧
      ∃ tok t1, Scan GoLib.trivial (NewTokenizer (0x0C :: runes " \n# d\nx")) = .ok (tok, t1) ∧
        tok.Type_ = TokenType.NEWLINE ∧ Quiet t1 ∧ unread t1 = afterStretch (runes "x") ∧
        t1.parenStack = (NewTokenizer (0x0C :: runes " \n# d\nx")).parenStack) :=
  ⟨⟨rfl, rfl, rfl⟩, by decide, rfl, rfl,
    (newline_coalescing GoLib.trivial).1
      (NewTokenizer (runes " \t// a\n\r\n/* b\n* c */ \n# d\n\nx"))
      [TriviaItem.space, TriviaItem.tab, TriviaItem.slashComment (runes " a"),
        TriviaItem.crlf, TriviaItem.blockComment (runes " b\n* c "), TriviaItem.space,
        TriviaItem.lineEnd, TriviaItem.hashComment (runes " d"), TriviaItem.lineEnd]
      (runes "x") ⟨rfl, rfl, rfl⟩ (by decide) rfl rfl (by decide),
    rfl, rfl, rfl,
    (newline_coalescing GoLib.trivial).2.2.2.2.2 (NewTokenizer (0x0C :: runes " \n# d\nx")) 0x0C
      [TriviaItem.space, TriviaItem.lineEnd, TriviaItem.hashComment (runes " d")] (runes "x")
      ⟨rfl, rfl, rfl⟩ rfl rfl rfl (by decide) rfl rfl (by decide)⟩

/-! ## Draining the error queue -/

/-- The method `pushError` appends its token at the end of the queue. -/
theorem pushError_errorStack (t : Tokenizer) (msg : GoString) :
    (pushError t msg).errorStack = t.errorStack ++ [(makeError t msg).1] := rfl

/-- The method `Scan` on a state with a queued error is `popError`. -/
theorem Scan_queued (L : GoLib) (t : Tokenizer) (older : List Token) (e : Token)
    (h : t.errorStack = older ++ [e]) :
    Scan L t = .ok (e, { t with errorStack := older }) := by
  have he : hasError t = true := by simp [hasError, h]
  unfold Scan
  rw [ScanLoop]
  simp only [he, if_true]
  exact popError_last t older e h

/-- C22: when the error queue of the state is not empty, `older` being its entries but
the last and `e` the last one, `Scan` returns `e` and the state in which `older` is the
queue and nothing else has changed: the cursor offset, the line, the column, the
buffered-newline flag, the delimiter stack, the source and the token start are those
of the call. The last entry is the most recently pushed one, `pushError` appending at
the end: when the state is the result of a `pushError`, `e` is the token that it
built and `older` is the queue from before. In a state reached from a fresh tokenizer,
`e` is of kind `ERROR`. -/
theorem error_queue_pop (L : GoLib) (t : Tokenizer) (older : List Token) (e : Token)
    (h : t.errorStack = older ++ [e]) :
    Scan L t = .ok (e, { t with errorStack := older }) ∧
    (∀ tok t1, Scan L t = .ok (tok, t1) →
      tok = e ∧ t1.errorStack = older ∧ t1._current = t._current ∧ t1.position = t.position ∧
      t1.line = t.line ∧ t1.column = t.column ∧ t1.pendingNewline = t.pendingNewline ∧
      t1.lastNewline = t.lastNewline ∧ t1.parenStack = t.parenStack ∧
      t1.source = t.source ∧ t1._start = t._start ∧ t1.lastToken = t.lastToken) ∧
    (∀ t0 msg, t = pushError t0 msg → e = (makeError t0 msg).1 ∧ older = t0.errorStack) ∧
    (Reachable L t → e.Type_ = TokenType.ERROR) := by
  have hs := Scan_queued L t older e h
  refine ⟨hs, ?_, ?_, ?_⟩
  · intro tok t1 h1
    rw [hs] at h1
    simp only [Except.ok.injEq, Prod.mk.injEq] at h1
    obtain ⟨rfl, rfl⟩ := h1
    exact ⟨rfl, rfl, rfl, rfl, rfl, rfl, rfl, rfl, rfl, rfl, rfl, rfl⟩
  · intro t0 msg ht
    rw [ht, pushError_errorStack] at h
    have := List.append_inj' h rfl
    exact ⟨(List.singleton_inj.mp this.2).symm, this.1.symm⟩
  · intro hr
    exact (reachable_inv L t hr).1 e (by rw [h]; simp)

theorem error_queue_pop_witness :
    ∃ tok0 t, Scan GoLib.trivial (NewTokenizer (runes "\n/*\r\r")) = .ok (tok0, t) ∧
      t.errorStack =
        [Token.mk TokenType.ERROR (Value.str strayReturnMessage) 2 2 4 4 (-1)
          CursorPlace.CURSOR_NONE (runes "\n/*\r")] ++
        [Token.mk TokenType.ERROR (Value.str strayReturnMessage) 2 2 5 5 (-1)
          CursorPlace.CURSOR_NONE (runes "\n/*\r\r")] ∧
      Scan GoLib.trivial t =
        .ok (Token.mk TokenType.ERROR (Value.str strayReturnMessage) 2 2 5 5 (-1)
            CursorPlace.CURSOR_NONE (runes "\n/*\r\r"),
          { t with errorStack :=
            [Token.mk TokenType.ERROR (Value.str strayReturnMessage) 2 2 4 4 (-1)
              CursorPlace.CURSOR_NONE (runes "\n/*\r")] }) :=
  ⟨_, _, trace_two_faults_first GoLib.trivial, rfl,
    (error_queue_pop GoLib.trivial _
      [Token.mk TokenType.ERROR (Value.str strayReturnMessage) 2 2 4 4 (-1)
        CursorPlace.CURSOR_NONE (runes "\n/*\r")]
      (Token.mk TokenType.ERROR (Value.str strayReturnMessage) 2 2 5 5 (-1)
        CursorPlace.CURSOR_NONE (runes "\n/*\r\r")) rfl).1⟩

/-! ## Token spans -/

theorem Moved.stay (t : Tokenizer) : Moved t t := ⟨rfl, rfl, rfl, rfl⟩

theorem Moved.chain {a b c : Tokenizer} (h1 : Moved a b) (h2 : Moved b c) : Moved a c :=
  ⟨h2.line.trans h1.line, by have := h1.column; have := h2.column; omega,
    h2.startLine.trans h1.startLine, h2.startColumn.trans h1.startColumn⟩

theorem advance_moved (t : Tokenizer) : Moved t (advance t).2 := by
  unfold advance
  split
  · exact Moved.stay t
  · exact ⟨rfl, by simp only [Nat.cast_add, Nat.cast_one]; omega, rfl, rfl⟩

theorem advance2_moved (t : Tokenizer) : Moved t (advance (advance t).2).2 :=
  (advance_moved t).chain (advance_moved _)

theorem pushParen_moved (t : Tokenizer) (c : Nat) : Moved t (pushParen t c) :=
  ⟨rfl, rfl, rfl, rfl⟩

theorem popParen_moved (t : Tokenizer) (c : Nat) : Moved t (popParen t c).2 := by
  unfold popParen
  split
  · exact Moved.stay t
  · exact ⟨rfl, rfl, rfl, rfl⟩

theorem makeToken_placed (t x : Tokenizer) (k : TokenType) (h : Moved t x) :
    Placed t (makeToken x k) :=
  ⟨h.chain ⟨rfl, rfl, rfl, rfl⟩, rfl, rfl, rfl, rfl⟩

theorem makeLiteral_placed (t x : Tokenizer) (v : Value) (h : Moved t x) :
    Placed t (makeLiteral x v) :=
  ⟨h.chain ⟨rfl, rfl, rfl, rfl⟩, rfl, rfl, rfl, rfl⟩

theorem makeIdentifier_placed (t x : Tokenizer) (n : GoString) (h : Moved t x) :
    Placed t (makeIdentifier x n) :=
  ⟨h.chain ⟨rfl, rfl, rfl, rfl⟩, rfl, rfl, rfl, rfl⟩

theorem makeKeyword_placed (t x : Tokenizer) (k : TokenType) (n : GoString) (h : Moved t x) :
    Placed t (makeKeyword x k n) :=
  ⟨h.chain ⟨rfl, rfl, rfl, rfl⟩, rfl, rfl, rfl, rfl⟩

theorem makeError_placed (t x : Tokenizer) (m : GoString) (h : Moved t x) :
    Placed t (makeError x m) :=
  ⟨h.chain ⟨rfl, rfl, rfl, rfl⟩, rfl, rfl, rfl, rfl⟩

theorem makeParenError_placed (t x : Tokenizer) (c : Nat) (h : Moved t x) :
    Placed t (makeParenError x c) := by
  unfold makeParenError
  split
  · exact makeError_placed t x _ h
  · exact ⟨h.chain ⟨rfl, rfl, rfl, rfl⟩, rfl, rfl, rfl, rfl⟩

theorem decimalDigitsLoop_moved (fuel : Nat) :
    ∀ t : Tokenizer, Moved t (decimalDigitsLoop fuel t) := by
  induction fuel with
  | zero => intro t; exact Moved.stay t
  | succ n ih =>
    intro t
    unfold decimalDigitsLoop
    simp only
    split
    · exact (advance_moved t).chain (ih _)
    · exact Moved.stay t

theorem decimalDigits_moved (t : Tokenizer) : Moved t (decimalDigits t) :=
  decimalDigitsLoop_moved _ t

theorem baseDigitsLoop_moved (base fuel : Nat) :
    ∀ (t : Tokenizer) (d : Nat), Moved t (baseDigitsLoop base fuel t d).2 := by
  induction fuel with
  | zero => intro t d; exact Moved.stay t
  | succ n ih =>
    intro t d
    unfold baseDigitsLoop
    simp only
    split
    · exact (advance_moved t).chain (ih _ _)
    · split
      · exact (advance_moved t).chain (ih _ _)
      · exact Moved.stay t

theorem identifierLoop_moved (L : GoLib) (fuel : Nat) :
    ∀ t : Tokenizer, Moved t (identifierLoop L fuel t) := by
  induction fuel with
  | zero => intro t; exact Moved.stay t
  | succ n ih =>
    intro t
    unfold identifierLoop
    split
    · exact (advance_moved t).chain (ih _)
    · exact Moved.stay t

theorem advanceTimes_moved (n : Nat) : ∀ t : Tokenizer, Moved t (advanceTimes n t) := by
  induction n with
  | zero => intro t; exact Moved.stay t
  | succ n ih => intro t; exact (advance_moved t).chain (ih _)

theorem stringTokenLoop_placed (quote fuel : Nat) :
    ∀ (t x : Tokenizer) (res : GoString), Moved t x →
      Placed t (stringTokenLoop quote fuel x res) := by
  induction fuel with
  | zero => intro t x res h; exact makeError_placed t x _ h
  | succ n ih =>
    intro t x res h
    unfold stringTokenLoop
    simp only
    split
    · exact makeError_placed t x _ h
    · split
      · exact makeLiteral_placed t _ _ (h.chain (advance_moved x))
      · split
        · exact ih t _ _ (h.chain (advance2_moved x))
        · exact ih t _ _ (h.chain (advance_moved x))

theorem stringToken_placed (t : Tokenizer) : Placed t (stringToken t) :=
  stringTokenLoop_placed _ _ t t [] (Moved.stay t)

theorem numberFinish_placed (L : GoLib) (start : Nat) (b : Bool) (t x : Tokenizer)
    (h : Moved t x) : Placed t (numberFinish L start b x) := by
  unfold numberFinish
  simp only
  split
  · split
    · exact makeError_placed t x _ h
    · exact makeLiteral_placed t x _ h
  · split
    · exact makeError_placed t x _ h
    · exact makeLiteral_placed t x _ h

theorem numberDecimal_placed (L : GoLib) (start : Nat) (sawDot : Bool) (t t1 : Tokenizer)
    (h : Moved t t1) : Placed t (numberDecimal L start sawDot t1) := by
  unfold numberDecimal
  simp only
  generalize ht2 : (if sawDot = true then decimalDigits t1 else t1) = t2
  have h2 : Moved t1 t2 := by
    rw [← ht2]; split
    · exact decimalDigits_moved t1
    · exact Moved.stay t1
  generalize hd : (!sawDot && decide (peek t2 0 = '.'.toNat) && isDigit (peek t2 1)) = dotNow
  generalize ht3 : (if dotNow = true then decimalDigits (advance t2).2 else t2) = t3
  have h3 : Moved t2 t3 := by
    rw [← ht3]; split
    · exact (advance_moved t2).chain (decimalDigits_moved _)
    · exact Moved.stay t2
  have h03 : Moved t t3 := (h.chain h2).chain h3
  split
  · generalize ht5 : (if peek (advance t3).2 0 = '+'.toNat ∨ peek (advance t3).2 0 = '-'.toNat
        then (advance (advance t3).2).2 else (advance t3).2) = t5
    have h5 : Moved t3 t5 := by
      rw [← ht5]; split
      · exact advance2_moved t3
      · exact advance_moved t3
    split
    · exact makeError_placed t _ _ (h03.chain h5)
    · exact numberFinish_placed L start true t _ ((h03.chain h5).chain (decimalDigits_moved t5))
  · exact numberFinish_placed L start (sawDot || dotNow) t t3 h03

theorem number_placed (L : GoLib) (t : Tokenizer) : Placed t (number L t) := by
  unfold number
  simp only
  split
  · have hb := baseDigitsLoop_moved (baseOfPrefix (peek t 0))
      ((advance t).2.length - (advance t).2._current + 1) (advance t).2 0
    have hf := (advance_moved t).chain hb
    split
    · exact makeError_placed t _ _ hf
    · split
      · exact makeError_placed t _ _ hf
      · exact makeLiteral_placed t _ _ hf
  · generalize ht1 : (if decide (t.source.getD (t._current - 1) 0 = '.'.toNat) = false
        then decimalDigits t else t) = t1
    have h1 : Moved t t1 := by
      rw [← ht1]; split
      · exact decimalDigits_moved t
      · exact Moved.stay t
    exact numberDecimal_placed L _ _ t t1 h1

theorem potentialIdentifier_placed (L : GoLib) (t : Tokenizer) :
    Placed t (potentialIdentifier L t) := by
  unfold potentialIdentifier
  simp only
  have h1 := identifierLoop_moved L (t.length - t._current + 1) t
  split
  · split
    · exact makeLiteral_placed t _ _ h1
    · split
      · exact makeLiteral_placed t _ _ h1
      · split
        · exact makeLiteral_placed t _ _ h1
        · split
          · exact makeIdentifier_placed t _ _ h1
          · split
            · exact makeIdentifier_placed t _ _ h1
            · exact makeKeyword_placed t _ _ _ h1
  · exact makeIdentifier_placed t _ _ h1

theorem checkVCSMarker_placed (t : Tokenizer) (test : Nat) (k : TokenType) :
    Placed t (checkVCSMarker t test k) := by
  unfold checkVCSMarker
  simp only
  split
  · exact makeToken_placed t _ _ (advanceTimes_moved _ t)
  · exact makeToken_placed t _ _ (advance_moved t)

theorem placed_ok (t : Tokenizer) (p : Token × Tokenizer) (h : Placed t p) :
    ResultPlaced t (.ok p) := by
  intro tok t1 e
  simp only [Except.ok.injEq] at e
  subst e
  exact h

theorem annotation_placed (L : GoLib) (t : Tokenizer) : ResultPlaced t ( annotation L t) := by
  unfold annotation
  split
  · exact placed_ok t _ ⟨((advance_moved t).chain (identifierLoop_moved L _ _)).chain
      ⟨rfl, rfl, rfl, rfl⟩, rfl, rfl, rfl, rfl⟩
  · intro tok t1 h; simp at h

theorem signedNumber_placed (L : GoLib) (t : Tokenizer) (op : TokenType) :
    ResultPlaced t (signedNumber L t op) := by
  unfold signedNumber
  split
  · intro tok t1 h; simp at h
  · split
    · exact placed_ok t _ (number_placed L t)
    · exact placed_ok t _ (makeToken_placed t t op (Moved.stay t))

theorem optionPlaced_ite (t : Tokenizer) {p : Prop} [Decidable p] {a b : Option ScanResult}
    (ha : OptionPlaced t a) (hb : OptionPlaced t b) : OptionPlaced t (if p then a else b) := by
  split
  · exact ha
  · exact hb

theorem optionPlaced_some (t : Tokenizer) {x : ScanResult} (hx : ResultPlaced t x) :
    OptionPlaced t (some x) := by
  intro r h
  simp only [Option.some.injEq] at h
  subst h
  exact hx

theorem optionPlaced_none (t : Tokenizer) : OptionPlaced t none := by
  intro r h
  simp at h

theorem placed_number (L : GoLib) (t : Tokenizer) : ResultPlaced t (.ok (number L t)) :=
  placed_ok t _ (number_placed L t)

theorem placed_stringToken (t : Tokenizer) : ResultPlaced t (.ok (stringToken t)) :=
  placed_ok t _ (stringToken_placed t)

theorem placed_checkVCSMarker (t : Tokenizer) (test : Nat) (k : TokenType) :
    ResultPlaced t (.ok (checkVCSMarker t test k)) :=
  placed_ok t _ (checkVCSMarker_placed t test k)

theorem placed_makeParenError (t x : Tokenizer) (c : Nat) (hx : Moved t x) :
    ResultPlaced t (.ok (makeParenError x c)) :=
  placed_ok t _ (makeParenError_placed t x c hx)

theorem placed_makeToken (t x : Tokenizer) (k : TokenType) (hx : Moved t x) :
    ResultPlaced t (.ok (makeToken x k)) :=
  placed_ok t _ (makeToken_placed t x k hx)

theorem scanSwitch_placed (L : GoLib) (c : Nat) (t : Tokenizer) :
    OptionPlaced t (scanSwitch L c t) := by
  unfold scanSwitch
  repeat' first
    | refine optionPlaced_ite t ?_ ?_
    | refine optionPlaced_some t ?_
    | exact optionPlaced_none t
  all_goals
    first
    | exact placed_stringToken t
    | exact annotation_placed L t
    | exact placed_number L t
    | exact signedNumber_placed L t _
    | exact placed_checkVCSMarker t _ _
    | exact placed_makeParenError t _ _ (popParen_moved t _)
    | exact placed_makeToken t _ _ (Moved.stay t)
    | exact placed_makeToken t _ _ (advance_moved t)
    | exact placed_makeToken t _ _ (advance2_moved t)
    | exact placed_makeToken t _ _ (pushParen_moved t _)
    | exact placed_makeToken t _ _ (popParen_moved t _)

theorem scanToken_placed (L : GoLib) (c : Nat) (t : Tokenizer) :
    OptionPlaced t (scanToken L c t) := by
  unfold scanToken
  refine optionPlaced_ite t (optionPlaced_some t (placed_ok t _ (number_placed L t))) ?_
  refine optionPlaced_ite t (optionPlaced_some t (placed_ok t _ (stringToken_placed t))) ?_
  exact optionPlaced_ite t
    (optionPlaced_some t (placed_ok t _ (potentialIdentifier_placed L t)))
    (scanSwitch_placed L c t)

/-- A call of `Scan` that scans afresh (nothing queued or buffered, no trivia at
the cursor, the character at the cursor not a whitespace character of the `default`
case): the token returned has the point of the final scan cursor as span, the state
is reached from the token start by consuming characters, and a token other than
`EOF` has consumed at least one. -/
theorem Scan_fresh_placed (L : GoLib) (t : Tokenizer) (tok : Token) (t1 : Tokenizer)
    (he : t.errorStack = []) (hp : t.pendingNewline = false) (hs : skipWhitespace t = t)
    (hw : isWhitespace (peek t 0) = false) (h : Scan L t = .ok (tok, t1)) :
    Placed (markStart t) (tok, t1) ∧
      (tok.Type_ ≠ TokenType.EOF → t._current < t1._current) := by
  have he1 : hasError t = false := by simp [hasError, he]
  unfold Scan at h
  rw [ScanLoop] at h
  simp only [he1, hs, hp, Bool.false_eq_true, if_false] at h
  by_cases hend : isAtEnd t = true
  · have ha : isAtEnd (markStart t) = true := hend
    simp only [ha, if_true, Except.ok.injEq] at h
    have e1 : tok = (makeToken (markStart t) TokenType.EOF).1 := (congrArg Prod.fst h).symm
    have e2 : t1 = (makeToken (markStart t) TokenType.EOF).2 := (congrArg Prod.snd h).symm
    subst e1 e2
    exact ⟨makeToken_placed _ _ _ (Moved.stay _), fun hne => absurd rfl hne⟩
  · have hend2 : isAtEnd t = false := by simpa using hend
    have ha : isAtEnd (markStart t) = false := hend2
    have hf : (advance (markStart t)).1 = peek t 0 := by rw [advance_fst _ ha]; rfl
    have hcur : (advance (markStart t)).2._current = t._current + 1 := advance_current _ ha
    simp only [ha, hf, hw, Bool.false_eq_true, if_false] at h
    cases hsc : scanToken L (peek t 0) (advance (markStart t)).2 with
    | none =>
      simp only [hsc, Except.ok.injEq] at h
      have e1 : tok = (makeError (advance (markStart t)).2
          (runes "Invalid character \"" ++ stringOfRune (peek t 0) ++ runes "\"")).1 :=
        (congrArg Prod.fst h).symm
      have e2 : t1 = (makeError (advance (markStart t)).2
          (runes "Invalid character \"" ++ stringOfRune (peek t 0) ++ runes "\"")).2 :=
        (congrArg Prod.snd h).symm
      subst e1 e2
      refine ⟨makeError_placed _ _ _ (advance_moved _), fun _ => ?_⟩
      show t._current < (advance (markStart t)).2._current
      omega
    | some r =>
      simp only [hsc] at h
      have hpl := scanToken_placed L _ _ r hsc tok t1 h
      have hok := (scanToken_ok L _ _ r hsc).2 tok t1 h
      refine ⟨⟨(advance_moved _).chain hpl.1, hpl.2⟩, fun _ => ?_⟩
      have := hok.2.current
      omega

/-- C23 (evaluation of the code): `makeToken` takes both ends of the span from the
scan cursor, the token-start line and column saved by `Scan` being read nowhere. For
a call of `Scan` that scans afresh (nothing queued or buffered, no trivia at the
cursor, no whitespace character of the `default` case there) and returns `tok`:
the token start saved in the state is the cursor of the beginning of the call; the
end line and end column of `tok` are those of the cursor after the last consumed
character, its start line is the saved start line (no recognizer changes the line),
and start is at most end on both axes; but its start column is its end column, which
for every token other than `EOF` lies behind the saved start column, by the number
of characters consumed. For the source `abc` the `IDENTIFIER` has start line 1 and
start column 4, not 1, and its end column 4 is not greater than its start column. -/
theorem token_span_is_cursor_point (L : GoLib) :
    (∀ (t : Tokenizer) (k : TokenType),
      (makeToken t k).1.StartLine = t.line ∧ (makeToken t k).1.EndLine = t.line ∧
      (makeToken t k).1.StartColumn = t.column ∧ (makeToken t k).1.EndColumn = t.column) ∧
    (∀ (t : Tokenizer) (tok : Token) (t1 : Tokenizer), t.errorStack = [] →
      t.pendingNewline = false → skipWhitespace t = t → isWhitespace (peek t 0) = false →
      Scan L t = .ok (tok, t1) →
      t1.startLine = t.line ∧ t1.startColumn = t.column ∧
      tok.StartLine = t1.startLine ∧ tok.EndLine = t1.line ∧ tok.EndColumn = t1.column ∧
      tok.StartLine ≤ tok.EndLine ∧ tok.StartColumn ≤ tok.EndColumn ∧
      tok.StartColumn = tok.EndColumn ∧
      tok.StartColumn = t1.startColumn + ((t1._current : Int) - (t._current : Int)) ∧
      (tok.Type_ ≠ TokenType.EOF → t1.startColumn < tok.StartColumn)) ∧
    (∃ tok t1, Scan L (NewTokenizer (runes "abc")) = .ok (tok, t1) ∧
      tok.Type_ = TokenType.IDENTIFIER ∧ tok.Source = runes "abc" ∧
      t1.startLine = 1 ∧ t1.startColumn = 1 ∧
      tok.StartLine = 1 ∧ tok.EndLine = 1 ∧ tok.StartColumn = 4 ∧ tok.EndColumn = 4 ∧
      tok.StartColumn ≠ 1 ∧ ¬ (tok.StartColumn < tok.EndColumn)) := by
  have abc : ∃ tok t1, Scan L (NewTokenizer (runes "abc")) = .ok (tok, t1) ∧
      tok.Type_ = TokenType.IDENTIFIER ∧ tok.Source = runes "abc" ∧
      t1.startLine = 1 ∧ t1.startColumn = 1 ∧
      tok.StartLine = 1 ∧ tok.EndLine = 1 ∧ tok.StartColumn = 4 ∧ tok.EndColumn = 4 :=
    ⟨_, _, rfl, rfl, rfl, rfl, rfl, rfl, rfl, rfl, rfl⟩
  obtain ⟨tok, t1, a0, a1, a2, a3, a4, a5, a6, a7, a8⟩ := abc
  refine ⟨fun t k => ⟨rfl, rfl, rfl, rfl⟩, ?_,
    ⟨tok, t1, a0, a1, a2, a3, a4, a5, a6, a7, a8, by rw [a7]; decide, by rw [a7, a8]; decide⟩⟩
  intro t tok t1 he hp hs hw h
  obtain ⟨⟨hm, h1, h2, h3, h4⟩, hlt⟩ := Scan_fresh_placed L t tok t1 he hp hs hw h
  have hline : t1.line = t.line := hm.line
  have hcol : t1.column + (t._current : Int) = t.column + (t1._current : Int) := hm.column
  have hsl : t1.startLine = t.line := hm.startLine
  have hsc : t1.startColumn = t.column := hm.startColumn
  simp only at h1 h2 h3 h4
  refine ⟨hsl, hsc, ?_, h2, h4, ?_, ?_, ?_, ?_, ?_⟩
  · rw [h1, hsl, hline]
  · rw [h1, h2]
  · rw [h3, h4]
  · rw [h3, h4]
  · rw [h3, hsc]; omega
  · intro hne
    have := hlt hne
    rw [h3, hsc]; omega

theorem token_span_is_cursor_point_witness :
    (NewTokenizer (runes "12+x")).errorStack = [] ∧
    (NewTokenizer (runes "12+x")).pendingNewline = false ∧
    skipWhitespace (NewTokenizer (runes "12+x")) = NewTokenizer (runes "12+x") ∧
    isWhitespace (peek (NewTokenizer (runes "12+x")) 0) = false ∧
    ∃ tok t1, Scan GoLib.trivial (NewTokenizer (runes "12+x")) = .ok (tok, t1) ∧
      tok.Type_ = TokenType.LITERAL ∧ tok.Literal = Value.int 12 ∧
      (t1.startLine = (NewTokenizer (runes "12+x")).line ∧
        t1.startColumn = (NewTokenizer (runes "12+x")).column ∧
        tok.StartLine = t1.startLine ∧ tok.EndLine = t1.line ∧ tok.EndColumn = t1.column ∧
        tok.StartLine ≤ tok.EndLine ∧ tok.StartColumn ≤ tok.EndColumn ∧
        tok.StartColumn = tok.EndColumn ∧
        tok.StartColumn = t1.startColumn +
          ((t1._current : Int) - ((NewTokenizer (runes "12+x"))._current : Int)) ∧
        (tok.Type_ ≠ TokenType.EOF → t1.startColumn < tok.StartColumn)) :=
  ⟨rfl, rfl, rfl, rfl, _, _, rfl, rfl, rfl,
    (token_span_is_cursor_point GoLib.trivial).2.1 (NewTokenizer (runes "12+x")) _ _ rfl rfl rfl
      rfl rfl⟩

end Ruzta
